import Mathlib

/-!
# Matching core of the decentralised exchange backend

A shallow embedding of `internal/domains/orderbook` (`orderbookstore.go`,
`marketorderbook.go`, `pricelevel.go`, `conditional.go`) and
`internal/domains/order/order.go`.

Modelling conventions

* `*big.Int` values are `Int`; a `*big.Int` that may be `nil` is `Option Int`.
* Go pointers to orders, price levels and books are addresses (`Nat`) into
  total heaps kept in `OrderBookStore` (`orderAt`, `levelAt`, `bookAt`), so two
  references to one object observe each other's writes, as in the source.
* `container/list` is a `List Element`; an `Element` carries its own identity.
* The red-black trees `Bids` and `Asks` are finite maps from price to level
  address, stored as association lists; `Tree.Left` returns the entry that is
  least for the tree's comparator.
* The settlement contract is a parameter (`ExchangeContract`); the goroutine
  that waits for the receipt is the separate transition `confirmMatch`
  (`confirmRing` for rings), applied with the receipt status it got.
* A Go run-time panic (division by zero in `big.Int.Div`, `ErrNaN` in
  `big.Float.Quo`) is the result `none` / `fault`.
* The order in which `range` yields the entries of the map `store.Books` is a
  parameter of the ring search (`rangeBooks`), which may answer differently at
  every loop; what is proved of the search holds for each such order. The map
  of conditional orders is treated alike (`rangeEntries`).
* The conditional store is a value of its own (`ConditionalOrderStore`); the
  functions that use both stores take and return both.
-/

namespace Dex

/-! ## `math/big` -/

/-- The constant `PricePrecision`. -/
def PricePrecision : Nat := 18

/-- The variable `PriceFactor`, `10^18`. -/
def PriceFactor : Int := 10 ^ PricePrecision

/-- Halving loop behind `bitLen`; the first argument bounds the number of rounds. -/
def bitLenAux : Nat → Nat → Nat
  | 0, _ => 0
  | f + 1, n => if n = 0 then 0 else bitLenAux f (n / 2) + 1

/-- The method `big.Int.BitLen` on an absolute value: the number of binary digits. -/
def bitLen (n : Nat) : Nat := bitLenAux n n

/-- A finite non-negative `big.Float` value, `num / 2 ^ scale`. -/
structure Dyadic where
  num : Nat
  scale : Nat
deriving DecidableEq, Repr

/-- Rounding of the exact positive quotient `n / d` to `prec` mantissa bits in
mode `ToNearestEven` (the zero value of `big.RoundingMode`), as `big.Float`
does after `Quo` and `Mul`: the quotient is developed to more than `prec + 1`
bits (`q`, with a sticky flag for a non-zero remainder), the bits below the
leading `prec` ones are dropped and the mantissa is incremented when they are
more than half a unit, or exactly half and the kept mantissa is odd. -/
def roundToPrec (prec n d : Nat) : Dyadic :=
  let a := prec + 2 + bitLen d
  let q := n * 2 ^ a / d
  let sticky := n * 2 ^ a % d != 0
  let drop := bitLen q - prec
  let m := q / 2 ^ drop
  let rest := q % 2 ^ drop
  let half := 2 ^ drop / 2
  let inc := decide (rest > half) || (rest == half && (sticky || m % 2 == 1))
  { num := (if inc then m + 1 else m) * 2 ^ drop, scale := a }

/-- The precision `SetInt` gives a fresh `big.Float`: `max(bits, 64)`. -/
def setIntPrec (x : Int) : Nat := max (bitLen x.natAbs) 64

/-- The price key of `AddOrder`:

    priceBigFloat := new(big.Float).Quo(new(big.Float).SetInt(num), new(big.Float).SetInt(den))
    priceBigFloat.Mul(priceBigFloat, new(big.Float).SetInt(PriceFactor))
    priceKey = new(big.Int); priceBigFloat.Int(priceKey)

`Quo` takes the larger precision of its operands and rounds the quotient to it,
`Mul` rounds the product to the same precision, `Int` truncates towards zero.
`0 / 0` panics with `ErrNaN` (`none`); `x / 0` is an infinity, which `Mul` keeps
and on which `Int` leaves `priceKey` at its initial `0`. -/
def floatPriceKey (num den : Int) : Option Int :=
  if den = 0 then
    if num = 0 then none else some 0
  else if num = 0 then some 0
  else
    let prec := max (setIntPrec num) (setIntPrec den)
    let quo := roundToPrec prec num.natAbs den.natAbs
    let prod := roundToPrec prec (quo.num * PriceFactor.natAbs) (2 ^ quo.scale)
    let mag : Int := ((prod.num / 2 ^ prod.scale : Nat) : Int)
    some (if (num < 0) = (den < 0) then mag else -mag)

/-! ## Orders, price levels, books -/

/-- The struct `order.Order`. `CreatedBy` is the address read as a number,
`Signature` the byte slice, `Status` the underlying `int` of `OrderStatus`,
`ConditionalOrder` the address of the child order (`none` for `nil`). -/
structure Order where
  CreatedBy : Nat
  SymbolIn : String
  SymbolOut : String
  AmtIn : Int
  AmtOut : Int
  Nonce : Int
  Signature : List Nat
  LimitPrice : Option Int
  TriggerPrice : Option Int
  FilledAmtIn : Option Int
  Status : Int
  ConditionalOrder : Option Nat
  TransactionHashes : List String
deriving DecidableEq, Repr, Inhabited

/-- The value `order.Order` that `DeepCopy` builds: the copied fields and the
recursively copied child. -/
inductive OrderCopy where
  | mk (fields : Order) (child : Option OrderCopy)

/-- The fields of a copied order. -/
def OrderCopy.fields : OrderCopy → Order
  | .mk o _ => o

/-- The copied child of a copied order. -/
def OrderCopy.child : OrderCopy → Option OrderCopy
  | .mk _ c => c

/-- The method `Order.DeepCopy`, following `ConditionalOrder` through the heap
`orderAt`. The first argument bounds the depth of the recursion; the caller
passes the number of order objects, which no chain of children exceeds. The
composite literal sets `CreatedBy`, `SymbolIn`, `SymbolOut` and `Status`, the
statements after it set `AmtIn`, `AmtOut`, `Nonce`, `LimitPrice`,
`FilledAmtIn`, `Signature`, `TransactionHashes` and `ConditionalOrder`; no
statement sets `TriggerPrice`, which stays `nil` in the copy. -/
def DeepCopy : Nat → (Nat → Order) → Order → OrderCopy
  | 0, _, o => .mk { o with TriggerPrice := none } none
  | depth + 1, orderAt, o =>
    .mk { o with TriggerPrice := none } (match o.ConditionalOrder with
      | none => none
      | some c => some (DeepCopy depth orderAt (orderAt c)))

/-- A `list.Element`: its identity and its `Value`, the address of an order. -/
structure Element where
  id : Nat
  Value : Nat
deriving DecidableEq, Repr

/-- The struct `PriceLevel`. -/
structure PriceLevel where
  Orders : List Element
  TotalQuantity : Int
deriving DecidableEq, Repr

/-- The method `list.List.Remove`: drops the element with that identity, and
nothing when the element is not in this list. -/
def listRemove (l : List Element) (e : Element) : List Element :=
  l.filter (fun x => x.id != e.id)

/-- The result of `big.Int.Cmp`, which is `BigIntAscendingComparator`. -/
def BigIntAscendingComparator (a b : Int) : Int :=
  if a < b then -1 else if a = b then 0 else 1

/-- The function `BigIntDescendingComparator`. -/
def BigIntDescendingComparator (a b : Int) : Int :=
  -BigIntAscendingComparator a b

/-- A red-black tree from price keys to price-level addresses. -/
abbrev Tree := List (Int × Nat)

/-- The method `Tree.Left`: the leftmost node, the entry whose key is least for
the comparator. -/
def Tree.Left (cmp : Int → Int → Int) : Tree → Option (Int × Nat)
  | [] => none
  | e :: es =>
    match Tree.Left cmp es with
    | none => some e
    | some m => if cmp e.1 m.1 ≤ 0 then some e else some m

/-- The method `Tree.Get`. -/
def Tree.Get (t : Tree) (k : Int) : Option Nat :=
  match t.find? (fun e => e.1 == k) with
  | none => none
  | some e => some e.2

/-- The method `Tree.Put`: the key is bound to the value, replacing an earlier
binding of the key. -/
def Tree.Put (t : Tree) (k : Int) (v : Nat) : Tree :=
  t.filter (fun e => e.1 != k) ++ [(k, v)]

/-- The method `Tree.Remove`. -/
def Tree.Remove (t : Tree) (k : Int) : Tree :=
  t.filter (fun e => e.1 != k)

/-- Sorted insertion for `Tree.Iterator`. -/
def Tree.insertSorted (cmp : Int → Int → Int) (e : Int × Nat) : Tree → Tree
  | [] => [e]
  | x :: xs => if cmp e.1 x.1 ≤ 0 then e :: x :: xs else x :: Tree.insertSorted cmp e xs

/-- The entries in the order `Tree.Iterator` visits them: ascending for the
comparator. -/
def Tree.Iterator (cmp : Int → Int → Int) (t : Tree) : Tree :=
  t.foldr (Tree.insertSorted cmp) []

/-- The struct `MarketOrderBook` (without the lock and the subscriber channel). -/
structure MarketOrderBook where
  SymbolIn : String
  SymbolOut : String
  Bids : Tree
  Asks : Tree
  LastPrice : Int
deriving DecidableEq, Repr

/-- The function `NewMarketOrderBook`. -/
def NewMarketOrderBook (symbolIn symbolOut : String) : MarketOrderBook :=
  { SymbolIn := symbolIn, SymbolOut := symbolOut, Bids := [], Asks := [], LastPrice := 0 }

/-- The struct `OrderBookStore`. `Books` is the map from pair id to book
address; `bookAt`, `orderAt`, `levelAt` are the heaps of books, orders and
price levels; `nextBook`, `nextOrder`, `nextLevel`, `nextElem` are the next
unused addresses and element identities; `PastHistoryStore` is keyed by creator and
nonce; `exchangeCalls` counts the calls made to the settlement contract. -/
structure OrderBookStore where
  Books : List (String × Nat)
  bookAt : Nat → MarketOrderBook
  orderAt : Nat → Order
  levelAt : Nat → PriceLevel
  nextBook : Nat
  nextOrder : Nat
  nextLevel : Nat
  nextElem : Nat
  PastHistoryStore : Nat → Int → List OrderCopy
  maxRingDepth : Nat
  ringMatchingEnabled : Bool
  exchangeCalls : Nat

/-- Write to one order object. -/
def OrderBookStore.setOrder (s : OrderBookStore) (p : Nat) (o : Order) : OrderBookStore :=
  { s with orderAt := Function.update s.orderAt p o }

/-- Write to one price-level object. -/
def OrderBookStore.setLevel (s : OrderBookStore) (p : Nat) (l : PriceLevel) : OrderBookStore :=
  { s with levelAt := Function.update s.levelAt p l }

/-- Write to one book object. -/
def OrderBookStore.setBook (s : OrderBookStore) (p : Nat) (b : MarketOrderBook) : OrderBookStore :=
  { s with bookAt := Function.update s.bookAt p b }

/-- Go's `<` on strings: lexicographic on the bytes, which for UTF-8 is the
order of the code points. -/
def strLess (a b : String) : Bool := decide (a.data < b.data)

/-- The function `GetPairKey`. -/
def GetPairKey (tokenA tokenB : String) : String × String :=
  if strLess tokenA tokenB then (tokenA, tokenB) else (tokenB, tokenA)

/-- Lookup in the map `store.Books`. -/
def OrderBookStore.lookupBook (s : OrderBookStore) (pairID : String) : Option Nat :=
  match s.Books.find? (fun e => e.1 == pairID) with
  | none => none
  | some e => some e.2

/-- The method `OrderBookStore.AddToPastHistory`. -/
def OrderBookStore.AddToPastHistory (s : OrderBookStore) (p : Nat) : OrderBookStore :=
  let o := s.orderAt p
  let orderCopy := DeepCopy s.nextOrder s.orderAt o
  { s with PastHistoryStore := fun a n =>
      if a = o.CreatedBy ∧ n = o.Nonce then s.PastHistoryStore a n ++ [orderCopy]
      else s.PastHistoryStore a n }

/-- The value of `FilledAmtIn`, a `nil` pointer read as the `0` the source
initialises it to before every use. -/
def Order.filled (o : Order) : Int := o.FilledAmtIn.getD 0

/-- The statement `if o.FilledAmtIn == nil { o.FilledAmtIn = big.NewInt(0) }`. -/
def OrderBookStore.initFilled (s : OrderBookStore) (p : Nat) : OrderBookStore :=
  match (s.orderAt p).FilledAmtIn with
  | none => s.setOrder p { s.orderAt p with FilledAmtIn := some 0 }
  | some _ => s

/-- The call `tree.Remove(priceKey)` on the bid tree (`isBid`) or the ask tree
of the book at address `book`. -/
def removePriceKey (s : OrderBookStore) (book : Nat) (isBid : Bool) (priceKey : Int) :
    OrderBookStore :=
  let b := s.bookAt book
  s.setBook book (if isBid then { b with Bids := b.Bids.Remove priceKey }
                  else { b with Asks := b.Asks.Remove priceKey })

/-- The errors `AddOrder` returns. -/
inductive AddOrderError where
  | bookNotInitialized (pairID : String)
  | tokensDoNotMatchBook (base quote : String)
deriving DecidableEq, Repr

/-- The method `OrderBookStore.AddOrder` on the order at address `p`. The
result is `none` for a panic, otherwise the store after the call and the
returned error (`none` for `nil`). -/
def AddOrder (s : OrderBookStore) (p : Nat) : Option (OrderBookStore × Option AddOrderError) :=
  let orderIn := s.orderAt p
  let (base, quote) := GetPairKey orderIn.SymbolIn orderIn.SymbolOut
  let pairID := base ++ "/" ++ quote
  match s.lookupBook pairID with
  | none => some (s, some (.bookNotInitialized pairID))
  | some bp =>
    let s := s.initFilled p
    let orderIn := s.orderAt p
    let side : Option (Bool × Option Int) :=
      if orderIn.SymbolIn = base ∧ orderIn.SymbolOut = quote then
        some (false, floatPriceKey orderIn.AmtOut orderIn.AmtIn)
      else if orderIn.SymbolIn = quote ∧ orderIn.SymbolOut = base then
        some (true, floatPriceKey orderIn.AmtIn orderIn.AmtOut)
      else none
    match side with
    | none => some (s, some (.tokensDoNotMatchBook base quote))
    | some (_, none) => none
    | some (isBid, some priceKey) =>
      let s := s.setOrder p { orderIn with LimitPrice := some priceKey }
      let orderIn := s.orderAt p
      let remainingIn := orderIn.AmtIn - orderIn.filled
      let book := s.bookAt bp
      let tree := if isBid then book.Bids else book.Asks
      let elem : Element := { id := s.nextElem, Value := p }
      match tree.Get priceKey with
      | none =>
        let pl : PriceLevel := { Orders := [elem], TotalQuantity := remainingIn }
        let tree := tree.Put priceKey s.nextLevel
        let book := if isBid then { book with Bids := tree } else { book with Asks := tree }
        some ({ (s.setLevel s.nextLevel pl).setBook bp book with
                  nextLevel := s.nextLevel + 1, nextElem := s.nextElem + 1 }, none)
      | some lp =>
        let pl := s.levelAt lp
        let pl := { pl with Orders := pl.Orders ++ [elem] }
        let pl := { pl with TotalQuantity := pl.TotalQuantity + remainingIn }
        some ({ s.setLevel lp pl with nextElem := s.nextElem + 1 }, none)

/-- The method `OrderBookStore.RemoveOrder`. The `limitPrice` argument is
`none` for a `nil` pointer. -/
def RemoveOrder (s : OrderBookStore) (createdBy : Nat) (nonce : Int) (limitPrice : Option Int)
    (tokenA tokenB : String) : OrderBookStore :=
  let (base, quote) := GetPairKey tokenA tokenB
  let pairID := base ++ "/" ++ quote
  match s.lookupBook pairID with
  | none => s
  | some bp =>
    match limitPrice with
    | none => s
    | some limitPrice =>
      let book := s.bookAt bp
      let isIt := fun (e : Element) =>
        decide ((s.orderAt e.Value).CreatedBy = createdBy ∧ (s.orderAt e.Value).Nonce = nonce)
      let inBids : Option (Element × Nat) :=
        match book.Bids.Get limitPrice with
        | none => none
        | some lp =>
          match (s.levelAt lp).Orders.find? isIt with
          | none => none
          | some e => some (e, lp)
      let inAsks : Option (Element × Nat) :=
        match book.Asks.Get limitPrice with
        | none => none
        | some lp =>
          match (s.levelAt lp).Orders.find? isIt with
          | none => none
          | some e => some (e, lp)
      let found : Option (Element × Nat × Bool) :=
        match inBids with
        | some (e, lp) => some (e, lp, true)
        | none =>
          match inAsks with
          | some (e, lp) => some (e, lp, false)
          | none => none
      match found with
      | none => s
      | some (foundElem, foundLevel, isBid) =>
        let fo := foundElem.Value
        let s := s.setOrder fo { s.orderAt fo with Status := 4 }
        let s := s.AddToPastHistory fo
        let s := s.initFilled fo
        let quantityToRemove := (s.orderAt fo).AmtIn - (s.orderAt fo).filled
        let s := s.setLevel foundLevel
          { s.levelAt foundLevel with Orders := listRemove (s.levelAt foundLevel).Orders foundElem }
        let s := s.setLevel foundLevel
          { s.levelAt foundLevel with
            TotalQuantity := (s.levelAt foundLevel).TotalQuantity - quantityToRemove }
        if (s.levelAt foundLevel).Orders.length = 0 then removePriceKey s bp isBid limitPrice
        else s

/-! ## The direct matcher -/

/-- The settlement contract as the matcher sees it. `ExecuteMatch n maker taker
fill` is the outcome of the call `exchange.ExecuteMatch(maker, taker, fill)`
made after `n` earlier calls: the hash of the submitted transaction, or
`none` for an error. `ExecuteRingTrade` likewise. -/
structure ExchangeContract where
  ExecuteMatch : Nat → Order → Order → Int → Option String
  ExecuteRingTrade : Nat → List Order → List Int → Option String

/-- The variables the confirmation goroutine of `matchBook` captures. -/
structure PendingMatch where
  finalBidOrder : Nat
  finalAskOrder : Nat
  finalBidElem : Element
  finalAskElem : Element
  finalBidLevel : Nat
  finalAskLevel : Nat
  finalBidPriceKey : Int
  finalAskPriceKey : Int
  finalTradeBaseQty : Int
  finalTradeQuoteQty : Int
  finalExecutionPrice : Int
  txHash : String
deriving DecidableEq, Repr

/-- What the fill arithmetic of `matchBook` ends in. -/
inductive Quantities where
  | fault
  | skip
  | trade (tradeBaseQty tradeQuoteQty : Int)
deriving DecidableEq, Repr

/-- The first value of `tradeBaseQty` in `matchBook`: the smaller of the base
the ask still sells and the base the bid still wants, `bidRemainingOut`. -/
def provisionalBaseQty (bidAmtIn bidAmtOut bidRemainingIn askRemainingIn : Int) : Int :=
  let bidRemainingOut := bidAmtOut * bidRemainingIn / bidAmtIn
  if askRemainingIn < bidRemainingOut then askRemainingIn else bidRemainingOut

/-- The block `if tradeQuoteQty.Cmp(bidRemainingIn) > 0 { ... }` ("ensure the
bid has enough quote remaining") on the pair `(tradeBaseQty, tradeQuoteQty)`;
`none` is the division by a zero `executionPrice`. -/
def enoughQuote (bidRemainingIn askRemainingIn executionPrice tradeBaseQty tradeQuoteQty : Int) :
    Option (Int × Int) :=
  if tradeQuoteQty > bidRemainingIn then
    if executionPrice = 0 then none
    else
      let tradeQuoteQty := bidRemainingIn
      let tradeBaseQty := tradeQuoteQty * PriceFactor / executionPrice
      if tradeBaseQty > askRemainingIn then
        some (askRemainingIn, askRemainingIn * executionPrice / PriceFactor)
      else some (tradeBaseQty, tradeQuoteQty)
  else some (tradeBaseQty, tradeQuoteQty)

/-- The constant `dustThreshold` of `matchBook`. -/
def dustThreshold : Int := 100

/-- The block "bid has dust remaining, consume it all" on the pair
`(tradeBaseQty, tradeQuoteQty)`; `none` is the division by a zero
`executionPrice`. -/
def bidDust (bidRemainingIn askRemainingIn executionPrice bidAfterTrade tradeBaseQty
    tradeQuoteQty : Int) : Option (Int × Int) :=
  if bidAfterTrade ≤ dustThreshold ∧ bidAfterTrade > 0 then
    if executionPrice = 0 then none
    else
      let tradeQuoteQty := bidRemainingIn
      let tradeBaseQty := tradeQuoteQty * PriceFactor / executionPrice
      some (if tradeBaseQty > askRemainingIn then askRemainingIn else tradeBaseQty, tradeQuoteQty)
  else some (tradeBaseQty, tradeQuoteQty)

/-- The block "ask has dust remaining, consume it all" on the pair
`(tradeBaseQty, tradeQuoteQty)`. -/
def askDust (bidRemainingIn askRemainingIn executionPrice askAfterTrade tradeBaseQty
    tradeQuoteQty : Int) : Int × Int :=
  if askAfterTrade ≤ dustThreshold ∧ askAfterTrade > 0 then
    let tradeBaseQty := askRemainingIn
    let tradeQuoteQty := tradeBaseQty * executionPrice / PriceFactor
    (tradeBaseQty, if tradeQuoteQty > bidRemainingIn then bidRemainingIn else tradeQuoteQty)
  else (tradeBaseQty, tradeQuoteQty)

/-- The fill arithmetic of `matchBook`, from `bidRemainingOut` to the final
check of the quantities. `fault` is a division by zero, `skip` one of the two
`break`s on a non-positive quantity. Both `bidAfterTrade` and `askAfterTrade`
are computed once, before the two dust blocks. -/
def tradeQuantities (bidAmtIn bidAmtOut askAmtIn askAmtOut bidRemainingIn askRemainingIn
    executionPrice : Int) : Quantities :=
  if bidAmtIn = 0 then .fault else
  if askAmtIn = 0 then .fault else
  let _askRemainingOut := askAmtOut * askRemainingIn / askAmtIn
  let tradeBaseQty := provisionalBaseQty bidAmtIn bidAmtOut bidRemainingIn askRemainingIn
  if tradeBaseQty ≤ 0 then .skip else
  let tradeQuoteQty := tradeBaseQty * executionPrice / PriceFactor
  match enoughQuote bidRemainingIn askRemainingIn executionPrice tradeBaseQty tradeQuoteQty with
  | none => .fault
  | some (tradeBaseQty, tradeQuoteQty) =>
    let bidAfterTrade := bidRemainingIn - tradeQuoteQty
    let askAfterTrade := askRemainingIn - tradeBaseQty
    match bidDust bidRemainingIn askRemainingIn executionPrice bidAfterTrade tradeBaseQty
        tradeQuoteQty with
    | none => .fault
    | some (tradeBaseQty, tradeQuoteQty) =>
      match askDust bidRemainingIn askRemainingIn executionPrice askAfterTrade tradeBaseQty
          tradeQuoteQty with
      | (tradeBaseQty, tradeQuoteQty) =>
        if tradeBaseQty ≤ 0 ∨ tradeQuoteQty ≤ 0 then .skip
        else .trade tradeBaseQty tradeQuoteQty

/-- How one pass through the body of the `for` loop of `matchBook` ends. -/
inductive MatchStep where
  | done (s : OrderBookStore)
  | again (s : OrderBookStore)
  | submitted (t : PendingMatch) (s : OrderBookStore)
  | fault

/-- Whether some order of the level has `Status == 1`. -/
def hasPending (s : OrderBookStore) (level : PriceLevel) : Bool :=
  level.Orders.any (fun e => (s.orderAt e.Value).Status == 1)

/-- The first element of the level whose order has `Status == 0`. -/
def firstReady (s : OrderBookStore) (level : PriceLevel) : Option Element :=
  level.Orders.find? (fun e => (s.orderAt e.Value).Status == 0)

/-- The removal of an order found fully filled before matching: the element
leaves its level, the order gets `Status = 2`, an emptied level leaves its tree. -/
def purgeFilled (s : OrderBookStore) (book : Nat) (isBid : Bool) (priceKey : Int) (levelP : Nat)
    (elem : Element) : OrderBookStore :=
  let s := s.setLevel levelP { s.levelAt levelP with Orders := listRemove (s.levelAt levelP).Orders elem }
  let s := s.setOrder elem.Value { s.orderAt elem.Value with Status := 2 }
  if (s.levelAt levelP).Orders.length = 0 then removePriceKey s book isBid priceKey
  else s

/-- The price levels and elements `matchBook` has chosen when it reaches the
initialisation of `FilledAmtIn`. -/
structure Selection where
  bidPriceKey : Int
  bidLevel : Nat
  askPriceKey : Int
  askLevel : Nat
  bidElem : Element
  askElem : Element
deriving DecidableEq, Repr

/-- The head of the loop body of `matchBook`, up to and including the
self-match check: the best bid and ask nodes, the crossing test, the two
pending scans and the choice of the oldest ready order of each level. `none`
stands for every `break` and `return` of this part. -/
def selectOrders (book : Nat) (s : OrderBookStore) : Option Selection :=
  match Tree.Left BigIntDescendingComparator (s.bookAt book).Bids,
        Tree.Left BigIntAscendingComparator (s.bookAt book).Asks with
  | some (bidPriceKey, bidLevel), some (askPriceKey, askLevel) =>
    if BigIntAscendingComparator bidPriceKey askPriceKey < 0 then none
    else if hasPending s (s.levelAt bidLevel) then none
    else if hasPending s (s.levelAt askLevel) then none
    else
      match firstReady s (s.levelAt bidLevel), firstReady s (s.levelAt askLevel) with
      | some bidElem, some askElem =>
        if (s.orderAt bidElem.Value).CreatedBy = (s.orderAt askElem.Value).CreatedBy then none
        else
          some { bidPriceKey := bidPriceKey, bidLevel := bidLevel, askPriceKey := askPriceKey,
                 askLevel := askLevel, bidElem := bidElem, askElem := askElem }
      | _, _ => none
  | _, _ => none

/-- The two statements that initialise a `nil` `FilledAmtIn`, of the bid and
then of the ask. -/
def initFilledPair (s : OrderBookStore) (bidOrder askOrder : Nat) : OrderBookStore :=
  (s.initFilled bidOrder).initFilled askOrder

/-- The difference `AmtIn - FilledAmtIn` of an order. -/
def Order.remaining (o : Order) : Int := o.AmtIn - o.filled

/-- The statements `bidOrder.Status = st; askOrder.Status = st`. -/
def setStatusPair (s : OrderBookStore) (bidOrder askOrder : Nat) (st : Int) : OrderBookStore :=
  let s := s.setOrder bidOrder { s.orderAt bidOrder with Status := st }
  s.setOrder askOrder { s.orderAt askOrder with Status := st }

/-- One pass through the body of the `for` loop of `matchBook` on the book at
address `book`: `done` for `break` and for the `return`s that submit nothing,
`again` for `continue`, `submitted` for the `return` after the confirmation
goroutine has been started, `fault` for a panic. -/
def matchStep (exchange : ExchangeContract) (book : Nat) (s : OrderBookStore) : MatchStep :=
  match selectOrders book s with
  | none => .done s
  | some sel =>
    let bidOrder := sel.bidElem.Value
    let askOrder := sel.askElem.Value
    let s := initFilledPair s bidOrder askOrder
    let bidRemainingIn := (s.orderAt bidOrder).remaining
    let askRemainingIn := (s.orderAt askOrder).remaining
    if bidRemainingIn ≤ 0 then
      .again (purgeFilled s book true sel.bidPriceKey sel.bidLevel sel.bidElem)
    else if askRemainingIn ≤ 0 then
      .again (purgeFilled s book false sel.askPriceKey sel.askLevel sel.askElem)
    else
      let executionPrice := sel.askPriceKey
      match tradeQuantities (s.orderAt bidOrder).AmtIn (s.orderAt bidOrder).AmtOut
          (s.orderAt askOrder).AmtIn (s.orderAt askOrder).AmtOut
          bidRemainingIn askRemainingIn executionPrice with
      | .fault => .fault
      | .skip => .done s
      | .trade tradeBaseQty tradeQuoteQty =>
        let s := setStatusPair s bidOrder askOrder 1
        let call := exchange.ExecuteMatch s.exchangeCalls (s.orderAt askOrder)
          (s.orderAt bidOrder) tradeBaseQty
        let s := { s with exchangeCalls := s.exchangeCalls + 1 }
        match call with
        | none => .again (setStatusPair s bidOrder askOrder 0)
        | some txHash =>
          .submitted
            { finalBidOrder := bidOrder, finalAskOrder := askOrder,
              finalBidElem := sel.bidElem, finalAskElem := sel.askElem,
              finalBidLevel := sel.bidLevel, finalAskLevel := sel.askLevel,
              finalBidPriceKey := sel.bidPriceKey, finalAskPriceKey := sel.askPriceKey,
              finalTradeBaseQty := tradeBaseQty, finalTradeQuoteQty := tradeQuoteQty,
              finalExecutionPrice := executionPrice, txHash := txHash } s

/-- How a call of `matchBook` ends: with a panic, or by returning, having
started the confirmation goroutine of one trade or none. -/
inductive MatchOutcome where
  | fault
  | returned (s : OrderBookStore) (submitted : Option PendingMatch)

/-- The function `matchBook` on the book at address `book`. The loop runs at
most `fuel` passes; `none` means that it is still running after them. -/
def matchBook (exchange : ExchangeContract) (book : Nat) : Nat → OrderBookStore → Option MatchOutcome
  | 0, _ => none
  | fuel + 1, s =>
    match matchStep exchange book s with
    | .done s => some (.returned s none)
    | .again s => matchBook exchange book fuel s
    | .submitted t s => some (.returned s (some t))
    | .fault => some .fault

/-- A goroutine started by a confirmation. -/
inductive Spawned where
  | StoreConditionalOrder (conditionalOrder : Nat) (parentCreatedBy : Nat) (parentNonce : Int)
  | CheckPriceTriggersForBook (symbolIn symbolOut : String) (lastPrice : Int)
deriving DecidableEq, Repr

/-- The branch of a confirmation that handles one participant after its fill
has been added: a full fill is recorded with `Status = 3`, leaves its level
and ends with `Status = 2`, handing a child to `StoreConditionalOrder`; a
partial fill is recorded with `Status = 5` and ends with `Status = 0`. -/
def settleOrder (s : OrderBookStore) (order : Nat) (level : Nat) (elem : Element)
    (newRemaining : Int) : OrderBookStore × List Spawned :=
  if newRemaining = 0 then
    let s := s.setOrder order { s.orderAt order with Status := 3 }
    let s := s.AddToPastHistory order
    let s := s.setLevel level { s.levelAt level with Orders := listRemove (s.levelAt level).Orders elem }
    let s := s.setOrder order { s.orderAt order with Status := 2 }
    match (s.orderAt order).ConditionalOrder with
    | some c => (s, [.StoreConditionalOrder c (s.orderAt order).CreatedBy (s.orderAt order).Nonce])
    | none => (s, [])
  else
    let s := s.setOrder order { s.orderAt order with Status := 5 }
    let s := s.AddToPastHistory order
    (s.setOrder order { s.orderAt order with Status := 0 }, [])

/-- The statements of the confirmation goroutine of `matchBook` that record a
confirmed trade on its two orders and their price levels: the transaction
hash, the cumulative `FilledAmtIn` (quote for the bid, base for the ask) and
the levels' `TotalQuantity`. -/
def creditMatch (t : PendingMatch) (s : OrderBookStore) : OrderBookStore :=
  let bid := t.finalBidOrder
  let ask := t.finalAskOrder
  let s := s.setOrder bid
    { s.orderAt bid with TransactionHashes := (s.orderAt bid).TransactionHashes ++ [t.txHash] }
  let s := s.setOrder ask
    { s.orderAt ask with TransactionHashes := (s.orderAt ask).TransactionHashes ++ [t.txHash] }
  let s := s.setOrder bid
    { s.orderAt bid with FilledAmtIn := some ((s.orderAt bid).filled + t.finalTradeQuoteQty) }
  let s := s.setOrder ask
    { s.orderAt ask with FilledAmtIn := some ((s.orderAt ask).filled + t.finalTradeBaseQty) }
  let s := s.setLevel t.finalBidLevel
    { s.levelAt t.finalBidLevel with
      TotalQuantity := (s.levelAt t.finalBidLevel).TotalQuantity - t.finalTradeQuoteQty }
  s.setLevel t.finalAskLevel
    { s.levelAt t.finalAskLevel with
      TotalQuantity := (s.levelAt t.finalAskLevel).TotalQuantity - t.finalTradeBaseQty }

/-- The two statements at the end of a confirmed match that remove the bid
level and the ask level from the book, by their price keys, when the captured
level object has no orders left. -/
def dropEmptyLevels (book : Nat) (t : PendingMatch) (s : OrderBookStore) : OrderBookStore :=
  let s :=
    if (s.levelAt t.finalBidLevel).Orders.length = 0 then
      removePriceKey s book true t.finalBidPriceKey
    else s
  if (s.levelAt t.finalAskLevel).Orders.length = 0 then
    removePriceKey s book false t.finalAskPriceKey
  else s

/-- The confirmation goroutine of `matchBook` for the book at address `book`,
run with the receipt status `result` (`1` is success). -/
def confirmMatch (result : Int) (book : Nat) (t : PendingMatch) (s : OrderBookStore) :
    OrderBookStore × List Spawned :=
  if result = 1 then
    let s := s.setBook book { s.bookAt book with LastPrice := t.finalExecutionPrice }
    let s := creditMatch t s
    let bid := t.finalBidOrder
    let ask := t.finalAskOrder
    let bidNewRemaining := (s.orderAt bid).remaining
    let askNewRemaining := (s.orderAt ask).remaining
    let bidDone := settleOrder s bid t.finalBidLevel t.finalBidElem bidNewRemaining
    let askDone := settleOrder bidDone.1 ask t.finalAskLevel t.finalAskElem askNewRemaining
    let s := dropEmptyLevels book t askDone.1
    (s, bidDone.2 ++ askDone.2 ++
      [.CheckPriceTriggersForBook (s.bookAt book).SymbolIn (s.bookAt book).SymbolOut
        (s.bookAt book).LastPrice])
  else
    (setStatusPair s t.finalBidOrder t.finalAskOrder 0, [])

/-! ## Ring trades -/

/-- The struct `RingPath`: five slices indexed by the position in the ring. -/
structure RingPath where
  Orders : List Nat
  Books : List Nat
  PriceLevels : List Nat
  Elements : List Element
  TradeAmounts : List Int
deriving DecidableEq, Repr

/-- The inner loop of `calculateRingBottleneck` from pass `i`, with `k` passes
to go: `none` is a panic, `some none` the exit with `valid = false`, and
`some (some a)` the end of the loop with `currentAmount = a`. -/
def simulateFlow (s : OrderBookStore) (ring : RingPath) (startIdx : Nat) :
    Nat → Nat → Int → Option (Option Int)
  | 0, _, currentAmount => some (some currentAmount)
  | k + 1, i, currentAmount =>
    let orderIdx := (startIdx + i) % ring.Orders.length
    match ring.Orders[orderIdx]?, ring.TradeAmounts[orderIdx]? with
    | some order, some capacity =>
      if currentAmount > capacity then some none
      else if (s.orderAt order).AmtIn = 0 then none
      else
        simulateFlow s ring startIdx k (i + 1)
          (currentAmount * (s.orderAt order).AmtOut / (s.orderAt order).AmtIn)
    | _, _ => none

/-- The outer loop of `calculateRingBottleneck` from `startIdx`, with `k`
passes to go and the current `maxValidAmount`. -/
def bottleneckLoop (s : OrderBookStore) (ring : RingPath) :
    Nat → Nat → Option Int → Option (Option Int)
  | 0, _, maxValidAmount => some maxValidAmount
  | k + 1, startIdx, maxValidAmount =>
    match ring.TradeAmounts[startIdx]? with
    | none => none
    | some testAmount =>
      match simulateFlow s ring startIdx ring.Orders.length 0 testAmount with
      | none => none
      | some none => bottleneckLoop s ring k (startIdx + 1) maxValidAmount
      | some (some currentAmount) =>
        if currentAmount ≥ testAmount then
          match maxValidAmount with
          | none => bottleneckLoop s ring k (startIdx + 1) (some testAmount)
          | some m =>
            if testAmount > m then bottleneckLoop s ring k (startIdx + 1) (some testAmount)
            else bottleneckLoop s ring k (startIdx + 1) (some m)
        else bottleneckLoop s ring k (startIdx + 1) maxValidAmount

/-- The method `OrderBookStore.calculateRingBottleneck`; `none` is a panic. -/
def calculateRingBottleneck (s : OrderBookStore) (ring : RingPath) : Option Int :=
  if ring.Orders.length = 0 then some 0
  else
    match bottleneckLoop s ring ring.Orders.length 0 none with
    | none => none
    | some none => some 0
    | some (some maxValidAmount) => some maxValidAmount

/-- The method `OrderBookStore.validateRing`; `none` is a panic. The Go maps
used as sets of tokens are lists without duplicates. -/
def validateRing (s : OrderBookStore) (ring : RingPath) : Option Bool :=
  if ring.Orders.length < 2 then some false
  else
    match ring.Orders.head?, ring.Orders.getLast? with
    | some first, some last =>
      let firstOrder := s.orderAt first
      let lastOrder := s.orderAt last
      if lastOrder.SymbolOut ≠ firstOrder.SymbolIn then some false
      else
        let sameBook : Bool :=
          match ring.Orders with
          | [o1, o2] =>
            let tokens1 := [(s.orderAt o1).SymbolIn, (s.orderAt o1).SymbolOut].dedup
            let tokens2 := [(s.orderAt o2).SymbolIn, (s.orderAt o2).SymbolOut].dedup
            decide (tokens1.length = 2 ∧ tokens2.length = 2) && tokens1.all (fun tk => tokens2.contains tk)
          | _ => false
        if sameBook then some false
        else
          let uniqueTokens :=
            (ring.Orders.foldr (fun o acc => (s.orderAt o).SymbolIn :: (s.orderAt o).SymbolOut :: acc)
              []).dedup
          if uniqueTokens.length < 3 then some false
          else
            match calculateRingBottleneck s ring with
            | none => none
            | some bottleneck => some (decide (0 < bottleneck))
    | _, _ => some false

/-- The index `bottleneckIdx` of `executeRing`: the first position whose trade
amount equals the bottleneck. -/
def findBottleneckIdx (ring : RingPath) (bottleneck : Int) : Option Nat :=
  let i := ring.TradeAmounts.findIdx (fun tradeAmount => tradeAmount == bottleneck)
  if i < ring.TradeAmounts.length then some i else none

/-- The loop of `executeRing` that fills `fillAmounts`, from pass `i` with `k`
passes to go; `none` is a panic. -/
def fillLoop (s : OrderBookStore) (ring : RingPath) (bottleneckIdx : Nat) :
    Nat → Nat → Int → List Int → Option (List Int)
  | 0, _, _, fillAmounts => some fillAmounts
  | k + 1, i, currentAmount, fillAmounts =>
    let orderIdx := (bottleneckIdx + i) % ring.Orders.length
    match ring.Orders[orderIdx]? with
    | none => none
    | some order =>
      if (s.orderAt order).AmtIn = 0 then none
      else
        fillLoop s ring bottleneckIdx k (i + 1)
          (currentAmount * (s.orderAt order).AmtOut / (s.orderAt order).AmtIn)
          (fillAmounts.set orderIdx currentAmount)

/-- The fill amounts `executeRing` computes from the bottleneck and its index;
`fillAmounts` starts as a slice of `len(ring.Orders)` entries, each of which
the loop overwrites. -/
def ringFillAmounts (s : OrderBookStore) (ring : RingPath) (bottleneck : Int)
    (bottleneckIdx : Nat) : Option (List Int) :=
  fillLoop s ring bottleneckIdx ring.Orders.length 0 bottleneck
    (List.replicate ring.Orders.length 0)

/-- The variables the confirmation goroutine of `executeRing` captures. -/
structure PendingRing where
  finalOrders : List Nat
  finalBooks : List Nat
  finalPriceLevels : List Nat
  finalElements : List Element
  finalFillAmounts : List Int
  txHash : String
deriving DecidableEq, Repr

/-- The errors `executeRing` returns. -/
inductive ExecuteRingError where
  | noTradeableAmount
  | bottleneckOrderNotFound
  | exchangeNotInitialized
  | onChainRingTradeFailed
deriving DecidableEq, Repr

/-- How a call of `executeRing` ends when it does not panic: with an error,
with the confirmation goroutine started, or never (`blocked`), when the loop
that locks `ring.Books` asks for a lock the call already holds. -/
inductive RingOutcome where
  | error (e : ExecuteRingError) (s : OrderBookStore)
  | submitted (r : PendingRing) (s : OrderBookStore)
  | blocked

/-- Every order of the list gets the given `Status`, in list order. -/
def setStatusAll (s : OrderBookStore) (status : Int) : List Nat → OrderBookStore
  | [] => s
  | o :: os => setStatusAll (s.setOrder o { s.orderAt o with Status := status }) status os

/-- The method `OrderBookStore.executeRing`; `exchange` is `store.Exchange`
(`none` for `nil`). The result is `none` for a panic. The method is modelled on
paths whose five slices have one length, as `dfsRing` builds them (it extends
the five together); on any other path the result is `none` as well, where the
source has no such test: it fails only where it indexes a slice that is too
short, and returns "no tradeable amount" before that when the bottleneck is
not positive. -/
def executeRing (exchange : Option ExchangeContract) (ring : RingPath) (s : OrderBookStore) :
    Option RingOutcome :=
  let n := ring.Orders.length
  if ring.Books.length ≠ n ∨ ring.PriceLevels.length ≠ n ∨ ring.Elements.length ≠ n ∨
      ring.TradeAmounts.length ≠ n then none
  else
    match calculateRingBottleneck s ring with
    | none => none
    | some bottleneck =>
      if bottleneck ≤ 0 then some (.error .noTradeableAmount s)
      else if ¬ ring.Books.Nodup then some .blocked
      else
        match findBottleneckIdx ring bottleneck with
        | none => some (.error .bottleneckOrderNotFound s)
        | some bottleneckIdx =>
          match ringFillAmounts s ring bottleneck bottleneckIdx with
          | none => none
          | some fillAmounts =>
            let s := setStatusAll s 1 ring.Orders
            match exchange with
            | none => some (.error .exchangeNotInitialized (setStatusAll s 0 ring.Orders))
            | some exchange =>
              let call := exchange.ExecuteRingTrade s.exchangeCalls
                (ring.Orders.map s.orderAt) fillAmounts
              let s := { s with exchangeCalls := s.exchangeCalls + 1 }
              match call with
              | none => some (.error .onChainRingTradeFailed (setStatusAll s 0 ring.Orders))
              | some txHash =>
                some (.submitted
                  { finalOrders := ring.Orders, finalBooks := ring.Books,
                    finalPriceLevels := ring.PriceLevels, finalElements := ring.Elements,
                    finalFillAmounts := fillAmounts, txHash := txHash } s)

/-- The first loop of the confirmation goroutine of `executeRing`, over the
orders with their fill amounts, price levels and elements. -/
def confirmRingOrders (txHash : String) (s : OrderBookStore) :
    List Nat → List Int → List Nat → List Element → OrderBookStore × List Spawned
  | order :: orders, fill :: fills, level :: levels, elem :: elems =>
    let s := s.setOrder order
      { s.orderAt order with
        TransactionHashes := (s.orderAt order).TransactionHashes ++ [txHash] }
    let s := s.setOrder order
      { s.orderAt order with FilledAmtIn := some ((s.orderAt order).filled + fill) }
    let remaining := (s.orderAt order).AmtIn - (s.orderAt order).filled
    let s := s.setLevel level
      { s.levelAt level with TotalQuantity := (s.levelAt level).TotalQuantity - fill }
    let settled := settleOrder s order level elem remaining
    let rest := confirmRingOrders txHash settled.1 orders fills levels elems
    (rest.1, settled.2 ++ rest.2)
  | _, _, _, _ => (s, [])

/-- The key under which a tree holds the price level at address `level`, as the
iterator loops of the ring confirmation find it. -/
def keyOfLevel (cmp : Int → Int → Int) (t : Tree) (level : Nat) : Option Int :=
  match (Tree.Iterator cmp t).find? (fun e => e.2 == level) with
  | none => none
  | some e => some e.1

/-- The second loop of the confirmation goroutine of `executeRing`: an emptied
price level is looked up in the asks and in the bids of its book and removed. -/
def removeEmptyLevels (s : OrderBookStore) : List Nat → List Nat → OrderBookStore
  | book :: books, level :: levels =>
    let s :=
      if (s.levelAt level).Orders.length = 0 then
        let s :=
          match keyOfLevel BigIntAscendingComparator (s.bookAt book).Asks level with
          | some priceKey => removePriceKey s book false priceKey
          | none => s
        match keyOfLevel BigIntDescendingComparator (s.bookAt book).Bids level with
        | some priceKey => removePriceKey s book true priceKey
        | none => s
      else s
    removeEmptyLevels s books levels
  | _, _ => s

/-- The confirmation goroutine of `executeRing`, run with the receipt status
`result` (`1` is success). -/
def confirmRing (result : Int) (r : PendingRing) (s : OrderBookStore) :
    OrderBookStore × List Spawned :=
  if result = 1 then
    let confirmed :=
      confirmRingOrders r.txHash s r.finalOrders r.finalFillAmounts r.finalPriceLevels
        r.finalElements
    (removeEmptyLevels confirmed.1 r.finalBooks r.finalPriceLevels, confirmed.2)
  else (setStatusAll s 0 r.finalOrders, [])

/-- The passes of the loop of `matchBook` that end in `continue`: `Continues
exchange book s s'` when the loop started in `s` is at the head of a pass in
`s'`. -/
inductive Continues (exchange : ExchangeContract) (book : Nat) :
    OrderBookStore → OrderBookStore → Prop where
  | here (s : OrderBookStore) : Continues exchange book s s
  | pass {s s1 s2 : OrderBookStore} (h : matchStep exchange book s = .again s1)
      (rest : Continues exchange book s1 s2) : Continues exchange book s s2

/-- Every book has in `s'` the `LastPrice` it has in `s`. -/
def SameLastPrice (s s' : OrderBookStore) : Prop :=
  ∀ b, (s'.bookAt b).LastPrice = (s.bookAt b).LastPrice

/-! ## Construction of a store, and the states used as concrete inputs -/

/-- The function `order.NewOrderOriginal`: every other field has its zero value. -/
def NewOrderOriginal (createdBy : Nat) (symbolIn symbolOut : String) (amtIn amtOut nonce : Int) :
    Order :=
  { CreatedBy := createdBy, SymbolIn := symbolIn, SymbolOut := symbolOut, AmtIn := amtIn,
    AmtOut := amtOut, Nonce := nonce, Signature := [], LimitPrice := none, TriggerPrice := none,
    FilledAmtIn := none, Status := 0, ConditionalOrder := none, TransactionHashes := [] }

/-- The pairs `(symbols[i], symbols[j])`, `i < j`, in the order the two loops of
`NewOrderBookStore` visit them, each put through `GetPairKey`. -/
def symbolPairs : List String → List (String × String)
  | [] => []
  | a :: rest => rest.map (fun b => GetPairKey a b) ++ symbolPairs rest

/-- The assignment `store.Books[pairKey] = NewMarketOrderBook(left, right)`. -/
def OrderBookStore.newBook (s : OrderBookStore) (pair : String × String) : OrderBookStore :=
  let pairKey := pair.1 ++ "/" ++ pair.2
  { s with
    Books := s.Books.filter (fun e => e.1 != pairKey) ++ [(pairKey, s.nextBook)]
    bookAt := Function.update s.bookAt s.nextBook (NewMarketOrderBook pair.1 pair.2)
    nextBook := s.nextBook + 1 }

/-- The function `NewOrderBookStore` for the given symbols. The order objects
that callers create later are given in advance as the heap `orders`, of which
the first `count` addresses are in use. -/
def NewOrderBookStore (symbols : List String) (orders : Nat → Order) (count : Nat) :
    OrderBookStore :=
  (symbolPairs symbols).foldl OrderBookStore.newBook
    { Books := [], bookAt := fun _ => NewMarketOrderBook "" "", orderAt := orders,
      levelAt := fun _ => { Orders := [], TotalQuantity := 0 },
      nextBook := 0, nextOrder := count, nextLevel := 0, nextElem := 0,
      PastHistoryStore := fun _ _ => [], maxRingDepth := 5, ringMatchingEnabled := true,
      exchangeCalls := 0 }

/-- A settlement contract that accepts every submission. -/
def acceptingExchange : ExchangeContract :=
  { ExecuteMatch := fun _ _ _ _ => some "0xmatch", ExecuteRingTrade := fun _ _ _ => some "0xring" }

/-- The store for the books of `A` and `B` with an ask `A -> B` of creator 1 at
address 0 and a bid `B -> A` of creator 2 at address 1, both not yet added. -/
def twoOrderStore (askIn askOut bidIn bidOut : Int) : OrderBookStore :=
  NewOrderBookStore ["A", "B"]
    (fun p => if p = 0 then NewOrderOriginal 1 "A" "B" askIn askOut 1
              else NewOrderOriginal 2 "B" "A" bidIn bidOut 1) 2

/-- The store `twoOrderStore` after `AddOrder` of the ask and then of the bid. -/
def twoOrderBook (askIn askOut bidIn bidOut : Int) : Option OrderBookStore :=
  match AddOrder (twoOrderStore askIn askOut bidIn bidOut) 0 with
  | some (s, none) =>
    match AddOrder s 1 with
    | some (s, none) => some s
    | _ => none
  | _ => none

/-- One call of `matchBook` on book 0 of `twoOrderBook` with the accepting
contract: the trade it submits and the store it leaves. -/
def twoOrderMatch (askIn askOut bidIn bidOut : Int) : Option (PendingMatch × OrderBookStore) :=
  match twoOrderBook askIn askOut bidIn bidOut with
  | none => none
  | some s =>
    match matchBook acceptingExchange 0 1 s with
    | some (.returned s (some t)) => some (t, s)
    | _ => none

/-- The store after the trade of `twoOrderMatch` has been confirmed. -/
def twoOrderSettled (askIn askOut bidIn bidOut : Int) : Option OrderBookStore :=
  match twoOrderMatch askIn askOut bidIn bidOut with
  | none => none
  | some (t, s) => some (confirmMatch 1 0 t s).1

/-- The book of the partial-fill scenario: ask `{100, 300}`, bid `{150, 40}`. -/
def partialFillBook : OrderBookStore :=
  (twoOrderBook 100 300 150 40).getD (twoOrderStore 100 300 150 40)

/-- The trade `matchBook` submits on `partialFillBook`. -/
def partialFillTrade : PendingMatch :=
  { finalBidOrder := 1, finalAskOrder := 0, finalBidElem := { id := 1, Value := 1 },
    finalAskElem := { id := 0, Value := 0 }, finalBidLevel := 1, finalAskLevel := 0,
    finalBidPriceKey := 3750000000000000000, finalAskPriceKey := 3000000000000000000,
    finalTradeBaseQty := 100, finalTradeQuoteQty := 150,
    finalExecutionPrice := 3000000000000000000, txHash := "0xmatch" }

/-- The store `matchBook` leaves on `partialFillBook`: both orders pending. -/
def partialFillPending : OrderBookStore :=
  { setStatusPair (initFilledPair partialFillBook 1 0) 1 0 1 with exchangeCalls := 1 }

/-- The book of the dust scenario: ask `{1000, 1000}`, bid `{999, 999}`. -/
def dustBook : OrderBookStore :=
  (twoOrderBook 1000 1000 999 999).getD (twoOrderStore 1000 1000 999 999)

/-- The trade `matchBook` submits on `dustBook`. -/
def dustTrade : PendingMatch :=
  { finalBidOrder := 1, finalAskOrder := 0, finalBidElem := { id := 1, Value := 1 },
    finalAskElem := { id := 0, Value := 0 }, finalBidLevel := 1, finalAskLevel := 0,
    finalBidPriceKey := 1000000000000000000, finalAskPriceKey := 1000000000000000000,
    finalTradeBaseQty := 1000, finalTradeQuoteQty := 999,
    finalExecutionPrice := 1000000000000000000, txHash := "0xmatch" }

/-- The store `matchBook` leaves on `dustBook`: both orders pending. -/
def dustPending : OrderBookStore :=
  { setStatusPair (initFilledPair dustBook 1 0) 1 0 1 with exchangeCalls := 1 }

/-- Three books `(A,B)`, `(B,C)`, `(A,C)` and three orders of three creators,
not yet added: `A -> B {10, 10}` at address 0, `B -> C {5, 20}` at address 1
and `C -> A {10, 5}` at address 2. -/
def ringStore : OrderBookStore :=
  NewOrderBookStore ["A", "B", "C"]
    (fun p => if p = 0 then NewOrderOriginal 1 "A" "B" 10 10 1
              else if p = 1 then NewOrderOriginal 2 "B" "C" 5 20 1
              else NewOrderOriginal 3 "C" "A" 10 5 1) 3

/-- The store `ringStore` after `AddOrder` of its three orders. -/
def ringBooks : OrderBookStore :=
  match AddOrder ringStore 0 with
  | some (s, none) =>
    match AddOrder s 1 with
    | some (s, none) =>
      match AddOrder s 2 with
      | some (s, none) => s
      | _ => ringStore
    | _ => ringStore
  | _ => ringStore

/-- The ring `A -> B -> C -> A` over the three orders of `ringBooks`, as the
search from order 0 builds it: each order with its book, its price level, its
list element and its remaining input. -/
def ringPath : RingPath :=
  { Orders := [0, 1, 2], Books := [0, 2, 1], PriceLevels := [0, 1, 2],
    Elements := [{ id := 0, Value := 0 }, { id := 1, Value := 1 }, { id := 2, Value := 2 }],
    TradeAmounts := [10, 5, 10] }

/-- The store after `executeRing` has submitted `ringPath` on `ringBooks` and
the settlement has been confirmed. -/
def ringSettled : Option OrderBookStore :=
  match executeRing (some acceptingExchange) ringPath ringBooks with
  | some (.submitted r s) => some (confirmRing 1 r s).1
  | _ => none

/-- The book `(A, B)` with an ask `A -> B {10, 10}` at address 0 and a bid
`B -> A {10, 10}` at address 1, both of creator 1, added in that order. -/
def sameCreatorBook : OrderBookStore :=
  let s := NewOrderBookStore ["A", "B"]
    (fun p => if p = 0 then NewOrderOriginal 1 "A" "B" 10 10 1
              else NewOrderOriginal 1 "B" "A" 10 10 2) 2
  match AddOrder s 0 with
  | some (s, none) =>
    match AddOrder s 1 with
    | some (s, none) => s
    | _ => s
  | _ => s

/-- The token symbols that the orders of a ring mention, with repetitions. The
claims on `validateRing` count the distinct ones among them. -/
def ringTokens (s : OrderBookStore) (ring : RingPath) : List String :=
  ring.Orders.flatMap (fun o => [(s.orderAt o).SymbolIn, (s.orderAt o).SymbolOut])

/-- The condition of the claims on `validateRing`, in their words: a ring of two
orders whose two orders involve exactly the same two tokens. -/
def SameTwoTokens (s : OrderBookStore) (ring : RingPath) : Prop :=
  ∃ o1 o2, ring.Orders = [o1, o2] ∧
    ({(s.orderAt o1).SymbolIn, (s.orderAt o1).SymbolOut} : Finset String) =
      {(s.orderAt o2).SymbolIn, (s.orderAt o2).SymbolOut} ∧
    ({(s.orderAt o1).SymbolIn, (s.orderAt o1).SymbolOut} : Finset String).card = 2

/-- The book `(A, B)` holding the ask `A -> B {10, 10}` of creator 1 and the bid
`B -> A {10, 10}` of creator 2. -/
def pairBook : OrderBookStore :=
  (twoOrderBook 10 10 10 10).getD (twoOrderStore 10 10 10 10)

/-- The path over the two orders of `pairBook`, as the search from order 0
builds it. -/
def pairRing : RingPath :=
  { Orders := [0, 1], Books := [0, 0], PriceLevels := [0, 1],
    Elements := [{ id := 0, Value := 0 }, { id := 1, Value := 1 }], TradeAmounts := [10, 10] }

/-- The conversion of one leg, in the words of the claims on the bottleneck:
an input `amount` is mapped to `floor(amount * amtOut / amtIn)`. -/
def legOutput (o : Order) (amount : Int) : Int :=
  ⌊(((amount * o.AmtOut : Int) : ℚ) / ((o.AmtIn : Int) : ℚ))⌋

/-- The amount presented to the `j`-th leg (`j = 0, 1, ...`) of the flow that
enters the ring at leg `i` with the amount `x`; the legs are taken in ring
order, indices modulo the number of orders, and `flowAmount s ring i x n` for
`n` orders is the amount the flow ends with. -/
def flowAmount (s : OrderBookStore) (ring : RingPath) (i : Nat) (x : Int) : Nat → Int
  | 0 => x
  | j + 1 =>
    legOutput (s.orderAt (ring.Orders.getD ((i + j) % ring.Orders.length) 0))
      (flowAmount s ring i x j)

/-- The amount `x` entering at leg `i` can flow through all legs: no leg is
presented with more than its entry of `TradeAmounts`, and the flow returns at
least `x`. -/
def FeasibleFlow (s : OrderBookStore) (ring : RingPath) (i : Nat) (x : Int) : Prop :=
  (∀ j, j < ring.Orders.length →
    flowAmount s ring i x j ≤ ring.TradeAmounts.getD ((i + j) % ring.Orders.length) 0) ∧
  x ≤ flowAmount s ring i x ring.Orders.length

/-- Anchor `i` is feasible: the flow of `x = TradeAmounts[i]` entering at leg
`i` is feasible. -/
def FeasibleAnchor (s : OrderBookStore) (ring : RingPath) (i : Nat) : Prop :=
  i < ring.Orders.length ∧ FeasibleFlow s ring i (ring.TradeAmounts.getD i 0)

/-- Three books `(A,B)`, `(A,C)`, `(B,C)` at the addresses 0, 1, 2 and three
orders of three creators, not yet added: `A -> B` at address 0, `B -> C` at
address 1 and `C -> A` at address 2, each with its `(amtIn, amtOut)`. -/
def triangleStore (ab bc ca : Int × Int) : OrderBookStore :=
  NewOrderBookStore ["A", "B", "C"]
    (fun p => if p = 0 then NewOrderOriginal 1 "A" "B" ab.1 ab.2 1
              else if p = 1 then NewOrderOriginal 2 "B" "C" bc.1 bc.2 1
              else NewOrderOriginal 3 "C" "A" ca.1 ca.2 1) 3

/-- The store `triangleStore` after `AddOrder` of its three orders. -/
def triangleBooks (ab bc ca : Int × Int) : OrderBookStore :=
  match AddOrder (triangleStore ab bc ca) 0 with
  | some (s, none) =>
    match AddOrder s 1 with
    | some (s, none) =>
      match AddOrder s 2 with
      | some (s, none) => s
      | _ => triangleStore ab bc ca
    | _ => triangleStore ab bc ca
  | _ => triangleStore ab bc ca

/-- The ring `A -> B -> C -> A` over the three orders of `triangleBooks`, each
with its book, price level and list element, and the given trade amounts. -/
def trianglePath (t0 t1 t2 : Int) : RingPath :=
  { Orders := [0, 1, 2], Books := [0, 2, 1], PriceLevels := [0, 1, 2],
    Elements := [{ id := 0, Value := 0 }, { id := 1, Value := 1 }, { id := 2, Value := 2 }],
    TradeAmounts := [t0, t1, t2] }

/-- The books of the ring-of-three scenario: `A -> B`, `B -> C` and `C -> A`,
each `{10, 10}`. -/
def scenarioBooks : OrderBookStore := triangleBooks (10, 10) (10, 10) (10, 10)

/-- Books with the orders `A -> B {10, 10}`, `B -> C {10, 30}` and
`C -> A {20, 20}`, nothing filled. -/
def unevenBooks : OrderBookStore := triangleBooks (10, 10) (10, 30) (20, 20)

/-- The effect of the insertion of the order at address `p` on one side of a
book, `tree` before and `tree'` after: the tree binds `key` to a level `lp`, the
bindings of the other keys and every other level object are as before, and the
level is either new (at the next unused address), holding the new element
alone with the order's remaining input as `TotalQuantity`, or the level the
tree had at `key`, with the new element appended and `TotalQuantity`
increased by the order's remaining input. -/
def LevelGrown (s s' : OrderBookStore) (p : Nat) (key : Int) (tree tree' : Tree) : Prop :=
  ∃ lp,
    tree'.Get key = some lp ∧
    (∀ k, k ≠ key → tree'.Get k = tree.Get k) ∧
    (∀ l, l ≠ lp → s'.levelAt l = s.levelAt l) ∧
    ((tree.Get key = none ∧ lp = s.nextLevel ∧
        s'.levelAt lp =
          { Orders := [{ id := s.nextElem, Value := p }],
            TotalQuantity := (s.orderAt p).AmtIn - (s.orderAt p).filled }) ∨
      (tree.Get key = some lp ∧ tree' = tree ∧
        s'.levelAt lp =
          { Orders := (s.levelAt lp).Orders ++ [{ id := s.nextElem, Value := p }],
            TotalQuantity :=
              (s.levelAt lp).TotalQuantity + ((s.orderAt p).AmtIn - (s.orderAt p).filled) }))

/-- The store of the partial-fill scenario after `AddOrder` of the ask
`{100, 300}` alone. -/
def askAdded : OrderBookStore :=
  ((AddOrder (twoOrderStore 100 300 150 40) 0).getD (twoOrderStore 100 300 150 40, none)).1

/-- An element whose order has the given creator and nonce. -/
def Element.IsOrderOf (s : OrderBookStore) (createdBy : Nat) (nonce : Int) (e : Element) : Prop :=
  (s.orderAt e.Value).CreatedBy = createdBy ∧ (s.orderAt e.Value).Nonce = nonce

/-- The tree binds `limitPrice` to the level `lp`, whose list is `pre ++ e ::
post` with `e` its first element whose order has the given creator and nonce. -/
def FirstMatch (s : OrderBookStore) (createdBy : Nat) (nonce : Int) (tree : Tree)
    (limitPrice : Int) (lp : Nat) (pre : List Element) (e : Element) (post : List Element) :
    Prop :=
  tree.Get limitPrice = some lp ∧
  (s.levelAt lp).Orders = pre ++ e :: post ∧
  (∀ x ∈ pre, ¬ Element.IsOrderOf s createdBy nonce x) ∧
  Element.IsOrderOf s createdBy nonce e

/-- The tree has no level at `limitPrice` with an order of the given creator
and nonce. -/
def NoMatch (s : OrderBookStore) (createdBy : Nat) (nonce : Int) (tree : Tree)
    (limitPrice : Int) : Prop :=
  ∀ lp, tree.Get limitPrice = some lp →
    ∀ x ∈ (s.levelAt lp).Orders, ¬ Element.IsOrderOf s createdBy nonce x

/-- The effect of a cancellation that found the element `e` of the order in the
level `lp`, bound to `limitPrice` in `tree` (`tree'` after the call), between
the elements `pre` and `post`. -/
def Cancelled (s s' : OrderBookStore) (tree tree' : Tree) (limitPrice : Int) (lp : Nat)
    (pre : List Element) (e : Element) (post : List Element) : Prop :=
  s'.orderAt e.Value =
    { s.orderAt e.Value with Status := 4, FilledAmtIn := some (s.orderAt e.Value).filled } ∧
  (∀ q, q ≠ e.Value → s'.orderAt q = s.orderAt q) ∧
  (∃ snapshot,
    s'.PastHistoryStore (s.orderAt e.Value).CreatedBy (s.orderAt e.Value).Nonce =
      s.PastHistoryStore (s.orderAt e.Value).CreatedBy (s.orderAt e.Value).Nonce ++ [snapshot] ∧
    snapshot.fields = { s.orderAt e.Value with Status := 4, TriggerPrice := none }) ∧
  (∀ a n, ¬ (a = (s.orderAt e.Value).CreatedBy ∧ n = (s.orderAt e.Value).Nonce) →
    s'.PastHistoryStore a n = s.PastHistoryStore a n) ∧
  s'.levelAt lp =
    { Orders := pre ++ post,
      TotalQuantity := (s.levelAt lp).TotalQuantity -
        ((s.orderAt e.Value).AmtIn - (s.orderAt e.Value).filled) } ∧
  (∀ l, l ≠ lp → s'.levelAt l = s.levelAt l) ∧
  (tree'.Get limitPrice = none ↔ pre ++ post = []) ∧
  (pre ++ post ≠ [] → tree' = tree) ∧
  (∀ k, k ≠ limitPrice → tree'.Get k = tree.Get k)

/-- The store `RemoveOrder` leaves when it has found the element `e` in the
level `lp` on the side `isBid` of the book `bp`. -/
def removeFound (s : OrderBookStore) (bp : Nat) (limitPrice : Int) (e : Element) (lp : Nat)
    (isBid : Bool) : OrderBookStore :=
  let fo := e.Value
  let s := s.setOrder fo { s.orderAt fo with Status := 4 }
  let s := s.AddToPastHistory fo
  let s := s.initFilled fo
  let quantityToRemove := (s.orderAt fo).AmtIn - (s.orderAt fo).filled
  let s := s.setLevel lp { s.levelAt lp with Orders := listRemove (s.levelAt lp).Orders e }
  let s := s.setLevel lp
    { s.levelAt lp with TotalQuantity := (s.levelAt lp).TotalQuantity - quantityToRemove }
  if (s.levelAt lp).Orders.length = 0 then removePriceKey s bp isBid limitPrice else s

/-- The struct `UnmatchedOrder`. -/
structure UnmatchedOrder where
  Order : Nat
  RemainingIn : Int
  RemainingOut : Int
  Book : Nat
  PriceLevel : Nat
  Element : Element
deriving DecidableEq, Repr

/-- The function `getOrderKey`: the text it builds, the creator in hexadecimal
and the nonce in decimal joined by `-`, determines and is determined by the
pair of creator and nonce. -/
def getOrderKey (o : Order) : Nat × Int := (o.CreatedBy, o.Nonce)

/-- The loop of `collectFromTree` over the elements of one price level. The
result is `none` for a panic (the division by `AmtIn = 0`), otherwise the store
and the entries appended. -/
def collectFromLevel (book priceLevel : Nat) :
    OrderBookStore → List Element → Option (OrderBookStore × List UnmatchedOrder)
  | s, [] => some (s, [])
  | s, e :: rest =>
    if (s.orderAt e.Value).Status ≠ 0 then collectFromLevel book priceLevel s rest
    else
      let s := s.initFilled e.Value
      let order := s.orderAt e.Value
      let remainingIn := order.AmtIn - order.filled
      if remainingIn > 0 then
        if order.AmtIn = 0 then none
        else
          let remainingOut := order.AmtOut * remainingIn / order.AmtIn
          match collectFromLevel book priceLevel s rest with
          | none => none
          | some (s, more) =>
            some (s, { Order := e.Value, RemainingIn := remainingIn, RemainingOut := remainingOut,
                       Book := book, PriceLevel := priceLevel, Element := e } :: more)
      else collectFromLevel book priceLevel s rest

/-- The closure `collectFromTree` of `collectUnmatchedOrders` over the nodes of
a tree, given in iterator order. -/
def collectFromTree (book : Nat) :
    OrderBookStore → Tree → Option (OrderBookStore × List UnmatchedOrder)
  | s, [] => some (s, [])
  | s, node :: rest =>
    match collectFromLevel book node.2 s (s.levelAt node.2).Orders with
    | none => none
    | some (s, found) =>
      match collectFromTree book s rest with
      | none => none
      | some (s, more) => some (s, found ++ more)

/-- The method `OrderBookStore.collectUnmatchedOrders` on the book at address
`book`: the bids, then the asks. -/
def collectUnmatchedOrders (s : OrderBookStore) (book : Nat) :
    Option (OrderBookStore × List UnmatchedOrder) :=
  match collectFromTree book s
      (Tree.Iterator BigIntDescendingComparator (s.bookAt book).Bids) with
  | none => none
  | some (s, bids) =>
    match collectFromTree book s
        (Tree.Iterator BigIntAscendingComparator (s.bookAt book).Asks) with
    | none => none
    | some (s, asks) => some (s, bids ++ asks)

/-- The elements the closure `checkOrders` of `dfsRing` visits in one tree of
the book at address `book`, each with the book and its price level: the levels
in iterator order, the elements of a level from the front. -/
def treeEntries (s : OrderBookStore) (book : Nat) (cmp : Int → Int → Int) (tree : Tree) :
    List (Nat × Nat × Element) :=
  (Tree.Iterator cmp tree).flatMap
    (fun node => (s.levelAt node.2).Orders.map (fun e => (book, node.2, e)))

/-- The elements the loops of one call of `dfsRing` visit, in their order: for
every book in the order given, its asks and then its bids. The search writes
no book, tree or list, so the elements are those of the store at the start of
the call. -/
def dfsEntries (s : OrderBookStore) (books : List Nat) : List (Nat × Nat × Element) :=
  books.flatMap (fun b =>
    treeEntries s b BigIntAscendingComparator (s.bookAt b).Asks ++
    treeEntries s b BigIntDescendingComparator (s.bookAt b).Bids)

/-- The body of the loops of `dfsRing` over the elements they visit. `search`
is the recursive call of `dfsRing` one level deeper; `visited` and
`usersInRing` are the keys of the two maps. An element is skipped when its
order does not give `currentToken`, is not ready, is of a user in the ring, is
visited or has nothing remaining; otherwise the path is extended by it and
searched, and the first ring found is returned. The entry a failed search put
into `visited` is deleted again, so the next element is tried with the same
`visited`. The result is `none` for a panic. -/
def checkOrders
    (search : OrderBookStore → String → RingPath → List (Nat × Int) → List Nat →
      Option (OrderBookStore × Option RingPath))
    (currentToken : String) (path : RingPath) (visited : List (Nat × Int))
    (usersInRing : List Nat) :
    OrderBookStore → List (Nat × Nat × Element) → Option (OrderBookStore × Option RingPath)
  | s, [] => some (s, none)
  | s, (book, priceLevel, e) :: rest =>
    let askOrder := s.orderAt e.Value
    if askOrder.SymbolIn ≠ currentToken then
      checkOrders search currentToken path visited usersInRing s rest
    else if askOrder.Status ≠ 0 then
      checkOrders search currentToken path visited usersInRing s rest
    else if usersInRing.contains askOrder.CreatedBy then
      checkOrders search currentToken path visited usersInRing s rest
    else if visited.contains (getOrderKey askOrder) then
      checkOrders search currentToken path visited usersInRing s rest
    else
      let s := s.initFilled e.Value
      let askOrder := s.orderAt e.Value
      let remainingIn := askOrder.AmtIn - askOrder.filled
      if remainingIn ≤ 0 then
        checkOrders search currentToken path visited usersInRing s rest
      else
        let newPath : RingPath :=
          { Orders := path.Orders ++ [e.Value], Books := path.Books ++ [book],
            PriceLevels := path.PriceLevels ++ [priceLevel], Elements := path.Elements ++ [e],
            TradeAmounts := path.TradeAmounts ++ [remainingIn] }
        match search s askOrder.SymbolOut newPath (getOrderKey askOrder :: visited)
            (askOrder.CreatedBy :: usersInRing) with
        | none => none
        | some (s, some result) => some (s, some result)
        | some (s, none) => checkOrders search currentToken path visited usersInRing s rest

/-- The method `OrderBookStore.dfsRing`. `rangeBooks` stands for the order in
which `range store.Books` yields the entries of the map, which the run time
chooses anew at every loop: `rangeBooks path.Orders store.Books` is the order
taken by the call with that path. The first argument bounds the depth of the
recursion; `findRing` passes `maxRingDepth + 1`, and the recursion ends before
that at the test `depth > store.maxRingDepth`. The result is `none` for a
panic, otherwise the store and the ring found (`none` for `nil`). -/
def dfsRing (rangeBooks : List Nat → List (String × Nat) → List (String × Nat)) :
    Nat → OrderBookStore → String → String → RingPath → List (Nat × Int) → List Nat → Nat →
      Option (OrderBookStore × Option RingPath)
  | 0, s, _, _, _, _, _, _ => some (s, none)
  | fuel + 1, s, currentToken, targetToken, path, visited, usersInRing, depth =>
    if depth > s.maxRingDepth then some (s, none)
    else if currentToken = targetToken ∧ depth > 1 then
      match validateRing s path with
      | none => none
      | some true => some (s, some path)
      | some false => some (s, none)
    else
      checkOrders
        (fun s token newPath visited users =>
          dfsRing rangeBooks fuel s token targetToken newPath visited users (depth + 1))
        currentToken path visited usersInRing s
        (dfsEntries s ((rangeBooks path.Orders s.Books).map Prod.snd))

/-- The method `OrderBookStore.findRing`. -/
def findRing (rangeBooks : List Nat → List (String × Nat) → List (String × Nat))
    (s : OrderBookStore) (start : UnmatchedOrder) : Option (OrderBookStore × Option RingPath) :=
  let startOrder := s.orderAt start.Order
  let targetToken := startOrder.SymbolIn
  let currentToken := startOrder.SymbolOut
  let initialPath : RingPath :=
    { Orders := [start.Order], Books := [start.Book], PriceLevels := [start.PriceLevel],
      Elements := [start.Element], TradeAmounts := [start.RemainingIn] }
  dfsRing rangeBooks (s.maxRingDepth + 1) s currentToken targetToken initialPath
    [getOrderKey startOrder] [startOrder.CreatedBy] 1

/-- The fields of an order that the ring search reads and never writes (it
writes `FilledAmtIn` only, from `nil` to 0, which keeps the remaining input). -/
structure OrderView where
  SymbolIn : String
  SymbolOut : String
  CreatedBy : Nat
  Status : Int
  remaining : Int

/-- The view of the order at address `q`. -/
def OrderBookStore.view (s : OrderBookStore) (q : Nat) : OrderView :=
  { SymbolIn := (s.orderAt q).SymbolIn, SymbolOut := (s.orderAt q).SymbolOut,
    CreatedBy := (s.orderAt q).CreatedBy, Status := (s.orderAt q).Status,
    remaining := (s.orderAt q).remaining }

/-- What holds of the path of a call of `dfsRing` at depth `depth`, with
`currentToken` the token to continue from: the path has `depth` orders, each
giving what the one before wants; the first is `start` and gives
`targetToken`, the last wants `currentToken`; `usersInRing` are the creators of its orders, all
different; every order after the first has `Status = 0` and a positive
remaining input. -/
def PathInv (v : Nat → OrderView) (start : Nat) (targetToken currentToken : String)
    (path : RingPath) (usersInRing : List Nat) (depth : Nat) : Prop :=
  path.Orders.length = depth ∧
  usersInRing = (path.Orders.map (fun o => (v o).CreatedBy)).reverse ∧
  usersInRing.Nodup ∧
  List.Chain' (fun a b => (v b).SymbolIn = (v a).SymbolOut) path.Orders ∧
  (path.Orders.head? = some start ∧ (v start).SymbolIn = targetToken) ∧
  (∃ last, path.Orders.getLast? = some last ∧ (v last).SymbolOut = currentToken) ∧
  (∀ o ∈ path.Orders.tail, (v o).Status = 0 ∧ 0 < (v o).remaining)

/-- Ring purity, of the ring `ring` found from the order at address `start`
with the depth limit `maxRingDepth`. -/
def RingPure (v : Nat → OrderView) (maxRingDepth start : Nat) (ring : RingPath) : Prop :=
  2 ≤ ring.Orders.length ∧ ring.Orders.length ≤ maxRingDepth ∧
  ring.Orders.head? = some start ∧
  List.Chain' (fun a b => (v b).SymbolIn = (v a).SymbolOut) ring.Orders ∧
  (∃ last, ring.Orders.getLast? = some last ∧ (v last).SymbolOut = (v start).SymbolIn) ∧
  3 ≤ (ring.Orders.flatMap (fun o => [(v o).SymbolIn, (v o).SymbolOut])).toFinset.card ∧
  ring.Orders.Nodup ∧
  (ring.Orders.map (fun o => (v o).CreatedBy)).Nodup ∧
  (∀ o ∈ ring.Orders.tail, (v o).Status = 0 ∧ 0 < (v o).remaining)

/-- The entries of the ring-of-three scenario, as `collectUnmatchedOrders`
collects them: `scenarioStart k` is the entry of the order at address `k`. -/
def scenarioStart (k : Nat) : UnmatchedOrder :=
  match k with
  | 0 => { Order := 0, RemainingIn := 10, RemainingOut := 10, Book := 0, PriceLevel := 0,
           Element := { id := 0, Value := 0 } }
  | 1 => { Order := 1, RemainingIn := 10, RemainingOut := 10, Book := 2, PriceLevel := 1,
           Element := { id := 1, Value := 1 } }
  | _ => { Order := 2, RemainingIn := 10, RemainingOut := 10, Book := 1, PriceLevel := 2,
           Element := { id := 2, Value := 2 } }

/-- The ring of the three orders of the scenario that starts with the order at
address `k`, every trade amount 10. -/
def scenarioRing (k : Nat) : RingPath :=
  match k with
  | 0 => trianglePath 10 10 10
  | 1 => { Orders := [1, 2, 0], Books := [2, 1, 0], PriceLevels := [1, 2, 0],
           Elements := [{ id := 1, Value := 1 }, { id := 2, Value := 2 }, { id := 0, Value := 0 }],
           TradeAmounts := [10, 10, 10] }
  | _ => { Orders := [2, 0, 1], Books := [1, 0, 2], PriceLevels := [2, 0, 1],
           Elements := [{ id := 2, Value := 2 }, { id := 0, Value := 0 }, { id := 1, Value := 1 }],
           TradeAmounts := [10, 10, 10] }

/-- The elements of the three books of the scenario, each with its book and
price level. -/
def scenarioEntries : List (Nat × Nat × Element) :=
  [(0, 0, { id := 0, Value := 0 }), (1, 2, { id := 2, Value := 2 }),
   (2, 1, { id := 1, Value := 1 })]

/-- The store after `executeRing` has submitted the ring `scenarioRing k` on
`scenarioBooks` and the settlement has been confirmed. -/
def scenarioSettled (k : Nat) : Option OrderBookStore :=
  match executeRing (some acceptingExchange) (scenarioRing k) scenarioBooks with
  | some (.submitted r s) => some (confirmRing 1 r s).1
  | _ => none

/-- The book `(A, B)` and four orders of four creators, not yet added: the ask
`A -> B {10, 10}` at address 0, the bid `B -> A {10, 10}` at address 1, the ask
`A -> B {10, 5}` at address 2 and the bid `B -> A {10, 5}` at address 3. The
last two have better prices than the first two (ask `0.5`, bid `2`). -/
def overtakingStore : OrderBookStore :=
  NewOrderBookStore ["A", "B"]
    (fun p => if p = 0 then NewOrderOriginal 1 "A" "B" 10 10 1
              else if p = 1 then NewOrderOriginal 2 "B" "A" 10 10 1
              else if p = 2 then NewOrderOriginal 3 "A" "B" 10 5 1
              else NewOrderOriginal 4 "B" "A" 10 5 1) 4

/-- `AddOrder` of the orders at the addresses given, in turn; `none` when one of
them panics or returns an error. -/
def addOrders : OrderBookStore → List Nat → Option OrderBookStore
  | s, [] => some s
  | s, p :: rest =>
    match AddOrder s p with
    | some (s, none) => addOrders s rest
    | _ => none

/-- The run on `overtakingStore`: orders 0 and 1 are added, `matchBook` is
called, orders 2 and 3 are added, `matchBook` is called again, and no
confirmation arrives. The result is the trade submitted by the first call, the
trade submitted by the second call (if any) and the final store. -/
def overtakingRun : Option (PendingMatch × Option PendingMatch × OrderBookStore) :=
  match addOrders overtakingStore [0, 1] with
  | none => none
  | some s =>
    match matchBook acceptingExchange 0 1 s with
    | some (.returned s (some first)) =>
      match addOrders s [2, 3] with
      | none => none
      | some s =>
        match matchBook acceptingExchange 0 1 s with
        | some (.returned s second) => some (first, second, s)
        | _ => none
    | _ => none

/-- The best node of one side of a book: `book.Bids.Left()` for `isBid`,
`book.Asks.Left()` otherwise. -/
def bestNode (s : OrderBookStore) (book : Nat) (isBid : Bool) : Option (Int × Nat) :=
  if isBid then Tree.Left BigIntDescendingComparator (s.bookAt book).Bids
  else Tree.Left BigIntAscendingComparator (s.bookAt book).Asks

/-- An order of the best level of the side has `Status = 1`. -/
def PendingAtBest (s : OrderBookStore) (book : Nat) (isBid : Bool) : Prop :=
  ∃ k l x, bestNode s book isBid = some (k, l) ∧ x ∈ (s.levelAt l).Orders ∧
    (s.orderAt x.Value).Status = 1

/-- The price levels in the trees of the book are allocated objects: their
addresses are below the next unused one. -/
def LevelsAllocated (s : OrderBookStore) (book : Nat) : Prop :=
  (∀ node ∈ (s.bookAt book).Bids, node.2 < s.nextLevel) ∧
  (∀ node ∈ (s.bookAt book).Asks, node.2 < s.nextLevel)

/-- A run of `AddOrder` steps and of calls of `matchBook` on the book, with no
confirmation in between, in which no `AddOrder` changes the best node of the
side `isBid` of the book. -/
inductive Awaiting (ex : ExchangeContract) (book : Nat) (isBid : Bool) :
    OrderBookStore → OrderBookStore → Prop where
  | done (s : OrderBookStore) : Awaiting ex book isBid s s
  | add {s s1 s2 : OrderBookStore} (p : Nat) (e : Option AddOrderError)
      (h : AddOrder s p = some (s1, e))
      (hbest : bestNode s1 book isBid = bestNode s book isBid)
      (rest : Awaiting ex book isBid s1 s2) : Awaiting ex book isBid s s2
  | call {s s1 s2 : OrderBookStore} (fuel : Nat) (r : Option PendingMatch)
      (h : matchBook ex book fuel s = some (.returned s1 r))
      (rest : Awaiting ex book isBid s1 s2) : Awaiting ex book isBid s s2

/-- The store of the partial-fill scenario after the submission of its trade
and, with the trade still in flight, `AddOrder` of the order at address 2, a
bid `{150, 40}` which joins the level of the pending bid. -/
def bidAddedWhilePending : OrderBookStore :=
  ((AddOrder partialFillPending 2).getD (partialFillPending, none)).1

/-- The orders of a stop-limit submission as `SendOrder` builds them: the
parent `A -> B {100, 200}` at address 0 with its child at address 1, and the
child `A -> B {50, 90}`, which carries the `StopPrice` of the request,
`1.9 * 10^18`, as `TriggerPrice`. -/
def stopLimitOrders : Nat → Order := fun p =>
  if p = 0 then { NewOrderOriginal 1 "A" "B" 100 200 1 with ConditionalOrder := some 1 }
  else { NewOrderOriginal 1 "A" "B" 50 90 2 with TriggerPrice := some 1900000000000000000 }

/-- The struct `MarketPrice`; each field is a `*big.Int`, `none` for `nil`. -/
structure MarketPrice where
  BestBid : Option Int
  BestAsk : Option Int
  MidPrice : Option Int
  Spread : Option Int
  LastPrice : Option Int
deriving DecidableEq, Repr

/-- The method `OrderBookStore.GetMarketPrice`; `none` is the error "order book
not found". `price` starts as `&MarketPrice{}`, every field `nil`. -/
def GetMarketPrice (s : OrderBookStore) (tokenA tokenB : String) : Option MarketPrice :=
  let (base, quote) := GetPairKey tokenA tokenB
  let pairID := base ++ "/" ++ quote
  match s.lookupBook pairID with
  | none => none
  | some bp =>
    let book := s.bookAt bp
    let price : MarketPrice :=
      { BestBid := none, BestAsk := none, MidPrice := none, Spread := none, LastPrice := none }
    let price :=
      match Tree.Left BigIntDescendingComparator book.Bids with
      | some bestBidNode => { price with BestBid := some bestBidNode.1 }
      | none => price
    let price :=
      match Tree.Left BigIntAscendingComparator book.Asks with
      | some bestAskNode => { price with BestAsk := some bestAskNode.1 }
      | none => price
    match price.BestBid, price.BestAsk with
    | some bestBid, some bestAsk =>
      some { price with MidPrice := some ((bestBid + bestAsk) / 2), Spread := some (bestAsk - bestBid) }
    | _, _ => some price

/-- The store for the book of `A` and `B` with four orders of four creators,
not yet added: the asks `A -> B {100, 200}` at address 0 and `{100, 300}` at
address 2, the bids `B -> A {200, 100}` at address 1 and `{100, 100}` at the
other addresses. -/
def quotedStore : OrderBookStore :=
  NewOrderBookStore ["A", "B"]
    (fun p => if p = 0 then NewOrderOriginal 1 "A" "B" 100 200 1
              else if p = 1 then NewOrderOriginal 2 "B" "A" 200 100 1
              else if p = 2 then NewOrderOriginal 3 "A" "B" 100 300 1
              else NewOrderOriginal 4 "B" "A" 100 100 1) 4

/-- The store `quotedStore` after the first ask and the first bid have been
added, matched and settled at `2 * 10^18`, and the second ask and the second
bid have been added. -/
def quotedBook : Option OrderBookStore :=
  match addOrders quotedStore [0, 1] with
  | none => none
  | some s =>
    match matchBook acceptingExchange 0 1 s with
    | some (.returned s (some t)) => addOrders (confirmMatch 1 0 t s).1 [2, 3]
    | _ => none

/-- What the confirmation of a fill of `fill` by the transaction `txHash`
records for the participant at address `q`, captured with its element `e` and
its level `l` (`s` before the confirmation, `s'` after): the history of the
order has one snapshot more, taken with the fill added and the transaction
hash appended; when the fill completes the order the snapshot has `Status = 3`,
the order ends with `Status = 2` and its element is in the level no more,
otherwise the snapshot has `Status = 5`, the order ends with `Status = 0` and
its element is in the level if it was. -/
def FillRecorded (s s' : OrderBookStore) (q l : Nat) (e : Element) (fill : Int)
    (txHash : String) : Prop :=
  ∃ snapshot,
    s'.PastHistoryStore (s.orderAt q).CreatedBy (s.orderAt q).Nonce =
      s.PastHistoryStore (s.orderAt q).CreatedBy (s.orderAt q).Nonce ++ [snapshot] ∧
    snapshot.fields.FilledAmtIn = some ((s.orderAt q).filled + fill) ∧
    snapshot.fields.TransactionHashes = (s.orderAt q).TransactionHashes ++ [txHash] ∧
    (s'.orderAt q).FilledAmtIn = some ((s.orderAt q).filled + fill) ∧
    ((s.orderAt q).filled + fill = (s.orderAt q).AmtIn →
      snapshot.fields.Status = 3 ∧ (s'.orderAt q).Status = 2 ∧
      ∀ x ∈ (s'.levelAt l).Orders, x.id ≠ e.id) ∧
    ((s.orderAt q).filled + fill ≠ (s.orderAt q).AmtIn →
      snapshot.fields.Status = 5 ∧ (s'.orderAt q).Status = 0 ∧
      (e ∈ (s.levelAt l).Orders → e ∈ (s'.levelAt l).Orders))

/-- The order at address `q`, the history under its creator and nonce, and the
presence of its element `e` in each level are in `s'` as in `s`. -/
def Untouched (s s' : OrderBookStore) (q : Nat) (e : Element) : Prop :=
  s'.orderAt q = s.orderAt q ∧
  s'.PastHistoryStore (s.orderAt q).CreatedBy (s.orderAt q).Nonce =
    s.PastHistoryStore (s.orderAt q).CreatedBy (s.orderAt q).Nonce ∧
  ∀ l, (e ∈ (s'.levelAt l).Orders ↔ e ∈ (s.levelAt l).Orders) ∧
    ((∀ x ∈ (s.levelAt l).Orders, x.id ≠ e.id) → ∀ x ∈ (s'.levelAt l).Orders, x.id ≠ e.id)

/-- One pass of the first loop of the ring confirmation, for one participant. -/
def recordFill (txHash : String) (s : OrderBookStore) (order : Nat) (fill : Int) (level : Nat)
    (elem : Element) : OrderBookStore :=
  (confirmRingOrders txHash s [order] [fill] [level] [elem]).1

/-- The book of the half-fill scenario: ask `{100, 200}`, bid `{400, 200}`,
both at the price `2 * 10^18`. -/
def halfFillBook : OrderBookStore :=
  (twoOrderBook 100 200 400 200).getD (twoOrderStore 100 200 400 200)

/-- The trade `matchBook` submits on `halfFillBook`: the whole ask against half
of the bid. -/
def halfFillTrade : PendingMatch :=
  { finalBidOrder := 1, finalAskOrder := 0, finalBidElem := { id := 1, Value := 1 },
    finalAskElem := { id := 0, Value := 0 }, finalBidLevel := 1, finalAskLevel := 0,
    finalBidPriceKey := 2000000000000000000, finalAskPriceKey := 2000000000000000000,
    finalTradeBaseQty := 100, finalTradeQuoteQty := 200,
    finalExecutionPrice := 2000000000000000000, txHash := "0xmatch" }

/-- The store `matchBook` leaves on `halfFillBook`: both orders pending. -/
def halfFillPending : OrderBookStore :=
  { setStatusPair (initFilledPair halfFillBook 1 0) 1 0 1 with exchangeCalls := 1 }

/-- The ring `executeRing` submits for `ringPath` on `ringBooks`. -/
def ringTrade : PendingRing :=
  { finalOrders := [0, 1, 2], finalBooks := [0, 2, 1], finalPriceLevels := [0, 1, 2],
    finalElements := [{ id := 0, Value := 0 }, { id := 1, Value := 1 }, { id := 2, Value := 2 }],
    finalFillAmounts := [10, 10, 40], txHash := "0xring" }

/-- The store `executeRing` leaves for `ringPath` on `ringBooks`: the three
orders pending. -/
def ringPending : OrderBookStore :=
  { setStatusAll ringBooks 1 [0, 1, 2] with exchangeCalls := 1 }

/-- An order with a `nil` `FilledAmtIn` written as the `0` it stands for. -/
def Order.normal (o : Order) : Order := { o with FilledAmtIn := some o.filled }

/-- The store `s'` differs from `s` in nothing but the `Status` of the
participants, which is `0`: their other fields, every other order, every price
level, every book, the map of books and the history are the same. The
`FilledAmtIn` of a participant is compared as a number, an uninitialised one
being `0`. -/
def Reactivated (s s' : OrderBookStore) (participants : List Nat) : Prop :=
  (∀ q ∈ participants, (s'.orderAt q).normal = { (s.orderAt q).normal with Status := 0 }) ∧
  (∀ q, q ∉ participants → s'.orderAt q = s.orderAt q) ∧
  s'.levelAt = s.levelAt ∧ s'.bookAt = s.bookAt ∧ s'.Books = s.Books ∧
  s'.PastHistoryStore = s.PastHistoryStore

/-- A settlement contract that rejects every submission. -/
def rejectingExchange : ExchangeContract :=
  { ExecuteMatch := fun _ _ _ _ => none, ExecuteRingTrade := fun _ _ _ => none }

/-- The book at address `book` is laid out as the source lays books out: its
price levels are allocated objects, no level is bound in both trees, and each
level bound in a tree is non-empty and holds list elements that are distinct
objects, allocated before. -/
def WellFormedBook (s : OrderBookStore) (book : Nat) : Prop :=
  LevelsAllocated s book ∧
  (∀ nb ∈ (s.bookAt book).Bids, ∀ na ∈ (s.bookAt book).Asks, nb.2 ≠ na.2) ∧
  (∀ node ∈ (s.bookAt book).Bids ++ (s.bookAt book).Asks,
    (s.levelAt node.2).Orders ≠ [] ∧ ((s.levelAt node.2).Orders.map Element.id).Nodup ∧
    ∀ x ∈ (s.levelAt node.2).Orders, x.id < s.nextElem)

/-! ## Conditional orders -/

/-- The struct `ConditionalOrderEntry`, without `CreatedAt`. `Order` is the
address of the order, `ParentOrderID` the creator and nonce of the parent that
the source joins into one string. -/
structure ConditionalOrderEntry where
  Order : Nat
  ParentOrderID : Nat × Int
  ConditionalType : String
  TriggerPrice : Int
  TriggerSymbolIn : String
  TriggerSymbolOut : String
  IsTriggerAbove : Bool
deriving DecidableEq, Repr

/-- The struct `ConditionalOrderStore`: the map `conditionalOrders`, a list of
bindings with distinct keys. The order-book store it points to is passed
along with it. -/
structure ConditionalOrderStore where
  conditionalOrders : List ((Nat × Int) × ConditionalOrderEntry)
deriving DecidableEq, Repr

/-- The function `getConditionalOrderKey`: the string made of the creator and
the nonce, kept as the pair. -/
def getConditionalOrderKey (creator : Nat) (nonce : Int) : Nat × Int := (creator, nonce)

/-- The test `_, exists := store.conditionalOrders[orderKey]`. -/
def ConditionalOrderStore.exists (c : ConditionalOrderStore) (orderKey : Nat × Int) : Bool :=
  c.conditionalOrders.any (fun e => e.1 == orderKey)

/-- The statement `delete(store.conditionalOrders, orderKey)`. -/
def ConditionalOrderStore.delete (c : ConditionalOrderStore) (orderKey : Nat × Int) :
    ConditionalOrderStore :=
  { conditionalOrders := c.conditionalOrders.filter (fun e => e.1 != orderKey) }

/-- The statement `store.conditionalOrders[orderKey] = entry`. -/
def ConditionalOrderStore.assign (c : ConditionalOrderStore) (orderKey : Nat × Int)
    (entry : ConditionalOrderEntry) : ConditionalOrderStore :=
  { conditionalOrders := c.conditionalOrders.filter (fun e => e.1 != orderKey) ++ [(orderKey, entry)] }

/-- The value of `priceToCheck` in `CheckPriceTriggersForBook`: the last price
for an entry that watches the pair in the direction of the book, the inverted
price `PriceFactor^2 / lastPrice` for one that watches it the other way round,
and `none` for the `continue` of the third branch. -/
def priceToCheck (entry : ConditionalOrderEntry) (bookBase bookQuote : String) (lastPrice : Int) :
    Option Int :=
  if entry.TriggerSymbolIn = bookBase ∧ entry.TriggerSymbolOut = bookQuote then some lastPrice
  else if entry.TriggerSymbolIn = bookQuote ∧ entry.TriggerSymbolOut = bookBase then
    some (PriceFactor * PriceFactor / lastPrice)
  else none

/-- The value of `shouldTrigger` in `CheckPriceTriggersForBook`. -/
def shouldTrigger (entry : ConditionalOrderEntry) (priceToCheck : Int) : Bool :=
  if entry.IsTriggerAbove then decide (priceToCheck ≥ entry.TriggerPrice)
  else decide (priceToCheck ≤ entry.TriggerPrice)

/-- The second loop of `CheckPriceTriggersForBook`, over `entriesToCheck`. The
result is `none` for a panic in `AddOrder`, otherwise the two stores after the
loop and the entries that were deleted from the map and handed to `AddOrder`,
in the order of the calls. An entry whose `AddOrder` returns an error is put
back into the map. -/
def checkEntries (bookBase bookQuote : String) (lastPrice : Int) :
    List ConditionalOrderEntry → ConditionalOrderStore → OrderBookStore →
    Option (ConditionalOrderStore × OrderBookStore × List ConditionalOrderEntry)
  | [], c, s => some (c, s, [])
  | entry :: rest, c, s =>
    match priceToCheck entry bookBase bookQuote lastPrice with
    | none => checkEntries bookBase bookQuote lastPrice rest c s
    | some price =>
      if shouldTrigger entry price then
        let orderKey :=
          getConditionalOrderKey (s.orderAt entry.Order).CreatedBy (s.orderAt entry.Order).Nonce
        if c.exists orderKey then
          let c := c.delete orderKey
          match AddOrder s entry.Order with
          | none => none
          | some (s, some _) =>
            let c := c.assign orderKey entry
            match checkEntries bookBase bookQuote lastPrice rest c s with
            | none => none
            | some (c, s, fired) => some (c, s, entry :: fired)
          | some (s, none) =>
            match checkEntries bookBase bookQuote lastPrice rest c s with
            | none => none
            | some (c, s, fired) => some (c, s, entry :: fired)
        else checkEntries bookBase bookQuote lastPrice rest c s
      else checkEntries bookBase bookQuote lastPrice rest c s

/-- The method `ConditionalOrderStore.CheckPriceTriggersForBook`; `lastPrice`
is `none` for `nil`. `rangeEntries` gives the order in which `range` yields
the bindings of the map. The result is that of `checkEntries`. -/
def CheckPriceTriggersForBook
    (rangeEntries : List ((Nat × Int) × ConditionalOrderEntry) →
      List ((Nat × Int) × ConditionalOrderEntry))
    (c : ConditionalOrderStore) (s : OrderBookStore) (symbolIn symbolOut : String)
    (lastPrice : Option Int) :
    Option (ConditionalOrderStore × OrderBookStore × List ConditionalOrderEntry) :=
  match lastPrice with
  | none => some (c, s, [])
  | some lastPrice =>
    if lastPrice ≤ 0 then some (c, s, [])
    else
      let bookBase := symbolIn
      let bookQuote := symbolOut
      let entriesToCheck :=
        ((rangeEntries c.conditionalOrders).map (fun e => e.2)).filter (fun entry =>
          decide (GetPairKey entry.TriggerSymbolIn entry.TriggerSymbolOut =
            GetPairKey bookBase bookQuote))
      if entriesToCheck.length = 0 then some (c, s, [])
      else checkEntries bookBase bookQuote lastPrice entriesToCheck c s

/-- The condition under which an entry is to fire at the last price
`lastPrice` of the book of `base` and `quote`: it watches the pair of the
book, and the price in the direction it watches, `lastPrice` itself in the
direction of the book and `⌊10^36 / lastPrice⌋` in the other, is at or above
its trigger price when `IsTriggerAbove` is set and at or below it otherwise. -/
def ShouldFire (entry : ConditionalOrderEntry) (base quote : String) (lastPrice : Int) : Prop :=
  GetPairKey entry.TriggerSymbolIn entry.TriggerSymbolOut = GetPairKey base quote ∧
  ∃ p : Int,
    (if entry.TriggerSymbolIn = base ∧ entry.TriggerSymbolOut = quote then p = lastPrice
     else p = ⌊((10 : ℚ) ^ 36) / (lastPrice : ℚ)⌋) ∧
    ((entry.IsTriggerAbove = true ∧ p ≥ entry.TriggerPrice) ∨
      (entry.IsTriggerAbove = false ∧ p ≤ entry.TriggerPrice))

/-- Whether `CheckPriceTriggersForBook` finds the condition of an entry met:
`priceToCheck` is defined and `shouldTrigger` holds of it. -/
def triggers (bookBase bookQuote : String) (lastPrice : Int) (entry : ConditionalOrderEntry) :
    Bool :=
  match priceToCheck entry bookBase bookQuote lastPrice with
  | none => false
  | some price => shouldTrigger entry price

/-- The store of the conditional-fire scenario: the book of `A` and `B`, and at
address 0 the child order `A -> B {50, 90}` of creator 5, a stop-limit sell. -/
def stopLimitStore : OrderBookStore :=
  NewOrderBookStore ["A", "B"]
    (fun _ => { NewOrderOriginal 5 "A" "B" 50 90 7 with
                TriggerPrice := some 2000000000000000000 }) 1

/-- The entry `StoreConditionalOrder` makes of the child of `stopLimitStore`:
it watches `(A, B)` and fires at or below `2 * 10^18`. -/
def stopLimitEntry : ConditionalOrderEntry :=
  { Order := 0, ParentOrderID := (5, 6), ConditionalType := "STOP_LIMIT",
    TriggerPrice := 2000000000000000000, TriggerSymbolIn := "A", TriggerSymbolOut := "B",
    IsTriggerAbove := false }

/-- The conditional store that holds `stopLimitEntry` alone. -/
def stopLimitIndex : ConditionalOrderStore :=
  { conditionalOrders := [((5, 7), stopLimitEntry)] }

/-- The store for the book of `A` and `B` with three orders of three creators,
not yet added: the asks `A -> B {100, 200}` at address 0 and at the addresses
from 2 on, and the bid `B -> A {200, 100}` at address 1, all at the price
`2 * 10^18`. -/
def sharedLevelStore : OrderBookStore :=
  NewOrderBookStore ["A", "B"]
    (fun p => if p = 0 then NewOrderOriginal 1 "A" "B" 100 200 1
              else if p = 1 then NewOrderOriginal 2 "B" "A" 200 100 1
              else NewOrderOriginal 3 "A" "B" 100 200 1) 3

/-- The run on `sharedLevelStore` in which an order is cancelled while its
settlement is in flight: the two asks and the bid are added, `matchBook`
submits the first ask against the bid, `RemoveOrder` cancels the first ask,
and the settlement is confirmed. -/
def cancelPendingRun : Option OrderBookStore :=
  match addOrders sharedLevelStore [0, 2, 1] with
  | none => none
  | some s =>
    match matchBook acceptingExchange 0 1 s with
    | some (.returned s (some t)) =>
      some (confirmMatch 1 0 t (RemoveOrder s 1 1 (some 2000000000000000000) "A" "B")).1
    | _ => none

/-- The store `halfFillPending` after `RemoveOrder` has cancelled the bid,
whose settlement is in flight. -/
def bidCancelledPending : OrderBookStore :=
  RemoveOrder halfFillPending 2 1 (some 2000000000000000000) "B" "A"

/-! ## Status labels, and states used as concrete inputs -/

/-- The entry `Status` of the map `Order.ToStringMap` builds: the `switch` over
the constants `Matching` (0), `PendingConfirmation` (1), `Completed` (2),
`Cancelled` (3) and `PartialFill` (4) of `OrderStatus`, with `Unknown` for
every other value. -/
def ToStringMapStatus (o : Order) : String :=
  if o.Status = 0 then "Matching"
  else if o.Status = 1 then "PendingConfirmation"
  else if o.Status = 2 then "Completed"
  else if o.Status = 3 then "Cancelled"
  else if o.Status = 4 then "PartialFill"
  else "Unknown"

/-- The book of `A` and `B` with the ask `{2 * 10^18, 1}` of creator 1, whose
price `5 * 10^-19` has the key 0, and the bid `{50, 50}` of creator 2. -/
def zeroPriceBook : Option OrderBookStore := twoOrderBook 2000000000000000000 1 50 50

/-- Books with the orders `A -> B {10, 20}`, `B -> C {20, 20}` and
`C -> A {20, 20}`, nothing filled. -/
def surplusBooks : OrderBookStore := triangleBooks (10, 20) (20, 20) (20, 20)

/-- The store for the books of `A`, `B` and `C` with four orders of four
creators, not yet added: `A -> B {10, 10}` at address 0, `B -> C {10, 20}` at
address 1, `C -> B {20, 20}` at address 2 and `B -> A {20, 40}` at the other
addresses. In the book `(A, B)` the ask is at 1 and the bid at 0.5, in the
book `(B, C)` the ask is at 2 and the bid at 1: no book is crossed. -/
def crossBookStore : OrderBookStore :=
  NewOrderBookStore ["A", "B", "C"]
    (fun p => if p = 0 then NewOrderOriginal 1 "A" "B" 10 10 1
              else if p = 1 then NewOrderOriginal 2 "B" "C" 10 20 1
              else if p = 2 then NewOrderOriginal 3 "C" "B" 20 20 1
              else NewOrderOriginal 4 "B" "A" 20 40 1) 4

/-- The store `crossBookStore` after `AddOrder` of its four orders. -/
def crossBookBooks : OrderBookStore :=
  (addOrders crossBookStore [0, 1, 2, 3]).getD crossBookStore

/-- The ring over the four orders of `crossBookBooks`, through the book
`(A, B)`, twice through the book `(B, C)` and back through `(A, B)`. -/
def crossBookRing : RingPath :=
  { Orders := [0, 1, 2, 3], Books := [0, 2, 2, 0], PriceLevels := [0, 1, 2, 3],
    Elements := [{ id := 0, Value := 0 }, { id := 1, Value := 1 }, { id := 2, Value := 2 },
                 { id := 3, Value := 3 }],
    TradeAmounts := [10, 10, 20, 20] }

/-! ## A pass of the matcher that ends in a submission -/

/-- The store `s'` has the price levels and books of `s` and the orders of
`s`, an uninitialised `FilledAmtIn` counted as the `0` it stands for. -/
def SameOrders (s s' : OrderBookStore) : Prop :=
  (∀ q, (s'.orderAt q).normal = (s.orderAt q).normal) ∧
  s'.levelAt = s.levelAt ∧ s'.bookAt = s.bookAt

/-- A pass of the loop of `matchBook` started in `s` reaches the call of
`ExecuteMatch`: two orders are selected, both have something left, and the
fill arithmetic gives a trade. -/
def ReachesSubmission (book : Nat) (s : OrderBookStore) : Prop :=
  ∃ sel b q, selectOrders book s = some sel ∧
    ¬ (s.orderAt sel.bidElem.Value).remaining ≤ 0 ∧
    ¬ (s.orderAt sel.askElem.Value).remaining ≤ 0 ∧
    tradeQuantities (s.orderAt sel.bidElem.Value).AmtIn (s.orderAt sel.bidElem.Value).AmtOut
      (s.orderAt sel.askElem.Value).AmtIn (s.orderAt sel.askElem.Value).AmtOut
      (s.orderAt sel.bidElem.Value).remaining (s.orderAt sel.askElem.Value).remaining
      sel.askPriceKey = .trade b q

/-- The book of the bid dust scenario: ask `{10, 10}`, bid `{100, 100}`. -/
def bidDustBook : OrderBookStore :=
  (twoOrderBook 10 10 100 100).getD (twoOrderStore 10 10 100 100)

/-- The trade `matchBook` submits on `bidDustBook`. -/
def bidDustTrade : PendingMatch :=
  { finalBidOrder := 1, finalAskOrder := 0, finalBidElem := { id := 1, Value := 1 },
    finalAskElem := { id := 0, Value := 0 }, finalBidLevel := 1, finalAskLevel := 0,
    finalBidPriceKey := 1000000000000000000, finalAskPriceKey := 1000000000000000000,
    finalTradeBaseQty := 10, finalTradeQuoteQty := 100,
    finalExecutionPrice := 1000000000000000000, txHash := "0xmatch" }

/-- The store `matchBook` leaves on `bidDustBook`: both orders pending. -/
def bidDustPending : OrderBookStore :=
  { setStatusPair (initFilledPair bidDustBook 1 0) 1 0 1 with exchangeCalls := 1 }

/-- The method `validateRing` with its block `if len(ring.Orders) == 2 { ... }`
left out: the function the claim on rings of two orders compares
`validateRing` with. -/
def validateRingNoPairCheck (s : OrderBookStore) (ring : RingPath) : Option Bool :=
  if ring.Orders.length < 2 then some false
  else
    match ring.Orders.head?, ring.Orders.getLast? with
    | some first, some last =>
      let firstOrder := s.orderAt first
      let lastOrder := s.orderAt last
      if lastOrder.SymbolOut ≠ firstOrder.SymbolIn then some false
      else
        let uniqueTokens :=
          (ring.Orders.foldr (fun o acc => (s.orderAt o).SymbolIn :: (s.orderAt o).SymbolOut :: acc)
            []).dedup
        if uniqueTokens.length < 3 then some false
        else
          match calculateRingBottleneck s ring with
          | none => none
          | some bottleneck => some (decide (0 < bottleneck))
    | _, _ => some false

/-! ## Storing and firing conditional orders -/

/-- The errors `StoreConditionalOrder` and `AddConditionalOrder` return. -/
inductive ConditionalOrderError where
  | orderIsNil
  | invalidSymbols
  | invalidAmtIn
  | invalidAmtOut
  | invalidTriggerPrice
  | unsupportedConditionalType
  | alreadyExists
  | tokensDoNotMatchAnyBook
deriving DecidableEq, Repr

/-- The map read `entry, exists := store.conditionalOrders[orderKey]`; `none`
for `exists = false`. -/
def ConditionalOrderStore.get (c : ConditionalOrderStore) (orderKey : Nat × Int) :
    Option ConditionalOrderEntry :=
  (c.conditionalOrders.find? (fun e => e.1 == orderKey)).map (fun e => e.2)

/-- The method `ConditionalOrderStore.GetConditionalOrder`; `none` is the error
"conditional order not found". -/
def GetConditionalOrder (c : ConditionalOrderStore) (creator : Nat) (nonce : Int) :
    Option ConditionalOrderEntry :=
  c.get (getConditionalOrderKey creator nonce)

/-- The method `ConditionalOrderStore.AddConditionalOrder`; the order is given
by its address, `none` for a `nil` pointer. The result is the map after the
call and the error returned, `none` for `nil`. The amounts and the nonce of an
order are numbers here, so the tests for a `nil` `AmtIn`, `AmtOut` or `Nonce`
have no counterpart. -/
def AddConditionalOrder (c : ConditionalOrderStore) (s : OrderBookStore)
    (conditionalOrder : Option Nat) (parentOrderID : Nat × Int) (conditionalType : String)
    (triggerSymbolIn triggerSymbolOut : String) (isTriggerAbove : Bool) :
    ConditionalOrderStore × Option ConditionalOrderError :=
  match conditionalOrder with
  | none => (c, some .orderIsNil)
  | some p =>
    let order := s.orderAt p
    if order.SymbolIn = "" ∨ order.SymbolOut = "" then (c, some .invalidSymbols)
    else if order.AmtIn ≤ 0 then (c, some .invalidAmtIn)
    else if order.AmtOut ≤ 0 then (c, some .invalidAmtOut)
    else
      match order.TriggerPrice with
      | none => (c, some .invalidTriggerPrice)
      | some triggerPrice =>
        if triggerPrice ≤ 0 then (c, some .invalidTriggerPrice)
        else if conditionalType ≠ "STOP_LIMIT" then (c, some .unsupportedConditionalType)
        else
          let orderKey := getConditionalOrderKey order.CreatedBy order.Nonce
          if c.exists orderKey then (c, some .alreadyExists)
          else
            let entry : ConditionalOrderEntry :=
              { Order := p, ParentOrderID := parentOrderID, ConditionalType := conditionalType,
                TriggerPrice := triggerPrice, TriggerSymbolIn := triggerSymbolIn,
                TriggerSymbolOut := triggerSymbolOut, IsTriggerAbove := isTriggerAbove }
            (c.assign orderKey entry, none)

/-- The method `OrderBookStore.StoreConditionalOrder`, on the order-book store
and the conditional store it points to; the order is given by its address,
`none` for a `nil` pointer. The result is the two stores after the call and
the error returned, `none` for `nil`. -/
def StoreConditionalOrder (c : ConditionalOrderStore) (s : OrderBookStore)
    (conditionalOrder : Option Nat) (parentOrderID : Nat × Int) :
    OrderBookStore × ConditionalOrderStore × Option ConditionalOrderError :=
  match conditionalOrder with
  | none => (s, c, some .orderIsNil)
  | some p =>
    let s :=
      if (s.orderAt p).ConditionalOrder ≠ none then
        s.setOrder p { s.orderAt p with ConditionalOrder := none }
      else s
    let order := s.orderAt p
    let invalid : Bool :=
      match order.TriggerPrice with
      | none => true
      | some triggerPrice => decide (triggerPrice ≤ 0)
    if invalid then (s, c, some .invalidTriggerPrice)
    else
      let conditionalType := "STOP_LIMIT"
      let (base, quote) := GetPairKey order.SymbolIn order.SymbolOut
      if order.SymbolIn = base ∧ order.SymbolOut = quote then
        let r := AddConditionalOrder c s (some p) parentOrderID conditionalType base quote false
        (s, r.1, r.2)
      else if order.SymbolIn = quote ∧ order.SymbolOut = base then
        let r := AddConditionalOrder c s (some p) parentOrderID conditionalType base quote true
        (s, r.1, r.2)
      else (s, c, some .tokensDoNotMatchAnyBook)

/-- The block both loops over `entriesToCheck` run for an entry whose
condition is met, from `store.mu.Lock()` on: the test that the key of the
entry is still in the map, the deletion, the call of `AddOrder` and the
assignment that puts the entry back when `AddOrder` returns an error. The
result is `none` for a panic in `AddOrder`, otherwise the two stores and
whether `AddOrder` was called. -/
def fireEntry (c : ConditionalOrderStore) (s : OrderBookStore) (entry : ConditionalOrderEntry) :
    Option (ConditionalOrderStore × OrderBookStore × Bool) :=
  let orderKey :=
    getConditionalOrderKey (s.orderAt entry.Order).CreatedBy (s.orderAt entry.Order).Nonce
  if c.exists orderKey then
    let c := c.delete orderKey
    match AddOrder s entry.Order with
    | none => none
    | some (s, some _) => some (c.assign orderKey entry, s, true)
    | some (s, none) => some (c, s, true)
  else some (c, s, false)

/-- The method `checkStopLimitCondition`, its first result: whether the mid
price of the watched pair meets the trigger test. -/
def checkStopLimitCondition (s : OrderBookStore) (entry : ConditionalOrderEntry) : Bool :=
  match GetMarketPrice s entry.TriggerSymbolIn entry.TriggerSymbolOut with
  | none => false
  | some marketPrice =>
    match marketPrice.MidPrice with
    | none => false
    | some currentPrice =>
      if entry.IsTriggerAbove then decide (currentPrice ≥ entry.TriggerPrice)
      else decide (currentPrice ≤ entry.TriggerPrice)

/-- The loop of `checkAndTriggerConditionalOrders` over `entriesToCheck`, with
the result of `checkEntries`: `none` for a panic in `AddOrder`, otherwise the
two stores after the loop and the entries handed to `AddOrder`. -/
def scanEntries :
    List ConditionalOrderEntry → ConditionalOrderStore → OrderBookStore →
    Option (ConditionalOrderStore × OrderBookStore × List ConditionalOrderEntry)
  | [], c, s => some (c, s, [])
  | entry :: rest, c, s =>
    if entry.ConditionalType = "STOP_LIMIT" then
      if checkStopLimitCondition s entry then
        let orderKey :=
          getConditionalOrderKey (s.orderAt entry.Order).CreatedBy (s.orderAt entry.Order).Nonce
        if c.exists orderKey then
          let c := c.delete orderKey
          match AddOrder s entry.Order with
          | none => none
          | some (s, some _) =>
            let c := c.assign orderKey entry
            match scanEntries rest c s with
            | none => none
            | some (c, s, fired) => some (c, s, entry :: fired)
          | some (s, none) =>
            match scanEntries rest c s with
            | none => none
            | some (c, s, fired) => some (c, s, entry :: fired)
        else scanEntries rest c s
      else scanEntries rest c s
    else scanEntries rest c s

/-- The method `checkAndTriggerConditionalOrders`, the body of the periodic
scan. `rangeEntries` gives the order in which `range` yields the bindings of
the map. -/
def checkAndTriggerConditionalOrders
    (rangeEntries : List ((Nat × Int) × ConditionalOrderEntry) →
      List ((Nat × Int) × ConditionalOrderEntry))
    (c : ConditionalOrderStore) (s : OrderBookStore) :
    Option (ConditionalOrderStore × OrderBookStore × List ConditionalOrderEntry) :=
  let entriesToCheck := (rangeEntries c.conditionalOrders).map (fun e => e.2)
  if entriesToCheck.length = 0 then some (c, s, [])
  else scanEntries entriesToCheck c s

/-- What follows an entry in a loop over `entriesToCheck`: the rest of the loop
`loop` runs on the stores the block `fireEntry` has left, and the entry is
listed when `AddOrder` was called for it. -/
def thenLoop (entry : ConditionalOrderEntry)
    (loop : ConditionalOrderStore → OrderBookStore →
      Option (ConditionalOrderStore × OrderBookStore × List ConditionalOrderEntry))
    (r : Option (ConditionalOrderStore × OrderBookStore × Bool)) :
    Option (ConditionalOrderStore × OrderBookStore × List ConditionalOrderEntry) :=
  match r with
  | none => none
  | some (c, s, called) =>
    match loop c s with
    | none => none
    | some (c, s, fired) => some (c, s, if called then entry :: fired else fired)

/-- The trade amounts of a path as the ring search builds them: the path has
orders, one trade amount for each of them, and every trade amount is positive
(each is a remaining amount that passed the test `> 0` of
`collectUnmatchedOrders`, `findAndExecuteOneRing` or `dfsRing`). -/
def PositiveTradeAmounts (ring : RingPath) : Prop :=
  ring.Orders ≠ [] ∧ ring.TradeAmounts.length = ring.Orders.length ∧
  ∀ t ∈ ring.TradeAmounts, 0 < t

/-! ## Theorems -/

set_option maxRecDepth 100000 in
/-- C1 (evaluation at the failing input). `AddOrder` of the ask
`{amtIn = 3, amtOut = 26}` into the empty book `(A, B)` is accepted and stores
the limit price `8666666666666666667`, also as the key of the ask level, while
`floor(26 * 10^18 / 3)` is `8666666666666666666`. -/
theorem AddOrder_limitPrice_exceeds_floor :
    (AddOrder (twoOrderStore 3 26 26 3) 0).map
        (fun r => (r.2, (r.1.orderAt 0).LimitPrice, (r.1.bookAt 0).Asks))
      = some (none, some 8666666666666666667, [(8666666666666666667, 0)]) ∧
    (26 : Int) * PriceFactor / 3 = 8666666666666666666 := by
  decide

/-! ## Lemmas on the fill arithmetic -/

theorem PriceFactor_pos : (0 : Int) < PriceFactor := by decide

/-- A quantity derived from `q` at a positive price and converted back does not exceed `q`. -/
theorem back_conversion_le {q ex b : Int} (hex : 0 < ex) (hb : b ≤ q * PriceFactor / ex) :
    b * ex / PriceFactor ≤ q := by
  apply Int.ediv_le_of_le_mul PriceFactor_pos
  calc b * ex ≤ (q * PriceFactor / ex) * ex := Int.mul_le_mul_of_nonneg_right hb (le_of_lt hex)
    _ ≤ q * PriceFactor := Int.ediv_mul_le _ (ne_of_gt hex)

/-- At a negative price a positive base quantity converts to a negative quote quantity. -/
theorem conversion_neg {b ex : Int} (hb : 0 < b) (hex : ex < 0) : b * ex / PriceFactor < 0 :=
  Int.ediv_neg' (Int.mul_neg_of_pos_of_neg hb hex) PriceFactor_pos

theorem enoughQuote_spec {bRem aRem ex b0 b1 q1 : Int}
    (h : enoughQuote bRem aRem ex b0 (b0 * ex / PriceFactor) = some (b1, q1))
    (hbRem : 0 < bRem) (hb0 : 0 < b0) (hle : b0 ≤ aRem) :
    b1 ≤ aRem ∧ q1 ≤ bRem ∧ b1 * ex / PriceFactor ≤ q1 := by
  unfold enoughQuote at h
  dsimp only at h
  split_ifs at h with h1 h2 h3
  · simp only [Option.some.injEq, Prod.mk.injEq] at h
    obtain ⟨rfl, rfl⟩ := h
    have hex : 0 < ex := by
      rcases lt_trichotomy ex 0 with hneg | hz | hpos
      · have := conversion_neg hb0 hneg
        omega
      · exact absurd hz h2
      · exact hpos
    refine ⟨le_refl _, ?_, le_refl _⟩
    exact back_conversion_le hex (le_of_lt h3)
  · simp only [Option.some.injEq, Prod.mk.injEq] at h
    obtain ⟨rfl, rfl⟩ := h
    have hex : 0 < ex := by
      rcases lt_trichotomy ex 0 with hneg | hz | hpos
      · have := conversion_neg hb0 hneg
        omega
      · exact absurd hz h2
      · exact hpos
    refine ⟨le_of_not_gt h3, le_refl _, ?_⟩
    exact back_conversion_le hex (le_refl _)
  · simp only [Option.some.injEq, Prod.mk.injEq] at h
    obtain ⟨rfl, rfl⟩ := h
    exact ⟨hle, le_of_not_gt h1, le_refl _⟩

theorem bidDust_spec {bRem aRem ex after b1 q1 b2 q2 : Int}
    (h : bidDust bRem aRem ex after b1 q1 = some (b2, q2))
    (hbRem : 0 < bRem) (hb : b1 ≤ aRem) (hq : q1 ≤ bRem) (hp : b1 * ex / PriceFactor ≤ q1) :
    b2 ≤ aRem ∧ q2 ≤ bRem ∧ (0 < b2 → b2 * ex / PriceFactor ≤ q2) := by
  unfold bidDust at h
  dsimp only at h
  split_ifs at h with h1 h2 h3
  · simp only [Option.some.injEq, Prod.mk.injEq] at h
    obtain ⟨rfl, rfl⟩ := h
    refine ⟨le_refl _, le_refl _, fun hpos => ?_⟩
    rcases lt_trichotomy ex 0 with hneg | hz | hex
    · have := conversion_neg hpos hneg
      omega
    · exact absurd hz h2
    · exact back_conversion_le hex (le_of_lt h3)
  · simp only [Option.some.injEq, Prod.mk.injEq] at h
    obtain ⟨rfl, rfl⟩ := h
    refine ⟨le_of_not_gt h3, le_refl _, fun hpos => ?_⟩
    rcases lt_trichotomy ex 0 with hneg | hz | hex
    · have := conversion_neg hpos hneg
      omega
    · exact absurd hz h2
    · exact back_conversion_le hex (le_refl _)
  · simp only [Option.some.injEq, Prod.mk.injEq] at h
    obtain ⟨rfl, rfl⟩ := h
    exact ⟨hb, hq, fun _ => hp⟩

theorem askDust_spec {bRem aRem ex after b2 q2 b3 q3 : Int}
    (h : askDust bRem aRem ex after b2 q2 = (b3, q3))
    (hb : b2 ≤ aRem) (hq : q2 ≤ bRem) (hp : 0 < b2 → b2 * ex / PriceFactor ≤ q2) :
    b3 ≤ aRem ∧ q3 ≤ bRem ∧
      ((0 < b3 → b3 * ex / PriceFactor ≤ q3) ∨
        (b3 = aRem ∧ q3 = bRem ∧ bRem < aRem * ex / PriceFactor)) := by
  unfold askDust at h
  dsimp only at h
  split_ifs at h with h1 h2
  · simp only [Prod.mk.injEq] at h
    obtain ⟨rfl, rfl⟩ := h
    exact ⟨le_refl _, le_refl _, Or.inr ⟨rfl, rfl, h2⟩⟩
  · simp only [Prod.mk.injEq] at h
    obtain ⟨rfl, rfl⟩ := h
    exact ⟨le_refl _, le_of_not_gt h2, Or.inl fun _ => le_refl _⟩
  · simp only [Prod.mk.injEq] at h
    obtain ⟨rfl, rfl⟩ := h
    exact ⟨hb, hq, Or.inl hp⟩

theorem provisionalBaseQty_le (bAin bAout bRem aRem : Int) :
    provisionalBaseQty bAin bAout bRem aRem ≤ aRem := by
  unfold provisionalBaseQty
  simp only
  split_ifs with h
  · exact le_refl _
  · exact le_of_not_gt h

/-- What the fill arithmetic guarantees for a trade it lets through. -/
theorem tradeQuantities_spec {bAin bAout aAin aAout bRem aRem ex b q : Int}
    (h : tradeQuantities bAin bAout aAin aAout bRem aRem ex = .trade b q) (hbRem : 0 < bRem) :
    0 < b ∧ b ≤ aRem ∧ 0 < q ∧ q ≤ bRem ∧
      (b * ex / PriceFactor ≤ q ∨ (b = aRem ∧ q = bRem ∧ bRem < aRem * ex / PriceFactor)) := by
  unfold tradeQuantities at h
  by_cases h1 : bAin = 0
  · simp [h1] at h
  by_cases h2 : aAin = 0
  · simp [h1, h2] at h
  by_cases h3 : provisionalBaseQty bAin bAout bRem aRem ≤ 0
  · simp [h1, h2, h3] at h
  simp only [if_neg h1, if_neg h2, if_neg h3] at h
  rcases he : enoughQuote bRem aRem ex (provisionalBaseQty bAin bAout bRem aRem)
      (provisionalBaseQty bAin bAout bRem aRem * ex / PriceFactor) with _ | ⟨b1, q1⟩
  · simp [he] at h
  simp only [he] at h
  rcases hd : bidDust bRem aRem ex (bRem - q1) b1 q1 with _ | ⟨b2, q2⟩
  · simp [hd] at h
  simp only [hd] at h
  rcases ha : askDust bRem aRem ex (aRem - b1) b2 q2 with ⟨b3, q3⟩
  simp only [ha] at h
  by_cases h4 : b3 ≤ 0 ∨ q3 ≤ 0
  · simp [h4] at h
  simp only [if_neg h4, Quantities.trade.injEq] at h
  obtain ⟨rfl, rfl⟩ := h
  have hb0 := provisionalBaseQty_le bAin bAout bRem aRem
  obtain ⟨e1, e2, e3⟩ := enoughQuote_spec he hbRem (lt_of_not_ge h3) hb0
  obtain ⟨d1, d2, d3⟩ := bidDust_spec hd hbRem e1 e2 e3
  obtain ⟨a1, a2, a3⟩ := askDust_spec ha d1 d2 d3
  push_neg at h4
  refine ⟨h4.1, a1, h4.2, a2, ?_⟩
  rcases a3 with a3 | a3
  · exact Or.inl (a3 h4.1)
  · exact Or.inr a3

/-! ## Lemmas on the store -/

@[simp] theorem setOrder_orderAt (s : OrderBookStore) (p q : Nat) (o : Order) :
    (s.setOrder p o).orderAt q = if q = p then o else s.orderAt q := by
  simp [OrderBookStore.setOrder, Function.update_apply]

@[simp] theorem setOrder_levelAt (s : OrderBookStore) (p : Nat) (o : Order) :
    (s.setOrder p o).levelAt = s.levelAt := rfl

@[simp] theorem setOrder_bookAt (s : OrderBookStore) (p : Nat) (o : Order) :
    (s.setOrder p o).bookAt = s.bookAt := rfl

@[simp] theorem setOrder_exchangeCalls (s : OrderBookStore) (p : Nat) (o : Order) :
    (s.setOrder p o).exchangeCalls = s.exchangeCalls := rfl

@[simp] theorem setLevel_orderAt (s : OrderBookStore) (p : Nat) (l : PriceLevel) :
    (s.setLevel p l).orderAt = s.orderAt := rfl

@[simp] theorem setLevel_levelAt (s : OrderBookStore) (p q : Nat) (l : PriceLevel) :
    (s.setLevel p l).levelAt q = if q = p then l else s.levelAt q := by
  simp [OrderBookStore.setLevel, Function.update_apply]

@[simp] theorem setLevel_bookAt (s : OrderBookStore) (p : Nat) (l : PriceLevel) :
    (s.setLevel p l).bookAt = s.bookAt := rfl

@[simp] theorem setBook_orderAt (s : OrderBookStore) (p : Nat) (b : MarketOrderBook) :
    (s.setBook p b).orderAt = s.orderAt := rfl

@[simp] theorem setBook_levelAt (s : OrderBookStore) (p : Nat) (b : MarketOrderBook) :
    (s.setBook p b).levelAt = s.levelAt := rfl

@[simp] theorem setBook_bookAt (s : OrderBookStore) (p q : Nat) (b : MarketOrderBook) :
    (s.setBook p b).bookAt q = if q = p then b else s.bookAt q := by
  simp [OrderBookStore.setBook, Function.update_apply]

@[simp] theorem AddToPastHistory_orderAt (s : OrderBookStore) (p : Nat) :
    (s.AddToPastHistory p).orderAt = s.orderAt := rfl

@[simp] theorem AddToPastHistory_levelAt (s : OrderBookStore) (p : Nat) :
    (s.AddToPastHistory p).levelAt = s.levelAt := rfl

@[simp] theorem AddToPastHistory_bookAt (s : OrderBookStore) (p : Nat) :
    (s.AddToPastHistory p).bookAt = s.bookAt := rfl

@[simp] theorem initFilled_levelAt (s : OrderBookStore) (p : Nat) :
    (s.initFilled p).levelAt = s.levelAt := by
  unfold OrderBookStore.initFilled
  split <;> rfl

@[simp] theorem initFilled_bookAt (s : OrderBookStore) (p : Nat) :
    (s.initFilled p).bookAt = s.bookAt := by
  unfold OrderBookStore.initFilled
  split <;> rfl

@[simp] theorem initFilled_exchangeCalls (s : OrderBookStore) (p : Nat) :
    (s.initFilled p).exchangeCalls = s.exchangeCalls := by
  unfold OrderBookStore.initFilled
  split <;> rfl

/-- The initialisation of `FilledAmtIn` changes that field only, and only from `nil` to `0`. -/
theorem initFilled_orderAt (s : OrderBookStore) (p q : Nat) :
    (s.initFilled p).orderAt q =
      if q = p then { s.orderAt p with FilledAmtIn := some (s.orderAt p).filled } else s.orderAt q := by
  unfold OrderBookStore.initFilled
  split
  · rename_i h
    simp [Order.filled, h]
  · rename_i v h
    split_ifs with hq
    · subst hq
      cases ho : s.orderAt q
      simp only [ho] at h
      simp [Order.filled, h]
    · rfl

theorem initFilled_fields (s : OrderBookStore) (p q : Nat) :
    ((s.initFilled p).orderAt q).filled = (s.orderAt q).filled ∧
    ((s.initFilled p).orderAt q).AmtIn = (s.orderAt q).AmtIn ∧
    ((s.initFilled p).orderAt q).AmtOut = (s.orderAt q).AmtOut ∧
    ((s.initFilled p).orderAt q).Status = (s.orderAt q).Status ∧
    ((s.initFilled p).orderAt q).CreatedBy = (s.orderAt q).CreatedBy := by
  rw [initFilled_orderAt]
  split_ifs with h
  · subst h
    simp [Order.filled]
  · simp

theorem initFilledPair_fields (s : OrderBookStore) (b a q : Nat) :
    ((initFilledPair s b a).orderAt q).filled = (s.orderAt q).filled ∧
    ((initFilledPair s b a).orderAt q).AmtIn = (s.orderAt q).AmtIn ∧
    ((initFilledPair s b a).orderAt q).AmtOut = (s.orderAt q).AmtOut ∧
    ((initFilledPair s b a).orderAt q).Status = (s.orderAt q).Status ∧
    ((initFilledPair s b a).orderAt q).CreatedBy = (s.orderAt q).CreatedBy := by
  unfold initFilledPair
  obtain ⟨h1, h2, h3, h4, h5⟩ := initFilled_fields (s.initFilled b) a q
  obtain ⟨g1, g2, g3, g4, g5⟩ := initFilled_fields s b q
  exact ⟨h1.trans g1, h2.trans g2, h3.trans g3, h4.trans g4, h5.trans g5⟩

theorem initFilledPair_remaining (s : OrderBookStore) (b a q : Nat) :
    ((initFilledPair s b a).orderAt q).remaining = (s.orderAt q).remaining := by
  obtain ⟨h1, h2, -⟩ := initFilledPair_fields s b a q
  simp [Order.remaining, h1, h2]

@[simp] theorem initFilledPair_bookAt (s : OrderBookStore) (b a : Nat) :
    (initFilledPair s b a).bookAt = s.bookAt := by
  simp [initFilledPair]

@[simp] theorem initFilledPair_levelAt (s : OrderBookStore) (b a : Nat) :
    (initFilledPair s b a).levelAt = s.levelAt := by
  simp [initFilledPair]

@[simp] theorem initFilledPair_exchangeCalls (s : OrderBookStore) (b a : Nat) :
    (initFilledPair s b a).exchangeCalls = s.exchangeCalls := by
  simp [initFilledPair]

@[simp] theorem setStatusPair_bookAt (s : OrderBookStore) (b a : Nat) (st : Int) :
    (setStatusPair s b a st).bookAt = s.bookAt := rfl

@[simp] theorem setStatusPair_levelAt (s : OrderBookStore) (b a : Nat) (st : Int) :
    (setStatusPair s b a st).levelAt = s.levelAt := rfl

@[simp] theorem setStatusPair_exchangeCalls (s : OrderBookStore) (b a : Nat) (st : Int) :
    (setStatusPair s b a st).exchangeCalls = s.exchangeCalls := rfl

/-- Marking a pair of orders changes the `Status` of those two orders and nothing else. -/
theorem setStatusPair_orderAt (s : OrderBookStore) (b a q : Nat) (st : Int) :
    (setStatusPair s b a st).orderAt q =
      if q = a ∨ q = b then { s.orderAt q with Status := st } else s.orderAt q := by
  unfold setStatusPair
  simp only [setOrder_orderAt]
  by_cases hqa : q = a
  · subst hqa
    by_cases hqb : q = b
    · subst hqb; simp
    · simp [hqb]
  · by_cases hqb : q = b
    · subst hqb; simp [hqa]
    · simp [hqa, hqb]

/-- What a pass of the loop body that submits a trade has done. -/
theorem matchStep_submitted {ex : ExchangeContract} {book : Nat} {s s' : OrderBookStore}
    {t : PendingMatch} (h : matchStep ex book s = .submitted t s') :
    ∃ sel txHash, selectOrders book s = some sel ∧
      0 < (s.orderAt sel.bidElem.Value).remaining ∧
      0 < (s.orderAt sel.askElem.Value).remaining ∧
      tradeQuantities (s.orderAt sel.bidElem.Value).AmtIn (s.orderAt sel.bidElem.Value).AmtOut
        (s.orderAt sel.askElem.Value).AmtIn (s.orderAt sel.askElem.Value).AmtOut
        (s.orderAt sel.bidElem.Value).remaining (s.orderAt sel.askElem.Value).remaining
        sel.askPriceKey = .trade t.finalTradeBaseQty t.finalTradeQuoteQty ∧
      t = { finalBidOrder := sel.bidElem.Value, finalAskOrder := sel.askElem.Value,
            finalBidElem := sel.bidElem, finalAskElem := sel.askElem,
            finalBidLevel := sel.bidLevel, finalAskLevel := sel.askLevel,
            finalBidPriceKey := sel.bidPriceKey, finalAskPriceKey := sel.askPriceKey,
            finalTradeBaseQty := t.finalTradeBaseQty, finalTradeQuoteQty := t.finalTradeQuoteQty,
            finalExecutionPrice := sel.askPriceKey, txHash := txHash } ∧
      s' = { setStatusPair (initFilledPair s sel.bidElem.Value sel.askElem.Value)
               sel.bidElem.Value sel.askElem.Value 1 with
             exchangeCalls := s.exchangeCalls + 1 } := by
  unfold matchStep at h
  rcases hsel : selectOrders book s with _ | sel
  · simp [hsel] at h
  simp only [hsel] at h
  have hf := initFilledPair_fields s sel.bidElem.Value sel.askElem.Value
  have hr := initFilledPair_remaining s sel.bidElem.Value sel.askElem.Value
  simp only [hr, (hf _).2.1, (hf _).2.2.1] at h
  by_cases h1 : (s.orderAt sel.bidElem.Value).remaining ≤ 0
  · simp [h1] at h
  by_cases h2 : (s.orderAt sel.askElem.Value).remaining ≤ 0
  · simp [h1, h2] at h
  simp only [if_neg h1, if_neg h2] at h
  rcases hq : tradeQuantities (s.orderAt sel.bidElem.Value).AmtIn
      (s.orderAt sel.bidElem.Value).AmtOut (s.orderAt sel.askElem.Value).AmtIn
      (s.orderAt sel.askElem.Value).AmtOut (s.orderAt sel.bidElem.Value).remaining
      (s.orderAt sel.askElem.Value).remaining sel.askPriceKey with _ | _ | ⟨b, q⟩
  · simp [hq] at h
  · simp [hq] at h
  simp only [hq] at h
  split at h
  · simp at h
  · rename_i txHash hcall
    simp only [MatchStep.submitted.injEq] at h
    obtain ⟨rfl, rfl⟩ := h
    exact ⟨sel, txHash, rfl, lt_of_not_ge h1, lt_of_not_ge h2, hq, rfl, by simp⟩

/-- A trade is submitted by a pass of the loop body, reached through passes that `continue`. -/
theorem matchBook_submitted {ex : ExchangeContract} {book : Nat} (fuel : Nat) :
    ∀ {s s' : OrderBookStore} {t : PendingMatch},
      matchBook ex book fuel s = some (.returned s' (some t)) →
      ∃ s0, Continues ex book s s0 ∧ matchStep ex book s0 = .submitted t s' := by
  induction fuel with
  | zero =>
    intro s s' t h
    simp [matchBook] at h
  | succ fuel ih =>
    intro s s' t h
    rw [matchBook] at h
    cases hstep : matchStep ex book s with
    | done s1 =>
      rw [hstep] at h
      simp at h
    | again s1 =>
      rw [hstep] at h
      obtain ⟨s0, hc, hs⟩ := ih h
      exact ⟨s0, Continues.pass hstep hc, hs⟩
    | submitted t1 s1 =>
      rw [hstep] at h
      simp only [Option.some.injEq, MatchOutcome.returned.injEq] at h
      obtain ⟨rfl, rfl⟩ := h
      exact ⟨s, Continues.here s, hstep⟩
    | fault =>
      rw [hstep] at h
      simp at h

/-- What `selectOrders` has checked when it yields a selection. -/
theorem selectOrders_spec {book : Nat} {s : OrderBookStore} {sel : Selection}
    (h : selectOrders book s = some sel) :
    Tree.Left BigIntDescendingComparator (s.bookAt book).Bids
        = some (sel.bidPriceKey, sel.bidLevel) ∧
    Tree.Left BigIntAscendingComparator (s.bookAt book).Asks
        = some (sel.askPriceKey, sel.askLevel) ∧
    sel.askPriceKey ≤ sel.bidPriceKey ∧
    hasPending s (s.levelAt sel.bidLevel) = false ∧
    hasPending s (s.levelAt sel.askLevel) = false ∧
    firstReady s (s.levelAt sel.bidLevel) = some sel.bidElem ∧
    firstReady s (s.levelAt sel.askLevel) = some sel.askElem ∧
    (s.orderAt sel.bidElem.Value).CreatedBy ≠ (s.orderAt sel.askElem.Value).CreatedBy := by
  unfold selectOrders at h
  split at h
  · rename_i bk bl ak al hb ha
    split_ifs at h with h1 h2 h3
    split at h
    · rename_i be ae hbe hae
      split_ifs at h with h4
      simp only [Option.some.injEq] at h
      subst h
      refine ⟨hb, ha, ?_, by simpa using h2, by simpa using h3, hbe, hae, h4⟩
      show ak ≤ bk
      unfold BigIntAscendingComparator at h1
      split_ifs at h1 with c1 c2
      · exact absurd (by decide : (-1 : Int) < 0) h1
      · omega
      · omega
    · simp at h
  · simp at h

/-- The settlement of one participant leaves its amounts as they are. -/
theorem settleOrder_fields (s : OrderBookStore) (o l : Nat) (e : Element) (r : Int) (q : Nat) :
    ((settleOrder s o l e r).1.orderAt q).filled = (s.orderAt q).filled ∧
    ((settleOrder s o l e r).1.orderAt q).AmtIn = (s.orderAt q).AmtIn := by
  unfold settleOrder
  split_ifs with h
  · dsimp only
    split <;> (simp only [setOrder_orderAt, setLevel_orderAt, AddToPastHistory_orderAt]
               split_ifs with hq <;> simp [Order.filled, hq])
  · simp only [setOrder_orderAt, AddToPastHistory_orderAt]
    split_ifs with hq <;> simp [Order.filled, hq]

@[simp] theorem removePriceKey_orderAt (s : OrderBookStore) (book : Nat) (isBid : Bool)
    (k : Int) : (removePriceKey s book isBid k).orderAt = s.orderAt := rfl

@[simp] theorem removePriceKey_levelAt (s : OrderBookStore) (book : Nat) (isBid : Bool)
    (k : Int) : (removePriceKey s book isBid k).levelAt = s.levelAt := rfl

@[simp] theorem dropEmptyLevels_orderAt (book : Nat) (t : PendingMatch) (s : OrderBookStore) :
    (dropEmptyLevels book t s).orderAt = s.orderAt := by
  unfold dropEmptyLevels
  dsimp only
  split_ifs <;> rfl

/-- The statements that record a confirmed trade, on the fields of the orders. -/
theorem creditMatch_fields (t : PendingMatch) (s : OrderBookStore)
    (hne : t.finalBidOrder ≠ t.finalAskOrder) :
    ((creditMatch t s).orderAt t.finalBidOrder).filled
        = (s.orderAt t.finalBidOrder).filled + t.finalTradeQuoteQty ∧
    ((creditMatch t s).orderAt t.finalBidOrder).AmtIn = (s.orderAt t.finalBidOrder).AmtIn ∧
    ((creditMatch t s).orderAt t.finalAskOrder).filled
        = (s.orderAt t.finalAskOrder).filled + t.finalTradeBaseQty ∧
    ((creditMatch t s).orderAt t.finalAskOrder).AmtIn = (s.orderAt t.finalAskOrder).AmtIn := by
  have hne' : t.finalAskOrder ≠ t.finalBidOrder := fun h => hne h.symm
  unfold creditMatch
  simp [hne, hne', Order.filled]

/-- A confirmed match adds the quote quantity to the bid and the base quantity to the ask. -/
theorem confirmMatch_fields (book : Nat) (t : PendingMatch) (s : OrderBookStore)
    (hne : t.finalBidOrder ≠ t.finalAskOrder) :
    ((confirmMatch 1 book t s).1.orderAt t.finalBidOrder).filled
        = (s.orderAt t.finalBidOrder).filled + t.finalTradeQuoteQty ∧
    ((confirmMatch 1 book t s).1.orderAt t.finalBidOrder).AmtIn
        = (s.orderAt t.finalBidOrder).AmtIn ∧
    ((confirmMatch 1 book t s).1.orderAt t.finalAskOrder).filled
        = (s.orderAt t.finalAskOrder).filled + t.finalTradeBaseQty ∧
    ((confirmMatch 1 book t s).1.orderAt t.finalAskOrder).AmtIn
        = (s.orderAt t.finalAskOrder).AmtIn := by
  obtain ⟨c1, c2, c3, c4⟩ :=
    creditMatch_fields t (s.setBook book { s.bookAt book with LastPrice := t.finalExecutionPrice })
      hne
  simp only [setBook_orderAt] at c1 c2 c3 c4
  unfold confirmMatch
  simp only [if_true, dropEmptyLevels_orderAt, (settleOrder_fields _ _ _ _ _ _).1,
    (settleOrder_fields _ _ _ _ _ _).2]
  exact ⟨c1, c2, c3, c4⟩

@[simp] theorem remaining_with_status (o : Order) (st : Int) :
    ({ o with Status := st } : Order).remaining = o.remaining := rfl

@[simp] theorem filled_with_status (o : Order) (st : Int) :
    ({ o with Status := st } : Order).filled = o.filled := rfl

theorem setStatusPair_fields (s : OrderBookStore) (b a q : Nat) (st : Int) :
    ((setStatusPair s b a st).orderAt q).remaining = (s.orderAt q).remaining ∧
    ((setStatusPair s b a st).orderAt q).AmtIn = (s.orderAt q).AmtIn ∧
    ((setStatusPair s b a st).orderAt q).AmtOut = (s.orderAt q).AmtOut ∧
    ((setStatusPair s b a st).orderAt q).filled = (s.orderAt q).filled ∧
    ((setStatusPair s b a st).orderAt q).CreatedBy = (s.orderAt q).CreatedBy := by
  rw [setStatusPair_orderAt]
  split_ifs <;> simp

/-- The orders of a submitted trade, in the store `matchBook` returns: distinct
objects, with the amounts and the fill they had when the quantities were computed. -/
theorem matchStep_submitted_orders {ex : ExchangeContract} {book : Nat} {s s' : OrderBookStore}
    {t : PendingMatch} (h : matchStep ex book s = .submitted t s') :
    t.finalBidOrder ≠ t.finalAskOrder ∧
    (s'.orderAt t.finalBidOrder).remaining = (s.orderAt t.finalBidOrder).remaining ∧
    (s'.orderAt t.finalAskOrder).remaining = (s.orderAt t.finalAskOrder).remaining ∧
    (s'.orderAt t.finalBidOrder).AmtIn = (s.orderAt t.finalBidOrder).AmtIn ∧
    (s'.orderAt t.finalBidOrder).AmtOut = (s.orderAt t.finalBidOrder).AmtOut ∧
    (s'.orderAt t.finalAskOrder).AmtIn = (s.orderAt t.finalAskOrder).AmtIn ∧
    (s'.orderAt t.finalAskOrder).AmtOut = (s.orderAt t.finalAskOrder).AmtOut := by
  obtain ⟨sel, txHash, hsel, -, -, -, ht, hs'⟩ := matchStep_submitted h
  obtain ⟨-, -, -, -, -, -, -, hcr⟩ := selectOrders_spec hsel
  have hne : sel.bidElem.Value ≠ sel.askElem.Value := fun e => hcr (by rw [e])
  have hb : t.finalBidOrder = sel.bidElem.Value := by rw [ht]
  have ha : t.finalAskOrder = sel.askElem.Value := by rw [ht]
  have hf := initFilledPair_fields s sel.bidElem.Value sel.askElem.Value
  rw [hb, ha, hs']
  have hr := initFilledPair_remaining s sel.bidElem.Value sel.askElem.Value
  have hp := setStatusPair_fields (initFilledPair s sel.bidElem.Value sel.askElem.Value)
    sel.bidElem.Value sel.askElem.Value
  exact ⟨hne, ((hp _ 1).1).trans (hr _), ((hp _ 1).1).trans (hr _),
    ((hp _ 1).2.1).trans (hf _).2.1, ((hp _ 1).2.2.1).trans (hf _).2.2.1,
    ((hp _ 1).2.1).trans (hf _).2.1, ((hp _ 1).2.2.1).trans (hf _).2.2.1⟩

/-- C4. Every trade `matchBook` submits has `0 < baseQty <= ask.amtIn -
ask.filledAmtIn` and `0 < quoteQty <= bid.amtIn - bid.filledAmtIn`, the orders
read in the store `matchBook` returns; and the confirmation of the trade on
that store leaves `amtIn` as it is, adds `baseQty` to the ask's `filledAmtIn`
and `quoteQty` to the bid's, so that neither value decreases and both stay
`<= amtIn`. It holds for every store, in particular when the selected orders
are Active with `0 <= filledAmtIn < amtIn` and the best ask price is positive. -/
theorem matchBook_fill_within_remaining (ex : ExchangeContract) (book fuel : Nat)
    (s s' : OrderBookStore) (t : PendingMatch)
    (h : matchBook ex book fuel s = some (.returned s' (some t))) :
    (0 < t.finalTradeBaseQty ∧ t.finalTradeBaseQty ≤ (s'.orderAt t.finalAskOrder).remaining) ∧
    (0 < t.finalTradeQuoteQty ∧ t.finalTradeQuoteQty ≤ (s'.orderAt t.finalBidOrder).remaining) ∧
    ((confirmMatch 1 book t s').1.orderAt t.finalAskOrder).AmtIn
        = (s'.orderAt t.finalAskOrder).AmtIn ∧
    ((confirmMatch 1 book t s').1.orderAt t.finalAskOrder).filled
        = (s'.orderAt t.finalAskOrder).filled + t.finalTradeBaseQty ∧
    (s'.orderAt t.finalAskOrder).filled
        ≤ ((confirmMatch 1 book t s').1.orderAt t.finalAskOrder).filled ∧
    ((confirmMatch 1 book t s').1.orderAt t.finalAskOrder).filled
        ≤ ((confirmMatch 1 book t s').1.orderAt t.finalAskOrder).AmtIn ∧
    ((confirmMatch 1 book t s').1.orderAt t.finalBidOrder).AmtIn
        = (s'.orderAt t.finalBidOrder).AmtIn ∧
    ((confirmMatch 1 book t s').1.orderAt t.finalBidOrder).filled
        = (s'.orderAt t.finalBidOrder).filled + t.finalTradeQuoteQty ∧
    (s'.orderAt t.finalBidOrder).filled
        ≤ ((confirmMatch 1 book t s').1.orderAt t.finalBidOrder).filled ∧
    ((confirmMatch 1 book t s').1.orderAt t.finalBidOrder).filled
        ≤ ((confirmMatch 1 book t s').1.orderAt t.finalBidOrder).AmtIn := by
  obtain ⟨s0, -, hstep⟩ := matchBook_submitted fuel h
  obtain ⟨sel, txHash, hsel, hbr, har, hq, ht, hs'⟩ := matchStep_submitted hstep
  obtain ⟨hne, rb, ra, -⟩ := matchStep_submitted_orders hstep
  have hb : t.finalBidOrder = sel.bidElem.Value := by rw [ht]
  have ha : t.finalAskOrder = sel.askElem.Value := by rw [ht]
  obtain ⟨q1, q2, q3, q4, -⟩ := tradeQuantities_spec hq hbr
  obtain ⟨c1, c2, c3, c4⟩ := confirmMatch_fields book t s' hne
  rw [← ha] at q2
  rw [← hb] at q4
  rw [← ra] at q2
  rw [← rb] at q4
  rw [c1, c2, c3, c4]
  unfold Order.remaining at q2 q4
  refine ⟨⟨q1, q2⟩, ⟨q3, q4⟩, rfl, rfl, ?_, ?_, rfl, rfl, ?_, ?_⟩ <;> omega

set_option maxRecDepth 100000 in
/-- Witness for C4: the trade `matchBook` submits in the partial-fill scenario. -/
theorem matchBook_fill_within_remaining_witness :
    matchBook acceptingExchange 0 1 partialFillBook
        = some (.returned partialFillPending (some partialFillTrade)) ∧
    ((0 < partialFillTrade.finalTradeBaseQty ∧
        partialFillTrade.finalTradeBaseQty
          ≤ (partialFillPending.orderAt partialFillTrade.finalAskOrder).remaining) ∧
      (0 < partialFillTrade.finalTradeQuoteQty ∧
        partialFillTrade.finalTradeQuoteQty
          ≤ (partialFillPending.orderAt partialFillTrade.finalBidOrder).remaining)) :=
  ⟨by rfl,
   let r := matchBook_fill_within_remaining acceptingExchange 0 1 partialFillBook
      partialFillPending partialFillTrade (by rfl)
   ⟨r.1, r.2.1⟩⟩

set_option maxRecDepth 100000 in
/-- C2 (counterexample). In the partial-fill scenario, ask `{100, 300}` and bid
`{150, 40}` in the empty book `(A, B)`, it is not the case that `matchBook`
submits a trade with `baseQty = 50` and `quoteQty = 150` at `3 * 10^18` after
whose confirmation the ask is Active in the book with `filledAmtIn = 50`. -/
theorem partialFill_claim_fails :
    ¬ ((twoOrderMatch 100 300 150 40).map
          (fun r => (r.1.finalExecutionPrice, r.1.finalTradeBaseQty, r.1.finalTradeQuoteQty))
        = some (3000000000000000000, 50, 150) ∧
      (twoOrderSettled 100 300 150 40).map
          (fun s => ((s.orderAt 0).Status, (s.orderAt 0).FilledAmtIn, (s.bookAt 0).Asks))
        = some (0, some 50, [(3000000000000000000, 0)])) := by
  decide

set_option maxRecDepth 100000 in
/-- C2 (amended). In the partial-fill scenario one pass of `matchBook` submits
one trade at the execution price `3 * 10^18` with `baseQty = 100` and
`quoteQty = 150`: the first quantities, base 40 and quote 120, leave the bid
30 and the ask 60, both within the dust threshold, so the bid block raises the
quote to 150 and the ask block the base to 100. After the confirmation both
orders are fully filled (`Status = 2`, `filledAmtIn` 100 and 150), both sides
of the book are empty and `LastPrice` is `3 * 10^18`. -/
theorem partialFill_scenario :
    (twoOrderMatch 100 300 150 40).map
        (fun r => (r.1.finalExecutionPrice, r.1.finalTradeBaseQty, r.1.finalTradeQuoteQty))
      = some (3000000000000000000, 100, 150) ∧
    provisionalBaseQty 150 40 150 100 = 40 ∧
    bidDust 150 100 3000000000000000000 (150 - 120) 40 120 = some (50, 150) ∧
    askDust 150 100 3000000000000000000 (100 - 40) 50 150 = (100, 150) ∧
    (twoOrderSettled 100 300 150 40).map
        (fun s => ((s.orderAt 0).Status, (s.orderAt 0).FilledAmtIn))
      = some (2, some 100) ∧
    (twoOrderSettled 100 300 150 40).map
        (fun s => ((s.orderAt 1).Status, (s.orderAt 1).FilledAmtIn))
      = some (2, some 150) ∧
    (twoOrderSettled 100 300 150 40).map
        (fun s => ((s.bookAt 0).Bids, (s.bookAt 0).Asks, (s.bookAt 0).LastPrice))
      = some ([], [], 3000000000000000000) := by
  refine ⟨?_, ?_, ?_, ?_, ?_, ?_, ?_⟩ <;> decide

set_option maxRecDepth 100000 in
/-- C3. In the dust scenario, ask `{1000, 1000}` and bid `{999, 999}` of two
creators in the empty book, the first base quantity is 999, which would leave
the ask 1; the ask block extends the trade to the ask's whole remaining 1000
and clamps the quote to the bid's remaining 999; `matchBook` submits that
trade, and after the confirmation both orders have `Status = 2` and both
sides of the book are empty. -/
theorem dust_scenario :
    provisionalBaseQty 999 999 999 1000 = 999 ∧
    askDust 999 1000 1000000000000000000 (1000 - 999) 999 999 = (1000, 999) ∧
    (twoOrderMatch 1000 1000 999 999).map
        (fun r => (r.1.finalTradeBaseQty, r.1.finalTradeQuoteQty))
      = some (1000, 999) ∧
    (twoOrderSettled 1000 1000 999 999).map
        (fun s => ((s.orderAt 0).Status, (s.orderAt 0).remaining))
      = some (2, 0) ∧
    (twoOrderSettled 1000 1000 999 999).map
        (fun s => ((s.orderAt 1).Status, (s.orderAt 1).remaining))
      = some (2, 0) ∧
    (twoOrderSettled 1000 1000 999 999).map (fun s => ((s.bookAt 0).Bids, (s.bookAt 0).Asks))
      = some ([], []) ∧
    (dustBook.orderAt 0).CreatedBy ≠ (dustBook.orderAt 1).CreatedBy := by
  refine ⟨?_, ?_, ?_, ?_, ?_, ?_, ?_⟩ <;> decide

set_option maxRecDepth 100000 in
/-- C5 (evaluation at the failing input). For the ring `A -> B -> C -> A` of
`ringBooks`, with remaining inputs `[10, 5, 10]`, `validateRing` accepts and
`calculateRingBottleneck` returns 10, found with order 2 as the anchor; the
search for the bottleneck index stops at order 0, whose remaining is 10 too,
and the fill amounts flowed from there are `[10, 10, 40]`: orders 1 and 2 are
filled beyond their remaining 5 and 10, and after the confirmed settlement
order 1 has `filledAmtIn = 10 > amtIn = 5`. -/
theorem executeRing_overfills :
    validateRing ringBooks ringPath = some true ∧
    calculateRingBottleneck ringBooks ringPath = some 10 ∧
    simulateFlow ringBooks ringPath 0 3 0 10 = some none ∧
    simulateFlow ringBooks ringPath 2 3 0 10 = some (some 20) ∧
    findBottleneckIdx ringPath 10 = some 0 ∧
    ringFillAmounts ringBooks ringPath 10 0 = some [10, 10, 40] ∧
    ringPath.TradeAmounts = [10, 5, 10] ∧
    ringSettled.map (fun s => ((s.orderAt 1).AmtIn, (s.orderAt 1).FilledAmtIn))
      = some (5, some 10) ∧
    ringSettled.map (fun s => ((s.orderAt 2).AmtIn, (s.orderAt 2).FilledAmtIn))
      = some (10, some 40) := by
  refine ⟨?_, ?_, ?_, ?_, ?_, ?_, ?_, ?_, ?_⟩ <;> decide

set_option maxRecDepth 100000 in
/-- C6 (counterexample). The trade `matchBook` submits in the dust scenario has
`baseQty = 1000` and `quoteQty = 999` at the execution price `10^18`, so
`quoteQty < floor(baseQty * execPrice / 10^18) = 1000`. -/
theorem dust_trade_below_ask_price :
    (twoOrderMatch 1000 1000 999 999).map
        (fun r => (r.1.finalTradeBaseQty, r.1.finalTradeQuoteQty, r.1.finalExecutionPrice,
                   decide (r.1.finalTradeQuoteQty
                     ≥ r.1.finalTradeBaseQty * r.1.finalExecutionPrice / PriceFactor)))
      = some (1000, 999, 1000000000000000000, false) := by
  decide

set_option maxRecDepth 100000 in
/-- C7 (evaluation at the failing input). With the ask `{1000, 1000}` and the
bid `{950, 860}` the first quantities are base 860 and quote 860; the bid
would keep 90, so the bid block raises the quote to 950 and the base to 950;
the ask block tests the remainder computed before that, `1000 - 860 = 140`,
and does nothing. The submitted trade is base 950, quote 950, and leaves the
ask `1000 - 950 = 50`, a remainder in `(0, 100]`. -/
theorem bid_dust_leaves_ask_dust :
    provisionalBaseQty 950 860 950 1000 = 860 ∧
    bidDust 950 1000 1000000000000000000 (950 - 860) 860 860 = some (950, 950) ∧
    askDust 950 1000 1000000000000000000 (1000 - 860) 950 950 = (950, 950) ∧
    (twoOrderMatch 1000 1000 950 860).map
        (fun r => (r.1.finalTradeBaseQty, r.1.finalTradeQuoteQty,
                   (r.2.orderAt r.1.finalAskOrder).remaining - r.1.finalTradeBaseQty,
                   (r.2.orderAt r.1.finalBidOrder).remaining - r.1.finalTradeQuoteQty))
      = some (950, 950, 50, 0) := by
  decide

set_option maxRecDepth 100000 in
/-- C6 (amended). Every trade `matchBook` submits is priced at the key of the
best ask level, `execPrice`, and has `quoteQty >= floor(baseQty * execPrice /
10^18)`, except when the ask-side dust extension is clamped by the bid's
funds: then `baseQty` is the ask's whole remaining, `quoteQty` is the bid's
whole remaining and `quoteQty < floor(baseQty * execPrice / 10^18)`. -/
theorem matchBook_quote_at_ask_price_or_clamped (ex : ExchangeContract) (book fuel : Nat)
    (s s' : OrderBookStore) (t : PendingMatch)
    (h : matchBook ex book fuel s = some (.returned s' (some t))) :
    Tree.Left BigIntAscendingComparator (s'.bookAt book).Asks
        = some (t.finalExecutionPrice, t.finalAskLevel) ∧
    (t.finalTradeBaseQty * t.finalExecutionPrice / PriceFactor ≤ t.finalTradeQuoteQty ∨
      (t.finalTradeBaseQty = (s'.orderAt t.finalAskOrder).remaining ∧
        t.finalTradeQuoteQty = (s'.orderAt t.finalBidOrder).remaining ∧
        t.finalTradeQuoteQty < t.finalTradeBaseQty * t.finalExecutionPrice / PriceFactor)) := by
  obtain ⟨s0, -, hstep⟩ := matchBook_submitted fuel h
  obtain ⟨sel, txHash, hsel, hbr, har, hq, ht, hs'⟩ := matchStep_submitted hstep
  obtain ⟨-, rb, ra, -⟩ := matchStep_submitted_orders hstep
  obtain ⟨-, hasks, -⟩ := selectOrders_spec hsel
  have hb : t.finalBidOrder = sel.bidElem.Value := by rw [ht]
  have ha : t.finalAskOrder = sel.askElem.Value := by rw [ht]
  have hx : t.finalExecutionPrice = sel.askPriceKey := by rw [ht]
  have hl : t.finalAskLevel = sel.askLevel := by rw [ht]
  have hbook : s'.bookAt = s0.bookAt := by rw [hs']; simp
  obtain ⟨-, -, -, -, q5⟩ := tradeQuantities_spec hq hbr
  rw [hbook, hx, hl, rb, ra, hb, ha]
  refine ⟨hasks, ?_⟩
  rcases q5 with q5 | ⟨e1, e2, e3⟩
  · exact Or.inl q5
  · refine Or.inr ⟨e1, e2, ?_⟩
    rw [e1, e2]
    exact e3

set_option maxRecDepth 100000 in
/-- Witness for C6 (amended): the trade of the dust scenario, which is clamped. -/
theorem matchBook_quote_at_ask_price_or_clamped_witness :
    matchBook acceptingExchange 0 1 dustBook = some (.returned dustPending (some dustTrade)) ∧
    (dustTrade.finalTradeBaseQty * dustTrade.finalExecutionPrice / PriceFactor
        ≤ dustTrade.finalTradeQuoteQty ∨
      (dustTrade.finalTradeBaseQty = (dustPending.orderAt dustTrade.finalAskOrder).remaining ∧
        dustTrade.finalTradeQuoteQty = (dustPending.orderAt dustTrade.finalBidOrder).remaining ∧
        dustTrade.finalTradeQuoteQty
          < dustTrade.finalTradeBaseQty * dustTrade.finalExecutionPrice / PriceFactor)) :=
  ⟨by rfl,
   (matchBook_quote_at_ask_price_or_clamped acceptingExchange 0 1 dustBook dustPending dustTrade
      (by rfl)).2⟩

/-! ## Lemmas on `LastPrice` -/

theorem SameLastPrice.rfl' (s : OrderBookStore) : SameLastPrice s s := fun _ => rfl

theorem SameLastPrice.trans' {s1 s2 s3 : OrderBookStore} (h1 : SameLastPrice s1 s2)
    (h2 : SameLastPrice s2 s3) : SameLastPrice s1 s3 := fun b => (h2 b).trans (h1 b)

theorem SameLastPrice.of_bookAt {s s' : OrderBookStore} (h : s'.bookAt = s.bookAt) :
    SameLastPrice s s' := fun b => by rw [h]

theorem SameLastPrice.setBook (s : OrderBookStore) (p : Nat) (b : MarketOrderBook)
    (h : b.LastPrice = (s.bookAt p).LastPrice) : SameLastPrice s (s.setBook p b) := by
  intro q
  rw [setBook_bookAt]
  split_ifs with hq
  · rw [h, hq]
  · rfl

theorem removePriceKey_lastPrice (s : OrderBookStore) (book : Nat) (isBid : Bool) (k : Int) :
    SameLastPrice s (removePriceKey s book isBid k) := by
  unfold removePriceKey
  apply SameLastPrice.setBook
  cases isBid <;> rfl

theorem purgeFilled_lastPrice (s : OrderBookStore) (book : Nat) (isBid : Bool) (k : Int)
    (l : Nat) (e : Element) : SameLastPrice s (purgeFilled s book isBid k l e) := by
  unfold purgeFilled
  dsimp only
  split_ifs
  · exact SameLastPrice.trans' (SameLastPrice.of_bookAt rfl) (removePriceKey_lastPrice _ _ _ _)
  · exact SameLastPrice.of_bookAt rfl

theorem matchStep_lastPrice (ex : ExchangeContract) (book : Nat) (s s' : OrderBookStore)
    (h : matchStep ex book s = .done s' ∨ matchStep ex book s = .again s' ∨
      ∃ t, matchStep ex book s = .submitted t s') : SameLastPrice s s' := by
  unfold matchStep at h
  rcases hsel : selectOrders book s with _ | sel
  · simp only [hsel] at h
    simp at h
    subst h
    exact SameLastPrice.rfl' s
  · simp only [hsel] at h
    have h0 : SameLastPrice s (initFilledPair s sel.bidElem.Value sel.askElem.Value) :=
      SameLastPrice.of_bookAt (by simp)
    generalize initFilledPair s sel.bidElem.Value sel.askElem.Value = s1 at h h0
    by_cases h1 : (s1.orderAt sel.bidElem.Value).remaining ≤ 0
    · simp only [if_pos h1] at h
      simp at h
      subst h
      exact h0.trans' (purgeFilled_lastPrice _ _ _ _ _ _)
    simp only [if_neg h1] at h
    by_cases h2 : (s1.orderAt sel.askElem.Value).remaining ≤ 0
    · simp only [if_pos h2] at h
      simp at h
      subst h
      exact h0.trans' (purgeFilled_lastPrice _ _ _ _ _ _)
    simp only [if_neg h2] at h
    rcases hq : tradeQuantities (s1.orderAt sel.bidElem.Value).AmtIn
        (s1.orderAt sel.bidElem.Value).AmtOut (s1.orderAt sel.askElem.Value).AmtIn
        (s1.orderAt sel.askElem.Value).AmtOut (s1.orderAt sel.bidElem.Value).remaining
        (s1.orderAt sel.askElem.Value).remaining sel.askPriceKey with _ | _ | ⟨b, q⟩
    · simp [hq] at h
    · simp only [hq] at h
      simp at h
      subst h
      exact h0
    · simp only [hq] at h
      split at h
      · simp at h
        subst h
        exact h0.trans' (SameLastPrice.of_bookAt rfl)
      · simp at h
        subst h
        exact h0.trans' (SameLastPrice.of_bookAt rfl)

theorem matchBook_lastPrice (ex : ExchangeContract) (book : Nat) (fuel : Nat) :
    ∀ (s s' : OrderBookStore) (sub : Option PendingMatch),
      matchBook ex book fuel s = some (.returned s' sub) → SameLastPrice s s' := by
  induction fuel with
  | zero =>
    intro s s' sub h
    simp [matchBook] at h
  | succ fuel ih =>
    intro s s' sub h
    rw [matchBook] at h
    have hl := matchStep_lastPrice ex book s
    cases hstep : matchStep ex book s with
    | done s1 =>
      rw [hstep] at h
      simp only [Option.some.injEq, MatchOutcome.returned.injEq] at h
      obtain ⟨rfl, -⟩ := h
      exact hl _ (Or.inl hstep)
    | again s1 =>
      rw [hstep] at h
      exact SameLastPrice.trans' (hl _ (Or.inr (Or.inl hstep))) (ih _ _ _ h)
    | submitted t1 s1 =>
      rw [hstep] at h
      simp only [Option.some.injEq, MatchOutcome.returned.injEq] at h
      obtain ⟨rfl, -⟩ := h
      exact hl _ (Or.inr (Or.inr ⟨t1, hstep⟩))
    | fault =>
      rw [hstep] at h
      simp at h

theorem settleOrder_bookAt (s : OrderBookStore) (o l : Nat) (e : Element) (r : Int) :
    (settleOrder s o l e r).1.bookAt = s.bookAt := by
  unfold settleOrder
  split_ifs
  · dsimp only
    split <;> rfl
  · rfl

theorem settleOrder_levelAt_other (s : OrderBookStore) (o l : Nat) (e : Element) (r : Int)
    (q : Nat) (hq : q ≠ l) : (settleOrder s o l e r).1.levelAt q = s.levelAt q := by
  unfold settleOrder
  split_ifs
  · dsimp only
    split <;> simp [hq]
  · rfl

@[simp] theorem creditMatch_bookAt (t : PendingMatch) (s : OrderBookStore) :
    (creditMatch t s).bookAt = s.bookAt := rfl

theorem dropEmptyLevels_lastPrice (book : Nat) (t : PendingMatch) (s : OrderBookStore) :
    SameLastPrice s (dropEmptyLevels book t s) := by
  unfold dropEmptyLevels
  dsimp only
  split_ifs
  · exact (removePriceKey_lastPrice _ _ _ _).trans' (removePriceKey_lastPrice _ _ _ _)
  · exact removePriceKey_lastPrice _ _ _ _
  · exact removePriceKey_lastPrice _ _ _ _
  · exact SameLastPrice.rfl' s

/-- A confirmed match sets the `LastPrice` of its book to the execution price
and leaves the other books' `LastPrice`. -/
theorem confirmMatch_success_lastPrice (book : Nat) (t : PendingMatch) (s : OrderBookStore)
    (b : Nat) :
    ((confirmMatch 1 book t s).1.bookAt b).LastPrice
      = if b = book then t.finalExecutionPrice else (s.bookAt b).LastPrice := by
  unfold confirmMatch
  simp only [if_true]
  rw [dropEmptyLevels_lastPrice book t _ b, settleOrder_bookAt, settleOrder_bookAt,
    creditMatch_bookAt, setBook_bookAt]
  split_ifs <;> rfl

theorem confirmMatch_failure_lastPrice (result : Int) (hr : result ≠ 1) (book : Nat)
    (t : PendingMatch) (s : OrderBookStore) : SameLastPrice s (confirmMatch result book t s).1 := by
  unfold confirmMatch
  rw [if_neg hr]
  exact SameLastPrice.of_bookAt rfl

theorem initFilled_lastPrice (s : OrderBookStore) (p : Nat) : SameLastPrice s (s.initFilled p) :=
  SameLastPrice.of_bookAt (by simp)

theorem AddOrder_lastPrice (s s' : OrderBookStore) (p : Nat) (e : Option AddOrderError)
    (h : AddOrder s p = some (s', e)) : SameLastPrice s s' := by
  unfold AddOrder at h
  dsimp only at h
  split at h
  · simp only [Option.some.injEq, Prod.mk.injEq] at h
    obtain ⟨rfl, -⟩ := h
    exact SameLastPrice.rfl' s
  · rename_i bp hbp
    split at h
    · simp only [Option.some.injEq, Prod.mk.injEq] at h
      obtain ⟨rfl, -⟩ := h
      exact initFilled_lastPrice s p
    · simp at h
    · rename_i isBid priceKey hside
      split at h
      · simp only [Option.some.injEq, Prod.mk.injEq] at h
        obtain ⟨rfl, -⟩ := h
        intro b
        by_cases hb : b = bp
        · subst hb
          cases isBid <;> simp
        · simp [hb]
      · simp only [Option.some.injEq, Prod.mk.injEq] at h
        obtain ⟨rfl, -⟩ := h
        intro b
        simp

theorem RemoveOrder_lastPrice (s : OrderBookStore) (createdBy : Nat) (nonce : Int)
    (limitPrice : Option Int) (tokenA tokenB : String) :
    SameLastPrice s (RemoveOrder s createdBy nonce limitPrice tokenA tokenB) := by
  unfold RemoveOrder
  dsimp only
  split
  · exact SameLastPrice.rfl' s
  · split
    · exact SameLastPrice.rfl' s
    · split
      · exact SameLastPrice.rfl' s
      · split_ifs
        · refine SameLastPrice.trans' ?_ (removePriceKey_lastPrice _ _ _ _)
          exact SameLastPrice.of_bookAt (by simp)
        · exact SameLastPrice.of_bookAt (by simp)

@[simp] theorem setStatusAll_bookAt (st : Int) (os : List Nat) :
    ∀ s : OrderBookStore, (setStatusAll s st os).bookAt = s.bookAt := by
  induction os with
  | nil => intro s; rfl
  | cons o os ih =>
    intro s
    rw [setStatusAll, ih]
    rfl

/-- The store `executeRing` returns has the `LastPrice` values of the store it got. -/
theorem executeRing_lastPrice (ex : Option ExchangeContract) (ring : RingPath)
    (s : OrderBookStore) (out : RingOutcome) (h : executeRing ex ring s = some out) :
    (∀ e s', out = .error e s' → SameLastPrice s s') ∧
    (∀ r s', out = .submitted r s' → SameLastPrice s s') := by
  unfold executeRing at h
  dsimp only at h
  repeat' split at h
  all_goals
    first
    | (simp at h; done)
    | (simp only [Option.some.injEq] at h
       subst h
       refine ⟨fun e s' he => ?_, fun r s' he => ?_⟩ <;>
         first
         | (simp at he; done)
         | (simp only [RingOutcome.error.injEq, RingOutcome.submitted.injEq] at he
            rw [← he.2]
            exact SameLastPrice.of_bookAt (by simp)))

theorem confirmRingOrders_bookAt (txHash : String) (orders : List Nat) :
    ∀ (s : OrderBookStore) (fills : List Int) (levels : List Nat) (elems : List Element),
      (confirmRingOrders txHash s orders fills levels elems).1.bookAt = s.bookAt := by
  induction orders with
  | nil => intro s fills levels elems; rfl
  | cons o os ih =>
    intro s fills levels elems
    cases fills with
    | nil => rfl
    | cons f fs =>
      cases levels with
      | nil => rfl
      | cons l ls =>
        cases elems with
        | nil => rfl
        | cons e es =>
          rw [confirmRingOrders]
          dsimp only
          rw [ih, settleOrder_bookAt]
          rfl

theorem removeEmptyLevels_lastPrice (books : List Nat) :
    ∀ (s : OrderBookStore) (levels : List Nat),
      SameLastPrice s (removeEmptyLevels s books levels) := by
  induction books with
  | nil => intro s levels; exact SameLastPrice.rfl' s
  | cons b bs ih =>
    intro s levels
    cases levels with
    | nil => exact SameLastPrice.rfl' s
    | cons l ls =>
      rw [removeEmptyLevels]
      refine SameLastPrice.trans' ?_ (ih _ _)
      dsimp only
      split_ifs
      · split <;> split <;>
          first
          | exact (removePriceKey_lastPrice _ _ _ _).trans' (removePriceKey_lastPrice _ _ _ _)
          | exact removePriceKey_lastPrice _ _ _ _
          | exact SameLastPrice.rfl' s
      · exact SameLastPrice.rfl' s

theorem confirmRing_lastPrice (result : Int) (r : PendingRing) (s : OrderBookStore) :
    SameLastPrice s (confirmRing result r s).1 := by
  unfold confirmRing
  split_ifs
  · dsimp only
    refine SameLastPrice.trans' ?_ (removeEmptyLevels_lastPrice _ _ _)
    exact SameLastPrice.of_bookAt (confirmRingOrders_bookAt _ _ _ _ _ _)
  · exact SameLastPrice.of_bookAt (by simp)

set_option maxRecDepth 100000 in
/-- C8. A new book has `LastPrice = 0`. `AddOrder`, `RemoveOrder`, a call of
`matchBook` (whether it submits a trade, retries after an immediate error or
submits nothing), the confirmation of a match with a receipt status other than
success, `executeRing` and the confirmation of a ring (successful or not)
leave the `LastPrice` of every book unchanged. The successful confirmation of
a match sets the `LastPrice` of its book to the execution price, which is the
key of the best ask level in the store `matchBook` returned, and leaves the
`LastPrice` of every other book. -/
theorem lastPrice_changes_only_on_confirmed_match :
    (∀ a b : String, (NewMarketOrderBook a b).LastPrice = 0) ∧
    (∀ (s s' : OrderBookStore) (p : Nat) (e : Option AddOrderError),
      AddOrder s p = some (s', e) → SameLastPrice s s') ∧
    (∀ (s : OrderBookStore) (createdBy : Nat) (nonce : Int) (limitPrice : Option Int)
        (tokenA tokenB : String),
      SameLastPrice s (RemoveOrder s createdBy nonce limitPrice tokenA tokenB)) ∧
    (∀ (ex : ExchangeContract) (book fuel : Nat) (s s' : OrderBookStore)
        (sub : Option PendingMatch),
      matchBook ex book fuel s = some (.returned s' sub) → SameLastPrice s s') ∧
    (∀ (result : Int) (book : Nat) (t : PendingMatch) (s : OrderBookStore),
      result ≠ 1 → SameLastPrice s (confirmMatch result book t s).1) ∧
    (∀ (book : Nat) (t : PendingMatch) (s : OrderBookStore) (b : Nat),
      ((confirmMatch 1 book t s).1.bookAt b).LastPrice
        = if b = book then t.finalExecutionPrice else (s.bookAt b).LastPrice) ∧
    (∀ (ex : ExchangeContract) (book fuel : Nat) (s s' : OrderBookStore) (t : PendingMatch),
      matchBook ex book fuel s = some (.returned s' (some t)) →
      Tree.Left BigIntAscendingComparator (s'.bookAt book).Asks
        = some (t.finalExecutionPrice, t.finalAskLevel)) ∧
    (∀ (ex : Option ExchangeContract) (ring : RingPath) (s : OrderBookStore) (out : RingOutcome),
      executeRing ex ring s = some out →
      (∀ e s', out = .error e s' → SameLastPrice s s') ∧
      (∀ r s', out = .submitted r s' → SameLastPrice s s')) ∧
    (∀ (result : Int) (r : PendingRing) (s : OrderBookStore),
      SameLastPrice s (confirmRing result r s).1) := by
  refine ⟨fun _ _ => rfl, AddOrder_lastPrice, RemoveOrder_lastPrice, ?_, ?_,
    confirmMatch_success_lastPrice, ?_, executeRing_lastPrice, confirmRing_lastPrice⟩
  · intro ex book fuel s s' sub h
    exact matchBook_lastPrice ex book fuel s s' sub h
  · intro result book t s hr
    exact confirmMatch_failure_lastPrice result hr book t s
  · intro ex book fuel s s' t h
    obtain ⟨s0, -, hstep⟩ := matchBook_submitted fuel h
    obtain ⟨sel, txHash, hsel, -, -, -, ht, hs'⟩ := matchStep_submitted hstep
    obtain ⟨-, hasks, -⟩ := selectOrders_spec hsel
    have hx : t.finalExecutionPrice = sel.askPriceKey := by rw [ht]
    have hl : t.finalAskLevel = sel.askLevel := by rw [ht]
    have hbook : s'.bookAt = s0.bookAt := by rw [hs']; simp
    rw [hbook, hx, hl]
    exact hasks

set_option maxRecDepth 100000 in
/-- Witness for C8: the partial-fill scenario. `matchBook` leaves `LastPrice`
at 0, a failed settlement too, and the confirmed one sets it to `3 * 10^18`. -/
theorem lastPrice_changes_only_on_confirmed_match_witness :
    matchBook acceptingExchange 0 1 partialFillBook
        = some (.returned partialFillPending (some partialFillTrade)) ∧
    (0 : Int) ≠ 1 ∧
    SameLastPrice partialFillBook partialFillPending ∧
    SameLastPrice partialFillPending (confirmMatch 0 0 partialFillTrade partialFillPending).1 ∧
    Tree.Left BigIntAscendingComparator (partialFillPending.bookAt 0).Asks
        = some (partialFillTrade.finalExecutionPrice, partialFillTrade.finalAskLevel) ∧
    ((confirmMatch 1 0 partialFillTrade partialFillPending).1.bookAt 0).LastPrice
        = 3000000000000000000 :=
  ⟨by rfl, by decide,
   lastPrice_changes_only_on_confirmed_match.2.2.2.1 acceptingExchange 0 1 partialFillBook
     partialFillPending (some partialFillTrade) (by rfl),
   lastPrice_changes_only_on_confirmed_match.2.2.2.2.1 0 0 partialFillTrade partialFillPending
     (by decide),
   lastPrice_changes_only_on_confirmed_match.2.2.2.2.2.2.1 acceptingExchange 0 1 partialFillBook
     partialFillPending partialFillTrade (by rfl),
   by decide⟩

/-! ## Lemmas on the selection -/

theorem ascending_le_zero (a b : Int) : BigIntAscendingComparator a b ≤ 0 ↔ a ≤ b := by
  unfold BigIntAscendingComparator
  split_ifs with h1 h2
  · simp; omega
  · simp; omega
  · simp; omega

theorem descending_le_zero (a b : Int) : BigIntDescendingComparator a b ≤ 0 ↔ b ≤ a := by
  unfold BigIntDescendingComparator BigIntAscendingComparator
  split_ifs with h1 h2
  · simp; omega
  · simp; omega
  · simp; omega

/-- The node `Tree.Left` returns is in the tree, and its key is before every key
of the tree in the order `f a ≤ f b` the comparator decides. -/
theorem Tree.Left_least (cmp : Int → Int → Int) (f : Int → Int)
    (hcmp : ∀ a b, cmp a b ≤ 0 ↔ f a ≤ f b) :
    ∀ (t : Tree) (e : Int × Nat), Tree.Left cmp t = some e →
      e ∈ t ∧ ∀ x ∈ t, f e.1 ≤ f x.1 := by
  intro t
  induction t with
  | nil =>
    intro e h
    simp [Tree.Left] at h
  | cons y ys ih =>
    intro e h
    rw [Tree.Left] at h
    cases hrest : Tree.Left cmp ys with
    | none =>
      rw [hrest] at h
      simp only [Option.some.injEq] at h
      subst h
      have hys : ys = [] := by
        cases ys with
        | nil => rfl
        | cons z zs =>
          rw [Tree.Left] at hrest
          split at hrest
          · simp at hrest
          · split_ifs at hrest
      subst hys
      exact ⟨List.mem_cons_self _ _, fun x hx => by
        simp only [List.mem_singleton] at hx
        rw [hx]⟩
    | some m =>
      rw [hrest] at h
      obtain ⟨hm, hle⟩ := ih m hrest
      simp only at h
      split_ifs at h with hc
      · simp only [Option.some.injEq] at h
        subst h
        refine ⟨List.mem_cons_self _ _, fun x hx => ?_⟩
        rcases List.mem_cons.mp hx with rfl | hx
        · exact le_refl _
        · exact le_trans ((hcmp _ _).mp hc) (hle x hx)
      · simp only [Option.some.injEq] at h
        subst h
        refine ⟨List.mem_cons_of_mem _ hm, fun x hx => ?_⟩
        rcases List.mem_cons.mp hx with rfl | hx
        · have := (hcmp x.1 m.1).not.mp hc
          exact le_of_lt (lt_of_not_ge this)
        · exact hle x hx

/-- The element `firstReady` returns: it is in the level, its order has
`Status = 0`, and no element before it in the list has. -/
theorem firstReady_spec {s : OrderBookStore} {level : PriceLevel} {e : Element}
    (h : firstReady s level = some e) :
    (s.orderAt e.Value).Status = 0 ∧
    ∃ pre post, level.Orders = pre ++ e :: post ∧
      ∀ x ∈ pre, (s.orderAt x.Value).Status ≠ 0 := by
  unfold firstReady at h
  rw [List.find?_eq_some] at h
  obtain ⟨h1, pre, post, h2, h3⟩ := h
  refine ⟨by simpa using h1, pre, post, h2, fun x hx => ?_⟩
  simpa using h3 x hx

theorem hasPending_false {s : OrderBookStore} {level : PriceLevel}
    (h : hasPending s level = false) : ∀ x ∈ level.Orders, (s.orderAt x.Value).Status ≠ 1 := by
  unfold hasPending at h
  rw [List.any_eq_false] at h
  intro x hx
  simpa using h x hx

theorem hasPending_true {s : OrderBookStore} {level : PriceLevel} {x : Element}
    (hx : x ∈ level.Orders) (h : (s.orderAt x.Value).Status = 1) : hasPending s level = true := by
  unfold hasPending
  rw [List.any_eq_true]
  exact ⟨x, hx, by simpa using h⟩

/-- With a pending order in the best bid level or in the best ask level,
`selectOrders` selects nothing. -/
theorem selectOrders_pending {book : Nat} {s : OrderBookStore}
    (h : (∃ k l x, Tree.Left BigIntDescendingComparator (s.bookAt book).Bids = some (k, l) ∧
            x ∈ (s.levelAt l).Orders ∧ (s.orderAt x.Value).Status = 1) ∨
         (∃ k l x, Tree.Left BigIntAscendingComparator (s.bookAt book).Asks = some (k, l) ∧
            x ∈ (s.levelAt l).Orders ∧ (s.orderAt x.Value).Status = 1)) :
    selectOrders book s = none := by
  unfold selectOrders
  split
  · rename_i bk bl ak al hb ha
    have hp : hasPending s (s.levelAt bl) = true ∨ hasPending s (s.levelAt al) = true := by
      rcases h with ⟨k, l, x, hl, hx, hs⟩ | ⟨k, l, x, hl, hx, hs⟩
      · rw [hb] at hl
        simp only [Option.some.injEq, Prod.mk.injEq] at hl
        obtain ⟨-, rfl⟩ := hl
        exact Or.inl (hasPending_true hx hs)
      · rw [ha] at hl
        simp only [Option.some.injEq, Prod.mk.injEq] at hl
        obtain ⟨-, rfl⟩ := hl
        exact Or.inr (hasPending_true hx hs)
    split_ifs with h1 h2 h3
    · rfl
    · rfl
    · rfl
    · rcases hp with hp | hp
      · exact absurd hp h2
      · exact absurd hp h3
  · rfl

@[simp] theorem initFilled_nextLevel (s : OrderBookStore) (p : Nat) :
    (s.initFilled p).nextLevel = s.nextLevel := by
  unfold OrderBookStore.initFilled
  split <;> rfl

@[simp] theorem initFilled_nextElem (s : OrderBookStore) (p : Nat) :
    (s.initFilled p).nextElem = s.nextElem := by
  unfold OrderBookStore.initFilled
  split <;> rfl

@[simp] theorem setOrder_nextLevel (s : OrderBookStore) (p : Nat) (o : Order) :
    (s.setOrder p o).nextLevel = s.nextLevel := rfl

@[simp] theorem setOrder_nextElem (s : OrderBookStore) (p : Nat) (o : Order) :
    (s.setOrder p o).nextElem = s.nextElem := rfl

/-- What a successful `AddOrder` does to the lists of the price levels: one
level gets the new element at its end, or is a new list of that element alone,
and every other level object is as before. -/
theorem AddOrder_appends (s s' : OrderBookStore) (p : Nat)
    (h : AddOrder s p = some (s', none)) :
    ∃ lp, ((s'.levelAt lp).Orders = (s.levelAt lp).Orders ++ [{ id := s.nextElem, Value := p }] ∨
            (s'.levelAt lp).Orders = [{ id := s.nextElem, Value := p }]) ∧
      ∀ l, l ≠ lp → s'.levelAt l = s.levelAt l := by
  unfold AddOrder at h
  dsimp only at h
  split at h
  · simp at h
  · rename_i bp hbp
    split at h
    · simp at h
    · simp at h
    · rename_i isBid priceKey hside
      split at h
      · simp only [Option.some.injEq, Prod.mk.injEq, and_true] at h
        subst h
        refine ⟨s.nextLevel, Or.inr ?_, fun l hl => ?_⟩
        · simp
        · simp [hl]
      · rename_i lp hlp
        simp only [Option.some.injEq, Prod.mk.injEq, and_true] at h
        subst h
        refine ⟨lp, Or.inl ?_, fun l hl => ?_⟩
        · simp
        · simp [hl]

set_option maxRecDepth 100000 in
/-- C9. Whenever `matchBook` submits a trade, then in the store `s0` at the
head of the pass that submits it the bid level has the highest bid price and
the ask level the lowest ask price, with bid price `>=` ask price, and in each
of the two levels the chosen element is the first of the list whose order has
`Status = 0` (every element before it has another status). The list order is
the order of insertion: a successful `AddOrder` puts the new element at the
end of one level's list and leaves every other level as it is. -/
theorem matchBook_price_time_priority :
    (∀ (ex : ExchangeContract) (book fuel : Nat) (s s' : OrderBookStore) (t : PendingMatch),
      matchBook ex book fuel s = some (.returned s' (some t)) →
      ∃ s0, Continues ex book s s0 ∧ matchStep ex book s0 = .submitted t s' ∧
        ((t.finalBidPriceKey, t.finalBidLevel) ∈ (s0.bookAt book).Bids ∧
          ∀ x ∈ (s0.bookAt book).Bids, x.1 ≤ t.finalBidPriceKey) ∧
        ((t.finalAskPriceKey, t.finalAskLevel) ∈ (s0.bookAt book).Asks ∧
          ∀ x ∈ (s0.bookAt book).Asks, t.finalAskPriceKey ≤ x.1) ∧
        t.finalAskPriceKey ≤ t.finalBidPriceKey ∧
        (t.finalBidElem.Value = t.finalBidOrder ∧ (s0.orderAt t.finalBidOrder).Status = 0 ∧
          ∃ pre post, (s0.levelAt t.finalBidLevel).Orders = pre ++ t.finalBidElem :: post ∧
            ∀ x ∈ pre, (s0.orderAt x.Value).Status ≠ 0) ∧
        (t.finalAskElem.Value = t.finalAskOrder ∧ (s0.orderAt t.finalAskOrder).Status = 0 ∧
          ∃ pre post, (s0.levelAt t.finalAskLevel).Orders = pre ++ t.finalAskElem :: post ∧
            ∀ x ∈ pre, (s0.orderAt x.Value).Status ≠ 0)) ∧
    (∀ (s s' : OrderBookStore) (p : Nat), AddOrder s p = some (s', none) →
      ∃ lp, ((s'.levelAt lp).Orders = (s.levelAt lp).Orders ++ [{ id := s.nextElem, Value := p }] ∨
              (s'.levelAt lp).Orders = [{ id := s.nextElem, Value := p }]) ∧
        ∀ l, l ≠ lp → s'.levelAt l = s.levelAt l) := by
  refine ⟨?_, AddOrder_appends⟩
  intro ex book fuel s s' t h
  obtain ⟨s0, hc, hstep⟩ := matchBook_submitted fuel h
  obtain ⟨sel, txHash, hsel, -, -, -, ht, -⟩ := matchStep_submitted hstep
  obtain ⟨hbids, hasks, hcross, -, -, hbe, hae, -⟩ := selectOrders_spec hsel
  obtain ⟨b1, b2⟩ := Tree.Left_least BigIntDescendingComparator (fun a => -a)
    (fun a b => by rw [descending_le_zero]; exact neg_le_neg_iff.symm) _ _ hbids
  obtain ⟨a1, a2⟩ := Tree.Left_least BigIntAscendingComparator (fun a => a)
    (fun a b => ascending_le_zero a b) _ _ hasks
  obtain ⟨bs, bpre, bpost, bl, bn⟩ := firstReady_spec hbe
  obtain ⟨as, apre, apost, al, an⟩ := firstReady_spec hae
  refine ⟨s0, hc, hstep, ?_⟩
  rw [ht]
  refine ⟨⟨b1, fun x hx => ?_⟩, ⟨a1, fun x hx => a2 x hx⟩, hcross, ⟨rfl, bs, bpre, bpost, bl, bn⟩,
    ⟨rfl, as, apre, apost, al, an⟩⟩
  exact neg_le_neg_iff.mp (b2 x hx)

set_option maxRecDepth 100000 in
/-- Witness for C9: the trade of the partial-fill scenario. -/
theorem matchBook_price_time_priority_witness :
    matchBook acceptingExchange 0 1 partialFillBook
        = some (.returned partialFillPending (some partialFillTrade)) ∧
    ∃ s0, Continues acceptingExchange 0 partialFillBook s0 ∧
      matchStep acceptingExchange 0 s0 = .submitted partialFillTrade partialFillPending ∧
      (∀ x ∈ (s0.bookAt 0).Bids, x.1 ≤ partialFillTrade.finalBidPriceKey) ∧
      (∀ x ∈ (s0.bookAt 0).Asks, partialFillTrade.finalAskPriceKey ≤ x.1) :=
  ⟨by rfl,
   let ⟨s0, hc, hs, hb, ha, _⟩ :=
     matchBook_price_time_priority.1 acceptingExchange 0 1 partialFillBook partialFillPending
       partialFillTrade (by rfl)
   ⟨s0, hc, hs, hb.2, ha.2⟩⟩

set_option maxRecDepth 100000 in
/-- C10. If an order of the best bid level or of the best ask level has
`Status = 1`, a call of `matchBook` returns in its first pass, submits nothing
and returns the store it was given. And whenever `matchBook` submits a trade,
then in the store `s0` at the head of the pass that submits it both orders have
`Status = 0` and neither of the two levels holds an order with `Status = 1`;
in the store returned both orders have `Status = 1` and every other order the
status it had in `s0`. -/
theorem matchBook_no_double_commit :
    (∀ (ex : ExchangeContract) (book fuel : Nat) (s : OrderBookStore),
      ((∃ k l x, Tree.Left BigIntDescendingComparator (s.bookAt book).Bids = some (k, l) ∧
            x ∈ (s.levelAt l).Orders ∧ (s.orderAt x.Value).Status = 1) ∨
        (∃ k l x, Tree.Left BigIntAscendingComparator (s.bookAt book).Asks = some (k, l) ∧
            x ∈ (s.levelAt l).Orders ∧ (s.orderAt x.Value).Status = 1)) →
      matchBook ex book (fuel + 1) s = some (.returned s none)) ∧
    (∀ (ex : ExchangeContract) (book fuel : Nat) (s s' : OrderBookStore) (t : PendingMatch),
      matchBook ex book fuel s = some (.returned s' (some t)) →
      ∃ s0, Continues ex book s s0 ∧ matchStep ex book s0 = .submitted t s' ∧
        (s0.orderAt t.finalBidOrder).Status = 0 ∧ (s0.orderAt t.finalAskOrder).Status = 0 ∧
        (∀ x ∈ (s0.levelAt t.finalBidLevel).Orders, (s0.orderAt x.Value).Status ≠ 1) ∧
        (∀ x ∈ (s0.levelAt t.finalAskLevel).Orders, (s0.orderAt x.Value).Status ≠ 1) ∧
        (s'.orderAt t.finalBidOrder).Status = 1 ∧ (s'.orderAt t.finalAskOrder).Status = 1 ∧
        ∀ q, q ≠ t.finalBidOrder → q ≠ t.finalAskOrder →
          (s'.orderAt q).Status = (s0.orderAt q).Status) := by
  constructor
  · intro ex book fuel s h
    rw [matchBook, matchStep, selectOrders_pending h]
  · intro ex book fuel s s' t h
    obtain ⟨s0, hc, hstep⟩ := matchBook_submitted fuel h
    obtain ⟨sel, txHash, hsel, -, -, -, ht, hs'⟩ := matchStep_submitted hstep
    obtain ⟨-, -, -, hpb, hpa, hbe, hae, -⟩ := selectOrders_spec hsel
    obtain ⟨bs, -⟩ := firstReady_spec hbe
    obtain ⟨as, -⟩ := firstReady_spec hae
    have hf := initFilledPair_fields s0 sel.bidElem.Value sel.askElem.Value
    refine ⟨s0, hc, hstep, ?_⟩
    rw [ht, hs']
    refine ⟨bs, as, hasPending_false hpb, hasPending_false hpa, ?_, ?_, fun q hq1 hq2 => ?_⟩
    · simp [setStatusPair_orderAt]
    · simp [setStatusPair_orderAt]
    · simp only at hq1 hq2
      simp [setStatusPair_orderAt, hq1, hq2, (hf q).2.2.2.1]

set_option maxRecDepth 100000 in
/-- Witness for C10: on the store of the partial-fill scenario after the
submission, where both orders are pending, `matchBook` returns at once; and
the submission itself took two orders with `Status = 0`. -/
theorem matchBook_no_double_commit_witness :
    (Tree.Left BigIntDescendingComparator (partialFillPending.bookAt 0).Bids
        = some (3750000000000000000, 1) ∧
      ({ id := 1, Value := 1 } : Element) ∈ (partialFillPending.levelAt 1).Orders ∧
      (partialFillPending.orderAt 1).Status = 1) ∧
    matchBook acceptingExchange 0 (0 + 1) partialFillPending
        = some (.returned partialFillPending none) ∧
    matchBook acceptingExchange 0 1 partialFillBook
        = some (.returned partialFillPending (some partialFillTrade)) ∧
    ∃ s0, Continues acceptingExchange 0 partialFillBook s0 ∧
      (s0.orderAt partialFillTrade.finalBidOrder).Status = 0 ∧
      (s0.orderAt partialFillTrade.finalAskOrder).Status = 0 :=
  ⟨⟨by decide, by decide, by decide⟩,
   matchBook_no_double_commit.1 acceptingExchange 0 0 partialFillPending
     (Or.inl ⟨3750000000000000000, 1, { id := 1, Value := 1 }, by decide, by decide, by decide⟩),
   by rfl,
   let ⟨s0, hc, _, hb, ha, _⟩ :=
     matchBook_no_double_commit.2 acceptingExchange 0 1 partialFillBook partialFillPending
       partialFillTrade (by rfl)
   ⟨s0, hc, hb, ha⟩⟩

/-! ## Self-match prevention -/

/-- With the same creator behind the oldest ready bid and the oldest ready ask
of the best levels, `selectOrders` selects nothing. -/
theorem selectOrders_same_creator {book : Nat} {s : OrderBookStore} {bk ak : Int} {bl al : Nat}
    {be ae : Element}
    (hb : Tree.Left BigIntDescendingComparator (s.bookAt book).Bids = some (bk, bl))
    (ha : Tree.Left BigIntAscendingComparator (s.bookAt book).Asks = some (ak, al))
    (hbe : firstReady s (s.levelAt bl) = some be)
    (hae : firstReady s (s.levelAt al) = some ae)
    (hc : (s.orderAt be.Value).CreatedBy = (s.orderAt ae.Value).CreatedBy) :
    selectOrders book s = none := by
  unfold selectOrders
  rw [hb, ha]
  simp only [hbe, hae, hc, if_true]
  split_ifs <;> rfl

/-- A loop that reaches, through passes that `continue`, a pass that ends it
without a submission returns the store of that pass, for every bound on the
number of passes that is large enough. -/
theorem matchBook_of_continues {ex : ExchangeContract} {book : Nat} {s s0 s1 : OrderBookStore}
    (hc : Continues ex book s s0) (hd : matchStep ex book s0 = .done s1) :
    ∃ n, ∀ fuel, n ≤ fuel → matchBook ex book fuel s = some (.returned s1 none) := by
  induction hc with
  | here s =>
    refine ⟨1, fun fuel hf => ?_⟩
    obtain ⟨k, rfl⟩ : ∃ k, fuel = k + 1 := ⟨fuel - 1, by omega⟩
    rw [matchBook, hd]
  | pass h _ ih =>
    obtain ⟨n, hn⟩ := ih hd
    refine ⟨n + 1, fun fuel hf => ?_⟩
    obtain ⟨k, rfl⟩ : ∃ k, fuel = k + 1 := ⟨fuel - 1, by omega⟩
    rw [matchBook, h]
    exact hn k (by omega)

/-- C12. The two orders of every trade `matchBook` submits have different
creators. And when the loop is at the head of a pass (in `s0`, reached from
the store `s` of the call through passes that `continue`) in which the first
order with `Status = 0` of the best bid level and the first order with
`Status = 0` of the best ask level have the same creator, that pass ends the
loop with the store unchanged, and the call returns `s0` with nothing
submitted, for every bound on the passes that is large enough. -/
theorem matchBook_self_match_freedom :
    (∀ (ex : ExchangeContract) (book fuel : Nat) (s s' : OrderBookStore) (t : PendingMatch),
      matchBook ex book fuel s = some (.returned s' (some t)) →
      (s'.orderAt t.finalBidOrder).CreatedBy ≠ (s'.orderAt t.finalAskOrder).CreatedBy) ∧
    (∀ (ex : ExchangeContract) (book : Nat) (s s0 : OrderBookStore) (bk ak : Int) (bl al : Nat)
        (be ae : Element),
      Continues ex book s s0 →
      Tree.Left BigIntDescendingComparator (s0.bookAt book).Bids = some (bk, bl) →
      Tree.Left BigIntAscendingComparator (s0.bookAt book).Asks = some (ak, al) →
      firstReady s0 (s0.levelAt bl) = some be →
      firstReady s0 (s0.levelAt al) = some ae →
      (s0.orderAt be.Value).CreatedBy = (s0.orderAt ae.Value).CreatedBy →
      matchStep ex book s0 = .done s0 ∧
      ∃ n, ∀ fuel, n ≤ fuel → matchBook ex book fuel s = some (.returned s0 none)) := by
  constructor
  · intro ex book fuel s s' t h
    obtain ⟨s0, -, hstep⟩ := matchBook_submitted fuel h
    obtain ⟨sel, txHash, hsel, -, -, -, ht, hs'⟩ := matchStep_submitted hstep
    obtain ⟨-, -, -, -, -, -, -, hcr⟩ := selectOrders_spec hsel
    have hf := initFilledPair_fields s0 sel.bidElem.Value sel.askElem.Value
    have hp := setStatusPair_fields (initFilledPair s0 sel.bidElem.Value sel.askElem.Value)
      sel.bidElem.Value sel.askElem.Value
    have hb : t.finalBidOrder = sel.bidElem.Value := by rw [ht]
    have ha : t.finalAskOrder = sel.askElem.Value := by rw [ht]
    rw [hb, ha, hs']
    show ((setStatusPair _ _ _ 1).orderAt _).CreatedBy ≠ ((setStatusPair _ _ _ 1).orderAt _).CreatedBy
    rw [(hp _ 1).2.2.2.2, (hp _ 1).2.2.2.2, (hf _).2.2.2.2, (hf _).2.2.2.2]
    exact hcr
  · intro ex book s s0 bk ak bl al be ae hcont hb ha hbe hae hc
    have hd : matchStep ex book s0 = .done s0 := by
      rw [matchStep, selectOrders_same_creator hb ha hbe hae hc]
    exact ⟨hd, matchBook_of_continues hcont hd⟩

set_option maxRecDepth 100000 in
/-- Witness for C12: the trade of the partial-fill scenario has the creators 2
and 1; on `sameCreatorBook`, whose crossing bid and ask are both of creator 1,
`matchBook` returns the book as it is. -/
theorem matchBook_self_match_freedom_witness :
    ((partialFillPending.orderAt partialFillTrade.finalBidOrder).CreatedBy ≠
      (partialFillPending.orderAt partialFillTrade.finalAskOrder).CreatedBy) ∧
    ((sameCreatorBook.orderAt 1).CreatedBy = (sameCreatorBook.orderAt 0).CreatedBy ∧
      matchStep acceptingExchange 0 sameCreatorBook = .done sameCreatorBook ∧
      ∃ n, ∀ fuel, n ≤ fuel →
        matchBook acceptingExchange 0 fuel sameCreatorBook = some (.returned sameCreatorBook none)) :=
  ⟨matchBook_self_match_freedom.1 acceptingExchange 0 1 partialFillBook partialFillPending
     partialFillTrade (by rfl),
   by decide,
   matchBook_self_match_freedom.2 acceptingExchange 0 sameCreatorBook sameCreatorBook
     1000000000000000000 1000000000000000000 1 0 { id := 1, Value := 1 } { id := 0, Value := 0 }
     (Continues.here _) (by decide) (by decide) (by decide) (by decide) (by decide)⟩

/-! ## `AddOrder` and the amounts of the order -/

set_option maxRecDepth 100000 in
/-- C19 (evaluation at the failing input). `AddOrder` of the ask `A -> B` with
`amtIn = 10` and `amtOut = 0` into the empty book `(A, B)` returns no error:
the order gets the limit price 0 and the ask tree, empty before, holds a level
at key 0 with the order in it. With the bid `{50, 50}` of another creator added
as well, the next `matchBook` call takes the execution price 0 from that level
and divides by it in the bid dust block, which is a run-time panic. -/
theorem AddOrder_accepts_zero_amount :
    ((twoOrderStore 10 0 50 50).orderAt 0).AmtOut = 0 ∧
    ((twoOrderStore 10 0 50 50).bookAt 0).Asks = [] ∧
    (AddOrder (twoOrderStore 10 0 50 50) 0).map
        (fun r => (r.2, (r.1.orderAt 0).LimitPrice, (r.1.bookAt 0).Asks, r.1.levelAt 0))
      = some (none, some 0, [(0, 0)],
          { Orders := [{ id := 0, Value := 0 }], TotalQuantity := 10 }) ∧
    (twoOrderBook 10 0 50 50).map
        (fun s => match matchBook acceptingExchange 0 1 s with
                  | some .fault => true
                  | _ => false)
      = some true := by
  refine ⟨?_, ?_, ?_, ?_⟩ <;> decide

/-! ## Ring validation -/

/-- The loop that collects the tokens of a ring lists `ringTokens`. -/
theorem foldr_tokens (s : OrderBookStore) (l : List Nat) :
    l.foldr (fun o acc => (s.orderAt o).SymbolIn :: (s.orderAt o).SymbolOut :: acc) [] =
      l.flatMap (fun o => [(s.orderAt o).SymbolIn, (s.orderAt o).SymbolOut]) := by
  induction l with
  | nil => rfl
  | cons a l ih => simp [ih]

/-- The set of the two tokens of one order, as the list without duplicates
that stands for the Go map. -/
theorem pair_dedup_length (a b : String) :
    ([a, b].dedup.length = 2 ↔ a ≠ b) ∧ [a, b].dedup.toFinset = {a, b} := by
  by_cases h : a = b
  · subst h; simp
  · constructor
    · simp [List.dedup_cons_of_not_mem, h]
    · ext x; simp

/-- The same-book test of `validateRing` on the tokens `a, b` of the first order
and `c, d` of the second. -/
theorem sameBook_iff (a b c d : String) :
    (decide ([a, b].dedup.length = 2 ∧ [c, d].dedup.length = 2) &&
        [a, b].dedup.all (fun tk => [c, d].dedup.contains tk)) = true ↔
      (({a, b} : Finset String) = {c, d} ∧ ({a, b} : Finset String).card = 2) := by
  have hab := pair_dedup_length a b
  have hcd := pair_dedup_length c d
  have cardab : ({a, b} : Finset String).card = [a, b].dedup.length := by
    rw [← hab.2, List.toFinset_card_of_nodup (List.nodup_dedup _)]
  have cardcd : ({c, d} : Finset String).card = [c, d].dedup.length := by
    rw [← hcd.2, List.toFinset_card_of_nodup (List.nodup_dedup _)]
  have hsub : ([a, b].dedup.all (fun tk => [c, d].dedup.contains tk)) = true ↔
      ({a, b} : Finset String) ⊆ {c, d} := by
    rw [List.all_eq_true]
    constructor
    · intro h x hx
      rw [← hab.2] at hx
      rw [← hcd.2]
      have := h x (by simpa using hx)
      simpa using this
    · intro h x hx
      have hx' : x ∈ ({a, b} : Finset String) := by rw [← hab.2]; simpa using hx
      have := h hx'
      rw [← hcd.2] at this
      simpa using this
  rw [Bool.and_eq_true, decide_eq_true_iff, hsub, ← cardab, ← cardcd]
  constructor
  · rintro ⟨⟨h1, h2⟩, h3⟩
    exact ⟨Finset.eq_of_subset_of_card_le h3 (by omega), h1⟩
  · rintro ⟨h1, h2⟩
    refine ⟨⟨h2, by rw [← h1]; exact h2⟩, by rw [h1]⟩

/-- What `validateRing` has checked when it accepts, and that it accepts when
all of it holds. -/
theorem validateRing_eq_true_iff (s : OrderBookStore) (ring : RingPath) :
    validateRing s ring = some true ↔
      (2 ≤ ring.Orders.length ∧
       (∃ first last, ring.Orders.head? = some first ∧ ring.Orders.getLast? = some last ∧
          (s.orderAt last).SymbolOut = (s.orderAt first).SymbolIn) ∧
       ¬ SameTwoTokens s ring ∧
       3 ≤ (ringTokens s ring).toFinset.card ∧
       ∃ b, calculateRingBottleneck s ring = some b ∧ 0 < b) := by
  have hcard : (ringTokens s ring).toFinset.card =
      (ring.Orders.foldr (fun o acc => (s.orderAt o).SymbolIn :: (s.orderAt o).SymbolOut :: acc)
        []).dedup.length := by
    rw [foldr_tokens, List.card_toFinset]; rfl
  have hsame : (match ring.Orders with
      | [o1, o2] =>
        decide ([(s.orderAt o1).SymbolIn, (s.orderAt o1).SymbolOut].dedup.length = 2 ∧
            [(s.orderAt o2).SymbolIn, (s.orderAt o2).SymbolOut].dedup.length = 2) &&
          [(s.orderAt o1).SymbolIn, (s.orderAt o1).SymbolOut].dedup.all
            (fun tk => [(s.orderAt o2).SymbolIn, (s.orderAt o2).SymbolOut].dedup.contains tk)
      | _ => false) = true ↔ SameTwoTokens s ring := by
    unfold SameTwoTokens
    split
    · rename_i o1 o2 heq
      rw [sameBook_iff]
      constructor
      · intro h; exact ⟨o1, o2, heq, h⟩
      · rintro ⟨p1, p2, hp, h⟩
        rw [heq] at hp
        simp only [List.cons.injEq, and_true] at hp
        obtain ⟨rfl, rfl⟩ := hp
        exact h
    · rename_i hne
      constructor
      · intro h; exact absurd h (by simp)
      · rintro ⟨p1, p2, hp, -⟩
        exact absurd hp (hne p1 p2)
  unfold validateRing
  rw [hcard]
  by_cases hlen : ring.Orders.length < 2
  · simp only [hlen, if_true]
    constructor
    · intro h; simp at h
    · rintro ⟨h, -⟩; omega
  simp only [hlen, if_false]
  split
  swap
  · rename_i hne
    constructor
    · intro h; simp at h
    · rintro ⟨-, ⟨f, l, hf, hl, -⟩, -⟩
      exact absurd hl (hne f l hf)
  rename_i first last hh hl
  by_cases hclose : (s.orderAt last).SymbolOut ≠ (s.orderAt first).SymbolIn
  · rw [if_pos hclose]
    constructor
    · intro h; simp at h
    · rintro ⟨-, ⟨f, l, hf, hl', hc⟩, -⟩
      rw [hh] at hf
      rw [hl] at hl'
      simp only [Option.some.injEq] at hf hl'
      subst hf hl'
      exact absurd hc hclose
  rw [if_neg hclose]
  -- the same-book test
  split_ifs with hsb huniq
  · constructor
    · intro h; simp at h
    · rintro ⟨-, -, hns, -⟩
      exact absurd (hsame.mp hsb) hns
  · constructor
    · intro h; simp at h
    · rintro ⟨-, -, -, h3, -⟩; omega
  · have hns : ¬ SameTwoTokens s ring := fun h => hsb (hsame.mpr h)
    rcases hb : calculateRingBottleneck s ring with _ | b
    · simp
    · simp only [Option.some.injEq, decide_eq_true_eq]
      constructor
      · intro hpos
        exact ⟨by omega, ⟨first, last, hh, hl, not_not.mp hclose⟩, hns, by omega, b, rfl, hpos⟩
      · rintro ⟨-, -, -, -, b', hb', hpos⟩
        cases hb'
        exact hpos

set_option maxRecDepth 100000 in
/-- C14. `validateRing` accepts a ring path if and only if it has at least two
orders, the last order's `SymbolOut` is the first order's `SymbolIn`, it is not
a ring of two orders that involve exactly the same two tokens, its orders
mention at least three distinct tokens, and `calculateRingBottleneck` returns a
value `> 0` for it. The path of the ask `A -> B {10, 10}` and the bid
`B -> A {10, 10}` is a ring of two orders on the same two tokens, and
`validateRing` rejects it. -/
theorem validateRing_accepts_iff :
    (∀ (s : OrderBookStore) (ring : RingPath),
      validateRing s ring = some true ↔
        (2 ≤ ring.Orders.length ∧
         (∃ first last, ring.Orders.head? = some first ∧ ring.Orders.getLast? = some last ∧
            (s.orderAt last).SymbolOut = (s.orderAt first).SymbolIn) ∧
         ¬ SameTwoTokens s ring ∧
         3 ≤ (ringTokens s ring).toFinset.card ∧
         ∃ b, calculateRingBottleneck s ring = some b ∧ 0 < b)) ∧
    (((pairBook.orderAt 0).SymbolIn, (pairBook.orderAt 0).SymbolOut, (pairBook.orderAt 0).AmtIn,
        (pairBook.orderAt 0).AmtOut) = ("A", "B", 10, 10) ∧
      ((pairBook.orderAt 1).SymbolIn, (pairBook.orderAt 1).SymbolOut, (pairBook.orderAt 1).AmtIn,
        (pairBook.orderAt 1).AmtOut) = ("B", "A", 10, 10) ∧
      SameTwoTokens pairBook pairRing ∧
      validateRing pairBook pairRing = some false) := by
  refine ⟨validateRing_eq_true_iff, by decide, by decide, ?_, by decide⟩
  exact ⟨0, 1, rfl, by decide, by decide⟩

/-! ## The bottleneck of a ring -/

theorem legOutput_eq (o : Order) (amount : Int) (h : 0 < o.AmtIn) :
    legOutput o amount = amount * o.AmtOut / o.AmtIn := by
  unfold legOutput
  obtain ⟨d, hd⟩ : ∃ d : Nat, o.AmtIn = (d : Int) := ⟨o.AmtIn.toNat, by omega⟩
  rw [hd]
  exact_mod_cast Rat.floor_intCast_div_natCast (amount * o.AmtOut) d

/-- The inner loop of `calculateRingBottleneck` computes the flow: started at
pass `j` with the amount the flow presents to leg `j`, it ends with the final
amount of the flow when no leg from `j` on is presented with more than its
trade amount, and with `valid = false` otherwise. -/
theorem simulateFlow_flow (s : OrderBookStore) (ring : RingPath) (i : Nat) (x : Int)
    (hlen : ring.TradeAmounts.length = ring.Orders.length)
    (hin : ∀ o ∈ ring.Orders, 0 < (s.orderAt o).AmtIn) :
    ∀ k j, j + k = ring.Orders.length →
      simulateFlow s ring i k j (flowAmount s ring i x j) =
        some (if ∀ j', j ≤ j' → j' < ring.Orders.length →
                  flowAmount s ring i x j' ≤
                    ring.TradeAmounts.getD ((i + j') % ring.Orders.length) 0
              then some (flowAmount s ring i x ring.Orders.length) else none) := by
  classical
  intro k
  induction k with
  | zero =>
    intro j hj
    have : j = ring.Orders.length := by omega
    subst this
    rw [simulateFlow, if_pos]
    intro j' h1 h2
    omega
  | succ k ih =>
    intro j hj
    have hn : 0 < ring.Orders.length := by omega
    have hidx : (i + j) % ring.Orders.length < ring.Orders.length := Nat.mod_lt _ hn
    have ho : ring.Orders[(i + j) % ring.Orders.length]? =
        some (ring.Orders.getD ((i + j) % ring.Orders.length) 0) := by
      rw [List.getD_eq_getElem?_getD, List.getElem?_eq_getElem hidx]; rfl
    have hc : ring.TradeAmounts[(i + j) % ring.Orders.length]? =
        some (ring.TradeAmounts.getD ((i + j) % ring.Orders.length) 0) := by
      rw [List.getD_eq_getElem?_getD, List.getElem?_eq_getElem (by omega)]; rfl
    have hmem : ring.Orders.getD ((i + j) % ring.Orders.length) 0 ∈ ring.Orders := by
      rw [List.getD_eq_getElem?_getD, List.getElem?_eq_getElem hidx]
      exact List.getElem_mem _
    have hpos := hin _ hmem
    rw [simulateFlow]
    simp only [ho, hc]
    by_cases hcap : flowAmount s ring i x j >
        ring.TradeAmounts.getD ((i + j) % ring.Orders.length) 0
    · rw [if_pos hcap, if_neg]
      intro hall
      have := hall j (le_refl _) (by omega)
      omega
    · rw [if_neg hcap, if_neg (by omega)]
      have hstep : flowAmount s ring i x j *
            (s.orderAt (ring.Orders.getD ((i + j) % ring.Orders.length) 0)).AmtOut /
            (s.orderAt (ring.Orders.getD ((i + j) % ring.Orders.length) 0)).AmtIn =
          flowAmount s ring i x (j + 1) := by
        rw [flowAmount, legOutput_eq _ _ hpos]
      rw [hstep, ih (j + 1) (by omega)]
      congr 1
      apply if_congr _ rfl rfl
      constructor
      · intro h j' h1 h2
        rcases Nat.eq_or_lt_of_le h1 with rfl | h1
        · omega
        · exact h j' h1 h2
      · intro h j' h1 h2
        exact h j' (by omega) h2

/-- One pass of the outer loop of `calculateRingBottleneck` tests whether the
anchor is feasible. -/
theorem simulateFlow_anchor (s : OrderBookStore) (ring : RingPath) (i : Nat)
    (hlen : ring.TradeAmounts.length = ring.Orders.length)
    (hin : ∀ o ∈ ring.Orders, 0 < (s.orderAt o).AmtIn) (hi : i < ring.Orders.length) :
    (FeasibleAnchor s ring i ∧
      ∃ c, simulateFlow s ring i ring.Orders.length 0 (ring.TradeAmounts.getD i 0) = some (some c) ∧
        ring.TradeAmounts.getD i 0 ≤ c) ∨
    (¬ FeasibleAnchor s ring i ∧
      (simulateFlow s ring i ring.Orders.length 0 (ring.TradeAmounts.getD i 0) = some none ∨
        ∃ c, simulateFlow s ring i ring.Orders.length 0 (ring.TradeAmounts.getD i 0)
            = some (some c) ∧ c < ring.TradeAmounts.getD i 0)) := by
  have h := simulateFlow_flow s ring i (ring.TradeAmounts.getD i 0) hlen hin
    ring.Orders.length 0 (by omega)
  rw [show flowAmount s ring i (ring.TradeAmounts.getD i 0) 0 = ring.TradeAmounts.getD i 0 from rfl]
    at h
  rw [h]
  by_cases hall : ∀ j', 0 ≤ j' → j' < ring.Orders.length →
      flowAmount s ring i (ring.TradeAmounts.getD i 0) j' ≤
        ring.TradeAmounts.getD ((i + j') % ring.Orders.length) 0
  · rw [if_pos hall]
    by_cases hret : ring.TradeAmounts.getD i 0 ≤
        flowAmount s ring i (ring.TradeAmounts.getD i 0) ring.Orders.length
    · exact Or.inl ⟨⟨hi, fun j hj => hall j (Nat.zero_le _) hj, hret⟩, _, rfl, hret⟩
    · refine Or.inr ⟨fun hf => hret hf.2.2, Or.inr ⟨_, rfl, by omega⟩⟩
  · rw [if_neg hall]
    exact Or.inr ⟨fun hf => hall (fun j _ hj => hf.2.1 j hj), Or.inl rfl⟩

/-- The outer loop of `calculateRingBottleneck` from anchor `i` on: it ends,
with the current maximum or the trade amount of a feasible anchor, which is at
least the current maximum and at least the trade amount of every feasible
anchor from `i` on. -/
theorem bottleneckLoop_spec (s : OrderBookStore) (ring : RingPath)
    (hlen : ring.TradeAmounts.length = ring.Orders.length)
    (hin : ∀ o ∈ ring.Orders, 0 < (s.orderAt o).AmtIn) :
    ∀ k i m, i + k = ring.Orders.length →
      ∃ r, bottleneckLoop s ring k i m = some r ∧
        (r = m ∨ ∃ a, i ≤ a ∧ FeasibleAnchor s ring a ∧ r = some (ring.TradeAmounts.getD a 0)) ∧
        (∀ a, i ≤ a → FeasibleAnchor s ring a → ∃ v, r = some v ∧ ring.TradeAmounts.getD a 0 ≤ v) ∧
        (∀ v, m = some v → ∃ w, r = some w ∧ v ≤ w) := by
  intro k
  induction k with
  | zero =>
    intro i m hi
    refine ⟨m, rfl, Or.inl rfl, fun a ha hf => ?_, fun v hv => ⟨v, hv, le_refl _⟩⟩
    have := hf.1
    omega
  | succ k ih =>
    intro i m hi
    have hilt : i < ring.Orders.length := by omega
    have ht : ring.TradeAmounts[i]? = some (ring.TradeAmounts.getD i 0) := by
      rw [List.getD_eq_getElem?_getD, List.getElem?_eq_getElem (by omega)]; rfl
    rw [bottleneckLoop]
    simp only [ht]
    -- what the rest of the loop gives, for the maximum `m1` this pass leaves
    have rest : ∀ m1 : Option Int,
        (m1 = m ∨ (FeasibleAnchor s ring i ∧ m1 = some (ring.TradeAmounts.getD i 0))) →
        (FeasibleAnchor s ring i → ∃ v, m1 = some v ∧ ring.TradeAmounts.getD i 0 ≤ v) →
        (∀ v, m = some v → ∃ w, m1 = some w ∧ v ≤ w) →
        ∃ r, bottleneckLoop s ring k (i + 1) m1 = some r ∧
          (r = m ∨ ∃ a, i ≤ a ∧ FeasibleAnchor s ring a ∧ r = some (ring.TradeAmounts.getD a 0)) ∧
          (∀ a, i ≤ a → FeasibleAnchor s ring a →
            ∃ v, r = some v ∧ ring.TradeAmounts.getD a 0 ≤ v) ∧
          (∀ v, m = some v → ∃ w, r = some w ∧ v ≤ w) := by
      intro m1 h1 h2 h3
      obtain ⟨r, hr, ha, hb, hc⟩ := ih (i + 1) m1 (by omega)
      refine ⟨r, hr, ?_, ?_, ?_⟩
      · rcases ha with rfl | ⟨a, hia, hfa, rfl⟩
        · rcases h1 with rfl | ⟨hf, rfl⟩
          · exact Or.inl rfl
          · exact Or.inr ⟨i, le_refl _, hf, rfl⟩
        · exact Or.inr ⟨a, by omega, hfa, rfl⟩
      · intro a hia hfa
        rcases Nat.eq_or_lt_of_le hia with rfl | hlt
        · obtain ⟨v, hv, hle⟩ := h2 hfa
          obtain ⟨w, hw, hvw⟩ := hc v hv
          exact ⟨w, hw, le_trans hle hvw⟩
        · exact hb a hlt hfa
      · intro v hv
        obtain ⟨w, hw, hvw⟩ := h3 v hv
        obtain ⟨w', hw', hww⟩ := hc w hw
        exact ⟨w', hw', le_trans hvw hww⟩
    rcases simulateFlow_anchor s ring i hlen hin hilt with
      ⟨hf, c, hc, hle⟩ | ⟨hnf, hc | ⟨c, hc, hlt⟩⟩
    · simp only [hc]
      rw [if_pos (by omega)]
      cases m with
      | none =>
        exact rest _ (Or.inr ⟨hf, rfl⟩) (fun _ => ⟨_, rfl, le_refl _⟩) (fun v hv => by cases hv)
      | some mv =>
        simp only
        by_cases hgt : ring.TradeAmounts.getD i 0 > mv
        · rw [if_pos hgt]
          exact rest _ (Or.inr ⟨hf, rfl⟩) (fun _ => ⟨_, rfl, le_refl _⟩)
            (fun v hv => by cases hv; exact ⟨_, rfl, by omega⟩)
        · rw [if_neg hgt]
          exact rest _ (Or.inl rfl) (fun _ => ⟨_, rfl, by omega⟩)
            (fun v hv => ⟨v, hv, le_refl _⟩)
    · simp only [hc]
      exact rest _ (Or.inl rfl) (fun hf => absurd hf hnf) (fun v hv => ⟨v, hv, le_refl _⟩)
    · simp only [hc]
      rw [if_neg (by omega)]
      exact rest _ (Or.inl rfl) (fun hf => absurd hf hnf) (fun v hv => ⟨v, hv, le_refl _⟩)

/-- What `calculateRingBottleneck` returns for a ring with orders, one trade
amount for each of them, and positive `AmtIn`. -/
theorem calculateRingBottleneck_spec (s : OrderBookStore) (ring : RingPath)
    (hne : ring.Orders ≠ [])
    (hlen : ring.TradeAmounts.length = ring.Orders.length)
    (hin : ∀ o ∈ ring.Orders, 0 < (s.orderAt o).AmtIn) :
    ∃ b, calculateRingBottleneck s ring = some b ∧
      ((∃ i, FeasibleAnchor s ring i) →
        (∃ i, FeasibleAnchor s ring i ∧ ring.TradeAmounts.getD i 0 = b) ∧
        ∀ j, FeasibleAnchor s ring j → ring.TradeAmounts.getD j 0 ≤ b) ∧
      ((¬ ∃ i, FeasibleAnchor s ring i) → b = 0) := by
  have hn : ring.Orders.length ≠ 0 := fun h => hne (List.length_eq_zero.mp h)
  obtain ⟨r, hr, ha, hb, -⟩ := bottleneckLoop_spec s ring hlen hin ring.Orders.length 0 none
    (by omega)
  unfold calculateRingBottleneck
  rw [if_neg hn, hr]
  cases r with
  | none =>
    refine ⟨0, rfl, fun ⟨i, hf⟩ => ?_, fun _ => rfl⟩
    obtain ⟨v, hv, -⟩ := hb i (Nat.zero_le _) hf
    cases hv
  | some v =>
    refine ⟨v, rfl, fun _ => ⟨?_, fun j hj => ?_⟩, fun hno => ?_⟩
    · rcases ha with h | ⟨a, -, hfa, h⟩
      · cases h
      · exact ⟨a, hfa, by simpa using h.symm⟩
    · obtain ⟨w, hw, hle⟩ := hb j (Nat.zero_le _) hj
      cases hw
      exact hle
    · rcases ha with h | ⟨a, -, hfa, -⟩
      · cases h
      · exact absurd ⟨a, hfa⟩ hno

/-- A flow is feasible exactly when the inner loop of `calculateRingBottleneck`,
started with its amount, ends valid with at least that amount. -/
theorem feasibleFlow_iff (s : OrderBookStore) (ring : RingPath) (i : Nat) (x : Int)
    (hlen : ring.TradeAmounts.length = ring.Orders.length)
    (hin : ∀ o ∈ ring.Orders, 0 < (s.orderAt o).AmtIn) :
    FeasibleFlow s ring i x ↔
      ∃ c, simulateFlow s ring i ring.Orders.length 0 x = some (some c) ∧ x ≤ c := by
  have h := simulateFlow_flow s ring i x hlen hin ring.Orders.length 0 (by omega)
  rw [show flowAmount s ring i x 0 = x from rfl] at h
  rw [h]
  constructor
  · intro hf
    refine ⟨_, ?_, hf.2⟩
    rw [if_pos (fun j _ hj => hf.1 j hj)]
  · rintro ⟨c, hc, hle⟩
    by_cases hall : ∀ j', 0 ≤ j' → j' < ring.Orders.length →
        flowAmount s ring i x j' ≤ ring.TradeAmounts.getD ((i + j') % ring.Orders.length) 0
    · rw [if_pos hall] at hc
      simp only [Option.some.injEq] at hc
      subst hc
      exact ⟨fun j hj => hall j (Nat.zero_le _) hj, hle⟩
    · rw [if_neg hall] at hc
      simp at hc

set_option maxRecDepth 100000 in
/-- The function `calculateRingBottleneck` applied to trade amounts with a zero
entry, which the ring search never builds: on the ring of the three orders
`{10, 10}` with the trade amounts `[0, 10, 10]` anchor 0 is feasible (the
amount 0 flows through all three legs and returns 0) and the result is 0. The
value 0 stands for "no anchor is feasible" only when the trade amounts are
positive. -/
theorem bottleneck_zero_with_feasible_anchor :
    (trianglePath 0 10 10).Orders ≠ [] ∧
    (∀ o ∈ (trianglePath 0 10 10).Orders, 0 < (scenarioBooks.orderAt o).AmtIn) ∧
    FeasibleAnchor scenarioBooks (trianglePath 0 10 10) 0 ∧
    calculateRingBottleneck scenarioBooks (trianglePath 0 10 10) = some 0 ∧
    ¬ (calculateRingBottleneck scenarioBooks (trianglePath 0 10 10) = some 0 ↔
        ((¬ ∃ i, FeasibleAnchor scenarioBooks (trianglePath 0 10 10) i) ∨
          (trianglePath 0 10 10).Orders = [])) := by
  have hf : FeasibleAnchor scenarioBooks (trianglePath 0 10 10) 0 :=
    ⟨by decide, (feasibleFlow_iff _ _ _ _ (by decide) (by decide)).mpr ⟨0, by decide, by decide⟩⟩
  refine ⟨by decide, by decide, hf, by decide, fun h => ?_⟩
  rcases h.mp (by decide) with h1 | h2
  · exact h1 ⟨0, hf⟩
  · exact absurd h2 (by decide)

/-! ## The trade amounts of the paths the ring search builds -/

/-- The loops of `dfsRing` extend a path with positive trade amounts by a
positive trade amount, so the ring they return has positive trade amounts. -/
theorem checkOrders_amounts
    (search : OrderBookStore → String → RingPath → List (Nat × Int) → List Nat →
      Option (OrderBookStore × Option RingPath))
    (currentToken : String) (path : RingPath) (visited : List (Nat × Int))
    (usersInRing : List Nat)
    (hsearch : ∀ s token newPath vis users s' ring,
      PositiveTradeAmounts newPath →
      search s token newPath vis users = some (s', some ring) → PositiveTradeAmounts ring)
    (hinv : PositiveTradeAmounts path) :
    ∀ (entries : List (Nat × Nat × Element)) (s s' : OrderBookStore) (ring : RingPath),
      checkOrders search currentToken path visited usersInRing s entries = some (s', some ring) →
      PositiveTradeAmounts ring := by
  intro entries
  induction entries with
  | nil =>
    intro s s' ring h
    simp [checkOrders] at h
  | cons entry rest ih =>
    obtain ⟨book, priceLevel, e⟩ := entry
    intro s s' ring h
    rw [checkOrders] at h
    dsimp only at h
    split_ifs at h with h1 h2 h3 h4 h5
    · exact ih s s' ring h
    · exact ih s s' ring h
    · exact ih s s' ring h
    · exact ih s s' ring h
    · exact ih _ s' ring h
    · have hnew : PositiveTradeAmounts
          { Orders := path.Orders ++ [e.Value], Books := path.Books ++ [book],
            PriceLevels := path.PriceLevels ++ [priceLevel], Elements := path.Elements ++ [e],
            TradeAmounts := path.TradeAmounts ++
              [((s.initFilled e.Value).orderAt e.Value).AmtIn -
                ((s.initFilled e.Value).orderAt e.Value).filled] } := by
        obtain ⟨-, hlen, hpos⟩ := hinv
        refine ⟨by simp, by simp [hlen], ?_⟩
        intro t ht
        rcases List.mem_append.mp ht with ht | ht
        · exact hpos t ht
        · rw [List.mem_singleton] at ht
          rw [ht]
          exact lt_of_not_ge h5
      split at h
      · simp at h
      · rename_i s2 result hres
        simp only [Option.some.injEq, Prod.mk.injEq] at h
        obtain ⟨rfl, rfl⟩ := h
        exact hsearch _ _ _ _ _ _ _ hnew hres
      · exact ih _ s' ring h

/-- Every ring `dfsRing` returns on a path with positive trade amounts has
positive trade amounts. -/
theorem dfsRing_amounts (rangeBooks : List Nat → List (String × Nat) → List (String × Nat))
    (targetToken : String) :
    ∀ (fuel : Nat) (s : OrderBookStore) (currentToken : String) (path : RingPath)
      (visited : List (Nat × Int)) (usersInRing : List Nat) (depth : Nat)
      (s' : OrderBookStore) (ring : RingPath),
      PositiveTradeAmounts path →
      dfsRing rangeBooks fuel s currentToken targetToken path visited usersInRing depth
        = some (s', some ring) →
      PositiveTradeAmounts ring := by
  intro fuel
  induction fuel with
  | zero =>
    intro s currentToken path visited usersInRing depth s' ring hinv h
    simp [dfsRing] at h
  | succ fuel ih =>
    intro s currentToken path visited usersInRing depth s' ring hinv h
    rw [dfsRing] at h
    split_ifs at h with h1 h2
    · simp at h
    · split at h
      · simp at h
      · simp only [Option.some.injEq, Prod.mk.injEq] at h
        obtain ⟨-, rfl⟩ := h
        exact hinv
      · simp at h
    · exact checkOrders_amounts _ currentToken path visited usersInRing
        (fun s0 token newPath vis users s1 r1 hinv0 hs0 =>
          ih s0 token newPath vis users (depth + 1) s1 r1 hinv0 hs0)
        hinv _ s s' ring h

/-- Every ring `findRing` returns from a start entry with a positive remaining
amount has positive trade amounts. -/
theorem findRing_amounts (rangeBooks : List Nat → List (String × Nat) → List (String × Nat))
    (s : OrderBookStore) (start : UnmatchedOrder) (s' : OrderBookStore) (ring : RingPath)
    (hstart : 0 < start.RemainingIn)
    (h : findRing rangeBooks s start = some (s', some ring)) : PositiveTradeAmounts ring := by
  unfold findRing at h
  refine dfsRing_amounts rangeBooks _ _ _ _ _ _ _ _ _ _ ?_ h
  refine ⟨by simp, rfl, ?_⟩
  intro t ht
  rw [List.mem_singleton] at ht
  rw [ht]
  exact hstart

/-- The entries collected from one price level have positive remaining amounts. -/
theorem collectFromLevel_positive (book priceLevel : Nat) :
    ∀ (elems : List Element) (s s' : OrderBookStore) (found : List UnmatchedOrder),
      collectFromLevel book priceLevel s elems = some (s', found) →
      ∀ u ∈ found, 0 < u.RemainingIn := by
  intro elems
  induction elems with
  | nil =>
    intro s s' found h u hu
    simp only [collectFromLevel, Option.some.injEq, Prod.mk.injEq] at h
    obtain ⟨-, rfl⟩ := h
    cases hu
  | cons e rest ih =>
    intro s s' found h
    rw [collectFromLevel] at h
    dsimp only at h
    split_ifs at h with h1 h2 h3
    · exact ih s s' found h
    · split at h
      · simp at h
      · rename_i s2 more hres
        simp only [Option.some.injEq, Prod.mk.injEq] at h
        obtain ⟨-, rfl⟩ := h
        intro u hu
        rcases List.mem_cons.mp hu with hu | hu
        · rw [hu]
          exact h2
        · exact ih _ _ _ hres u hu
    · exact ih _ s' found h

/-- The entries collected from one tree have positive remaining amounts. -/
theorem collectFromTree_positive (book : Nat) :
    ∀ (tree : Tree) (s s' : OrderBookStore) (found : List UnmatchedOrder),
      collectFromTree book s tree = some (s', found) → ∀ u ∈ found, 0 < u.RemainingIn := by
  intro tree
  induction tree with
  | nil =>
    intro s s' found h u hu
    simp only [collectFromTree, Option.some.injEq, Prod.mk.injEq] at h
    obtain ⟨-, rfl⟩ := h
    cases hu
  | cons node rest ih =>
    intro s s' found h
    rw [collectFromTree] at h
    split at h
    · simp at h
    · rename_i s1 found1 h1
      split at h
      · simp at h
      · rename_i s2 more h2
        simp only [Option.some.injEq, Prod.mk.injEq] at h
        obtain ⟨-, rfl⟩ := h
        intro u hu
        rcases List.mem_append.mp hu with hu | hu
        · exact collectFromLevel_positive book node.2 _ _ _ _ h1 u hu
        · exact ih _ _ _ h2 u hu

/-- Every entry `collectUnmatchedOrders` returns has a positive remaining
amount. -/
theorem collectUnmatchedOrders_positive (s s' : OrderBookStore) (book : Nat)
    (entries : List UnmatchedOrder) (h : collectUnmatchedOrders s book = some (s', entries)) :
    ∀ u ∈ entries, 0 < u.RemainingIn := by
  unfold collectUnmatchedOrders at h
  split at h
  · simp at h
  · rename_i s1 bids h1
    split at h
    · simp at h
    · rename_i s2 asks h2
      simp only [Option.some.injEq, Prod.mk.injEq] at h
      obtain ⟨-, rfl⟩ := h
      intro u hu
      rcases List.mem_append.mp hu with hu | hu
      · exact collectFromTree_positive book _ _ _ _ h1 u hu
      · exact collectFromTree_positive book _ _ _ _ h2 u hu

/-- C15. For every ring with at least one order, every `AmtIn > 0` and trade
amounts as the ring search builds them (one for each order, each positive),
`calculateRingBottleneck` returns a value `b`; when some anchor is feasible,
`b` is the largest `TradeAmounts[i]` over the feasible anchors `i`, and `b = 0`
exactly when no anchor is feasible. For a ring without orders it returns 0.
Every ring `findRing` returns from a start entry with a positive remaining
amount has such trade amounts, and every entry `collectUnmatchedOrders` returns
has a positive remaining amount. -/
theorem calculateRingBottleneck_largest_feasible_anchor :
    (∀ (s : OrderBookStore) (ring : RingPath),
      ring.Orders ≠ [] →
      ring.TradeAmounts.length = ring.Orders.length →
      (∀ t ∈ ring.TradeAmounts, 0 < t) →
      (∀ o ∈ ring.Orders, 0 < (s.orderAt o).AmtIn) →
      ∃ b, calculateRingBottleneck s ring = some b ∧
        ((∃ i, FeasibleAnchor s ring i) →
          (∃ i, FeasibleAnchor s ring i ∧ ring.TradeAmounts.getD i 0 = b) ∧
          ∀ j, FeasibleAnchor s ring j → ring.TradeAmounts.getD j 0 ≤ b) ∧
        (b = 0 ↔ ¬ ∃ i, FeasibleAnchor s ring i)) ∧
    (∀ (s : OrderBookStore) (ring : RingPath),
      ring.Orders = [] → calculateRingBottleneck s ring = some 0) ∧
    (∀ (rangeBooks : List Nat → List (String × Nat) → List (String × Nat))
        (s : OrderBookStore) (start : UnmatchedOrder) (s' : OrderBookStore) (ring : RingPath),
      0 < start.RemainingIn → findRing rangeBooks s start = some (s', some ring) →
      ring.Orders ≠ [] ∧ ring.TradeAmounts.length = ring.Orders.length ∧
        ∀ t ∈ ring.TradeAmounts, 0 < t) ∧
    (∀ (s s' : OrderBookStore) (book : Nat) (entries : List UnmatchedOrder),
      collectUnmatchedOrders s book = some (s', entries) →
      ∀ u ∈ entries, 0 < u.RemainingIn) := by
  refine ⟨?_, ?_, ?_, collectUnmatchedOrders_positive⟩
  · intro s ring hne hlen hpos hin
    obtain ⟨b, hb, h1, h2⟩ := calculateRingBottleneck_spec s ring hne hlen hin
    refine ⟨b, hb, h1, ?_, h2⟩
    intro h0 hex
    obtain ⟨⟨i, hi, hib⟩, -⟩ := h1 hex
    have hilt : i < ring.TradeAmounts.length := by rw [hlen]; exact hi.1
    have hmem : ring.TradeAmounts.getD i 0 ∈ ring.TradeAmounts := by
      rw [List.getD_eq_getElem _ _ hilt]
      exact List.getElem_mem hilt
    have := hpos _ hmem
    omega
  · intro s ring h
    unfold calculateRingBottleneck
    rw [if_pos (by rw [h]; rfl)]
  · intro rangeBooks s start s' ring hstart h
    exact findRing_amounts rangeBooks s start s' ring hstart h

set_option maxRecDepth 100000 in
/-- Witness for C15: the ring `A -> B -> C -> A` of `ringBooks` with the trade
amounts `[10, 5, 10]`, whose bottleneck is 10, and the ring the search returns
on `scenarioBooks`, with the trade amounts `[10, 10, 10]`. -/
theorem calculateRingBottleneck_largest_feasible_anchor_witness :
    calculateRingBottleneck ringBooks ringPath = some 10 ∧
    (∃ b, calculateRingBottleneck ringBooks ringPath = some b ∧
      ((∃ i, FeasibleAnchor ringBooks ringPath i) →
        (∃ i, FeasibleAnchor ringBooks ringPath i ∧ ringPath.TradeAmounts.getD i 0 = b) ∧
        ∀ j, FeasibleAnchor ringBooks ringPath j → ringPath.TradeAmounts.getD j 0 ≤ b) ∧
      (b = 0 ↔ ¬ ∃ i, FeasibleAnchor ringBooks ringPath i)) ∧
    findRing (fun _ books => books) scenarioBooks (scenarioStart 0)
      = some (scenarioBooks, some (trianglePath 10 10 10)) ∧
    (∀ t ∈ (trianglePath 10 10 10).TradeAmounts, 0 < t) :=
  ⟨by decide,
   calculateRingBottleneck_largest_feasible_anchor.1 ringBooks ringPath (by decide) (by decide)
     (by decide) (by decide),
   by rfl,
   (calculateRingBottleneck_largest_feasible_anchor.2.2.1 (fun _ books => books) scenarioBooks
     (scenarioStart 0) scenarioBooks (trianglePath 10 10 10) (by decide) (by rfl)).2.2⟩

set_option maxRecDepth 100000 in
/-- C16 (evaluation at the failing input). For the ring of `A -> B {10, 10}`,
`B -> C {10, 30}` and `C -> A {20, 20}` with their full amounts `[10, 10, 20]`
as trade amounts, the amount 10 entering at leg 2 flows through all legs
within their trade amounts (legs 2, 0, 1 are presented with 10, 10, 10) and
returns 30; `calculateRingBottleneck` tries the amounts 10, 10 and 20 only,
returns 0, and `validateRing` rejects the ring. -/
theorem bottleneck_misses_feasible_flow :
    (∀ o ∈ (trianglePath 10 10 20).Orders, 0 < (unevenBooks.orderAt o).AmtIn) ∧
    FeasibleFlow unevenBooks (trianglePath 10 10 20) 2 10 ∧
    flowAmount unevenBooks (trianglePath 10 10 20) 2 10 3 = 30 ∧
    simulateFlow unevenBooks (trianglePath 10 10 20) 2 3 0 10 = some (some 30) ∧
    calculateRingBottleneck unevenBooks (trianglePath 10 10 20) = some 0 ∧
    validateRing unevenBooks (trianglePath 10 10 20) = some false := by
  have hin : ∀ o ∈ (trianglePath 10 10 20).Orders, 0 < (unevenBooks.orderAt o).AmtIn := by decide
  have hsim := simulateFlow_flow unevenBooks (trianglePath 10 10 20) 2 10 (by decide) hin 3 0
    (by decide)
  have hf : FeasibleFlow unevenBooks (trianglePath 10 10 20) 2 10 :=
    (feasibleFlow_iff _ _ _ _ (by decide) hin).mpr ⟨30, by decide, by decide⟩
  refine ⟨hin, hf, ?_, by decide, by decide, by decide⟩
  rw [show flowAmount unevenBooks (trianglePath 10 10 20) 2 10 0 = 10 from rfl,
    show simulateFlow unevenBooks (trianglePath 10 10 20) 2 3 0 10 = some (some 30) by decide,
    if_pos (fun j _ hj => hf.1 j hj)] at hsim
  simpa using hsim.symm

/-! ## The effect of `AddOrder` -/

/-- After `Put` the key is bound to the value. -/
theorem Tree.Get_Put_self (t : Tree) (k : Int) (v : Nat) : (t.Put k v).Get k = some v := by
  unfold Tree.Get Tree.Put
  have h : (List.filter (fun e => e.1 != k) t).find? (fun e => e.1 == k) = none := by
    rw [List.find?_eq_none]
    intro x hx
    have := (List.mem_filter.mp hx).2
    simpa using this
  rw [List.find?_append, h]
  simp

/-- `Put` leaves the bindings of the other keys. -/
theorem Tree.Get_Put_other (t : Tree) (k k' : Int) (v : Nat) (hk : k' ≠ k) :
    (t.Put k v).Get k' = t.Get k' := by
  unfold Tree.Get Tree.Put
  have h : ∀ l : Tree, (List.filter (fun e => e.1 != k) l ++ [(k, v)]).find? (fun e => e.1 == k') =
      l.find? (fun e => e.1 == k') := by
    intro l
    have hb : (k == k') = false := by simpa using Ne.symm hk
    induction l with
    | nil => simp [List.find?, hb]
    | cons x xs ih =>
      by_cases hx : x.1 = k
      · have hxk : x.1 ≠ k' := fun h => hk (h.symm.trans hx)
        simp only [List.filter_cons, hx, bne_self_eq_false, Bool.false_eq_true, if_false]
        rw [ih, List.find?_cons]
        simp [hx, hb]
      · simp only [List.filter_cons, bne_iff_ne, ne_eq, hx, not_false_eq_true, if_true,
          List.cons_append, List.find?_cons]
        rw [ih]
  rw [h]

@[simp] theorem initFilled_Books (s : OrderBookStore) (p : Nat) :
    (s.initFilled p).Books = s.Books := by
  unfold OrderBookStore.initFilled
  split <;> rfl

/-- The store `AddOrder` has when it looks the price level up: the order has
its `FilledAmtIn` initialised and its `LimitPrice` set. -/
theorem AddOrder_priced (s : OrderBookStore) (p : Nat) (priceKey : Int) :
    ((s.initFilled p).setOrder p
        { (s.initFilled p).orderAt p with LimitPrice := some priceKey }).orderAt =
      Function.update s.orderAt p
        { s.orderAt p with FilledAmtIn := some (s.orderAt p).filled,
                           LimitPrice := some priceKey } := by
  funext q
  by_cases hq : q = p
  · subst hq
    simp [initFilled_orderAt]
  · simp [hq, initFilled_orderAt]

/-- What a successful `AddOrder` does to the order, the books and the levels. -/
theorem AddOrder_spec (s s' : OrderBookStore) (p : Nat)
    (h : AddOrder s p = some (s', none)) :
    ∃ bp key,
      s.lookupBook ((GetPairKey (s.orderAt p).SymbolIn (s.orderAt p).SymbolOut).1 ++ "/" ++
          (GetPairKey (s.orderAt p).SymbolIn (s.orderAt p).SymbolOut).2) = some bp ∧
      s'.orderAt p =
        { s.orderAt p with FilledAmtIn := some (s.orderAt p).filled, LimitPrice := some key } ∧
      (∀ q, q ≠ p → s'.orderAt q = s.orderAt q) ∧
      (∀ b, b ≠ bp → s'.bookAt b = s.bookAt b) ∧
      s'.Books = s.Books ∧
      (s'.bookAt bp).SymbolIn = (s.bookAt bp).SymbolIn ∧
      (s'.bookAt bp).SymbolOut = (s.bookAt bp).SymbolOut ∧
      (s'.bookAt bp).LastPrice = (s.bookAt bp).LastPrice ∧
      (((s.orderAt p).SymbolIn = (GetPairKey (s.orderAt p).SymbolIn (s.orderAt p).SymbolOut).1 ∧
          (s'.bookAt bp).Bids = (s.bookAt bp).Bids ∧
          LevelGrown s s' p key (s.bookAt bp).Asks (s'.bookAt bp).Asks) ∨
        ((s.orderAt p).SymbolIn ≠ (GetPairKey (s.orderAt p).SymbolIn (s.orderAt p).SymbolOut).1 ∧
          (s.orderAt p).SymbolIn = (GetPairKey (s.orderAt p).SymbolIn (s.orderAt p).SymbolOut).2 ∧
          (s'.bookAt bp).Asks = (s.bookAt bp).Asks ∧
          LevelGrown s s' p key (s.bookAt bp).Bids (s'.bookAt bp).Bids)) := by
  unfold AddOrder at h
  dsimp only at h
  split at h
  · simp at h
  · rename_i bp hbp
    split at h
    · simp at h
    · simp at h
    · rename_i isBid priceKey hside
      refine ⟨bp, priceKey, hbp, ?_⟩
      have hsym : ((s.initFilled p).orderAt p).SymbolIn = (s.orderAt p).SymbolIn ∧
          ((s.initFilled p).orderAt p).SymbolOut = (s.orderAt p).SymbolOut := by
        rw [initFilled_orderAt]; simp
      rw [hsym.1, hsym.2] at hside
      have hs1 := AddOrder_priced s p priceKey
      -- which side
      have hsd : (isBid = false ∧
            (s.orderAt p).SymbolIn = (GetPairKey (s.orderAt p).SymbolIn (s.orderAt p).SymbolOut).1) ∨
          (isBid = true ∧
            (s.orderAt p).SymbolIn ≠ (GetPairKey (s.orderAt p).SymbolIn (s.orderAt p).SymbolOut).1 ∧
            (s.orderAt p).SymbolIn =
              (GetPairKey (s.orderAt p).SymbolIn (s.orderAt p).SymbolOut).2) := by
        split_ifs at hside with c1 c2
        · simp only [Option.some.injEq, Prod.mk.injEq] at hside
          exact Or.inl ⟨hside.1.symm, c1.1⟩
        · simp only [Option.some.injEq, Prod.mk.injEq] at hside
          refine Or.inr ⟨hside.1.symm, fun hin => ?_, c2.1⟩
          -- then base = quote, and the first test would have held
          exact c1 ⟨hin, c2.2.trans (hin.symm.trans c2.1)⟩
      clear hside
      have hlv : ((s.initFilled p).setOrder p
          { (s.initFilled p).orderAt p with LimitPrice := some priceKey }).levelAt = s.levelAt := by
        simp
      have hbk : ((s.initFilled p).setOrder p
          { (s.initFilled p).orderAt p with LimitPrice := some priceKey }).bookAt = s.bookAt := by
        simp
      have hnl : ((s.initFilled p).setOrder p
          { (s.initFilled p).orderAt p with LimitPrice := some priceKey }).nextLevel
            = s.nextLevel := by
        simp
      have hne : ((s.initFilled p).setOrder p
          { (s.initFilled p).orderAt p with LimitPrice := some priceKey }).nextElem
            = s.nextElem := by
        simp
      have hbs : ((s.initFilled p).setOrder p
          { (s.initFilled p).orderAt p with LimitPrice := some priceKey }).Books = s.Books := by
        simp [OrderBookStore.setOrder]
      generalize ((s.initFilled p).setOrder p
          { (s.initFilled p).orderAt p with LimitPrice := some priceKey }) = s1 at h hs1 hlv hbk hnl hne hbs
      have hrem : (s1.orderAt p).AmtIn - (s1.orderAt p).filled =
          (s.orderAt p).AmtIn - (s.orderAt p).filled := by
        rw [hs1]; simp [Order.filled]
      rw [hrem, hbk, hnl, hne] at h
      split at h
      · rename_i hget
        simp only [Option.some.injEq, Prod.mk.injEq, and_true] at h
        subst h
        rcases hsd with ⟨rfl, hin⟩ | ⟨rfl, hnin, hin⟩
        · simp only [Bool.false_eq_true, if_false] at hget ⊢
          refine ⟨?_, ?_, ?_, ?_, ?_, ?_, ?_,
            Or.inl ⟨hin, ?_, s.nextLevel, ?_, ?_, ?_, Or.inl ⟨hget, rfl, ?_⟩⟩⟩
          · simp [hs1]
          · intro q hq; simp [hs1, hq]
          · intro b hb; simp [hbk, hb]
          · simp [OrderBookStore.setLevel, OrderBookStore.setBook, hbs]
          · simp [hbk]
          · simp [hbk]
          · simp [hbk]
          · simp [hbk]
          · simp [Tree.Get_Put_self]
          · intro k hk; simp [Tree.Get_Put_other _ _ _ _ hk]
          · intro l hl; simp [hlv, hl]
          · simp [hlv]
        · simp only [if_true] at hget ⊢
          refine ⟨?_, ?_, ?_, ?_, ?_, ?_, ?_,
            Or.inr ⟨hnin, hin, ?_, s.nextLevel, ?_, ?_, ?_, Or.inl ⟨hget, rfl, ?_⟩⟩⟩
          · simp [hs1]
          · intro q hq; simp [hs1, hq]
          · intro b hb; simp [hbk, hb]
          · simp [OrderBookStore.setLevel, OrderBookStore.setBook, hbs]
          · simp [hbk]
          · simp [hbk]
          · simp [hbk]
          · simp [hbk]
          · simp [Tree.Get_Put_self]
          · intro k hk; simp [Tree.Get_Put_other _ _ _ _ hk]
          · intro l hl; simp [hlv, hl]
          · simp [hlv]
      · rename_i lp hget
        simp only [Option.some.injEq, Prod.mk.injEq, and_true] at h
        subst h
        rcases hsd with ⟨rfl, hin⟩ | ⟨rfl, hnin, hin⟩
        · simp only [Bool.false_eq_true, if_false] at hget ⊢
          refine ⟨?_, ?_, ?_, ?_, ?_, ?_, ?_,
            Or.inl ⟨hin, ?_, lp, ?_, ?_, ?_, Or.inr ⟨hget, ?_, ?_⟩⟩⟩
          · simp [hs1]
          · intro q hq; simp [hs1, hq]
          · intro b hb; simp [hbk]
          · simp [OrderBookStore.setLevel, hbs]
          · simp [hbk]
          · simp [hbk]
          · simp [hbk]
          · simp [hbk]
          · simp [hbk, hget]
          · intro k hk; simp [hbk]
          · intro l hl; simp [hlv, hl]
          · simp [hbk]
          · simp [hlv]
        · simp only [if_true] at hget ⊢
          refine ⟨?_, ?_, ?_, ?_, ?_, ?_, ?_,
            Or.inr ⟨hnin, hin, ?_, lp, ?_, ?_, ?_, Or.inr ⟨hget, ?_, ?_⟩⟩⟩
          · simp [hs1]
          · intro q hq; simp [hs1, hq]
          · intro b hb; simp [hbk]
          · simp [OrderBookStore.setLevel, hbs]
          · simp [hbk]
          · simp [hbk]
          · simp [hbk]
          · simp [hbk]
          · simp [hbk, hget]
          · intro k hk; simp [hbk]
          · intro l hl; simp [hlv, hl]
          · simp [hbk]
          · simp [hlv]

/-- C18. After a successful `AddOrder` of the order at address `p`: the order
has `FilledAmtIn` set (to 0 if it was `nil`) and `LimitPrice = key`, and is
otherwise as before, as is every other order; the order's element is the last
of the list of the level bound to `key`, among the asks if `SymbolIn` is the
base and among the bids if `SymbolIn` is the quote; that level has
`TotalQuantity = AmtIn - FilledAmtIn` if it was created by the call, and
otherwise its earlier elements in their order followed by the new one, and its
earlier `TotalQuantity` plus `AmtIn - FilledAmtIn`; the bindings of the other
keys, every other level, the tree of the other side, the other fields of the
book and every other book are unchanged. -/
theorem AddOrder_effect (s s' : OrderBookStore) (p : Nat)
    (h : AddOrder s p = some (s', none)) :
    ∃ bp key,
      s.lookupBook ((GetPairKey (s.orderAt p).SymbolIn (s.orderAt p).SymbolOut).1 ++ "/" ++
          (GetPairKey (s.orderAt p).SymbolIn (s.orderAt p).SymbolOut).2) = some bp ∧
      s'.orderAt p =
        { s.orderAt p with FilledAmtIn := some (s.orderAt p).filled, LimitPrice := some key } ∧
      (∀ q, q ≠ p → s'.orderAt q = s.orderAt q) ∧
      (∀ b, b ≠ bp → s'.bookAt b = s.bookAt b) ∧
      s'.Books = s.Books ∧
      (s'.bookAt bp).SymbolIn = (s.bookAt bp).SymbolIn ∧
      (s'.bookAt bp).SymbolOut = (s.bookAt bp).SymbolOut ∧
      (s'.bookAt bp).LastPrice = (s.bookAt bp).LastPrice ∧
      (((s.orderAt p).SymbolIn = (GetPairKey (s.orderAt p).SymbolIn (s.orderAt p).SymbolOut).1 ∧
          (s'.bookAt bp).Bids = (s.bookAt bp).Bids ∧
          LevelGrown s s' p key (s.bookAt bp).Asks (s'.bookAt bp).Asks) ∨
        ((s.orderAt p).SymbolIn ≠ (GetPairKey (s.orderAt p).SymbolIn (s.orderAt p).SymbolOut).1 ∧
          (s.orderAt p).SymbolIn = (GetPairKey (s.orderAt p).SymbolIn (s.orderAt p).SymbolOut).2 ∧
          (s'.bookAt bp).Asks = (s.bookAt bp).Asks ∧
          LevelGrown s s' p key (s.bookAt bp).Bids (s'.bookAt bp).Bids)) :=
  AddOrder_spec s s' p h

set_option maxRecDepth 100000 in
/-- Witness for C18: `AddOrder` of the ask `{100, 300}` into the empty book
`(A, B)`. -/
theorem AddOrder_effect_witness :
    AddOrder (twoOrderStore 100 300 150 40) 0 = some (askAdded, none) ∧
    ∃ bp key,
      (twoOrderStore 100 300 150 40).lookupBook "A/B" = some bp ∧
      askAdded.orderAt 0 =
        { (twoOrderStore 100 300 150 40).orderAt 0 with
          FilledAmtIn := some 0, LimitPrice := some key } ∧
      (askAdded.bookAt bp).Bids = ((twoOrderStore 100 300 150 40).bookAt bp).Bids :=
  ⟨by rfl,
   let ⟨bp, key, h1, h2, _, _, _, _, _, _, h3⟩ :=
     AddOrder_effect (twoOrderStore 100 300 150 40) askAdded 0 (by rfl)
   ⟨bp, key, h1, h2, h3.elim (fun a => a.2.1) (fun a => absurd a.1 (by decide))⟩⟩

/-! ## The effect of `RemoveOrder` -/

/-- The search of a list finds the first element that passes the test. -/
theorem find?_first {α : Type} (p : α → Bool) (pre post : List α) (e : α)
    (hpre : ∀ x ∈ pre, p x = false) (he : p e = true) :
    (pre ++ e :: post).find? p = some e := by
  rw [List.find?_eq_some]
  exact ⟨he, pre, post, rfl, fun x hx => by simp [hpre x hx]⟩

/-- Removing an element from a list of elements with distinct identities
leaves the elements before and after it, in their order. -/
theorem listRemove_split (pre post : List Element) (e : Element)
    (hnd : ((pre ++ e :: post).map Element.id).Nodup) :
    listRemove (pre ++ e :: post) e = pre ++ post := by
  unfold listRemove
  rw [List.map_append, List.map_cons, List.nodup_append] at hnd
  obtain ⟨-, h2, h3⟩ := hnd
  rw [List.nodup_cons] at h2
  have hpre : ∀ x ∈ pre, x.id ≠ e.id := by
    intro x hx heq
    exact h3 (List.mem_map.mpr ⟨x, hx, rfl⟩) (by rw [heq]; exact List.mem_cons_self _ _)
  have hpost : ∀ x ∈ post, x.id ≠ e.id := by
    intro x hx heq
    exact h2.1 (by rw [← heq]; exact List.mem_map.mpr ⟨x, hx, rfl⟩)
  rw [List.filter_append, List.filter_cons]
  simp only [bne_self_eq_false, Bool.false_eq_true, if_false]
  rw [List.filter_eq_self.mpr (fun x hx => by simpa using hpre x hx),
    List.filter_eq_self.mpr (fun x hx => by simpa using hpost x hx)]

/-- After `Remove` the key is unbound. -/
theorem Tree.Get_Remove_self (t : Tree) (k : Int) : (t.Remove k).Get k = none := by
  unfold Tree.Get Tree.Remove
  have h : (List.filter (fun e => e.1 != k) t).find? (fun e => e.1 == k) = none := by
    rw [List.find?_eq_none]
    intro x hx
    have := (List.mem_filter.mp hx).2
    simpa using this
  rw [h]

/-- `Remove` leaves the bindings of the other keys. -/
theorem Tree.Get_Remove_other (t : Tree) (k k' : Int) (hk : k' ≠ k) :
    (t.Remove k).Get k' = t.Get k' := by
  unfold Tree.Get Tree.Remove
  have h : ∀ l : Tree, (List.filter (fun e => e.1 != k) l).find? (fun e => e.1 == k') =
      l.find? (fun e => e.1 == k') := by
    intro l
    have hb : (k == k') = false := by simpa using Ne.symm hk
    induction l with
    | nil => rfl
    | cons x xs ih =>
      by_cases hx : x.1 = k
      · simp only [List.filter_cons, hx, bne_self_eq_false, Bool.false_eq_true, if_false]
        rw [ih, List.find?_cons]
        simp [hx, hb]
      · simp only [List.filter_cons, bne_iff_ne, ne_eq, hx, not_false_eq_true, if_true,
          List.find?_cons]
        rw [ih]
  rw [h]

/-- A cancellation that finds the order among the bids. -/
theorem RemoveOrder_bids (s : OrderBookStore) (createdBy : Nat) (nonce limitPrice : Int)
    (tokenA tokenB : String) (bp lp : Nat) (pre post : List Element) (e : Element)
    (hbook : s.lookupBook ((GetPairKey tokenA tokenB).1 ++ "/" ++ (GetPairKey tokenA tokenB).2)
      = some bp)
    (hm : FirstMatch s createdBy nonce (s.bookAt bp).Bids limitPrice lp pre e post) :
    RemoveOrder s createdBy nonce (some limitPrice) tokenA tokenB =
      removeFound s bp limitPrice e lp true := by
  obtain ⟨hget, hlist, hpre, he⟩ := hm
  have hfind : (s.levelAt lp).Orders.find? (fun (e : Element) =>
      decide ((s.orderAt e.Value).CreatedBy = createdBy ∧ (s.orderAt e.Value).Nonce = nonce))
        = some e := by
    rw [hlist]
    exact find?_first _ _ _ _ (fun x hx => by simpa [Element.IsOrderOf] using hpre x hx) (by simpa [Element.IsOrderOf] using he)
  unfold RemoveOrder removeFound
  simp only [hbook, hget, hfind]

/-- A cancellation that finds the order among the asks, having found none
among the bids. -/
theorem RemoveOrder_asks (s : OrderBookStore) (createdBy : Nat) (nonce limitPrice : Int)
    (tokenA tokenB : String) (bp lp : Nat) (pre post : List Element) (e : Element)
    (hbook : s.lookupBook ((GetPairKey tokenA tokenB).1 ++ "/" ++ (GetPairKey tokenA tokenB).2)
      = some bp)
    (hno : NoMatch s createdBy nonce (s.bookAt bp).Bids limitPrice)
    (hm : FirstMatch s createdBy nonce (s.bookAt bp).Asks limitPrice lp pre e post) :
    RemoveOrder s createdBy nonce (some limitPrice) tokenA tokenB =
      removeFound s bp limitPrice e lp false := by
  obtain ⟨hget, hlist, hpre, he⟩ := hm
  have hfind : (s.levelAt lp).Orders.find? (fun (e : Element) =>
      decide ((s.orderAt e.Value).CreatedBy = createdBy ∧ (s.orderAt e.Value).Nonce = nonce))
        = some e := by
    rw [hlist]
    exact find?_first _ _ _ _ (fun x hx => by simpa [Element.IsOrderOf] using hpre x hx) (by simpa [Element.IsOrderOf] using he)
  unfold RemoveOrder removeFound
  rcases hb : (s.bookAt bp).Bids.Get limitPrice with _ | l
  · simp only [hbook, hb, hget, hfind]
  · have hnone : (s.levelAt l).Orders.find? (fun (e : Element) =>
        decide ((s.orderAt e.Value).CreatedBy = createdBy ∧ (s.orderAt e.Value).Nonce = nonce))
          = none := by
      rw [List.find?_eq_none]
      intro x hx
      simpa [Element.IsOrderOf] using hno l hb x hx
    simp only [hbook, hb, hnone, hget, hfind]

@[simp] theorem initFilled_PastHistoryStore (s : OrderBookStore) (p : Nat) :
    (s.initFilled p).PastHistoryStore = s.PastHistoryStore := by
  unfold OrderBookStore.initFilled
  split <;> rfl

/-- A copy has the fields of the order copied, without its `TriggerPrice`. -/
theorem DeepCopy_fields (n : Nat) (f : Nat → Order) (o : Order) :
    (DeepCopy n f o).fields = { o with TriggerPrice := none } := by
  cases n <;> rfl

/-- The store after the first three statements of a cancellation. -/
theorem cancel_marked (s : OrderBookStore) (fo : Nat) :
    let s3 := ((s.setOrder fo { s.orderAt fo with Status := 4 }).AddToPastHistory fo).initFilled fo
    s3.levelAt = s.levelAt ∧ s3.bookAt = s.bookAt ∧
    s3.orderAt fo = { s.orderAt fo with Status := 4, FilledAmtIn := some (s.orderAt fo).filled } ∧
    (∀ q, q ≠ fo → s3.orderAt q = s.orderAt q) ∧
    (∃ snapshot,
      s3.PastHistoryStore (s.orderAt fo).CreatedBy (s.orderAt fo).Nonce =
        s.PastHistoryStore (s.orderAt fo).CreatedBy (s.orderAt fo).Nonce ++ [snapshot] ∧
      snapshot.fields = { s.orderAt fo with Status := 4, TriggerPrice := none }) ∧
    (∀ a n, ¬ (a = (s.orderAt fo).CreatedBy ∧ n = (s.orderAt fo).Nonce) →
      s3.PastHistoryStore a n = s.PastHistoryStore a n) := by
  intro s3
  refine ⟨by simp [s3], by simp [s3], ?_, ?_, ?_, ?_⟩
  · simp [s3, initFilled_orderAt, Order.filled]
  · intro q hq
    simp [s3, initFilled_orderAt, hq]
  · refine ⟨DeepCopy s.nextOrder (Function.update s.orderAt fo { s.orderAt fo with Status := 4 })
      { s.orderAt fo with Status := 4 }, ?_, DeepCopy_fields _ _ _⟩
    simp [s3, OrderBookStore.AddToPastHistory, OrderBookStore.setOrder]
  · intro a n hne
    simp only [s3, initFilled_PastHistoryStore]
    simp [OrderBookStore.AddToPastHistory, OrderBookStore.setOrder, hne]

/-- What `removeFound` does, for the side `isBid` of the book. -/
theorem removeFound_cancelled (s : OrderBookStore) (bp lp : Nat) (limitPrice : Int)
    (pre post : List Element) (e : Element) (isBid : Bool)
    (hget : (if isBid then (s.bookAt bp).Bids else (s.bookAt bp).Asks).Get limitPrice = some lp)
    (hlist : (s.levelAt lp).Orders = pre ++ e :: post)
    (hnd : ((s.levelAt lp).Orders.map Element.id).Nodup) :
    Cancelled s (removeFound s bp limitPrice e lp isBid)
      (if isBid then (s.bookAt bp).Bids else (s.bookAt bp).Asks)
      (if isBid then ((removeFound s bp limitPrice e lp isBid).bookAt bp).Bids
        else ((removeFound s bp limitPrice e lp isBid).bookAt bp).Asks)
      limitPrice lp pre e post ∧
    (if isBid then ((removeFound s bp limitPrice e lp isBid).bookAt bp).Asks
      else ((removeFound s bp limitPrice e lp isBid).bookAt bp).Bids) =
      (if isBid then (s.bookAt bp).Asks else (s.bookAt bp).Bids) ∧
    (∀ b, b ≠ bp → (removeFound s bp limitPrice e lp isBid).bookAt b = s.bookAt b) := by
  obtain ⟨h1, h2, h3, h4, h5, h6⟩ := cancel_marked s e.Value
  have hrm : listRemove (s.levelAt lp).Orders e = pre ++ post := by
    rw [hlist] at hnd ⊢
    exact listRemove_split pre post e hnd
  unfold removeFound
  dsimp only at h1 h2 h3 h4 h5 h6 ⊢
  generalize ((s.setOrder e.Value { s.orderAt e.Value with Status := 4 }).AddToPastHistory
    e.Value).initFilled e.Value = s3 at h1 h2 h3 h4 h5 h6 ⊢
  have hq : (s3.orderAt e.Value).AmtIn - (s3.orderAt e.Value).filled =
      (s.orderAt e.Value).AmtIn - (s.orderAt e.Value).filled := by
    rw [h3]; simp [Order.filled]
  simp only [setLevel_levelAt, Function.update_same, h1, hrm, hq, if_true]
  by_cases hemp : (pre ++ post).length = 0
  · have hnil : pre ++ post = [] := List.length_eq_zero.mp hemp
    rw [if_pos hemp]
    unfold Cancelled removePriceKey
    cases isBid
    · simp only [Bool.false_eq_true, if_false] at hget ⊢
      refine ⟨⟨?_, ?_, ?_, ?_, ?_, ?_, ?_, ?_, ?_⟩, ?_, ?_⟩
      · simpa using h3
      · intro q hq'; simpa using h4 q hq'
      · simpa [OrderBookStore.setLevel, OrderBookStore.setBook] using h5
      · intro a n hne; simpa [OrderBookStore.setLevel, OrderBookStore.setBook] using h6 a n hne
      · simp [h1]
      · intro l hl; simp [h1, hl]
      · simp [h2, hnil, Tree.Get_Remove_self]
      · intro hne; exact absurd hnil hne
      · intro k hk; simp [h2, Tree.Get_Remove_other _ _ _ hk]
      · simp [h2]
      · intro b hb; simp [h2, hb]
    · simp only [if_true] at hget ⊢
      refine ⟨⟨?_, ?_, ?_, ?_, ?_, ?_, ?_, ?_, ?_⟩, ?_, ?_⟩
      · simpa using h3
      · intro q hq'; simpa using h4 q hq'
      · simpa [OrderBookStore.setLevel, OrderBookStore.setBook] using h5
      · intro a n hne; simpa [OrderBookStore.setLevel, OrderBookStore.setBook] using h6 a n hne
      · simp [h1]
      · intro l hl; simp [h1, hl]
      · simp [h2, hnil, Tree.Get_Remove_self]
      · intro hne; exact absurd hnil hne
      · intro k hk; simp [h2, Tree.Get_Remove_other _ _ _ hk]
      · simp [h2]
      · intro b hb; simp [h2, hb]
  · have hnil : pre ++ post ≠ [] := fun h => hemp (by rw [h]; rfl)
    rw [if_neg hemp]
    unfold Cancelled
    refine ⟨⟨?_, ?_, ?_, ?_, ?_, ?_, ?_, ?_, ?_⟩, ?_, ?_⟩
    · simpa using h3
    · intro q hq'; simpa using h4 q hq'
    · simpa [OrderBookStore.setLevel] using h5
    · intro a n hne; simpa [OrderBookStore.setLevel] using h6 a n hne
    · simp [h1]
    · intro l hl; simp [h1, hl]
    · simp only [setLevel_bookAt, h2, hget]
      simp [hnil]
    · intro _; simp [h2]
    · intro k _; simp [h2]
    · simp [h2]
    · intro b _; simp [h2]

/-- C20. Let the book of the pair be `bp` and let the elements of the level
`lp` have distinct identities. If the bids bind `limitPrice` to `lp` and `e`
is the first element of that level whose order has the given creator and
nonce (or no level of the bids at `limitPrice` holds such an order and the
same is so for the asks), then `RemoveOrder` gives the order `Status = 4`
(and `FilledAmtIn = 0` if it was `nil`), appends to the history of its creator
and nonce exactly one snapshot, which has `Status = 4`, decreases the level's
`TotalQuantity` by `AmtIn - FilledAmtIn` of the order, removes the element
from the list and keeps the others in their order, and unbinds `limitPrice`
in the tree of that side exactly when the list is now empty; every other
order, every other history, every other level, the bindings of the other keys,
the tree of the other side and every other book are unchanged. -/
theorem RemoveOrder_effect (s : OrderBookStore) (createdBy : Nat) (nonce limitPrice : Int)
    (tokenA tokenB : String) (bp lp : Nat) (pre post : List Element) (e : Element)
    (hbook : s.lookupBook ((GetPairKey tokenA tokenB).1 ++ "/" ++ (GetPairKey tokenA tokenB).2)
      = some bp)
    (hnd : ((s.levelAt lp).Orders.map Element.id).Nodup) :
    (FirstMatch s createdBy nonce (s.bookAt bp).Bids limitPrice lp pre e post →
      Cancelled s (RemoveOrder s createdBy nonce (some limitPrice) tokenA tokenB)
        (s.bookAt bp).Bids
        ((RemoveOrder s createdBy nonce (some limitPrice) tokenA tokenB).bookAt bp).Bids
        limitPrice lp pre e post ∧
      ((RemoveOrder s createdBy nonce (some limitPrice) tokenA tokenB).bookAt bp).Asks =
        (s.bookAt bp).Asks ∧
      ∀ b, b ≠ bp →
        (RemoveOrder s createdBy nonce (some limitPrice) tokenA tokenB).bookAt b = s.bookAt b) ∧
    (NoMatch s createdBy nonce (s.bookAt bp).Bids limitPrice →
      FirstMatch s createdBy nonce (s.bookAt bp).Asks limitPrice lp pre e post →
      Cancelled s (RemoveOrder s createdBy nonce (some limitPrice) tokenA tokenB)
        (s.bookAt bp).Asks
        ((RemoveOrder s createdBy nonce (some limitPrice) tokenA tokenB).bookAt bp).Asks
        limitPrice lp pre e post ∧
      ((RemoveOrder s createdBy nonce (some limitPrice) tokenA tokenB).bookAt bp).Bids =
        (s.bookAt bp).Bids ∧
      ∀ b, b ≠ bp →
        (RemoveOrder s createdBy nonce (some limitPrice) tokenA tokenB).bookAt b = s.bookAt b) := by
  constructor
  · intro hm
    rw [RemoveOrder_bids s createdBy nonce limitPrice tokenA tokenB bp lp pre post e hbook hm]
    have h := removeFound_cancelled s bp lp limitPrice pre post e true
      (by simpa using hm.1) hm.2.1 hnd
    simpa using h
  · intro hno hm
    rw [RemoveOrder_asks s createdBy nonce limitPrice tokenA tokenB bp lp pre post e hbook hno hm]
    have h := removeFound_cancelled s bp lp limitPrice pre post e false
      (by simpa using hm.1) hm.2.1 hnd
    simpa using h

set_option maxRecDepth 100000 in
/-- Witness for C20: the cancellation of the bid `{150, 40}` of creator 2 with
nonce 1, alone in its level at the key `3.75 * 10^18` of `partialFillBook`. -/
theorem RemoveOrder_effect_witness :
    FirstMatch partialFillBook 2 1 (partialFillBook.bookAt 0).Bids 3750000000000000000 1 []
      { id := 1, Value := 1 } [] ∧
    ((RemoveOrder partialFillBook 2 1 (some 3750000000000000000) "A" "B").orderAt 1).Status = 4 ∧
    (RemoveOrder partialFillBook 2 1 (some 3750000000000000000) "A" "B").levelAt 1 =
      { Orders := [], TotalQuantity := 150 - (150 - 0) } ∧
    ((RemoveOrder partialFillBook 2 1 (some 3750000000000000000) "A" "B").bookAt 0).Bids.Get
      3750000000000000000 = none := by
  have hm : FirstMatch partialFillBook 2 1 (partialFillBook.bookAt 0).Bids 3750000000000000000 1 []
      { id := 1, Value := 1 } [] := by
    unfold FirstMatch Element.IsOrderOf
    exact ⟨by decide, by decide, fun x hx => absurd hx (List.not_mem_nil x), by decide, by decide⟩
  have h := (RemoveOrder_effect partialFillBook 2 1 3750000000000000000 "A" "B" 0 1 [] []
    { id := 1, Value := 1 } (by decide) (by decide)).1 hm
  unfold Cancelled at h
  obtain ⟨⟨h1, -, -, -, h5, -, h7, -, -⟩, -, -⟩ := h
  refine ⟨hm, ?_, ?_, h7.mpr rfl⟩
  · rw [h1]
  · rw [h5]
    have ha : (partialFillBook.levelAt 1).TotalQuantity = 150 := by decide
    have hb : (partialFillBook.orderAt 1).AmtIn = 150 := by decide
    have hc : (partialFillBook.orderAt 1).filled = 0 := by decide
    rw [ha, hb, hc]
    rfl

/-! ## The ring search -/

/-- The initialisation of `FilledAmtIn` changes no view. -/
theorem initFilled_view (s : OrderBookStore) (p : Nat) : (s.initFilled p).view = s.view := by
  funext q
  obtain ⟨h1, h2, -, h4, h5⟩ := initFilled_fields s p q
  have h6 : ((s.initFilled p).orderAt q).SymbolIn = (s.orderAt q).SymbolIn ∧
      ((s.initFilled p).orderAt q).SymbolOut = (s.orderAt q).SymbolOut := by
    rw [initFilled_orderAt]
    split_ifs with h
    · subst h; simp
    · simp
  simp [OrderBookStore.view, Order.remaining, h1, h2, h4, h5, h6.1, h6.2]

@[simp] theorem initFilled_maxRingDepth (s : OrderBookStore) (p : Nat) :
    (s.initFilled p).maxRingDepth = s.maxRingDepth := by
  unfold OrderBookStore.initFilled
  split <;> rfl

/-- The path extended by an order that passes the tests of `checkOrders`. -/
theorem PathInv.extend {v : Nat → OrderView} {start : Nat} {targetToken currentToken : String}
    {path : RingPath} {usersInRing : List Nat} {depth : Nat}
    (h : PathInv v start targetToken currentToken path usersInRing depth) (hd : 1 ≤ depth)
    (o : Nat) (book priceLevel : Nat) (e : Element) (remainingIn : Int)
    (hin : (v o).SymbolIn = currentToken) (hst : (v o).Status = 0)
    (huser : (v o).CreatedBy ∉ usersInRing) (hrem : 0 < (v o).remaining) :
    PathInv v start targetToken (v o).SymbolOut
      { Orders := path.Orders ++ [o], Books := path.Books ++ [book],
        PriceLevels := path.PriceLevels ++ [priceLevel], Elements := path.Elements ++ [e],
        TradeAmounts := path.TradeAmounts ++ [remainingIn] }
      ((v o).CreatedBy :: usersInRing) (depth + 1) := by
  obtain ⟨hlen, husers, hnd, hchain, ⟨hfirst, htarget⟩, ⟨last, hlast, hcur⟩, htail⟩ := h
  have hne : path.Orders ≠ [] := by
    intro h0
    rw [h0] at hlen
    simp at hlen
    omega
  refine ⟨by simp [hlen], ?_, List.nodup_cons.mpr ⟨huser, hnd⟩, ?_, ⟨?_, htarget⟩,
    ⟨o, by simp, rfl⟩, ?_⟩
  · simp [husers]
  · show List.Chain' _ (path.Orders ++ [o])
    rw [List.chain'_append]
    refine ⟨hchain, List.chain'_singleton _, fun x hx y hy => ?_⟩
    rw [hlast] at hx
    simp only [Option.mem_def, Option.some.injEq] at hx
    simp only [List.head?_cons, Option.mem_def, Option.some.injEq] at hy
    subst hx hy
    rw [hin, hcur]
  · show (path.Orders ++ [o]).head? = some start
    rw [List.head?_append_of_ne_nil _ hne, hfirst]
  · intro q hq
    have : (path.Orders ++ [o]).tail = path.Orders.tail ++ [o] := by
      cases hp : path.Orders with
      | nil => exact absurd hp hne
      | cons a l => rfl
    change q ∈ (path.Orders ++ [o]).tail at hq
    rw [this, List.mem_append] at hq
    rcases hq with hq | hq
    · exact htail q hq
    · simp only [List.mem_singleton] at hq
      subst hq
      exact ⟨hst, hrem⟩

/-- A path that closes and that `validateRing` accepts is a pure ring. -/
theorem PathInv.closed {s : OrderBookStore} {start : Nat} {targetToken : String}
    {path : RingPath} {usersInRing : List Nat} {depth : Nat}
    (h : PathInv s.view start targetToken targetToken path usersInRing depth)
    (hd : 1 < depth) (hmax : ¬ depth > s.maxRingDepth)
    (hv : validateRing s path = some true) :
    RingPure s.view s.maxRingDepth start path := by
  obtain ⟨hlen, husers, hnd, hchain, ⟨hfirst, htarget⟩, ⟨last, hlast, hcur⟩, htail⟩ := h
  obtain ⟨-, -, -, htok, -⟩ := (validateRing_eq_true_iff s path).mp hv
  have hcr : (path.Orders.map (fun o => (s.view o).CreatedBy)).Nodup := by
    rw [husers] at hnd
    exact List.nodup_reverse.mp hnd
  exact ⟨by omega, by omega, hfirst, hchain, ⟨last, hlast, hcur.trans htarget.symm⟩, htok,
    List.Nodup.of_map _ hcr, hcr, htail⟩

/-- The loops of `dfsRing`, for a search one level deeper that returns pure
rings only and changes no view. -/
theorem checkOrders_pure (v : Nat → OrderView) (maxDepth start : Nat) (targetToken : String)
    (search : OrderBookStore → String → RingPath → List (Nat × Int) → List Nat →
      Option (OrderBookStore × Option RingPath))
    (currentToken : String) (path : RingPath) (visited : List (Nat × Int))
    (usersInRing : List Nat) (depth : Nat)
    (hsearch : ∀ s token newPath vis users s' r,
      s.view = v → s.maxRingDepth = maxDepth →
      PathInv v start targetToken token newPath users (depth + 1) →
      search s token newPath vis users = some (s', r) →
      s'.view = v ∧ s'.maxRingDepth = maxDepth ∧
        ∀ ring, r = some ring → RingPure v maxDepth start ring)
    (hinv : PathInv v start targetToken currentToken path usersInRing depth) (hd : 1 ≤ depth) :
    ∀ (entries : List (Nat × Nat × Element)) (s s' : OrderBookStore) (r : Option RingPath),
      s.view = v → s.maxRingDepth = maxDepth →
      checkOrders search currentToken path visited usersInRing s entries = some (s', r) →
      s'.view = v ∧ s'.maxRingDepth = maxDepth ∧
        ∀ ring, r = some ring → RingPure v maxDepth start ring := by
  intro entries
  induction entries with
  | nil =>
    intro s s' r hv hm h
    simp only [checkOrders, Option.some.injEq, Prod.mk.injEq] at h
    obtain ⟨rfl, rfl⟩ := h
    exact ⟨hv, hm, fun ring hr => by cases hr⟩
  | cons entry rest ih =>
    obtain ⟨book, priceLevel, e⟩ := entry
    intro s s' r hv hm h
    rw [checkOrders] at h
    dsimp only at h
    split_ifs at h with h1 h2 h3 h4 h5
    · exact ih s s' r hv hm h
    · exact ih s s' r hv hm h
    · exact ih s s' r hv hm h
    · exact ih s s' r hv hm h
    · exact ih _ s' r ((initFilled_view s e.Value).trans hv) (by simpa using hm) h
    · have hv1 : (s.initFilled e.Value).view = v := (initFilled_view s e.Value).trans hv
      have hm1 : (s.initFilled e.Value).maxRingDepth = maxDepth := by simpa using hm
      have hview : ∀ q, v q = s.view q := fun q => by rw [hv]
      have hf := initFilled_fields s e.Value e.Value
      have hsym : ((s.initFilled e.Value).orderAt e.Value).SymbolOut = (v e.Value).SymbolOut := by
        rw [← hv1]; rfl
      have hcre : ((s.initFilled e.Value).orderAt e.Value).CreatedBy = (v e.Value).CreatedBy := by
        rw [← hv1]; rfl
      have hnew := PathInv.extend hinv hd e.Value book priceLevel e
        (((s.initFilled e.Value).orderAt e.Value).AmtIn -
          ((s.initFilled e.Value).orderAt e.Value).filled)
        (by rw [hview]; exact not_not.mp h1)
        (by rw [hview]; exact not_not.mp h2)
        (by rw [hview]; simpa using h3)
        (by
          rw [← hv1]
          show 0 < ((s.initFilled e.Value).orderAt e.Value).AmtIn -
            ((s.initFilled e.Value).orderAt e.Value).filled
          omega)
      rw [hsym, hcre] at h
      split at h
      · simp at h
      · rename_i s2 result hres
        simp only [Option.some.injEq, Prod.mk.injEq] at h
        obtain ⟨rfl, rfl⟩ := h
        exact hsearch _ _ _ _ _ _ _ hv1 hm1 hnew hres
      · rename_i s2 hres
        obtain ⟨hv2, hm2, -⟩ := hsearch _ _ _ _ _ _ _ hv1 hm1 hnew hres
        exact ih s2 s' r hv2 hm2 h

/-- Every call of `dfsRing` on a path that satisfies `PathInv` returns pure
rings only, and changes no view. -/
theorem dfsRing_pure (rangeBooks : List Nat → List (String × Nat) → List (String × Nat))
    (v : Nat → OrderView) (maxDepth start : Nat) (targetToken : String) :
    ∀ (fuel : Nat) (s : OrderBookStore) (currentToken : String) (path : RingPath)
      (visited : List (Nat × Int)) (usersInRing : List Nat) (depth : Nat)
      (s' : OrderBookStore) (r : Option RingPath),
      s.view = v → s.maxRingDepth = maxDepth →
      PathInv v start targetToken currentToken path usersInRing depth → 1 ≤ depth →
      dfsRing rangeBooks fuel s currentToken targetToken path visited usersInRing depth
        = some (s', r) →
      s'.view = v ∧ s'.maxRingDepth = maxDepth ∧
        ∀ ring, r = some ring → RingPure v maxDepth start ring := by
  intro fuel
  induction fuel with
  | zero =>
    intro s currentToken path visited usersInRing depth s' r hv hm hinv hd h
    simp only [dfsRing, Option.some.injEq, Prod.mk.injEq] at h
    obtain ⟨rfl, rfl⟩ := h
    exact ⟨hv, hm, fun ring hr => by cases hr⟩
  | succ fuel ih =>
    intro s currentToken path visited usersInRing depth s' r hv hm hinv hd h
    rw [dfsRing] at h
    split_ifs at h with h1 h2
    · simp only [Option.some.injEq, Prod.mk.injEq] at h
      obtain ⟨rfl, rfl⟩ := h
      exact ⟨hv, hm, fun ring hr => by cases hr⟩
    · split at h
      · simp at h
      · rename_i hval
        simp only [Option.some.injEq, Prod.mk.injEq] at h
        obtain ⟨rfl, rfl⟩ := h
        refine ⟨hv, hm, fun ring hr => ?_⟩
        simp only [Option.some.injEq] at hr
        subst hr
        obtain ⟨rfl, hgt⟩ := h2
        subst hv hm
        exact PathInv.closed hinv hgt h1 hval
      · simp only [Option.some.injEq, Prod.mk.injEq] at h
        obtain ⟨rfl, rfl⟩ := h
        exact ⟨hv, hm, fun ring hr => by cases hr⟩
    · exact checkOrders_pure v maxDepth start targetToken _ currentToken path visited usersInRing
        depth (fun s0 token newPath vis users s1 r1 hv0 hm0 hinv0 hs0 =>
          ih s0 token newPath vis users (depth + 1) s1 r1 hv0 hm0 hinv0 (by omega) hs0)
        hinv hd _ s s' r hv hm h

/-- C13. Every ring path `findRing` returns, for any start entry, any contents
of the store and any order in which the books are visited, has between 2 and
`maxRingDepth` orders, starts with the start order, is a closed chain (each
order gives what the one before wants, and the last wants what the first
gives), mentions at least 3 distinct tokens, contains no order twice and no
two orders of one creator; every order after the start has `Status = 0` and a
positive remaining input. The search has changed none of the fields these
statements read (it writes `FilledAmtIn` only, from `nil` to 0), so they hold
in the store before the search, in the store after it and at the time each
order was added to the path. -/
theorem findRing_ring_purity
    (rangeBooks : List Nat → List (String × Nat) → List (String × Nat))
    (s : OrderBookStore) (start : UnmatchedOrder) (s' : OrderBookStore) (ring : RingPath)
    (h : findRing rangeBooks s start = some (s', some ring)) :
    2 ≤ ring.Orders.length ∧ ring.Orders.length ≤ s.maxRingDepth ∧
    ring.Orders.head? = some start.Order ∧
    List.Chain' (fun a b => (s.orderAt b).SymbolIn = (s.orderAt a).SymbolOut) ring.Orders ∧
    (∃ last, ring.Orders.getLast? = some last ∧
      (s.orderAt last).SymbolOut = (s.orderAt start.Order).SymbolIn) ∧
    3 ≤ (ringTokens s ring).toFinset.card ∧
    ring.Orders.Nodup ∧
    (ring.Orders.map (fun o => (s.orderAt o).CreatedBy)).Nodup ∧
    (∀ o ∈ ring.Orders.tail,
      (s.orderAt o).Status = 0 ∧ 0 < (s.orderAt o).AmtIn - (s.orderAt o).filled) ∧
    s'.view = s.view := by
  unfold findRing at h
  have hinv : PathInv s.view start.Order (s.orderAt start.Order).SymbolIn
      (s.orderAt start.Order).SymbolOut
      { Orders := [start.Order], Books := [start.Book], PriceLevels := [start.PriceLevel],
        Elements := [start.Element], TradeAmounts := [start.RemainingIn] }
      [(s.orderAt start.Order).CreatedBy] 1 :=
    ⟨rfl, rfl, List.nodup_singleton _, List.chain'_singleton _, ⟨rfl, rfl⟩,
      ⟨start.Order, rfl, rfl⟩, fun o ho => absurd ho (List.not_mem_nil o)⟩
  obtain ⟨hv, -, hp⟩ := dfsRing_pure rangeBooks s.view s.maxRingDepth start.Order
    (s.orderAt start.Order).SymbolIn (s.maxRingDepth + 1) s (s.orderAt start.Order).SymbolOut _ _ _
    1 s' (some ring) rfl rfl hinv (le_refl 1) h
  obtain ⟨h1, h2, h3, h4, h5, h6, h7, h8, h9⟩ := hp ring rfl
  exact ⟨h1, h2, h3, h4, h5, h6, h7, h8, h9, hv⟩

set_option maxRecDepth 100000 in
/-- Witness for C13: the search from order 0 of `scenarioBooks`, with the books
visited in the order of the list `Books`, returns the ring of the three
orders. -/
theorem findRing_ring_purity_witness :
    findRing (fun _ books => books) scenarioBooks
        { Order := 0, RemainingIn := 10, RemainingOut := 10, Book := 0, PriceLevel := 0,
          Element := { id := 0, Value := 0 } }
      = some (scenarioBooks, some (trianglePath 10 10 10)) ∧
    2 ≤ (trianglePath 10 10 10).Orders.length ∧
    (trianglePath 10 10 10).Orders.length ≤ scenarioBooks.maxRingDepth ∧
    3 ≤ (ringTokens scenarioBooks (trianglePath 10 10 10)).toFinset.card ∧
    ((trianglePath 10 10 10).Orders.map (fun o => (scenarioBooks.orderAt o).CreatedBy)).Nodup :=
  ⟨by rfl,
   let ⟨h1, h2, _, _, _, h6, _, h8, _⟩ :=
     findRing_ring_purity (fun _ books => books) scenarioBooks
       { Order := 0, RemainingIn := 10, RemainingOut := 10, Book := 0, PriceLevel := 0,
         Element := { id := 0, Value := 0 } }
       scenarioBooks (trianglePath 10 10 10) (by rfl)
   ⟨h1, h2, h6, h8⟩⟩

/-! ## The recursion bound of the ring search -/

/-- The loops of `dfsRing` leave `maxRingDepth` as it is when the search one
level deeper does. -/
theorem checkOrders_maxRingDepth
    (search : OrderBookStore → String → RingPath → List (Nat × Int) → List Nat →
      Option (OrderBookStore × Option RingPath))
    (hsearch : ∀ s token path vis users s' r, search s token path vis users = some (s', r) →
      s'.maxRingDepth = s.maxRingDepth)
    (currentToken : String) (path : RingPath) (visited : List (Nat × Int))
    (usersInRing : List Nat) :
    ∀ (entries : List (Nat × Nat × Element)) (s s' : OrderBookStore) (r : Option RingPath),
      checkOrders search currentToken path visited usersInRing s entries = some (s', r) →
      s'.maxRingDepth = s.maxRingDepth := by
  intro entries
  induction entries with
  | nil =>
    intro s s' r h
    simp only [checkOrders, Option.some.injEq, Prod.mk.injEq] at h
    rw [← h.1]
  | cons entry rest ih =>
    obtain ⟨book, priceLevel, e⟩ := entry
    intro s s' r h
    rw [checkOrders] at h
    dsimp only at h
    split_ifs at h with h1 h2 h3 h4 h5
    · exact ih s s' r h
    · exact ih s s' r h
    · exact ih s s' r h
    · exact ih s s' r h
    · exact (ih _ s' r h).trans (initFilled_maxRingDepth s e.Value)
    · split at h
      · simp at h
      · rename_i s2 result hres
        simp only [Option.some.injEq, Prod.mk.injEq] at h
        obtain ⟨rfl, -⟩ := h
        exact (hsearch _ _ _ _ _ _ _ hres).trans (initFilled_maxRingDepth s e.Value)
      · rename_i s2 hres
        exact ((ih s2 s' r h).trans (hsearch _ _ _ _ _ _ _ hres)).trans
          (initFilled_maxRingDepth s e.Value)

/-- The search leaves `maxRingDepth` as it is. -/
theorem dfsRing_maxRingDepth
    (rangeBooks : List Nat → List (String × Nat) → List (String × Nat)) (targetToken : String) :
    ∀ (fuel : Nat) (s : OrderBookStore) (currentToken : String) (path : RingPath)
      (visited : List (Nat × Int)) (usersInRing : List Nat) (depth : Nat)
      (s' : OrderBookStore) (r : Option RingPath),
      dfsRing rangeBooks fuel s currentToken targetToken path visited usersInRing depth
        = some (s', r) →
      s'.maxRingDepth = s.maxRingDepth := by
  intro fuel
  induction fuel with
  | zero =>
    intro s currentToken path visited usersInRing depth s' r h
    simp only [dfsRing, Option.some.injEq, Prod.mk.injEq] at h
    rw [← h.1]
  | succ fuel ih =>
    intro s currentToken path visited usersInRing depth s' r h
    rw [dfsRing] at h
    split_ifs at h with h1 h2
    · simp only [Option.some.injEq, Prod.mk.injEq] at h
      rw [← h.1]
    · split at h
      · simp at h
      · simp only [Option.some.injEq, Prod.mk.injEq] at h
        rw [← h.1]
      · simp only [Option.some.injEq, Prod.mk.injEq] at h
        rw [← h.1]
    · exact checkOrders_maxRingDepth _
        (fun s0 token p vis users s1 r1 hs0 => ih s0 token p vis users (depth + 1) s1 r1 hs0)
        currentToken path visited usersInRing _ s s' r h

/-- The loops of `dfsRing` give the same result for two searches that agree
on every store with the `maxRingDepth` of the store the loops start from. -/
theorem checkOrders_congr
    (search1 search2 : OrderBookStore → String → RingPath → List (Nat × Int) → List Nat →
      Option (OrderBookStore × Option RingPath))
    (maxDepth : Nat)
    (hsearch : ∀ s token path vis users s' r, search1 s token path vis users = some (s', r) →
      s'.maxRingDepth = s.maxRingDepth)
    (hagree : ∀ s token path vis users, s.maxRingDepth = maxDepth →
      search1 s token path vis users = search2 s token path vis users)
    (currentToken : String) (path : RingPath) (visited : List (Nat × Int))
    (usersInRing : List Nat) :
    ∀ (entries : List (Nat × Nat × Element)) (s : OrderBookStore),
      s.maxRingDepth = maxDepth →
      checkOrders search1 currentToken path visited usersInRing s entries =
        checkOrders search2 currentToken path visited usersInRing s entries := by
  intro entries
  induction entries with
  | nil => intro s _; rfl
  | cons entry rest ih =>
    obtain ⟨book, priceLevel, e⟩ := entry
    intro s hm
    have hm1 : (s.initFilled e.Value).maxRingDepth = maxDepth := by simpa using hm
    rw [checkOrders, checkOrders]
    dsimp only
    split_ifs with h1 h2 h3 h4 h5
    · exact ih s hm
    · exact ih s hm
    · exact ih s hm
    · exact ih s hm
    · exact ih _ hm1
    · rw [← hagree _ _ _ _ _ hm1]
      split
      · rfl
      · rfl
      · rename_i s2 hres
        exact ih s2 ((hsearch _ _ _ _ _ _ _ hres).trans hm1)

/-- The bound on the recursion that `findRing` passes is never reached: with the
bound `fuel` and with any larger one `dfsRing` gives the same result, as soon
as `depth + fuel` exceeds `maxRingDepth`. -/
theorem dfsRing_fuel (rangeBooks : List Nat → List (String × Nat) → List (String × Nat))
    (targetToken : String) :
    ∀ (fuel : Nat) (s : OrderBookStore) (currentToken : String) (path : RingPath)
      (visited : List (Nat × Int)) (usersInRing : List Nat) (depth : Nat),
      s.maxRingDepth < depth + fuel →
      dfsRing rangeBooks (fuel + 1) s currentToken targetToken path visited usersInRing depth =
        dfsRing rangeBooks fuel s currentToken targetToken path visited usersInRing depth := by
  intro fuel
  induction fuel with
  | zero =>
    intro s currentToken path visited usersInRing depth hlt
    have hL : dfsRing rangeBooks (0 + 1) s currentToken targetToken path visited usersInRing
        depth = some (s, none) := by
      rw [dfsRing, if_pos (by omega)]
    have hR : dfsRing rangeBooks 0 s currentToken targetToken path visited usersInRing
        depth = some (s, none) := by
      rw [dfsRing]
    rw [hL, hR]
  | succ fuel ih =>
    intro s currentToken path visited usersInRing depth hlt
    conv_lhs => rw [dfsRing]
    conv_rhs => rw [dfsRing]
    split_ifs with h1 h2
    · rfl
    · rfl
    · exact checkOrders_congr _ _ s.maxRingDepth
        (fun s0 token p vis users s1 r1 hs0 =>
          dfsRing_maxRingDepth rangeBooks targetToken (fuel + 1) s0 token p vis users (depth + 1)
            s1 r1 hs0)
        (fun s0 token p vis users hm0 => ih s0 token p vis users (depth + 1) (by omega))
        currentToken path visited usersInRing _ s rfl

/-- The search of `findRing` gives the same result with every larger bound on
the recursion: the bound it passes cuts nothing off. -/
theorem findRing_fuel (rangeBooks : List Nat → List (String × Nat) → List (String × Nat))
    (s : OrderBookStore) (start : UnmatchedOrder) (n : Nat) :
    dfsRing rangeBooks (s.maxRingDepth + 1 + n) s (s.orderAt start.Order).SymbolOut
        (s.orderAt start.Order).SymbolIn
        { Orders := [start.Order], Books := [start.Book], PriceLevels := [start.PriceLevel],
          Elements := [start.Element], TradeAmounts := [start.RemainingIn] }
        [getOrderKey (s.orderAt start.Order)] [(s.orderAt start.Order).CreatedBy] 1 =
      findRing rangeBooks s start := by
  induction n with
  | zero => rfl
  | succ n ih =>
    rw [← ih]
    exact dfsRing_fuel rangeBooks _ (s.maxRingDepth + 1 + n) s _ _ _ _ 1 (by omega)

/-! ## The ring-of-three scenario -/

/-- An order whose `FilledAmtIn` is set is not touched by the initialisation. -/
theorem initFilled_of_some {s : OrderBookStore} {p : Nat} {f : Int}
    (h : (s.orderAt p).FilledAmtIn = some f) : s.initFilled p = s := by
  unfold OrderBookStore.initFilled
  rw [h]

/-- The loops of `dfsRing` pass over an element whose order does not give
`currentToken`. -/
theorem checkOrders_skip
    (search : OrderBookStore → String → RingPath → List (Nat × Int) → List Nat →
      Option (OrderBookStore × Option RingPath))
    (currentToken : String) (path : RingPath) (visited : List (Nat × Int))
    (usersInRing : List Nat) (s : OrderBookStore) (entry : Nat × Nat × Element)
    (rest : List (Nat × Nat × Element))
    (h : (s.orderAt entry.2.2.Value).SymbolIn ≠ currentToken) :
    checkOrders search currentToken path visited usersInRing s (entry :: rest) =
      checkOrders search currentToken path visited usersInRing s rest := by
  obtain ⟨book, priceLevel, e⟩ := entry
  rw [checkOrders]
  simp only at h
  simp only [h, ne_eq, not_false_eq_true, if_true]

/-- The loops of `dfsRing` return the ring that the search finds from the first
element that passes their tests. -/
theorem checkOrders_found
    (search : OrderBookStore → String → RingPath → List (Nat × Int) → List Nat →
      Option (OrderBookStore × Option RingPath))
    (currentToken : String) (path : RingPath) (visited : List (Nat × Int))
    (usersInRing : List Nat) (s s' : OrderBookStore) (book priceLevel : Nat) (e : Element)
    (rest : List (Nat × Nat × Element)) (f : Int) (ring : RingPath)
    (h1 : (s.orderAt e.Value).SymbolIn = currentToken)
    (h2 : (s.orderAt e.Value).Status = 0)
    (h3 : (s.orderAt e.Value).CreatedBy ∉ usersInRing)
    (h4 : getOrderKey (s.orderAt e.Value) ∉ visited)
    (h5 : (s.orderAt e.Value).FilledAmtIn = some f)
    (h6 : 0 < (s.orderAt e.Value).AmtIn - f)
    (hs : search s (s.orderAt e.Value).SymbolOut
        { Orders := path.Orders ++ [e.Value], Books := path.Books ++ [book],
          PriceLevels := path.PriceLevels ++ [priceLevel], Elements := path.Elements ++ [e],
          TradeAmounts := path.TradeAmounts ++ [(s.orderAt e.Value).AmtIn - f] }
        (getOrderKey (s.orderAt e.Value) :: visited)
        ((s.orderAt e.Value).CreatedBy :: usersInRing) = some (s', some ring)) :
    checkOrders search currentToken path visited usersInRing s ((book, priceLevel, e) :: rest) =
      some (s', some ring) := by
  rw [checkOrders]
  have hfill : (s.orderAt e.Value).filled = f := by simp [Order.filled, h5]
  simp only [initFilled_of_some h5, h1, h2, hfill, ne_eq, not_true_eq_false, if_false]
  rw [if_neg (by simpa using h3), if_neg (by simpa using h4), if_neg (by omega), hs]

/-- The loops of `dfsRing` over elements of which one passes the tests and all
others do not give `currentToken`. -/
theorem checkOrders_unique
    (search : OrderBookStore → String → RingPath → List (Nat × Int) → List Nat →
      Option (OrderBookStore × Option RingPath))
    (currentToken : String) (path : RingPath) (visited : List (Nat × Int))
    (usersInRing : List Nat) (s s' : OrderBookStore) (book priceLevel : Nat) (e : Element)
    (f : Int) (ring : RingPath)
    (h1 : (s.orderAt e.Value).SymbolIn = currentToken)
    (h2 : (s.orderAt e.Value).Status = 0)
    (h3 : (s.orderAt e.Value).CreatedBy ∉ usersInRing)
    (h4 : getOrderKey (s.orderAt e.Value) ∉ visited)
    (h5 : (s.orderAt e.Value).FilledAmtIn = some f)
    (h6 : 0 < (s.orderAt e.Value).AmtIn - f)
    (hs : search s (s.orderAt e.Value).SymbolOut
        { Orders := path.Orders ++ [e.Value], Books := path.Books ++ [book],
          PriceLevels := path.PriceLevels ++ [priceLevel], Elements := path.Elements ++ [e],
          TradeAmounts := path.TradeAmounts ++ [(s.orderAt e.Value).AmtIn - f] }
        (getOrderKey (s.orderAt e.Value) :: visited)
        ((s.orderAt e.Value).CreatedBy :: usersInRing) = some (s', some ring)) :
    ∀ entries : List (Nat × Nat × Element),
      (book, priceLevel, e) ∈ entries →
      (∀ x ∈ entries, x ≠ (book, priceLevel, e) →
        (s.orderAt x.2.2.Value).SymbolIn ≠ currentToken) →
      checkOrders search currentToken path visited usersInRing s entries =
        some (s', some ring) := by
  intro entries
  induction entries with
  | nil => intro hmem; exact absurd hmem (List.not_mem_nil _)
  | cons x rest ih =>
    intro hmem hothers
    by_cases hx : x = (book, priceLevel, e)
    · subst hx
      exact checkOrders_found search currentToken path visited usersInRing s s' book priceLevel e
        rest f ring h1 h2 h3 h4 h5 h6 hs
    · rw [checkOrders_skip _ _ _ _ _ _ _ _ (hothers x (List.mem_cons_self _ _) hx)]
      rcases List.mem_cons.mp hmem with h | h
      · exact absurd h.symm hx
      · exact ih h (fun y hy => hothers y (List.mem_cons_of_mem _ hy))

/-- A call of `dfsRing` within the depth limit on a path that has come back to
the target token returns the path when `validateRing` accepts it. -/
theorem dfsRing_closes (rangeBooks : List Nat → List (String × Nat) → List (String × Nat))
    (fuel : Nat) (s : OrderBookStore) (currentToken targetToken : String) (path : RingPath)
    (visited : List (Nat × Int)) (usersInRing : List Nat) (depth : Nat)
    (heq : currentToken = targetToken)
    (hmax : depth ≤ s.maxRingDepth) (hd : 1 < depth) (hv : validateRing s path = some true) :
    dfsRing rangeBooks (fuel + 1) s currentToken targetToken path visited usersInRing depth =
      some (s, some path) := by
  rw [dfsRing, if_neg (by omega), if_pos ⟨heq, hd⟩, hv]

/-- A call of `dfsRing` within the depth limit on a path that is not closed,
with one element that passes the tests of the loops while every other element
does not give `currentToken`, returns the ring found from that element. -/
theorem dfsRing_forced (rangeBooks : List Nat → List (String × Nat) → List (String × Nat))
    (fuel : Nat) (s s' : OrderBookStore) (currentToken targetToken : String) (path : RingPath)
    (visited : List (Nat × Int)) (usersInRing : List Nat) (depth : Nat)
    (book priceLevel : Nat) (e : Element) (f : Int) (ring : RingPath)
    (hmax : depth ≤ s.maxRingDepth) (hopen : ¬ (currentToken = targetToken ∧ depth > 1))
    (h1 : (s.orderAt e.Value).SymbolIn = currentToken)
    (h2 : (s.orderAt e.Value).Status = 0)
    (h3 : (s.orderAt e.Value).CreatedBy ∉ usersInRing)
    (h4 : getOrderKey (s.orderAt e.Value) ∉ visited)
    (h5 : (s.orderAt e.Value).FilledAmtIn = some f)
    (h6 : 0 < (s.orderAt e.Value).AmtIn - f)
    (hmem : (book, priceLevel, e) ∈
      dfsEntries s ((rangeBooks path.Orders s.Books).map Prod.snd))
    (hothers : ∀ x ∈ dfsEntries s ((rangeBooks path.Orders s.Books).map Prod.snd),
      x ≠ (book, priceLevel, e) → (s.orderAt x.2.2.Value).SymbolIn ≠ currentToken)
    (hs : dfsRing rangeBooks fuel s (s.orderAt e.Value).SymbolOut targetToken
        { Orders := path.Orders ++ [e.Value], Books := path.Books ++ [book],
          PriceLevels := path.PriceLevels ++ [priceLevel], Elements := path.Elements ++ [e],
          TradeAmounts := path.TradeAmounts ++ [(s.orderAt e.Value).AmtIn - f] }
        (getOrderKey (s.orderAt e.Value) :: visited)
        ((s.orderAt e.Value).CreatedBy :: usersInRing) (depth + 1) = some (s', some ring)) :
    dfsRing rangeBooks (fuel + 1) s currentToken targetToken path visited usersInRing depth =
      some (s', some ring) := by
  rw [dfsRing, if_neg (by omega), if_neg hopen]
  exact checkOrders_unique _ currentToken path visited usersInRing s s' book priceLevel e f ring
    h1 h2 h3 h4 h5 h6 hs _ hmem hothers

set_option maxRecDepth 100000 in
/-- Whatever the order in which the three books of the scenario are visited,
the loops of `dfsRing` visit the three elements of `scenarioEntries`. -/
theorem scenario_entries (bs : List Nat) (hbs : bs.Perm [0, 1, 2]) (x : Nat × Nat × Element) :
    x ∈ dfsEntries scenarioBooks bs ↔ x ∈ scenarioEntries := by
  have h0 : dfsEntries scenarioBooks [0] = [(0, 0, { id := 0, Value := 0 })] := by decide
  have h1 : dfsEntries scenarioBooks [1] = [(1, 2, { id := 2, Value := 2 })] := by decide
  have h2 : dfsEntries scenarioBooks [2] = [(2, 1, { id := 1, Value := 1 })] := by decide
  have hone : ∀ b, dfsEntries scenarioBooks [b] =
      treeEntries scenarioBooks b BigIntAscendingComparator (scenarioBooks.bookAt b).Asks ++
      treeEntries scenarioBooks b BigIntDescendingComparator (scenarioBooks.bookAt b).Bids := by
    intro b
    simp [dfsEntries]
  unfold dfsEntries
  rw [List.mem_flatMap]
  constructor
  · rintro ⟨b, hb, hx⟩
    have hb' := hbs.mem_iff.mp hb
    rw [← hone] at hx
    simp only [List.mem_cons, List.mem_singleton, List.not_mem_nil, or_false] at hb'
    rcases hb' with rfl | rfl | rfl
    · rw [h0] at hx; simp only [List.mem_singleton] at hx; subst hx; decide
    · rw [h1] at hx; simp only [List.mem_singleton] at hx; subst hx; decide
    · rw [h2] at hx; simp only [List.mem_singleton] at hx; subst hx; decide
  · intro hx
    simp only [scenarioEntries, List.mem_cons, List.mem_singleton, List.not_mem_nil,
      or_false] at hx
    rcases hx with rfl | rfl | rfl
    · exact ⟨0, hbs.mem_iff.mpr (by decide), by rw [← hone, h0]; exact List.mem_singleton_self _⟩
    · exact ⟨1, hbs.mem_iff.mpr (by decide), by rw [← hone, h1]; exact List.mem_singleton_self _⟩
    · exact ⟨2, hbs.mem_iff.mpr (by decide), by rw [← hone, h2]; exact List.mem_singleton_self _⟩

set_option maxRecDepth 100000 in
/-- In the ring-of-three scenario the search from each of the three orders
returns the ring of the three orders that starts with it, whatever the order
in which the books are visited. -/
theorem scenario_findRing (rangeBooks : List Nat → List (String × Nat) → List (String × Nat))
    (hperm : ∀ path books, (rangeBooks path books).Perm books) (k : Nat) (hk : k < 3) :
    findRing rangeBooks scenarioBooks (scenarioStart k) =
      some (scenarioBooks, some (scenarioRing k)) := by
  have hbooks : ∀ path, ((rangeBooks path scenarioBooks.Books).map Prod.snd).Perm [0, 1, 2] := by
    intro path
    have h := (hperm path scenarioBooks.Books).map Prod.snd
    have hb : scenarioBooks.Books.map Prod.snd = [0, 1, 2] := by decide
    rw [hb] at h
    exact h
  have hmem : ∀ path x, x ∈ scenarioEntries →
      x ∈ dfsEntries scenarioBooks ((rangeBooks path scenarioBooks.Books).map Prod.snd) :=
    fun path x hx => (scenario_entries _ (hbooks path) x).mpr hx
  have hoth : ∀ (path : List Nat) (entry : Nat × Nat × Element) (token : String),
      (∀ x ∈ scenarioEntries, x ≠ entry → (scenarioBooks.orderAt x.2.2.Value).SymbolIn ≠ token) →
      ∀ x ∈ dfsEntries scenarioBooks ((rangeBooks path scenarioBooks.Books).map Prod.snd),
        x ≠ entry → (scenarioBooks.orderAt x.2.2.Value).SymbolIn ≠ token :=
    fun path entry token h x hx => h x ((scenario_entries _ (hbooks path) x).mp hx)
  have hmax : scenarioBooks.maxRingDepth + 1 = 5 + 1 := by decide
  unfold findRing
  dsimp only
  rw [hmax]
  suffices h : ∃ ring, dfsRing rangeBooks (5 + 1) scenarioBooks
      (scenarioBooks.orderAt (scenarioStart k).Order).SymbolOut
      (scenarioBooks.orderAt (scenarioStart k).Order).SymbolIn
      { Orders := [(scenarioStart k).Order], Books := [(scenarioStart k).Book],
        PriceLevels := [(scenarioStart k).PriceLevel], Elements := [(scenarioStart k).Element],
        TradeAmounts := [(scenarioStart k).RemainingIn] }
      [getOrderKey (scenarioBooks.orderAt (scenarioStart k).Order)]
      [(scenarioBooks.orderAt (scenarioStart k).Order).CreatedBy] 1 =
        some (scenarioBooks, some ring) ∧ ring = scenarioRing k by
    obtain ⟨ring, h1, h2⟩ := h
    rw [← h2]
    exact h1
  obtain rfl | rfl | rfl : k = 0 ∨ k = 1 ∨ k = 2 := by omega
  · exact ⟨_, dfsRing_forced rangeBooks 5 scenarioBooks scenarioBooks _ _ _ _ _ 1
      2 1 { id := 1, Value := 1 } 0 _
      (by decide) (by decide) (by decide) (by decide) (by decide) (by decide) (by decide)
      (by decide) (hmem _ _ (by decide)) (hoth _ _ _ (by decide))
      (dfsRing_forced rangeBooks 4 scenarioBooks scenarioBooks _ _ _ _ _ 2
        1 2 { id := 2, Value := 2 } 0 _
        (by decide) (by decide) (by decide) (by decide) (by decide) (by decide) (by decide)
        (by decide) (hmem _ _ (by decide)) (hoth _ _ _ (by decide))
        (dfsRing_closes rangeBooks 3 scenarioBooks _ _ _ _ _ 3
          (by decide) (by decide) (by decide) (by decide))), by decide⟩
  · exact ⟨_, dfsRing_forced rangeBooks 5 scenarioBooks scenarioBooks _ _ _ _ _ 1
      1 2 { id := 2, Value := 2 } 0 _
      (by decide) (by decide) (by decide) (by decide) (by decide) (by decide) (by decide)
      (by decide) (hmem _ _ (by decide)) (hoth _ _ _ (by decide))
      (dfsRing_forced rangeBooks 4 scenarioBooks scenarioBooks _ _ _ _ _ 2
        0 0 { id := 0, Value := 0 } 0 _
        (by decide) (by decide) (by decide) (by decide) (by decide) (by decide) (by decide)
        (by decide) (hmem _ _ (by decide)) (hoth _ _ _ (by decide))
        (dfsRing_closes rangeBooks 3 scenarioBooks _ _ _ _ _ 3
          (by decide) (by decide) (by decide) (by decide))), by decide⟩
  · exact ⟨_, dfsRing_forced rangeBooks 5 scenarioBooks scenarioBooks _ _ _ _ _ 1
      0 0 { id := 0, Value := 0 } 0 _
      (by decide) (by decide) (by decide) (by decide) (by decide) (by decide) (by decide)
      (by decide) (hmem _ _ (by decide)) (hoth _ _ _ (by decide))
      (dfsRing_forced rangeBooks 4 scenarioBooks scenarioBooks _ _ _ _ _ 2
        2 1 { id := 1, Value := 1 } 0 _
        (by decide) (by decide) (by decide) (by decide) (by decide) (by decide) (by decide)
        (by decide) (hmem _ _ (by decide)) (hoth _ _ _ (by decide))
        (dfsRing_closes rangeBooks 3 scenarioBooks _ _ _ _ _ 3
          (by decide) (by decide) (by decide) (by decide))), by decide⟩

set_option maxRecDepth 100000 in
/-- C17. In the ring-of-three scenario (`scenarioBooks`: `A -> B`, `B -> C`,
`C -> A`, each `{10, 10}`, of the creators 1, 2, 3) a call of `matchBook` on
any of the three books returns at once, with the store unchanged and nothing
submitted; `collectUnmatchedOrders` yields one entry for each order, and
`findRing` from each of them returns, whatever the order in which the books
are visited, the ring of the three orders that starts with it, which
`validateRing` accepts and for which `calculateRingBottleneck` returns 10;
`executeRing` submits it with the fill amounts `[10, 10, 10]`; after the
confirmation every order has `Status = 2` and `FilledAmtIn = 10`, and every
tree of the three books is empty. -/
theorem ring_of_three_scenario :
    (∀ (ex : ExchangeContract) (fuel book : Nat), book < 3 →
      matchBook ex book (fuel + 1) scenarioBooks = some (.returned scenarioBooks none)) ∧
    ((collectUnmatchedOrders scenarioBooks 0).map Prod.snd = some [scenarioStart 0] ∧
      (collectUnmatchedOrders scenarioBooks 2).map Prod.snd = some [scenarioStart 1] ∧
      (collectUnmatchedOrders scenarioBooks 1).map Prod.snd = some [scenarioStart 2]) ∧
    (∀ (rangeBooks : List Nat → List (String × Nat) → List (String × Nat)),
      (∀ path books, (rangeBooks path books).Perm books) →
      ∀ k, k < 3 →
        findRing rangeBooks scenarioBooks (scenarioStart k) =
          some (scenarioBooks, some (scenarioRing k))) ∧
    (∀ k, k < 3 →
      validateRing scenarioBooks (scenarioRing k) = some true ∧
      calculateRingBottleneck scenarioBooks (scenarioRing k) = some 10 ∧
      (match executeRing (some acceptingExchange) (scenarioRing k) scenarioBooks with
        | some (.submitted r _) => some r.finalFillAmounts
        | _ => none) = some [10, 10, 10] ∧
      (scenarioSettled k).map (fun s =>
          [0, 1, 2].map (fun o => ((s.orderAt o).Status, (s.orderAt o).FilledAmtIn))) =
        some [(2, some 10), (2, some 10), (2, some 10)] ∧
      (scenarioSettled k).map (fun s => [0, 1, 2].map (fun b => (s.bookAt b).Bids)) =
        some [[], [], []] ∧
      (scenarioSettled k).map (fun s => [0, 1, 2].map (fun b => (s.bookAt b).Asks)) =
        some [[], [], []] ∧
      (scenarioSettled k).map (fun s => [0, 1, 2].map (fun l => (s.levelAt l).Orders)) =
        some [[], [], []]) := by
  refine ⟨?_, ⟨by decide, by decide, by decide⟩, scenario_findRing, ?_⟩
  · intro ex fuel book hb
    have hsel : ∀ b, b < 3 → selectOrders b scenarioBooks = none := by decide
    rw [matchBook, matchStep, hsel book hb]
  · intro k hk
    obtain rfl | rfl | rfl : k = 0 ∨ k = 1 ∨ k = 2 := by omega
    · refine ⟨?_, ?_, ?_, ?_, ?_, ?_, ?_⟩ <;> decide
    · refine ⟨?_, ?_, ?_, ?_, ?_, ?_, ?_⟩ <;> decide
    · refine ⟨?_, ?_, ?_, ?_, ?_, ?_, ?_⟩ <;> decide

set_option maxRecDepth 100000 in
/-- Witness for C17: the books visited in the order of the list `Books`, the
search started from order 0. -/
theorem ring_of_three_scenario_witness :
    matchBook acceptingExchange 0 (0 + 1) scenarioBooks = some (.returned scenarioBooks none) ∧
    findRing (fun _ books => books) scenarioBooks (scenarioStart 0) =
      some (scenarioBooks, some (scenarioRing 0)) :=
  ⟨ring_of_three_scenario.1 acceptingExchange 0 0 (by decide),
   ring_of_three_scenario.2.2.1 (fun _ books => books) (fun _ books => List.Perm.refl books) 0
     (by decide)⟩

/-! ## Settlements in flight on one book -/

/-- With a pending order in the best level of a side, a call of `matchBook`
that returns has submitted nothing and returns the store it was given. -/
theorem matchBook_blocked {ex : ExchangeContract} {book : Nat} {isBid : Bool}
    {s : OrderBookStore} (hp : PendingAtBest s book isBid) :
    (∀ fuel, matchBook ex book (fuel + 1) s = some (.returned s none)) ∧
    (∀ fuel s' r, matchBook ex book fuel s = some (.returned s' r) → r = none ∧ s' = s) := by
  have hsel : selectOrders book s = none := by
    apply selectOrders_pending
    obtain ⟨k, l, x, hb, hx, hs⟩ := hp
    cases isBid
    · exact Or.inr ⟨k, l, x, by simpa [bestNode] using hb, hx, hs⟩
    · exact Or.inl ⟨k, l, x, by simpa [bestNode] using hb, hx, hs⟩
  have h1 : ∀ fuel, matchBook ex book (fuel + 1) s = some (.returned s none) := by
    intro fuel
    rw [matchBook, matchStep, hsel]
  refine ⟨h1, fun fuel s' r h => ?_⟩
  cases fuel with
  | zero => simp [matchBook] at h
  | succ fuel =>
    rw [h1 fuel] at h
    simp only [Option.some.injEq, MatchOutcome.returned.injEq] at h
    exact ⟨h.2.symm, h.1.symm⟩

/-- After a submission the two orders of the trade are pending in the best bid
level and in the best ask level. -/
theorem matchBook_submitted_pending {ex : ExchangeContract} {book fuel : Nat}
    {s s' : OrderBookStore} {t : PendingMatch}
    (h : matchBook ex book fuel s = some (.returned s' (some t))) :
    PendingAtBest s' book true ∧ PendingAtBest s' book false := by
  obtain ⟨s0, -, hstep⟩ := matchBook_submitted fuel h
  obtain ⟨sel, txHash, hsel, -, -, -, -, hs'⟩ := matchStep_submitted hstep
  obtain ⟨hb, ha, -, -, -, hbe, hae, hcr⟩ := selectOrders_spec hsel
  obtain ⟨-, bpre, bpost, hbl, -⟩ := firstReady_spec hbe
  obtain ⟨-, apre, apost, hal, -⟩ := firstReady_spec hae
  subst hs'
  constructor
  · refine ⟨sel.bidPriceKey, sel.bidLevel, sel.bidElem, ?_, ?_, ?_⟩
    · simpa [bestNode] using hb
    · simp [hbl]
    · simp [setStatusPair_orderAt]
  · refine ⟨sel.askPriceKey, sel.askLevel, sel.askElem, ?_, ?_, ?_⟩
    · simpa [bestNode] using ha
    · simp [hal]
    · simp [setStatusPair_orderAt]

/-- What every `AddOrder` that returns keeps: the status of every order, the
elements of every allocated level, and the allocation of the levels in the
trees of a book. -/
theorem AddOrder_keeps (s s1 : OrderBookStore) (p : Nat) (e : Option AddOrderError)
    (h : AddOrder s p = some (s1, e)) :
    (∀ q, (s1.orderAt q).Status = (s.orderAt q).Status) ∧
    (∀ l, l ≠ s.nextLevel → ∀ x ∈ (s.levelAt l).Orders, x ∈ (s1.levelAt l).Orders) ∧
    (∀ book, LevelsAllocated s book → LevelsAllocated s1 book) := by
  unfold AddOrder at h
  dsimp only at h
  split at h
  · simp only [Option.some.injEq, Prod.mk.injEq] at h
    obtain ⟨rfl, -⟩ := h
    exact ⟨fun _ => rfl, fun _ _ _ hx => hx, fun _ hw => hw⟩
  · rename_i bp hbp
    split at h
    · simp only [Option.some.injEq, Prod.mk.injEq] at h
      obtain ⟨rfl, -⟩ := h
      refine ⟨fun q => (initFilled_fields s p q).2.2.2.1, fun l _ x hx => by simpa using hx, ?_⟩
      intro book hw
      unfold LevelsAllocated at hw ⊢
      simpa using hw
    · simp at h
    · rename_i isBid priceKey hside
      clear hside
      have hs1 := AddOrder_priced s p priceKey
      have hlv : ((s.initFilled p).setOrder p
          { (s.initFilled p).orderAt p with LimitPrice := some priceKey }).levelAt = s.levelAt := by
        simp
      have hbk : ((s.initFilled p).setOrder p
          { (s.initFilled p).orderAt p with LimitPrice := some priceKey }).bookAt = s.bookAt := by
        simp
      have hnl : ((s.initFilled p).setOrder p
          { (s.initFilled p).orderAt p with LimitPrice := some priceKey }).nextLevel
            = s.nextLevel := by
        simp
      generalize ((s.initFilled p).setOrder p
          { (s.initFilled p).orderAt p with LimitPrice := some priceKey }) = s2 at h hs1 hlv hbk hnl
      have hst : ∀ q, (s2.orderAt q).Status = (s.orderAt q).Status := by
        intro q
        rw [hs1]
        by_cases hq : q = p
        · subst hq; simp
        · simp [hq]
      rw [hbk, hnl] at h
      split at h
      · rename_i hget
        simp only [Option.some.injEq, Prod.mk.injEq] at h
        obtain ⟨rfl, -⟩ := h
        refine ⟨fun q => by simpa using hst q, fun l hl x hx => by simpa [hlv, hl] using hx, ?_⟩
        intro book hw
        unfold LevelsAllocated at hw ⊢
        by_cases hb : book = bp
        · subst hb
          cases isBid
          · simp only [Bool.false_eq_true, if_false, setBook_bookAt, Function.update_same]
            refine ⟨fun node hn => Nat.lt_succ_of_lt (hw.1 node hn), fun node hn => ?_⟩
            unfold Tree.Put at hn
            rcases List.mem_append.mp hn with hn | hn
            · exact Nat.lt_succ_of_lt (hw.2 node (List.mem_filter.mp hn).1)
            · simp only [List.mem_singleton] at hn
              subst hn
              exact Nat.lt_succ_self _
          · simp only [if_true, setBook_bookAt, Function.update_same]
            refine ⟨fun node hn => ?_, fun node hn => Nat.lt_succ_of_lt (hw.2 node hn)⟩
            unfold Tree.Put at hn
            rcases List.mem_append.mp hn with hn | hn
            · exact Nat.lt_succ_of_lt (hw.1 node (List.mem_filter.mp hn).1)
            · simp only [List.mem_singleton] at hn
              subst hn
              exact Nat.lt_succ_self _
        · simp only [setBook_bookAt, hb, if_false, setLevel_bookAt, hbk]
          exact ⟨fun node hn => Nat.lt_succ_of_lt (hw.1 node hn),
            fun node hn => Nat.lt_succ_of_lt (hw.2 node hn)⟩
      · rename_i lp hget
        simp only [Option.some.injEq, Prod.mk.injEq] at h
        obtain ⟨rfl, -⟩ := h
        refine ⟨fun q => by simpa using hst q, fun l hl x hx => ?_, ?_⟩
        · by_cases hlp : l = lp
          · subst hlp
            simp [hlv, hx]
          · simpa [hlv, hlp] using hx
        · intro book hw
          unfold LevelsAllocated at hw ⊢
          simpa [hbk, hnl, OrderBookStore.setLevel] using hw

/-- The best node of a side is a node of the tree of that side. -/
theorem bestNode_mem {s : OrderBookStore} {book : Nat} {isBid : Bool} {k : Int} {l : Nat}
    (h : bestNode s book isBid = some (k, l)) :
    (k, l) ∈ (s.bookAt book).Bids ∨ (k, l) ∈ (s.bookAt book).Asks := by
  cases isBid
  · exact Or.inr (Tree.Left_least BigIntAscendingComparator (fun a => a)
      (fun a b => ascending_le_zero a b) _ _ (by simpa [bestNode] using h)).1
  · exact Or.inl (Tree.Left_least BigIntDescendingComparator (fun a => -a)
      (fun a b => by rw [descending_le_zero]; exact neg_le_neg_iff.symm) _ _
      (by simpa [bestNode] using h)).1

/-- An `AddOrder` that leaves the best node of a side keeps a pending order in
the best level of that side. -/
theorem AddOrder_pendingAtBest {s s1 : OrderBookStore} {book p : Nat} {isBid : Bool}
    {e : Option AddOrderError} (h : AddOrder s p = some (s1, e))
    (hbest : bestNode s1 book isBid = bestNode s book isBid)
    (hw : LevelsAllocated s book) (hp : PendingAtBest s book isBid) :
    PendingAtBest s1 book isBid ∧ LevelsAllocated s1 book := by
  obtain ⟨hst, hlv, hal⟩ := AddOrder_keeps s s1 p e h
  obtain ⟨k, l, x, hb, hx, hs⟩ := hp
  have hl : l ≠ s.nextLevel := by
    rcases bestNode_mem hb with hm | hm
    · exact Nat.ne_of_lt (hw.1 _ hm)
    · exact Nat.ne_of_lt (hw.2 _ hm)
  exact ⟨⟨k, l, x, hbest.trans hb, hlv l hl x hx, (hst _).trans hs⟩, hal book hw⟩

/-- Through a run in which no `AddOrder` changes the best node of a side, a
pending order stays in the best level of that side. -/
theorem Awaiting.pendingAtBest {ex : ExchangeContract} {book : Nat} {isBid : Bool}
    {s s2 : OrderBookStore} (run : Awaiting ex book isBid s s2) :
    LevelsAllocated s book → PendingAtBest s book isBid →
    PendingAtBest s2 book isBid ∧ LevelsAllocated s2 book := by
  induction run with
  | done s => exact fun hw hp => ⟨hp, hw⟩
  | add p e h hbest _ ih =>
    intro hw hp
    obtain ⟨hp1, hw1⟩ := AddOrder_pendingAtBest h hbest hw hp
    exact ih hw1 hp1
  | call fuel r h _ ih =>
    intro hw hp
    obtain ⟨-, rfl⟩ := (matchBook_blocked hp).2 fuel _ r h
    exact ih hw hp

set_option maxRecDepth 100000 in
/-- C11 (counterexample). On the book `(A, B)`: the ask `{10, 10}` and the bid
`{10, 10}` are added and `matchBook` submits their trade; then, with no
confirmation, the ask `{10, 5}` and the bid `{10, 5}` are added, which open a
new best level on each side, and the next `matchBook` call submits a second
trade, of these two orders. All four orders are pending and two settlements of
the book are in flight. -/
theorem two_settlements_in_flight :
    overtakingRun.map (fun r => ((r.1.finalBidOrder, r.1.finalAskOrder),
        r.2.1.map (fun t => (t.finalBidOrder, t.finalAskOrder)))) =
      some ((1, 0), some (3, 2)) ∧
    overtakingRun.map (fun r => [0, 1, 2, 3].map (fun o => (r.2.2.orderAt o).Status)) =
      some [1, 1, 1, 1] ∧
    overtakingRun.map (fun r => r.2.2.exchangeCalls) = some 2 := by
  refine ⟨?_, ?_, ?_⟩ <;> decide

/-- C11 (amended). Once a call of `matchBook` on a book has submitted a trade,
its two orders are pending in the best bid level and in the best ask level.
From there (the levels in the trees of the book being allocated objects),
through every run of `AddOrder` steps and `matchBook` calls with no
confirmation in which, on one of the two sides, no `AddOrder` changes the best
node, every further call of `matchBook` on the book returns in its first pass,
submits nothing and leaves the store as it is. -/
theorem matchBook_one_in_flight (ex : ExchangeContract) (book fuel : Nat)
    (s0 s1 : OrderBookStore) (t : PendingMatch)
    (h : matchBook ex book fuel s0 = some (.returned s1 (some t)))
    (hw : LevelsAllocated s1 book) :
    (PendingAtBest s1 book true ∧ PendingAtBest s1 book false) ∧
    ∀ (isBid : Bool) (s2 : OrderBookStore), Awaiting ex book isBid s1 s2 →
      (∀ fuel2, matchBook ex book (fuel2 + 1) s2 = some (.returned s2 none)) ∧
      (∀ fuel2 s3 r, matchBook ex book fuel2 s2 = some (.returned s3 r) → r = none ∧ s3 = s2) := by
  have hp := matchBook_submitted_pending h
  refine ⟨hp, fun isBid s2 run => ?_⟩
  have hside : PendingAtBest s1 book isBid := by
    cases isBid
    · exact hp.2
    · exact hp.1
  exact matchBook_blocked (run.pendingAtBest hw hside).1

set_option maxRecDepth 100000 in
/-- Witness for C11: the trade of the partial-fill scenario is in flight, a
bid is added at the price of the pending bid, and `matchBook` is called. -/
theorem matchBook_one_in_flight_witness :
    matchBook acceptingExchange 0 1 partialFillBook
      = some (.returned partialFillPending (some partialFillTrade)) ∧
    LevelsAllocated partialFillPending 0 ∧
    Awaiting acceptingExchange 0 true partialFillPending bidAddedWhilePending ∧
    (∀ fuel2, matchBook acceptingExchange 0 (fuel2 + 1) bidAddedWhilePending
      = some (.returned bidAddedWhilePending none)) := by
  have hw : LevelsAllocated partialFillPending 0 := by
    unfold LevelsAllocated
    decide
  have run : Awaiting acceptingExchange 0 true partialFillPending bidAddedWhilePending :=
    Awaiting.add 2 none (by rfl) (by decide) (Awaiting.done _)
  exact ⟨by rfl, hw, run,
    ((matchBook_one_in_flight acceptingExchange 0 1 partialFillBook partialFillPending
      partialFillTrade (by rfl) hw).2 true _ run).1⟩

/-! ## `DeepCopy` and the history snapshots -/

set_option maxRecDepth 100000 in
/-- C27. `DeepCopy` does not copy `TriggerPrice`. The child of `stopLimitOrders`
has the trigger price `1.9 * 10^18`; its copy has none, the copy of the parent
holds a copy of the child without it, and the snapshot `AddToPastHistory`
writes for the child records none. Every other field of a copy has the value
it has in the order. -/
theorem DeepCopy_leaves_triggerPrice_nil :
    (stopLimitOrders 1).TriggerPrice = some 1900000000000000000 ∧
    (DeepCopy 2 stopLimitOrders (stopLimitOrders 1)).fields.TriggerPrice = none ∧
    (DeepCopy 2 stopLimitOrders (stopLimitOrders 0)).child.map (fun c => c.fields.TriggerPrice)
      = some none ∧
    (((NewOrderBookStore ["A", "B"] stopLimitOrders 2).AddToPastHistory 1).PastHistoryStore 1 2).map
        (fun c => c.fields.TriggerPrice) = [none] ∧
    ∀ (n : Nat) (f : Nat → Order) (o : Order),
      (DeepCopy n f o).fields = { o with TriggerPrice := none } :=
  ⟨by decide, by decide, by decide, by decide, DeepCopy_fields⟩

/-! ## Pair keys -/

/-- The test `strLess` is the order of `String`, lexicographic on the characters. -/
theorem strLess_iff (a b : String) : strLess a b = true ↔ a < b := by
  unfold strLess
  rw [decide_eq_true_iff]
  exact String.lt_iff_toList_lt.symm

/-- The pair `GetPairKey` returns is the smaller symbol and the larger one. -/
theorem GetPairKey_eq (x y : String) : GetPairKey x y = (min x y, max x y) := by
  unfold GetPairKey
  by_cases h : x < y
  · rw [if_pos ((strLess_iff x y).mpr h), min_eq_left h.le, max_eq_right h.le]
  · have h2 : ¬ strLess x y = true := fun hc => h ((strLess_iff x y).mp hc)
    rw [if_neg h2, min_eq_right (not_lt.mp h), max_eq_left (not_lt.mp h)]

/-- C28. For all symbols `a` and `b`, `GetPairKey a b` is `(min a b, max a b)`
in the lexicographic order of strings; it is the same for `(b, a)`, its first
component is at most its second, and `GetPairKey` returns its own result
unchanged. -/
theorem GetPairKey_canonical (a b : String) :
    GetPairKey a b = (min a b, max a b) ∧
    GetPairKey a b = GetPairKey b a ∧
    (GetPairKey a b).1 ≤ (GetPairKey a b).2 ∧
    GetPairKey (GetPairKey a b).1 (GetPairKey a b).2 = GetPairKey a b := by
  refine ⟨GetPairKey_eq a b, ?_, ?_, ?_⟩
  · rw [GetPairKey_eq a b, GetPairKey_eq b a, min_comm, max_comm]
  · rw [GetPairKey_eq a b]; exact min_le_max
  · rw [GetPairKey_eq a b, GetPairKey_eq]
    simp

/-! ## The market price query -/

set_option maxRecDepth 100000 in
/-- C29. `GetMarketPrice` never assigns `LastPrice`. The book of `quotedBook`
has settled a trade at `2 * 10^18`, which is its `LastPrice`, and holds a bid
at `1 * 10^18` and an ask at `3 * 10^18`; the query returns these two, their
mid price and their spread, and a `nil` `LastPrice`, as it does for every
store and pair. -/
theorem GetMarketPrice_lastPrice_nil :
    quotedBook.map (fun s => (s.bookAt 0).LastPrice) = some 2000000000000000000 ∧
    quotedBook.map (fun s => GetMarketPrice s "A" "B") =
      some (some { BestBid := some 1000000000000000000, BestAsk := some 3000000000000000000,
                   MidPrice := some 2000000000000000000, Spread := some 2000000000000000000,
                   LastPrice := none }) ∧
    ∀ (s : OrderBookStore) (tokenA tokenB : String) (price : MarketPrice),
      GetMarketPrice s tokenA tokenB = some price → price.LastPrice = none := by
  refine ⟨by decide, by decide, ?_⟩
  intro s tokenA tokenB price h
  unfold GetMarketPrice at h
  dsimp only at h
  split at h
  · exact absurd h (by simp)
  · split at h <;> split at h <;> split at h <;>
      simp only [Option.some.injEq] at h <;> rw [← h]

/-! ## A cancellation that finds nothing -/

/-- A level without an order of the given creator and nonce is searched in vain. -/
theorem find?_noMatch (s : OrderBookStore) (createdBy : Nat) (nonce : Int) (tree : Tree)
    (limitPrice : Int) (hno : NoMatch s createdBy nonce tree limitPrice) (l : Nat)
    (hb : tree.Get limitPrice = some l) :
    (s.levelAt l).Orders.find? (fun (e : Element) =>
      decide ((s.orderAt e.Value).CreatedBy = createdBy ∧ (s.orderAt e.Value).Nonce = nonce))
        = none := by
  rw [List.find?_eq_none]
  intro x hx
  simpa [Element.IsOrderOf] using hno l hb x hx

/-- C21. `RemoveOrder` returns the store it was given, hence leaves every book,
every price level, every order (its status included) and the history as they
were, when the pair has no book, and when the book has neither a bid level nor
an ask level at `limitPrice` with an order of the given creator and nonce,
wherever else that order may rest. -/
theorem RemoveOrder_not_found (s : OrderBookStore) (createdBy : Nat) (nonce limitPrice : Int)
    (tokenA tokenB : String)
    (h : s.lookupBook ((GetPairKey tokenA tokenB).1 ++ "/" ++ (GetPairKey tokenA tokenB).2) = none ∨
      ∃ bp, s.lookupBook ((GetPairKey tokenA tokenB).1 ++ "/" ++ (GetPairKey tokenA tokenB).2)
          = some bp ∧
        NoMatch s createdBy nonce (s.bookAt bp).Bids limitPrice ∧
        NoMatch s createdBy nonce (s.bookAt bp).Asks limitPrice) :
    RemoveOrder s createdBy nonce (some limitPrice) tokenA tokenB = s := by
  unfold RemoveOrder
  rcases h with h | ⟨bp, hbook, hb, ha⟩
  · simp only [h]
  · rcases h1 : (s.bookAt bp).Bids.Get limitPrice with _ | l1 <;>
      rcases h2 : (s.bookAt bp).Asks.Get limitPrice with _ | l2
    · simp only [hbook, h1, h2]
    · simp only [hbook, h1, h2, find?_noMatch s createdBy nonce _ limitPrice ha l2 h2]
    · simp only [hbook, h1, h2, find?_noMatch s createdBy nonce _ limitPrice hb l1 h1]
    · simp only [hbook, h1, h2, find?_noMatch s createdBy nonce _ limitPrice ha l2 h2,
        find?_noMatch s createdBy nonce _ limitPrice hb l1 h1]

set_option maxRecDepth 100000 in
/-- Witness for C21: the bid of creator 2 with nonce 1 rests at the key
`3.75 * 10^18` of `partialFillBook`; a cancellation that names the key
`4 * 10^18` changes nothing. -/
theorem RemoveOrder_not_found_witness :
    (∃ e ∈ (partialFillBook.levelAt 1).Orders, Element.IsOrderOf partialFillBook 2 1 e) ∧
    (partialFillBook.bookAt 0).Bids.Get 3750000000000000000 = some 1 ∧
    RemoveOrder partialFillBook 2 1 (some 4000000000000000000) "A" "B" = partialFillBook :=
  ⟨⟨{ id := 1, Value := 1 }, by decide, by unfold Element.IsOrderOf; decide⟩, by decide,
    RemoveOrder_not_found partialFillBook 2 1 4000000000000000000 "A" "B"
      (Or.inr ⟨0, by decide,
        fun lp hlp => absurd ((show (partialFillBook.bookAt 0).Bids.Get 4000000000000000000
          = none by decide).symm.trans hlp) (by simp),
        fun lp hlp => absurd ((show (partialFillBook.bookAt 0).Asks.Get 4000000000000000000
          = none by decide).symm.trans hlp) (by simp)⟩)⟩

/-! ## The snapshot of a confirmed fill -/

/-- The settlement of one participant: its order, its history, its level. -/
theorem settleOrder_spec (s : OrderBookStore) (o l : Nat) (e : Element) (r : Int) :
    (settleOrder s o l e r).1.orderAt o = { s.orderAt o with Status := if r = 0 then 2 else 0 } ∧
    (∀ q, q ≠ o → (settleOrder s o l e r).1.orderAt q = s.orderAt q) ∧
    (∃ snapshot,
      (settleOrder s o l e r).1.PastHistoryStore (s.orderAt o).CreatedBy (s.orderAt o).Nonce =
        s.PastHistoryStore (s.orderAt o).CreatedBy (s.orderAt o).Nonce ++ [snapshot] ∧
      snapshot.fields =
        { s.orderAt o with Status := if r = 0 then 3 else 5, TriggerPrice := none }) ∧
    (∀ a n, ¬ (a = (s.orderAt o).CreatedBy ∧ n = (s.orderAt o).Nonce) →
      (settleOrder s o l e r).1.PastHistoryStore a n = s.PastHistoryStore a n) ∧
    (settleOrder s o l e r).1.levelAt l =
      { s.levelAt l with
        Orders := if r = 0 then listRemove (s.levelAt l).Orders e else (s.levelAt l).Orders } ∧
    (∀ q, q ≠ l → (settleOrder s o l e r).1.levelAt q = s.levelAt q) := by
  unfold settleOrder
  by_cases h : r = 0
  · simp only [h, if_true]
    refine ⟨?_, ?_, ?_, ?_, ?_, ?_⟩
    · split <;> simp
    · intro q hq; split <;> simp [hq]
    · refine ⟨DeepCopy s.nextOrder (Function.update s.orderAt o { s.orderAt o with Status := 3 })
        { s.orderAt o with Status := 3 }, ?_, DeepCopy_fields _ _ _⟩
      split <;> simp [OrderBookStore.AddToPastHistory, OrderBookStore.setOrder,
        OrderBookStore.setLevel]
    · intro a n hne
      split <;> simp [OrderBookStore.AddToPastHistory, OrderBookStore.setOrder,
        OrderBookStore.setLevel, hne]
    · split <;> simp
    · intro q hq; split <;> simp [hq]
  · simp only [h, if_false]
    refine ⟨?_, ?_, ?_, ?_, ?_, ?_⟩
    · simp
    · intro q hq; simp [hq]
    · refine ⟨DeepCopy s.nextOrder (Function.update s.orderAt o { s.orderAt o with Status := 5 })
        { s.orderAt o with Status := 5 }, ?_, DeepCopy_fields _ _ _⟩
      simp [OrderBookStore.AddToPastHistory, OrderBookStore.setOrder]
    · intro a n hne
      simp [OrderBookStore.AddToPastHistory, OrderBookStore.setOrder, hne]
    · simp
    · intro q hq; simp
/-- Membership in a list after `listRemove`. -/
theorem mem_listRemove (l : List Element) (e x : Element) :
    x ∈ listRemove l e ↔ x ∈ l ∧ x.id ≠ e.id := by
  unfold listRemove
  simp

/-- The pass of the ring confirmation for one participant, written out. -/
theorem recordFill_eq (txHash : String) (s : OrderBookStore) (o : Nat) (fill : Int) (l : Nat)
    (e : Element) :
    recordFill txHash s o fill l e =
      (settleOrder
        (((s.setOrder o
          { s.orderAt o with TransactionHashes := (s.orderAt o).TransactionHashes ++ [txHash] }).setOrder o
          { s.orderAt o with TransactionHashes := (s.orderAt o).TransactionHashes ++ [txHash],
                             FilledAmtIn := some ((s.orderAt o).filled + fill) }).setLevel l
          { s.levelAt l with TotalQuantity := (s.levelAt l).TotalQuantity - fill })
        o l e ((s.orderAt o).AmtIn - ((s.orderAt o).filled + fill))).1 := by
  unfold recordFill
  simp [confirmRingOrders, Order.filled]

/-- The first loop of the ring confirmation, pass by pass. -/
theorem confirmRingOrders_cons (txHash : String) (s : OrderBookStore) (o : Nat) (os : List Nat)
    (f : Int) (fs : List Int) (l : Nat) (ls : List Nat) (e : Element) (es : List Element) :
    (confirmRingOrders txHash s (o :: os) (f :: fs) (l :: ls) (e :: es)).1 =
      (confirmRingOrders txHash (recordFill txHash s o f l e) os fs ls es).1 := by
  unfold recordFill
  simp [confirmRingOrders]

/-- What one pass of the ring confirmation records for its participant. -/
theorem recordFill_recorded (txHash : String) (s : OrderBookStore) (o : Nat) (fill : Int)
    (l : Nat) (e : Element) :
    FillRecorded s (recordFill txHash s o fill l e) o l e fill txHash := by
  rw [recordFill_eq]
  generalize hs1 : ((s.setOrder o
          { s.orderAt o with TransactionHashes := (s.orderAt o).TransactionHashes ++ [txHash] }).setOrder o
          { s.orderAt o with TransactionHashes := (s.orderAt o).TransactionHashes ++ [txHash],
                             FilledAmtIn := some ((s.orderAt o).filled + fill) }).setLevel l
          { s.levelAt l with TotalQuantity := (s.levelAt l).TotalQuantity - fill } = s1
  have ho : s1.orderAt o =
      { s.orderAt o with TransactionHashes := (s.orderAt o).TransactionHashes ++ [txHash],
                         FilledAmtIn := some ((s.orderAt o).filled + fill) } := by
    rw [← hs1]; simp
  have hh : s1.PastHistoryStore = s.PastHistoryStore := by rw [← hs1]; rfl
  have hl : (s1.levelAt l).Orders = (s.levelAt l).Orders := by rw [← hs1]; simp
  obtain ⟨h1, -, ⟨snap, h3, h3'⟩, -, h5, -⟩ :=
    settleOrder_spec s1 o l e ((s.orderAt o).AmtIn - ((s.orderAt o).filled + fill))
  rw [ho] at h1 h3 h3'
  rw [hh] at h3
  refine ⟨snap, h3, ?_, ?_, ?_, ?_, ?_⟩
  · rw [h3']
  · rw [h3']
  · rw [h1]
  · intro hfull
    have hz : (s.orderAt o).AmtIn - ((s.orderAt o).filled + fill) = 0 := by omega
    rw [h3', h1, h5, hz]
    refine ⟨rfl, rfl, ?_⟩
    intro x hx
    simp only [if_true] at hx
    exact ((mem_listRemove _ _ _).mp hx).2
  · intro hpart
    have hz : ¬ (s.orderAt o).AmtIn - ((s.orderAt o).filled + fill) = 0 := by omega
    rw [h3', h1, h5]
    simp only [hz, if_false]
    refine ⟨trivial, trivial, ?_⟩
    rw [hl]
    exact id

/-- One pass of the ring confirmation leaves the other participants as they are. -/
theorem recordFill_untouched (txHash : String) (s : OrderBookStore) (o : Nat) (fill : Int)
    (l : Nat) (e : Element) (q : Nat) (x : Element) (hq : q ≠ o)
    (hkey : getOrderKey (s.orderAt q) ≠ getOrderKey (s.orderAt o)) (hx : x.id ≠ e.id) :
    Untouched s (recordFill txHash s o fill l e) q x := by
  rw [recordFill_eq]
  generalize hs1 : ((s.setOrder o
          { s.orderAt o with TransactionHashes := (s.orderAt o).TransactionHashes ++ [txHash] }).setOrder o
          { s.orderAt o with TransactionHashes := (s.orderAt o).TransactionHashes ++ [txHash],
                             FilledAmtIn := some ((s.orderAt o).filled + fill) }).setLevel l
          { s.levelAt l with TotalQuantity := (s.levelAt l).TotalQuantity - fill } = s1
  have ho : s1.orderAt o =
      { s.orderAt o with TransactionHashes := (s.orderAt o).TransactionHashes ++ [txHash],
                         FilledAmtIn := some ((s.orderAt o).filled + fill) } := by
    rw [← hs1]; simp
  have hoq : s1.orderAt q = s.orderAt q := by rw [← hs1]; simp [hq]
  have hh : s1.PastHistoryStore = s.PastHistoryStore := by rw [← hs1]; rfl
  have hl : ∀ l', (s1.levelAt l').Orders = (s.levelAt l').Orders := by
    intro l'
    rw [← hs1]
    by_cases hll : l' = l
    · subst hll; simp
    · simp [hll]
  obtain ⟨-, h2, -, h4, h5, h6⟩ :=
    settleOrder_spec s1 o l e ((s.orderAt o).AmtIn - ((s.orderAt o).filled + fill))
  refine ⟨?_, ?_, ?_⟩
  · rw [h2 q hq, hoq]
  · rw [h4, hh]
    rw [ho]
    intro hc
    apply hkey
    unfold getOrderKey
    rw [hc.1, hc.2]
  · intro l'
    by_cases hll : l' = l
    · subst hll
      rw [h5]
      dsimp only
      split_ifs
      · rw [mem_listRemove, hl]
        refine ⟨⟨fun h => h.1, fun h => ⟨h, hx⟩⟩, ?_⟩
        intro hall y hy
        rw [mem_listRemove] at hy
        exact hall y hy.1
      · rw [hl]
        exact ⟨Iff.rfl, fun h => h⟩
    · rw [h6 l' hll, hl]
      exact ⟨Iff.rfl, fun h => h⟩

/-- One pass of the ring confirmation changes no creator and no nonce. -/
theorem recordFill_key (txHash : String) (s : OrderBookStore) (o : Nat) (fill : Int)
    (l : Nat) (e : Element) (q : Nat) :
    getOrderKey ((recordFill txHash s o fill l e).orderAt q) = getOrderKey (s.orderAt q) := by
  rw [recordFill_eq]
  obtain ⟨h1, h2, -⟩ := settleOrder_spec
    (((s.setOrder o
          { s.orderAt o with TransactionHashes := (s.orderAt o).TransactionHashes ++ [txHash] }).setOrder o
          { s.orderAt o with TransactionHashes := (s.orderAt o).TransactionHashes ++ [txHash],
                             FilledAmtIn := some ((s.orderAt o).filled + fill) }).setLevel l
          { s.levelAt l with TotalQuantity := (s.levelAt l).TotalQuantity - fill })
    o l e ((s.orderAt o).AmtIn - ((s.orderAt o).filled + fill))
  by_cases hq : q = o
  · subst hq
    rw [h1]
    simp [getOrderKey]
  · rw [h2 q hq]
    simp [hq]
theorem Untouched.andThen {s s1 s2 : OrderBookStore} {q : Nat} {e : Element}
    (h1 : Untouched s s1 q e) (h2 : Untouched s1 s2 q e) : Untouched s s2 q e := by
  obtain ⟨a1, a2, a3⟩ := h1
  obtain ⟨b1, b2, b3⟩ := h2
  rw [a1] at b2
  refine ⟨b1.trans a1, b2.trans a2, fun l => ⟨(b3 l).1.trans (a3 l).1, fun h => (b3 l).2 ((a3 l).2 h)⟩⟩

theorem Untouched.same (s : OrderBookStore) (q : Nat) (e : Element) : Untouched s s q e :=
  ⟨rfl, rfl, fun _ => ⟨Iff.rfl, fun h => h⟩⟩

/-- A store with the same orders, levels and history. -/
theorem Untouched.of_eq {s s' : OrderBookStore} (q : Nat) (e : Element)
    (ho : s'.orderAt = s.orderAt) (hl : s'.levelAt = s.levelAt)
    (hh : s'.PastHistoryStore = s.PastHistoryStore) : Untouched s s' q e := by
  unfold Untouched
  rw [ho, hl, hh]
  exact ⟨rfl, rfl, fun _ => ⟨Iff.rfl, fun h => h⟩⟩

/-- What was recorded for a participant stands when the rest leaves it alone. -/
theorem FillRecorded.then_untouched {s s1 s' : OrderBookStore} {q l : Nat} {e : Element}
    {fill : Int} {txHash : String} (h : FillRecorded s s1 q l e fill txHash)
    (hk : getOrderKey (s1.orderAt q) = getOrderKey (s.orderAt q))
    (hu : Untouched s1 s' q e) : FillRecorded s s' q l e fill txHash := by
  obtain ⟨snap, h1, h2, h3, h4, h5, h6⟩ := h
  obtain ⟨u1, u2, u3⟩ := hu
  unfold getOrderKey at hk
  have hc : (s1.orderAt q).CreatedBy = (s.orderAt q).CreatedBy := congrArg Prod.fst hk
  have hn : (s1.orderAt q).Nonce = (s.orderAt q).Nonce := congrArg Prod.snd hk
  rw [hc, hn] at u2
  refine ⟨snap, u2.trans h1, h2, h3, by rw [u1]; exact h4, ?_, ?_⟩
  · intro hf
    obtain ⟨a, b, c⟩ := h5 hf
    exact ⟨a, by rw [u1]; exact b, (u3 l).2 c⟩
  · intro hf
    obtain ⟨a, b, c⟩ := h6 hf
    exact ⟨a, by rw [u1]; exact b, fun hm => (u3 l).1.mpr (c hm)⟩

/-- What is recorded for a participant that the start of the confirmation left alone. -/
theorem FillRecorded.of_untouched {s s1 s' : OrderBookStore} {q l : Nat} {e : Element}
    {fill : Int} {txHash : String} (hu : Untouched s s1 q e)
    (h : FillRecorded s1 s' q l e fill txHash) : FillRecorded s s' q l e fill txHash := by
  obtain ⟨snap, h1, h2, h3, h4, h5, h6⟩ := h
  obtain ⟨u1, u2, u3⟩ := hu
  rw [u1] at h1 h2 h3 h4 h5 h6
  rw [u2] at h1
  refine ⟨snap, h1, h2, h3, h4, h5, ?_⟩
  intro hf
  obtain ⟨a, b, c⟩ := h6 hf
  exact ⟨a, b, fun hm => c ((u3 l).1.mpr hm)⟩

/-- The first loop of the ring confirmation changes no creator and no nonce. -/
theorem confirmRingOrders_key (txHash : String) (orders : List Nat) :
    ∀ (s : OrderBookStore) (fills : List Int) (levels : List Nat) (elems : List Element) (q : Nat),
      getOrderKey ((confirmRingOrders txHash s orders fills levels elems).1.orderAt q) =
        getOrderKey (s.orderAt q) := by
  induction orders with
  | nil => intro s fills levels elems q; rfl
  | cons o os ih =>
    intro s fills levels elems q
    cases fills with
    | nil => rfl
    | cons f fs =>
      cases levels with
      | nil => rfl
      | cons l ls =>
        cases elems with
        | nil => rfl
        | cons e es =>
          rw [confirmRingOrders_cons, ih, recordFill_key]

/-- The first loop of the ring confirmation leaves alone an order that is none
of its participants. -/
theorem confirmRingOrders_untouched (txHash : String) (orders : List Nat) :
    ∀ (s : OrderBookStore) (fills : List Int) (levels : List Nat) (elems : List Element)
      (q : Nat) (x : Element),
      getOrderKey (s.orderAt q) ∉ orders.map (fun p => getOrderKey (s.orderAt p)) →
      x.id ∉ elems.map Element.id →
      Untouched s (confirmRingOrders txHash s orders fills levels elems).1 q x := by
  induction orders with
  | nil => intro s fills levels elems q x _ _; exact Untouched.same s q x
  | cons o os ih =>
    intro s fills levels elems q x hk hx
    cases fills with
    | nil => exact Untouched.same s q x
    | cons f fs =>
      cases levels with
      | nil => exact Untouched.same s q x
      | cons l ls =>
        cases elems with
        | nil => exact Untouched.same s q x
        | cons e es =>
          rw [confirmRingOrders_cons]
          simp only [List.map_cons, List.mem_cons, not_or] at hk hx
          have hqo : q ≠ o := fun hc => hk.1 (by rw [hc])
          refine (recordFill_untouched txHash s o f l e q x hqo hk.1 hx.1).andThen ?_
          apply ih
          · simp only [recordFill_key]
            exact hk.2
          · exact hx.2

/-- What the first loop of the ring confirmation records for each participant. -/
theorem confirmRingOrders_recorded (txHash : String) (orders : List Nat) :
    ∀ (s : OrderBookStore) (fills : List Int) (levels : List Nat) (elems : List Element),
      (orders.map (fun p => getOrderKey (s.orderAt p))).Nodup →
      (elems.map Element.id).Nodup →
      ∀ (i q l : Nat) (e : Element) (fill : Int),
        orders[i]? = some q → fills[i]? = some fill → levels[i]? = some l → elems[i]? = some e →
        FillRecorded s (confirmRingOrders txHash s orders fills levels elems).1 q l e fill
          txHash := by
  induction orders with
  | nil => intro s fills levels elems _ _ i q l e fill hq; simp at hq
  | cons o os ih =>
    intro s fills levels elems hkeys hids i q l e fill hq hf hl he
    cases fills with
    | nil => simp at hf
    | cons f fs =>
      cases levels with
      | nil => simp at hl
      | cons l0 ls =>
        cases elems with
        | nil => simp at he
        | cons e0 es =>
          rw [confirmRingOrders_cons]
          simp only [List.map_cons, List.nodup_cons] at hkeys hids
          cases i with
          | zero =>
            simp only [List.getElem?_cons_zero, Option.some.injEq] at hq hf hl he
            subst hq hf hl he
            refine (recordFill_recorded txHash s o f l0 e0).then_untouched ?_ ?_
            · exact recordFill_key _ _ _ _ _ _ _
            · apply confirmRingOrders_untouched
              · simp only [recordFill_key]
                exact hkeys.1
              · exact hids.1
          | succ j =>
            simp only [List.getElem?_cons_succ] at hq hf hl he
            have hqm : q ∈ os := List.getElem?_mem hq
            have hem : e ∈ es := List.getElem?_mem he
            have hkq : getOrderKey (s.orderAt q) ≠ getOrderKey (s.orderAt o) := by
              intro hc
              exact hkeys.1 (by rw [← hc]; exact List.mem_map_of_mem _ hqm)
            have hqo : q ≠ o := fun hc => hkq (by rw [hc])
            have hxe : e.id ≠ e0.id := by
              intro hc
              exact hids.1 (by rw [← hc]; exact List.mem_map_of_mem _ hem)
            refine FillRecorded.of_untouched (recordFill_untouched txHash s o f l0 e0 q e hqo hkq hxe) ?_
            apply ih _ fs ls es _ hids.2 j q l e fill hq hf hl he
            simp only [recordFill_key]
            exact hkeys.2
/-- The second loop of the ring confirmation changes books only. -/
theorem removeEmptyLevels_frame (books : List Nat) :
    ∀ (s : OrderBookStore) (levels : List Nat),
      (removeEmptyLevels s books levels).orderAt = s.orderAt ∧
      (removeEmptyLevels s books levels).levelAt = s.levelAt ∧
      (removeEmptyLevels s books levels).PastHistoryStore = s.PastHistoryStore := by
  induction books with
  | nil => intro s levels; exact ⟨rfl, rfl, rfl⟩
  | cons b bs ih =>
    intro s levels
    cases levels with
    | nil => exact ⟨rfl, rfl, rfl⟩
    | cons l ls =>
      rw [removeEmptyLevels]
      refine ⟨(ih _ _).1.trans ?_, (ih _ _).2.1.trans ?_, (ih _ _).2.2.trans ?_⟩ <;>
      · dsimp only
        split_ifs
        · split <;> split <;> rfl
        · rfl
/-- The settlement of another participant leaves an order alone. -/
theorem settleOrder_untouched (s : OrderBookStore) (o l : Nat) (e : Element) (r : Int) (q : Nat)
    (x : Element) (hkey : getOrderKey (s.orderAt q) ≠ getOrderKey (s.orderAt o))
    (hx : x.id ≠ e.id) : Untouched s (settleOrder s o l e r).1 q x := by
  have hq : q ≠ o := fun hc => hkey (by rw [hc])
  obtain ⟨-, h2, -, h4, h5, h6⟩ := settleOrder_spec s o l e r
  refine ⟨h2 q hq, ?_, ?_⟩
  · apply h4
    intro hc
    apply hkey
    unfold getOrderKey
    rw [hc.1, hc.2]
  · intro l'
    by_cases hll : l' = l
    · subst hll
      rw [h5]
      dsimp only
      split_ifs
      · rw [mem_listRemove]
        refine ⟨⟨fun h => h.1, fun h => ⟨h, hx⟩⟩, ?_⟩
        intro hall y hy
        rw [mem_listRemove] at hy
        exact hall y hy.1
      · exact ⟨Iff.rfl, fun h => h⟩
    · rw [h6 l' hll]
      exact ⟨Iff.rfl, fun h => h⟩

/-- What the settlement of a participant records, once its fill has been
added to the order. -/
theorem settleOrder_recorded (s s1 : OrderBookStore) (o l : Nat) (e : Element) (fill : Int)
    (txHash : String)
    (ho : s1.orderAt o =
      { s.orderAt o with TransactionHashes := (s.orderAt o).TransactionHashes ++ [txHash],
                         FilledAmtIn := some ((s.orderAt o).filled + fill) })
    (hh : s1.PastHistoryStore (s.orderAt o).CreatedBy (s.orderAt o).Nonce =
      s.PastHistoryStore (s.orderAt o).CreatedBy (s.orderAt o).Nonce)
    (hl : e ∈ (s.levelAt l).Orders → e ∈ (s1.levelAt l).Orders) :
    FillRecorded s (settleOrder s1 o l e (s1.orderAt o).remaining).1 o l e fill txHash := by
  have hrem : (s1.orderAt o).remaining = (s.orderAt o).AmtIn - ((s.orderAt o).filled + fill) := by
    rw [ho]; rfl
  rw [hrem]
  obtain ⟨h1, -, ⟨snap, h3, h3'⟩, -, h5, -⟩ :=
    settleOrder_spec s1 o l e ((s.orderAt o).AmtIn - ((s.orderAt o).filled + fill))
  rw [ho] at h1 h3 h3'
  dsimp only at h3
  rw [hh] at h3
  refine ⟨snap, h3, ?_, ?_, ?_, ?_, ?_⟩
  · rw [h3']
  · rw [h3']
  · rw [h1]
  · intro hfull
    have hz : (s.orderAt o).AmtIn - ((s.orderAt o).filled + fill) = 0 := by omega
    rw [h3', h1, h5, hz]
    refine ⟨rfl, rfl, ?_⟩
    intro x hx
    simp only [if_true] at hx
    exact ((mem_listRemove _ _ _).mp hx).2
  · intro hpart
    have hz : ¬ (s.orderAt o).AmtIn - ((s.orderAt o).filled + fill) = 0 := by omega
    rw [h3', h1, h5]
    simp only [hz, if_false]
    exact ⟨trivial, trivial, hl⟩

/-- What the confirmation of a match records for the bid and for the ask. -/
theorem confirmMatch_recorded (book : Nat) (t : PendingMatch) (s : OrderBookStore)
    (hkey : getOrderKey (s.orderAt t.finalBidOrder) ≠ getOrderKey (s.orderAt t.finalAskOrder))
    (hid : t.finalBidElem.id ≠ t.finalAskElem.id) :
    FillRecorded s (confirmMatch 1 book t s).1 t.finalBidOrder t.finalBidLevel t.finalBidElem
      t.finalTradeQuoteQty t.txHash ∧
    FillRecorded s (confirmMatch 1 book t s).1 t.finalAskOrder t.finalAskLevel t.finalAskElem
      t.finalTradeBaseQty t.txHash := by
  have hne : t.finalBidOrder ≠ t.finalAskOrder := fun hc => hkey (by rw [hc])
  have hne' : t.finalAskOrder ≠ t.finalBidOrder := fun hc => hne hc.symm
  unfold confirmMatch
  simp only [if_true]
  generalize hs1 : creditMatch t (s.setBook book { s.bookAt book with LastPrice := t.finalExecutionPrice })
    = s1
  have hb : s1.orderAt t.finalBidOrder =
      { s.orderAt t.finalBidOrder with
        TransactionHashes := (s.orderAt t.finalBidOrder).TransactionHashes ++ [t.txHash],
        FilledAmtIn := some ((s.orderAt t.finalBidOrder).filled + t.finalTradeQuoteQty) } := by
    rw [← hs1]; simp [creditMatch, hne, hne', Order.filled]
  have ha : s1.orderAt t.finalAskOrder =
      { s.orderAt t.finalAskOrder with
        TransactionHashes := (s.orderAt t.finalAskOrder).TransactionHashes ++ [t.txHash],
        FilledAmtIn := some ((s.orderAt t.finalAskOrder).filled + t.finalTradeBaseQty) } := by
    rw [← hs1]; simp [creditMatch, hne, hne', Order.filled]
  have hh : s1.PastHistoryStore = s.PastHistoryStore := by rw [← hs1]; rfl
  have hl : ∀ l, (s1.levelAt l).Orders = (s.levelAt l).Orders := by
    intro l
    rw [← hs1]
    unfold creditMatch
    simp only [setLevel_levelAt, setOrder_levelAt, setBook_levelAt]
    split_ifs <;> simp_all
  have hkb : getOrderKey (s1.orderAt t.finalBidOrder) = getOrderKey (s.orderAt t.finalBidOrder) := by
    rw [hb]; rfl
  have hka : getOrderKey (s1.orderAt t.finalAskOrder) = getOrderKey (s.orderAt t.finalAskOrder) := by
    rw [ha]; rfl
  have hbid := settleOrder_recorded s s1 t.finalBidOrder t.finalBidLevel t.finalBidElem
    t.finalTradeQuoteQty t.txHash hb (by rw [hh]) (by rw [hl]; exact id)
  have hau := settleOrder_untouched s1 t.finalBidOrder t.finalBidLevel t.finalBidElem
    (s1.orderAt t.finalBidOrder).remaining t.finalAskOrder t.finalAskElem
    (by rw [hka, hkb]; exact fun hc => hkey hc.symm) (fun hc => hid hc.symm)
  generalize hsb : (settleOrder s1 t.finalBidOrder t.finalBidLevel t.finalBidElem
    (s1.orderAt t.finalBidOrder).remaining).1 = sb at hbid hau
  obtain ⟨u1, u2, u3⟩ := hau
  have hask := settleOrder_recorded s sb t.finalAskOrder t.finalAskLevel t.finalAskElem
    t.finalTradeBaseQty t.txHash (by rw [u1, ha])
    (by
      have hc : (s1.orderAt t.finalAskOrder).CreatedBy = (s.orderAt t.finalAskOrder).CreatedBy := by
        rw [ha]
      have hn : (s1.orderAt t.finalAskOrder).Nonce = (s.orderAt t.finalAskOrder).Nonce := by
        rw [ha]
      rw [hc, hn, hh] at u2
      exact u2)
    (by intro hm; rw [← hl] at hm; exact (u3 _).1.mpr hm)
  have hrem : (s1.orderAt t.finalAskOrder).remaining = (sb.orderAt t.finalAskOrder).remaining := by
    rw [u1]
  rw [hrem]
  have hkb' : getOrderKey (sb.orderAt t.finalBidOrder) = getOrderKey (s.orderAt t.finalBidOrder) := by
    rw [← hsb, (settleOrder_spec _ _ _ _ _).1, hb]
    rfl
  have hka' : getOrderKey (sb.orderAt t.finalAskOrder) = getOrderKey (s.orderAt t.finalAskOrder) := by
    rw [u1, hka]
  have hbu := settleOrder_untouched sb t.finalAskOrder t.finalAskLevel t.finalAskElem
    (sb.orderAt t.finalAskOrder).remaining t.finalBidOrder t.finalBidElem
    (by rw [hka', hkb']; exact hkey) hid
  have hdrop : ∀ (s2 : OrderBookStore) (q : Nat) (x : Element),
      Untouched s2 (dropEmptyLevels book t s2) q x := by
    intro s2 q x
    apply Untouched.of_eq
    · simp
    · unfold dropEmptyLevels; dsimp only; split_ifs <;> rfl
    · unfold dropEmptyLevels; dsimp only; split_ifs <;> rfl
  constructor
  · exact hbid.then_untouched hkb' (hbu.andThen (hdrop _ _ _))
  · refine hask.then_untouched ?_ (hdrop _ _ _)
    rw [(settleOrder_spec _ _ _ _ _).1, u1, ha]
    rfl

/-- C26. On a confirmed fill each participant gets exactly one snapshot more in
its history (`FillRecorded`): with `Status = 3` when the fill brings
`FilledAmtIn` to `AmtIn`, the order then ending with `Status = 2` and out of
its level, and with `Status = 5` otherwise, the order then ending with
`Status = 0` and staying in its level; in both cases the snapshot has the
`FilledAmtIn` after the fill and the transaction hash at the end of its list.
This holds for the bid and the ask of a direct match and for every participant
of a ring, the participants being orders of different creator and nonce held
by different list elements. -/
theorem confirmed_fill_snapshot :
    (∀ (book : Nat) (t : PendingMatch) (s : OrderBookStore),
      getOrderKey (s.orderAt t.finalBidOrder) ≠ getOrderKey (s.orderAt t.finalAskOrder) →
      t.finalBidElem.id ≠ t.finalAskElem.id →
      FillRecorded s (confirmMatch 1 book t s).1 t.finalBidOrder t.finalBidLevel t.finalBidElem
        t.finalTradeQuoteQty t.txHash ∧
      FillRecorded s (confirmMatch 1 book t s).1 t.finalAskOrder t.finalAskLevel t.finalAskElem
        t.finalTradeBaseQty t.txHash) ∧
    (∀ (r : PendingRing) (s : OrderBookStore),
      (r.finalOrders.map (fun p => getOrderKey (s.orderAt p))).Nodup →
      (r.finalElements.map Element.id).Nodup →
      ∀ (i q l : Nat) (e : Element) (fill : Int),
        r.finalOrders[i]? = some q → r.finalFillAmounts[i]? = some fill →
        r.finalPriceLevels[i]? = some l → r.finalElements[i]? = some e →
        FillRecorded s (confirmRing 1 r s).1 q l e fill r.txHash) := by
  refine ⟨confirmMatch_recorded, ?_⟩
  intro r s hkeys hids i q l e fill hq hf hl he
  have h := confirmRingOrders_recorded r.txHash r.finalOrders s r.finalFillAmounts
    r.finalPriceLevels r.finalElements hkeys hids i q l e fill hq hf hl he
  refine h.then_untouched (confirmRingOrders_key _ _ _ _ _ _ _) ?_
  unfold confirmRing
  simp only [if_true]
  obtain ⟨f1, f2, f3⟩ := removeEmptyLevels_frame r.finalBooks
    (confirmRingOrders r.txHash s r.finalOrders r.finalFillAmounts r.finalPriceLevels
      r.finalElements).1 r.finalPriceLevels
  exact Untouched.of_eq q e f1 f2 f3

set_option maxRecDepth 100000 in
/-- Witness for C26: the half-fill scenario, in which the confirmation fills
the ask and half of the bid, and the ring of `ringBooks`, whose first order is
filled and whose second is not. -/
theorem confirmed_fill_snapshot_witness :
    matchBook acceptingExchange 0 1 halfFillBook
        = some (.returned halfFillPending (some halfFillTrade)) ∧
    executeRing (some acceptingExchange) ringPath ringBooks
        = some (.submitted ringTrade ringPending) ∧
    (FillRecorded halfFillPending (confirmMatch 1 0 halfFillTrade halfFillPending).1 1 1
        { id := 1, Value := 1 } 200 "0xmatch" ∧
      FillRecorded halfFillPending (confirmMatch 1 0 halfFillTrade halfFillPending).1 0 0
        { id := 0, Value := 0 } 100 "0xmatch") ∧
    FillRecorded ringPending (confirmRing 1 ringTrade ringPending).1 0 0 { id := 0, Value := 0 } 10
      "0xring" ∧
    FillRecorded ringPending (confirmRing 1 ringTrade ringPending).1 1 1 { id := 1, Value := 1 } 10
      "0xring" ∧
    ((confirmMatch 1 0 halfFillTrade halfFillPending).1.orderAt 1).Status = 0 ∧
    ((confirmMatch 1 0 halfFillTrade halfFillPending).1.orderAt 0).Status = 2 ∧
    ((confirmMatch 1 0 halfFillTrade halfFillPending).1.PastHistoryStore 2 1).map
        (fun c => (c.fields.Status, c.fields.FilledAmtIn, c.fields.TransactionHashes))
      = [(5, some 200, ["0xmatch"])] ∧
    ((confirmMatch 1 0 halfFillTrade halfFillPending).1.PastHistoryStore 1 1).map
        (fun c => (c.fields.Status, c.fields.FilledAmtIn, c.fields.TransactionHashes))
      = [(3, some 100, ["0xmatch"])] :=
  ⟨by rfl, by rfl,
   confirmed_fill_snapshot.1 0 halfFillTrade halfFillPending (by decide) (by decide),
   confirmed_fill_snapshot.2 ringTrade ringPending (by decide) (by decide) 0 0 0
     { id := 0, Value := 0 } 10 (by rfl) (by rfl) (by rfl) (by rfl),
   confirmed_fill_snapshot.2 ringTrade ringPending (by decide) (by decide) 1 1 1
     { id := 1, Value := 1 } 10 (by rfl) (by rfl) (by rfl) (by rfl),
   by decide, by decide, by decide, by decide⟩

/-! ## A settlement that fails -/

theorem initFilled_normal (s : OrderBookStore) (p q : Nat) :
    ((s.initFilled p).orderAt q).normal = (s.orderAt q).normal := by
  rw [initFilled_orderAt]
  split_ifs with h
  · subst h; simp [Order.normal, Order.filled]
  · rfl

theorem initFilledPair_normal (s : OrderBookStore) (b a q : Nat) :
    ((initFilledPair s b a).orderAt q).normal = (s.orderAt q).normal := by
  unfold initFilledPair
  rw [initFilled_normal, initFilled_normal]

theorem initFilledPair_other (s : OrderBookStore) (b a q : Nat) (hb : q ≠ b) (ha : q ≠ a) :
    (initFilledPair s b a).orderAt q = s.orderAt q := by
  unfold initFilledPair
  rw [initFilled_orderAt, if_neg ha, initFilled_orderAt, if_neg hb]

@[simp] theorem initFilledPair_Books (s : OrderBookStore) (b a : Nat) :
    (initFilledPair s b a).Books = s.Books := by
  simp [initFilledPair]

@[simp] theorem initFilledPair_PastHistoryStore (s : OrderBookStore) (b a : Nat) :
    (initFilledPair s b a).PastHistoryStore = s.PastHistoryStore := by
  simp [initFilledPair]

theorem normal_with_status (o : Order) (st : Int) :
    ({ o with Status := st } : Order).normal = { o.normal with Status := st } := rfl

theorem purgeFilled_exchangeCalls (s : OrderBookStore) (book : Nat) (isBid : Bool) (k : Int)
    (l : Nat) (e : Element) : (purgeFilled s book isBid k l e).exchangeCalls = s.exchangeCalls := by
  unfold purgeFilled
  dsimp only
  split_ifs <;> rfl

/-- A pass of the loop body that ends in `continue` after a call of the
contract: the call returned an error, and the pass has initialised the
`FilledAmtIn` of the two orders selected, set their `Status` to 1 and set it
back to 0. -/
theorem matchStep_rejected {ex : ExchangeContract} {book : Nat} {s s' : OrderBookStore}
    (h : matchStep ex book s = .again s') (hcalls : s'.exchangeCalls ≠ s.exchangeCalls) :
    ∃ sel, selectOrders book s = some sel ∧
      s' = setStatusPair
        { setStatusPair (initFilledPair s sel.bidElem.Value sel.askElem.Value)
            sel.bidElem.Value sel.askElem.Value 1 with
          exchangeCalls := s.exchangeCalls + 1 }
        sel.bidElem.Value sel.askElem.Value 0 := by
  unfold matchStep at h
  rcases hsel : selectOrders book s with _ | sel
  · simp [hsel] at h
  simp only [hsel] at h
  have hf := initFilledPair_fields s sel.bidElem.Value sel.askElem.Value
  have hr := initFilledPair_remaining s sel.bidElem.Value sel.askElem.Value
  simp only [hr, (hf _).2.1, (hf _).2.2.1] at h
  by_cases h1 : (s.orderAt sel.bidElem.Value).remaining ≤ 0
  · simp only [if_pos h1, MatchStep.again.injEq] at h
    rw [← h, purgeFilled_exchangeCalls] at hcalls
    simp at hcalls
  by_cases h2 : (s.orderAt sel.askElem.Value).remaining ≤ 0
  · simp only [if_neg h1, if_pos h2, MatchStep.again.injEq] at h
    rw [← h, purgeFilled_exchangeCalls] at hcalls
    simp at hcalls
  simp only [if_neg h1, if_neg h2] at h
  rcases hq : tradeQuantities (s.orderAt sel.bidElem.Value).AmtIn
      (s.orderAt sel.bidElem.Value).AmtOut (s.orderAt sel.askElem.Value).AmtIn
      (s.orderAt sel.askElem.Value).AmtOut (s.orderAt sel.bidElem.Value).remaining
      (s.orderAt sel.askElem.Value).remaining sel.askPriceKey with _ | _ | ⟨b, q⟩
  · simp [hq] at h
  · simp [hq] at h
  simp only [hq] at h
  split at h
  · simp only [MatchStep.again.injEq] at h
    refine ⟨sel, rfl, ?_⟩
    rw [← h]
    simp
  · simp at h

/-- Marking two orders and then clearing the mark: a reactivation. -/
theorem reactivated_pair (s : OrderBookStore) (b a : Nat) (n : Nat) :
    Reactivated s
      (setStatusPair { setStatusPair (initFilledPair s b a) b a 1 with exchangeCalls := n } b a 0)
      [b, a] := by
  refine ⟨?_, ?_, ?_, ?_, ?_, ?_⟩
  · intro q hq
    have hq' : q = a ∨ q = b := by
      simp only [List.mem_cons, List.mem_singleton, List.not_mem_nil, or_false] at hq
      exact hq.symm
    rw [setStatusPair_orderAt, if_pos hq']
    show ({ (setStatusPair (initFilledPair s b a) b a 1).orderAt q with Status := 0 } : Order).normal = _
    rw [setStatusPair_orderAt, if_pos hq', normal_with_status, normal_with_status,
      initFilledPair_normal]
  · intro q hq
    have hq' : ¬ (q = a ∨ q = b) := by
      simp only [List.mem_cons, List.mem_singleton, List.not_mem_nil, or_false] at hq
      exact fun hc => hq hc.symm
    rw [setStatusPair_orderAt, if_neg hq']
    show (setStatusPair (initFilledPair s b a) b a 1).orderAt q = _
    rw [setStatusPair_orderAt, if_neg hq']
    exact initFilledPair_other s b a q (fun hc => hq' (Or.inr hc)) (fun hc => hq' (Or.inl hc))
  · show (initFilledPair s b a).levelAt = s.levelAt
    simp
  · show (initFilledPair s b a).bookAt = s.bookAt
    simp
  · show (initFilledPair s b a).Books = s.Books
    simp
  · show (initFilledPair s b a).PastHistoryStore = s.PastHistoryStore
    simp
/-- Clearing the mark of two orders: a reactivation. -/
theorem reactivated_cleared (s : OrderBookStore) (b a : Nat) :
    Reactivated s (setStatusPair s b a 0) [b, a] := by
  refine ⟨?_, ?_, rfl, rfl, rfl, rfl⟩
  · intro q hq
    have hq' : q = a ∨ q = b := by
      simp only [List.mem_cons, List.mem_singleton, List.not_mem_nil, or_false] at hq
      exact hq.symm
    rw [setStatusPair_orderAt, if_pos hq', normal_with_status]
  · intro q hq
    have hq' : ¬ (q = a ∨ q = b) := by
      simp only [List.mem_cons, List.mem_singleton, List.not_mem_nil, or_false] at hq
      exact fun hc => hq hc.symm
    rw [setStatusPair_orderAt, if_neg hq']

/-- The orders after `setStatusAll`. -/
theorem setStatusAll_orderAt (st : Int) (os : List Nat) :
    ∀ (s : OrderBookStore) (q : Nat),
      (setStatusAll s st os).orderAt q =
        if q ∈ os then { s.orderAt q with Status := st } else s.orderAt q := by
  induction os with
  | nil => intro s q; simp [setStatusAll]
  | cons o os ih =>
    intro s q
    rw [setStatusAll, ih]
    by_cases hq : q = o
    · subst hq
      simp
    · by_cases hm : q ∈ os
      · simp [hq, hm]
      · simp [hq, hm]

/-- Everything but the orders after `setStatusAll`. -/
theorem setStatusAll_frame (st : Int) (os : List Nat) :
    ∀ s : OrderBookStore,
      (setStatusAll s st os).levelAt = s.levelAt ∧ (setStatusAll s st os).Books = s.Books ∧
      (setStatusAll s st os).PastHistoryStore = s.PastHistoryStore ∧
      (setStatusAll s st os).exchangeCalls = s.exchangeCalls := by
  induction os with
  | nil => intro s; exact ⟨rfl, rfl, rfl, rfl⟩
  | cons o os ih =>
    intro s
    rw [setStatusAll]
    obtain ⟨h1, h2, h3, h4⟩ := ih (s.setOrder o { s.orderAt o with Status := st })
    exact ⟨h1, h2, h3, h4⟩

/-- Clearing the mark of the orders of a list: a reactivation. -/
theorem reactivated_all (s s1 : OrderBookStore) (os : List Nat)
    (ho : ∀ q, (s1.orderAt q).normal = { (s.orderAt q).normal with Status := (s1.orderAt q).Status })
    (ho' : ∀ q, q ∉ os → s1.orderAt q = s.orderAt q)
    (hl : s1.levelAt = s.levelAt) (hb : s1.bookAt = s.bookAt) (hB : s1.Books = s.Books)
    (hh : s1.PastHistoryStore = s.PastHistoryStore) :
    Reactivated s (setStatusAll s1 0 os) os := by
  obtain ⟨f1, f2, f3, -⟩ := setStatusAll_frame 0 os s1
  refine ⟨?_, ?_, f1.trans hl, (setStatusAll_bookAt 0 os s1).trans hb, f2.trans hB, f3.trans hh⟩
  · intro q hq
    rw [setStatusAll_orderAt, if_pos hq, normal_with_status, ho q]
  · intro q hq
    rw [setStatusAll_orderAt, if_neg hq, ho' q hq]

/-- The store in which `executeRing` calls the contract, against the store it got. -/
theorem setStatusAll_marked (s : OrderBookStore) (os : List Nat) (n : Nat) :
    let s1 : OrderBookStore := { setStatusAll s 1 os with exchangeCalls := n }
    (∀ q, (s1.orderAt q).normal = { (s.orderAt q).normal with Status := (s1.orderAt q).Status }) ∧
    (∀ q, q ∉ os → s1.orderAt q = s.orderAt q) ∧
    s1.levelAt = s.levelAt ∧ s1.bookAt = s.bookAt ∧ s1.Books = s.Books ∧
    s1.PastHistoryStore = s.PastHistoryStore := by
  intro s1
  obtain ⟨f1, f2, f3, -⟩ := setStatusAll_frame 1 os s
  refine ⟨?_, ?_, f1, setStatusAll_bookAt 1 os s, f2, f3⟩
  · intro q
    show ((setStatusAll s 1 os).orderAt q).normal =
      { (s.orderAt q).normal with Status := ((setStatusAll s 1 os).orderAt q).Status }
    rw [setStatusAll_orderAt]
    split_ifs <;> rfl
  · intro q hq
    show (setStatusAll s 1 os).orderAt q = s.orderAt q
    rw [setStatusAll_orderAt, if_neg hq]

/-- How `executeRing` ends when it has marked the orders: the store it
returns, against the store it got. -/
theorem executeRing_marked (ex : Option ExchangeContract) (ring : RingPath) (s : OrderBookStore)
    (out : RingOutcome) (h : executeRing ex ring s = some out) :
    (∀ e s', out = .error e s' →
      (e = .noTradeableAmount ∨ e = .bottleneckOrderNotFound) ∧ s' = s ∨
      (e = .exchangeNotInitialized ∨ e = .onChainRingTradeFailed) ∧
        Reactivated s s' ring.Orders) ∧
    (∀ r s', out = .submitted r s' →
      r.finalOrders = ring.Orders ∧
      s' = { setStatusAll s 1 ring.Orders with exchangeCalls := s.exchangeCalls + 1 }) := by
  unfold executeRing at h
  dsimp only at h
  repeat' split at h
  all_goals
    first
    | (simp at h; done)
    | (simp only [Option.some.injEq] at h
       subst h
       refine ⟨fun e s' he => ?_, fun r s' he => ?_⟩ <;>
         first
         | (simp at he; done)
         | (simp only [RingOutcome.error.injEq] at he
            obtain ⟨he1, he2⟩ := he
            subst he1 he2
            first
            | exact Or.inl ⟨Or.inl rfl, rfl⟩
            | exact Or.inl ⟨Or.inr rfl, rfl⟩
            | (refine Or.inr ⟨Or.inl rfl, ?_⟩
               obtain ⟨a1, a2, a3, a4, a5, a6⟩ := setStatusAll_marked s ring.Orders s.exchangeCalls
               exact reactivated_all s _ ring.Orders a1 a2 a3 a4 a5 a6)
            | (refine Or.inr ⟨Or.inr rfl, ?_⟩
               obtain ⟨a1, a2, a3, a4, a5, a6⟩ :=
                 setStatusAll_marked s ring.Orders (s.exchangeCalls + 1)
               have hx : (setStatusAll s 1 ring.Orders).exchangeCalls = s.exchangeCalls :=
                 (setStatusAll_frame 1 ring.Orders s).2.2.2
               rw [hx]
               exact reactivated_all s _ ring.Orders a1 a2 a3 a4 a5 a6))
         | (simp only [RingOutcome.submitted.injEq] at he
            obtain ⟨he1, he2⟩ := he
            subst he1 he2
            have hx : (setStatusAll s 1 ring.Orders).exchangeCalls = s.exchangeCalls :=
              (setStatusAll_frame 1 ring.Orders s).2.2.2
            rw [hx]
            exact ⟨rfl, rfl⟩))

/-- C25. A settlement that fails leaves a store that differs from the store
before the orders were marked pending in nothing but the `Status` of the
participants, which is `0` (`Reactivated`): no `FilledAmtIn`, no price level,
no book with its `LastPrice`, no list of transaction hashes and no history is
changed. This holds when `ExecuteMatch` returns an error in a pass of
`matchBook` (a pass that ends in `continue` after a call of the contract), the
two orders having had `Status = 0`; when the receipt of a submitted match
reports a failure, against the store before the pass and against the store the
confirmation finds; when `executeRing` finds no contract or gets an error from
`ExecuteRingTrade`; and when the receipt of a submitted ring reports a
failure, against the store before `executeRing` and against the store the
confirmation finds. -/
theorem settlement_failure_restores :
    (∀ (ex : ExchangeContract) (book : Nat) (s s' : OrderBookStore),
      matchStep ex book s = .again s' → s'.exchangeCalls ≠ s.exchangeCalls →
      ∃ sel, selectOrders book s = some sel ∧
        (s.orderAt sel.bidElem.Value).Status = 0 ∧ (s.orderAt sel.askElem.Value).Status = 0 ∧
        Reactivated s s' [sel.bidElem.Value, sel.askElem.Value]) ∧
    (∀ (ex : ExchangeContract) (book : Nat) (s s1 : OrderBookStore) (t : PendingMatch)
        (result : Int),
      matchStep ex book s = .submitted t s1 → result ≠ 1 →
      (s.orderAt t.finalBidOrder).Status = 0 ∧ (s.orderAt t.finalAskOrder).Status = 0 ∧
      Reactivated s (confirmMatch result book t s1).1 [t.finalBidOrder, t.finalAskOrder]) ∧
    (∀ (result : Int) (book : Nat) (t : PendingMatch) (s : OrderBookStore),
      result ≠ 1 →
      Reactivated s (confirmMatch result book t s).1 [t.finalBidOrder, t.finalAskOrder]) ∧
    (∀ (ex : Option ExchangeContract) (ring : RingPath) (s s' : OrderBookStore)
        (e : ExecuteRingError),
      executeRing ex ring s = some (.error e s') →
      e = .exchangeNotInitialized ∨ e = .onChainRingTradeFailed →
      Reactivated s s' ring.Orders) ∧
    (∀ (ex : Option ExchangeContract) (ring : RingPath) (s s1 : OrderBookStore) (r : PendingRing)
        (result : Int),
      executeRing ex ring s = some (.submitted r s1) → result ≠ 1 →
      Reactivated s (confirmRing result r s1).1 ring.Orders) ∧
    (∀ (result : Int) (r : PendingRing) (s : OrderBookStore),
      result ≠ 1 → Reactivated s (confirmRing result r s).1 r.finalOrders) := by
  refine ⟨?_, ?_, ?_, ?_, ?_, ?_⟩
  · intro ex book s s' h hcalls
    obtain ⟨sel, hsel, hs'⟩ := matchStep_rejected h hcalls
    obtain ⟨-, -, -, -, -, hbe, hae, -⟩ := selectOrders_spec hsel
    refine ⟨sel, hsel, (firstReady_spec hbe).1, (firstReady_spec hae).1, ?_⟩
    rw [hs']
    exact reactivated_pair s _ _ _
  · intro ex book s s1 t result h hr
    obtain ⟨sel, txHash, hsel, -, -, -, ht, hs1⟩ := matchStep_submitted h
    obtain ⟨-, -, -, -, -, hbe, hae, -⟩ := selectOrders_spec hsel
    have hb : t.finalBidOrder = sel.bidElem.Value := by rw [ht]
    have ha : t.finalAskOrder = sel.askElem.Value := by rw [ht]
    rw [hb, ha]
    refine ⟨(firstReady_spec hbe).1, (firstReady_spec hae).1, ?_⟩
    unfold confirmMatch
    rw [if_neg hr, hb, ha, hs1]
    exact reactivated_pair s _ _ _
  · intro result book t s hr
    unfold confirmMatch
    rw [if_neg hr]
    exact reactivated_cleared s _ _
  · intro ex ring s s' e h he
    rcases (executeRing_marked ex ring s _ h).1 e s' rfl with ⟨h1, -⟩ | ⟨-, h2⟩
    · rcases h1 with h1 | h1 <;> rcases he with he | he <;> rw [h1] at he <;> simp at he
    · exact h2
  · intro ex ring s s1 r result h hr
    obtain ⟨hro, hs1⟩ := (executeRing_marked ex ring s _ h).2 r s1 rfl
    unfold confirmRing
    rw [if_neg hr, hro, hs1]
    obtain ⟨a1, a2, a3, a4, a5, a6⟩ := setStatusAll_marked s ring.Orders (s.exchangeCalls + 1)
    exact reactivated_all s _ ring.Orders a1 a2 a3 a4 a5 a6
  · intro result r s hr
    unfold confirmRing
    rw [if_neg hr]
    refine reactivated_all s s r.finalOrders (fun q => rfl) (fun q _ => rfl) rfl rfl rfl rfl

set_option maxRecDepth 100000 in
/-- Witness for C25: on `partialFillBook` a pass of `matchBook` with a contract
that rejects the match, and the pass with a contract that accepts it followed
by a failed receipt; on `ringBooks` the ring rejected by the contract, and the
ring submitted followed by a failed receipt. -/
theorem settlement_failure_restores_witness :
    (∃ sel, selectOrders 0 partialFillBook = some sel ∧
      Reactivated partialFillBook
        (setStatusPair
          { setStatusPair (initFilledPair partialFillBook 1 0) 1 0 1 with exchangeCalls := 1 }
          1 0 0)
        [sel.bidElem.Value, sel.askElem.Value]) ∧
    Reactivated partialFillBook (confirmMatch 0 0 partialFillTrade partialFillPending).1 [1, 0] ∧
    Reactivated ringBooks
      (setStatusAll { setStatusAll ringBooks 1 [0, 1, 2] with exchangeCalls := 1 } 0 [0, 1, 2])
      [0, 1, 2] ∧
    Reactivated ringBooks (confirmRing 0 ringTrade ringPending).1 [0, 1, 2] :=
  ⟨let ⟨sel, h, _, _, hr⟩ :=
     settlement_failure_restores.1 rejectingExchange 0 partialFillBook
       (setStatusPair
         { setStatusPair (initFilledPair partialFillBook 1 0) 1 0 1 with exchangeCalls := 1 }
         1 0 0)
       (by rfl) (by decide)
   ⟨sel, h, hr⟩,
   (settlement_failure_restores.2.1 acceptingExchange 0 partialFillBook partialFillPending
     partialFillTrade 0 (by rfl) (by decide)).2.2,
   settlement_failure_restores.2.2.2.1 (some rejectingExchange) ringPath ringBooks
     (setStatusAll { setStatusAll ringBooks 1 [0, 1, 2] with exchangeCalls := 1 } 0 [0, 1, 2])
     .onChainRingTradeFailed (by rfl) (Or.inr rfl),
   settlement_failure_restores.2.2.2.2.1 (some acceptingExchange) ringPath ringBooks ringPending
     ringTrade 0 (by rfl) (by decide)⟩

/-! ## Adding an order and cancelling it -/

/-- A binding found by `Get` is an entry of the tree. -/
theorem Tree.mem_of_Get {t : Tree} {k : Int} {l : Nat} (h : t.Get k = some l) : (k, l) ∈ t := by
  unfold Tree.Get at h
  split at h
  · simp at h
  · rename_i e he
    simp only [Option.some.injEq] at h
    have hm := List.mem_of_find?_eq_some he
    have hk := List.find?_some he
    simp only [beq_iff_eq] at hk
    rw [← hk, ← h]
    exact hm

/-- The price key of an order with a non-zero amount exists. -/
theorem floatPriceKey_ne_none (num den : Int) (h : num ≠ 0 ∨ den ≠ 0) :
    floatPriceKey num den ≠ none := by
  unfold floatPriceKey
  split_ifs with h1 h2 h3
  · exact absurd h (by simp [h1, h2])
  all_goals simp

/-- The two symbols of an order are the pair `GetPairKey` makes of them, in
this order or the other. -/
theorem GetPairKey_cases (a b : String) :
    (a = (GetPairKey a b).1 ∧ b = (GetPairKey a b).2) ∨
    (a = (GetPairKey a b).2 ∧ b = (GetPairKey a b).1) := by
  unfold GetPairKey
  split_ifs
  · exact Or.inl ⟨rfl, rfl⟩
  · exact Or.inr ⟨rfl, rfl⟩

/-- `AddOrder` of an order with a non-zero amount into an existing book returns
without an error. -/
theorem AddOrder_succeeds (s : OrderBookStore) (p bp : Nat)
    (hbook : s.lookupBook ((GetPairKey (s.orderAt p).SymbolIn (s.orderAt p).SymbolOut).1 ++ "/" ++
      (GetPairKey (s.orderAt p).SymbolIn (s.orderAt p).SymbolOut).2) = some bp)
    (hamt : (s.orderAt p).AmtIn ≠ 0 ∨ (s.orderAt p).AmtOut ≠ 0) :
    ∃ s1, AddOrder s p = some (s1, none) := by
  have hf := initFilled_fields s p p
  have hsym : ((s.initFilled p).orderAt p).SymbolIn = (s.orderAt p).SymbolIn ∧
      ((s.initFilled p).orderAt p).SymbolOut = (s.orderAt p).SymbolOut := by
    rw [initFilled_orderAt]; simp
  have hk1 := floatPriceKey_ne_none (s.orderAt p).AmtOut (s.orderAt p).AmtIn hamt.symm
  have hk2 := floatPriceKey_ne_none (s.orderAt p).AmtIn (s.orderAt p).AmtOut hamt
  rcases h : AddOrder s p with _ | ⟨s1, _ | e⟩
  · exfalso
    unfold AddOrder at h
    dsimp only at h
    rw [hbook] at h
    dsimp only at h
    rw [hsym.1, hsym.2, hf.2.1, hf.2.2.1] at h
    split at h
    · simp at h
    · rename_i hside
      split_ifs at hside
      · simp only [Option.some.injEq, Prod.mk.injEq] at hside
        exact hk1 hside.2
      · simp only [Option.some.injEq, Prod.mk.injEq] at hside
        exact hk2 hside.2
    · split at h <;> simp at h
  · exact ⟨s1, rfl⟩
  · exfalso
    unfold AddOrder at h
    dsimp only at h
    rw [hbook] at h
    dsimp only at h
    rw [hsym.1, hsym.2] at h
    split at h
    · rename_i hside
      rcases GetPairKey_cases (s.orderAt p).SymbolIn (s.orderAt p).SymbolOut with c | c
      · rw [if_pos ⟨c.1, c.2⟩] at hside
        simp at hside
      · split_ifs at hside
    · simp at h
    · split at h <;> simp at h
/-- The cancellation of the element just added to one side of a book undoes
the addition on that side: `tree` and `tree1` are the side before and after
the addition, which bound `key` to the level `lp`. -/
theorem removeFound_undoes (s s1 : OrderBookStore) (p bp lp : Nat) (key : Int) (isBid : Bool)
    (ho : s1.orderAt p =
      { s.orderAt p with FilledAmtIn := some (s.orderAt p).filled, LimitPrice := some key })
    (hget1 : (if isBid then (s1.bookAt bp).Bids else (s1.bookAt bp).Asks).Get key = some lp)
    (hkeys : ∀ k, k ≠ key →
      (if isBid then (s1.bookAt bp).Bids else (s1.bookAt bp).Asks).Get k =
        (if isBid then (s.bookAt bp).Bids else (s.bookAt bp).Asks).Get k)
    (hlev : ∀ l, l ≠ lp → s1.levelAt l = s.levelAt l)
    (hcase :
      ((if isBid then (s.bookAt bp).Bids else (s.bookAt bp).Asks).Get key = none ∧
        lp = s.nextLevel ∧
        s1.levelAt lp =
          { Orders := [{ id := s.nextElem, Value := p }],
            TotalQuantity := (s.orderAt p).AmtIn - (s.orderAt p).filled }) ∨
      ((if isBid then (s.bookAt bp).Bids else (s.bookAt bp).Asks).Get key = some lp ∧
        (if isBid then (s1.bookAt bp).Bids else (s1.bookAt bp).Asks) =
          (if isBid then (s.bookAt bp).Bids else (s.bookAt bp).Asks) ∧
        s1.levelAt lp =
          { Orders := (s.levelAt lp).Orders ++ [{ id := s.nextElem, Value := p }],
            TotalQuantity :=
              (s.levelAt lp).TotalQuantity + ((s.orderAt p).AmtIn - (s.orderAt p).filled) }))
    (hwf : (if isBid then (s.bookAt bp).Bids else (s.bookAt bp).Asks).Get key = some lp →
      (s.levelAt lp).Orders ≠ [] ∧ ((s.levelAt lp).Orders.map Element.id).Nodup ∧
      ∀ x ∈ (s.levelAt lp).Orders, x.id < s.nextElem) :
    (∀ k, (if isBid then ((removeFound s1 bp key { id := s.nextElem, Value := p } lp isBid).bookAt
            bp).Bids
          else ((removeFound s1 bp key { id := s.nextElem, Value := p } lp isBid).bookAt
            bp).Asks).Get k =
        (if isBid then (s.bookAt bp).Bids else (s.bookAt bp).Asks).Get k) ∧
    (if isBid then ((removeFound s1 bp key { id := s.nextElem, Value := p } lp isBid).bookAt bp).Asks
      else ((removeFound s1 bp key { id := s.nextElem, Value := p } lp isBid).bookAt bp).Bids) =
      (if isBid then (s1.bookAt bp).Asks else (s1.bookAt bp).Bids) ∧
    (∀ l, l < s.nextLevel →
      (removeFound s1 bp key { id := s.nextElem, Value := p } lp isBid).levelAt l = s.levelAt l) ∧
    (∀ b, b ≠ bp →
      (removeFound s1 bp key { id := s.nextElem, Value := p } lp isBid).bookAt b = s1.bookAt b) := by
  have hrem : (s1.orderAt p).AmtIn - (s1.orderAt p).filled =
      (s.orderAt p).AmtIn - (s.orderAt p).filled := by
    rw [ho]; simp [Order.filled]
  rcases hcase with ⟨hnone, hlp, hlevel⟩ | ⟨hsome, htree, hlevel⟩
  · have hlist : (s1.levelAt lp).Orders = [] ++ ({ id := s.nextElem, Value := p } : Element) :: [] := by
      rw [hlevel]; rfl
    have hnd : ((s1.levelAt lp).Orders.map Element.id).Nodup := by rw [hlevel]; simp
    obtain ⟨hc, hoth, hbooks⟩ := removeFound_cancelled s1 bp lp key [] []
      { id := s.nextElem, Value := p } isBid hget1 hlist hnd
    obtain ⟨-, -, -, -, -, c6, c7, -, c9⟩ := hc
    refine ⟨?_, hoth, ?_, hbooks⟩
    · intro k
      by_cases hk : k = key
      · subst hk
        rw [hnone]
        exact c7.mpr rfl
      · rw [c9 k hk, hkeys k hk]
    · intro l hl
      have hne : l ≠ lp := by omega
      rw [c6 l hne, hlev l hne]
  · obtain ⟨w1, w2, w3⟩ := hwf hsome
    have hlist : (s1.levelAt lp).Orders =
        (s.levelAt lp).Orders ++ ({ id := s.nextElem, Value := p } : Element) :: [] := by
      rw [hlevel]
    have hnd : ((s1.levelAt lp).Orders.map Element.id).Nodup := by
      rw [hlevel]
      simp only [List.map_append, List.map_cons, List.map_nil]
      rw [List.nodup_append]
      refine ⟨w2, by simp, ?_⟩
      intro a ha hb
      simp only [List.mem_singleton] at hb
      obtain ⟨x, hx, hxa⟩ := List.mem_map.mp ha
      have := w3 x hx
      omega
    obtain ⟨hc, hoth, hbooks⟩ := removeFound_cancelled s1 bp lp key (s.levelAt lp).Orders []
      { id := s.nextElem, Value := p } isBid hget1 hlist hnd
    obtain ⟨-, -, -, -, c5, c6, -, c8, -⟩ := hc
    have hne : (s.levelAt lp).Orders ++ [] ≠ [] := by simpa using w1
    refine ⟨?_, hoth, ?_, hbooks⟩
    · intro k
      rw [c8 hne, htree]
    · intro l _
      by_cases hl : l = lp
      · subst hl
        rw [c5]
        dsimp only
        rw [hrem, hlevel]
        simp
      · rw [c6 l hl, hlev l hl]
/-- An element that is not the order searched for in `s` is not in `s1`, when
the orders of `s1` have the creators and nonces they have in `s`. -/
theorem not_isOrderOf_of_key {s s1 : OrderBookStore} {c : Nat} {n : Int} {x : Element}
    (hkey : ∀ q, (s1.orderAt q).CreatedBy = (s.orderAt q).CreatedBy ∧
      (s1.orderAt q).Nonce = (s.orderAt q).Nonce)
    (h : ¬ Element.IsOrderOf s c n x) : ¬ Element.IsOrderOf s1 c n x := by
  unfold Element.IsOrderOf at h ⊢
  rw [(hkey x.Value).1, (hkey x.Value).2]
  exact h

/-- C22. An order with positive amounts whose creator and nonce are on no
order of its book is added by `AddOrder` without an error, and the
`RemoveOrder` that names its creator, nonce, limit price and symbols then
leaves each side of the book with the bindings of price keys to levels it had
before the addition, every price level allocated before with the list of
orders and the `TotalQuantity` it had, and every other book as it was. The
book is one the source can build (`WellFormedBook`). -/
theorem AddOrder_RemoveOrder_round_trip (s : OrderBookStore) (p bp : Nat)
    (hbook : s.lookupBook ((GetPairKey (s.orderAt p).SymbolIn (s.orderAt p).SymbolOut).1 ++ "/" ++
      (GetPairKey (s.orderAt p).SymbolIn (s.orderAt p).SymbolOut).2) = some bp)
    (hamt : 0 < (s.orderAt p).AmtIn ∧ 0 < (s.orderAt p).AmtOut)
    (hfresh : ∀ k,
      NoMatch s (s.orderAt p).CreatedBy (s.orderAt p).Nonce (s.bookAt bp).Bids k ∧
      NoMatch s (s.orderAt p).CreatedBy (s.orderAt p).Nonce (s.bookAt bp).Asks k)
    (hwf : WellFormedBook s bp) :
    ∃ s1 s2, AddOrder s p = some (s1, none) ∧
      RemoveOrder s1 (s.orderAt p).CreatedBy (s.orderAt p).Nonce (s1.orderAt p).LimitPrice
        (s.orderAt p).SymbolIn (s.orderAt p).SymbolOut = s2 ∧
      (∀ k, (s2.bookAt bp).Bids.Get k = (s.bookAt bp).Bids.Get k) ∧
      (∀ k, (s2.bookAt bp).Asks.Get k = (s.bookAt bp).Asks.Get k) ∧
      (∀ l, l < s.nextLevel → s2.levelAt l = s.levelAt l) ∧
      (∀ b, b ≠ bp → s2.bookAt b = s.bookAt b) := by
  obtain ⟨s1, hadd⟩ := AddOrder_succeeds s p bp hbook (Or.inl (ne_of_gt hamt.1))
  refine ⟨s1, _, hadd, rfl, ?_⟩
  obtain ⟨bp', key, hbook', ho, hoq, hbooks, hBooks, -, -, -, hside⟩ := AddOrder_spec s s1 p hadd
  rw [hbook] at hbook'
  simp only [Option.some.injEq] at hbook'
  subst hbook'
  obtain ⟨⟨wb, wa⟩, wdis, wlev⟩ := hwf
  have hlimit : (s1.orderAt p).LimitPrice = some key := by rw [ho]
  rw [hlimit]
  have hbook1 : s1.lookupBook ((GetPairKey (s.orderAt p).SymbolIn (s.orderAt p).SymbolOut).1 ++
      "/" ++ (GetPairKey (s.orderAt p).SymbolIn (s.orderAt p).SymbolOut).2) = some bp := by
    unfold OrderBookStore.lookupBook at hbook ⊢
    rw [hBooks]
    exact hbook
  have hkey : ∀ q, (s1.orderAt q).CreatedBy = (s.orderAt q).CreatedBy ∧
      (s1.orderAt q).Nonce = (s.orderAt q).Nonce := by
    intro q
    by_cases hq : q = p
    · subst hq; rw [ho]; exact ⟨rfl, rfl⟩
    · rw [hoq q hq]; exact ⟨rfl, rfl⟩
  have he : Element.IsOrderOf s1 (s.orderAt p).CreatedBy (s.orderAt p).Nonce
      { id := s.nextElem, Value := p } := by
    unfold Element.IsOrderOf
    exact hkey p
  rcases hside with ⟨-, hbids, lp, hget1, hkeys, hlev, hcase⟩ | ⟨-, -, hasks, lp, hget1, hkeys, hlev, hcase⟩
  · -- the order is an ask
    have hlp : ∀ nb ∈ (s.bookAt bp).Bids, nb.2 ≠ lp := by
      intro nb hnb
      rcases hcase with ⟨-, hl, -⟩ | ⟨hsome, -, -⟩
      · have := wb nb hnb
        omega
      · exact wdis nb hnb (key, lp) (Tree.mem_of_Get hsome)
    have hno : NoMatch s1 (s.orderAt p).CreatedBy (s.orderAt p).Nonce (s1.bookAt bp).Bids key := by
      intro l hl x hx
      rw [hbids] at hl
      have hne := hlp (key, l) (Tree.mem_of_Get hl)
      rw [hlev l hne] at hx
      exact not_isOrderOf_of_key hkey ((hfresh key).1 l hl x hx)
    have hpre : ∃ pre, (s1.levelAt lp).Orders = pre ++ ({ id := s.nextElem, Value := p } : Element) :: [] ∧
        ∀ x ∈ pre, ¬ Element.IsOrderOf s1 (s.orderAt p).CreatedBy (s.orderAt p).Nonce x := by
      rcases hcase with ⟨-, -, hl⟩ | ⟨hsome, -, hl⟩
      · exact ⟨[], by rw [hl]; rfl, fun x hx => absurd hx (List.not_mem_nil x)⟩
      · exact ⟨(s.levelAt lp).Orders, by rw [hl],
          fun x hx => not_isOrderOf_of_key hkey ((hfresh key).2 lp hsome x hx)⟩
    obtain ⟨pre, hlist, hpre'⟩ := hpre
    rw [RemoveOrder_asks s1 _ _ key _ _ bp lp pre [] { id := s.nextElem, Value := p } hbook1 hno
      ⟨hget1, hlist, hpre', he⟩]
    obtain ⟨r1, r2, r3, r4⟩ := removeFound_undoes s s1 p bp lp key false ho
      (by simpa using hget1) (by simpa using hkeys) hlev (by simpa using hcase)
      (by
        intro hsome
        exact wlev (key, lp) (List.mem_append_right _ (Tree.mem_of_Get (by simpa using hsome))))
    simp only [Bool.false_eq_true, if_false] at r1 r2
    refine ⟨?_, r1, r3, ?_⟩
    · intro k; rw [r2, hbids]
    · intro b hb; rw [r4 b hb, hbooks b hb]
  · -- the order is a bid
    have hpre : ∃ pre, (s1.levelAt lp).Orders = pre ++ ({ id := s.nextElem, Value := p } : Element) :: [] ∧
        ∀ x ∈ pre, ¬ Element.IsOrderOf s1 (s.orderAt p).CreatedBy (s.orderAt p).Nonce x := by
      rcases hcase with ⟨-, -, hl⟩ | ⟨hsome, -, hl⟩
      · exact ⟨[], by rw [hl]; rfl, fun x hx => absurd hx (List.not_mem_nil x)⟩
      · exact ⟨(s.levelAt lp).Orders, by rw [hl],
          fun x hx => not_isOrderOf_of_key hkey ((hfresh key).1 lp hsome x hx)⟩
    obtain ⟨pre, hlist, hpre'⟩ := hpre
    rw [RemoveOrder_bids s1 _ _ key _ _ bp lp pre [] { id := s.nextElem, Value := p } hbook1
      ⟨hget1, hlist, hpre', he⟩]
    obtain ⟨r1, r2, r3, r4⟩ := removeFound_undoes s s1 p bp lp key true ho
      (by simpa using hget1) (by simpa using hkeys) hlev (by simpa using hcase)
      (by
        intro hsome
        exact wlev (key, lp) (List.mem_append_left _ (Tree.mem_of_Get (by simpa using hsome))))
    simp only [if_true] at r1 r2
    refine ⟨r1, ?_, r3, ?_⟩
    · intro k; rw [r2, hasks]
    · intro b hb; rw [r4 b hb, hbooks b hb]

set_option maxRecDepth 100000 in
/-- Witness for C22: the bid `{150, 40}` of creator 2 is added to the book that
holds the ask `{100, 300}` of creator 1, and cancelled. -/
theorem AddOrder_RemoveOrder_round_trip_witness :
    WellFormedBook askAdded 0 ∧
    (0 < (askAdded.orderAt 1).AmtIn ∧ 0 < (askAdded.orderAt 1).AmtOut) ∧
    ∃ s1 s2, AddOrder askAdded 1 = some (s1, none) ∧
      RemoveOrder s1 (askAdded.orderAt 1).CreatedBy (askAdded.orderAt 1).Nonce
        (s1.orderAt 1).LimitPrice (askAdded.orderAt 1).SymbolIn (askAdded.orderAt 1).SymbolOut
        = s2 ∧
      (∀ k, (s2.bookAt 0).Bids.Get k = (askAdded.bookAt 0).Bids.Get k) ∧
      (∀ k, (s2.bookAt 0).Asks.Get k = (askAdded.bookAt 0).Asks.Get k) ∧
      (∀ l, l < askAdded.nextLevel → s2.levelAt l = askAdded.levelAt l) ∧
      (∀ b, b ≠ 0 → s2.bookAt b = askAdded.bookAt b) :=
  have hwf : WellFormedBook askAdded 0 := by
    unfold WellFormedBook LevelsAllocated
    decide
  ⟨hwf, by decide,
   AddOrder_RemoveOrder_round_trip askAdded 1 0 (by decide) (by decide)
     (fun k =>
       ⟨fun lp hlp => absurd (Tree.mem_of_Get hlp)
          (by rw [show (askAdded.bookAt 0).Bids = [] by decide]; exact List.not_mem_nil _),
        fun lp hlp x hx => by
          have hm := Tree.mem_of_Get hlp
          rw [show (askAdded.bookAt 0).Asks = [(3000000000000000000, 0)] by decide] at hm
          simp only [List.mem_singleton, Prod.mk.injEq] at hm
          rw [hm.2, show (askAdded.levelAt 0).Orders = [{ id := 0, Value := 0 }] by decide] at hx
          simp only [List.mem_singleton] at hx
          rw [hx]
          unfold Element.IsOrderOf
          decide⟩)
     hwf⟩

/-! ## The edge trigger of conditional orders -/

/-- `AddOrder` changes no creator, nonce or amount. -/
theorem AddOrder_identity (s s1 : OrderBookStore) (p : Nat) (e : Option AddOrderError)
    (h : AddOrder s p = some (s1, e)) (q : Nat) :
    (s1.orderAt q).CreatedBy = (s.orderAt q).CreatedBy ∧
    (s1.orderAt q).Nonce = (s.orderAt q).Nonce ∧
    (s1.orderAt q).AmtIn = (s.orderAt q).AmtIn ∧
    (s1.orderAt q).AmtOut = (s.orderAt q).AmtOut := by
  have hinit : ((s.initFilled p).orderAt q).CreatedBy = (s.orderAt q).CreatedBy ∧
      ((s.initFilled p).orderAt q).Nonce = (s.orderAt q).Nonce ∧
      ((s.initFilled p).orderAt q).AmtIn = (s.orderAt q).AmtIn ∧
      ((s.initFilled p).orderAt q).AmtOut = (s.orderAt q).AmtOut := by
    rw [initFilled_orderAt]
    split_ifs with hq
    · subst hq; exact ⟨rfl, rfl, rfl, rfl⟩
    · exact ⟨rfl, rfl, rfl, rfl⟩
  unfold AddOrder at h
  dsimp only at h
  split at h
  · simp only [Option.some.injEq, Prod.mk.injEq] at h
    obtain ⟨rfl, -⟩ := h
    exact ⟨rfl, rfl, rfl, rfl⟩
  · split at h
    · simp only [Option.some.injEq, Prod.mk.injEq] at h
      obtain ⟨rfl, -⟩ := h
      exact hinit
    · simp at h
    · rename_i isBid priceKey hside
      have hs1 := AddOrder_priced s p priceKey
      have hq : (((s.initFilled p).setOrder p
          { (s.initFilled p).orderAt p with LimitPrice := some priceKey }).orderAt q).CreatedBy
            = (s.orderAt q).CreatedBy ∧
          (((s.initFilled p).setOrder p
          { (s.initFilled p).orderAt p with LimitPrice := some priceKey }).orderAt q).Nonce
            = (s.orderAt q).Nonce ∧
          (((s.initFilled p).setOrder p
          { (s.initFilled p).orderAt p with LimitPrice := some priceKey }).orderAt q).AmtIn
            = (s.orderAt q).AmtIn ∧
          (((s.initFilled p).setOrder p
          { (s.initFilled p).orderAt p with LimitPrice := some priceKey }).orderAt q).AmtOut
            = (s.orderAt q).AmtOut := by
        rw [hs1]
        by_cases hqp : q = p
        · subst hqp; simp
        · simp [hqp]
      generalize ((s.initFilled p).setOrder p
          { (s.initFilled p).orderAt p with LimitPrice := some priceKey }) = s2 at h hq
      split at h
      · simp only [Option.some.injEq, Prod.mk.injEq] at h
        obtain ⟨rfl, -⟩ := h
        simpa using hq
      · simp only [Option.some.injEq, Prod.mk.injEq] at h
        obtain ⟨rfl, -⟩ := h
        simpa using hq

/-- `AddOrder` of an order with a non-zero amount does not panic. -/
theorem AddOrder_ne_none (s : OrderBookStore) (p : Nat)
    (hamt : (s.orderAt p).AmtIn ≠ 0 ∨ (s.orderAt p).AmtOut ≠ 0) : AddOrder s p ≠ none := by
  have hf := initFilled_fields s p p
  have hk1 := floatPriceKey_ne_none (s.orderAt p).AmtOut (s.orderAt p).AmtIn hamt.symm
  have hk2 := floatPriceKey_ne_none (s.orderAt p).AmtIn (s.orderAt p).AmtOut hamt
  intro h
  unfold AddOrder at h
  dsimp only at h
  split at h
  · simp at h
  · rw [hf.2.1, hf.2.2.1] at h
    split at h
    · simp at h
    · rename_i hside
      split_ifs at hside
      · simp only [Option.some.injEq, Prod.mk.injEq] at hside
        exact hk1 hside.2
      · simp only [Option.some.injEq, Prod.mk.injEq] at hside
        exact hk2 hside.2
    · split at h <;> simp at h

theorem exists_delete_other (c : ConditionalOrderStore) (k k' : Nat × Int) (h : k' ≠ k) :
    (c.delete k).exists k' = c.exists k' := by
  unfold ConditionalOrderStore.exists ConditionalOrderStore.delete
  rw [Bool.eq_iff_iff]
  simp only [List.any_eq_true, List.mem_filter, bne_iff_ne, ne_eq, beq_iff_eq]
  constructor
  · rintro ⟨x, ⟨hx, -⟩, hk⟩; exact ⟨x, hx, hk⟩
  · rintro ⟨x, hx, hk⟩; exact ⟨x, ⟨hx, by rw [hk]; exact h⟩, hk⟩

theorem exists_assign_other (c : ConditionalOrderStore) (k k' : Nat × Int)
    (entry : ConditionalOrderEntry) (h : k' ≠ k) :
    (c.assign k entry).exists k' = c.exists k' := by
  unfold ConditionalOrderStore.exists ConditionalOrderStore.assign
  rw [Bool.eq_iff_iff]
  simp only [List.any_eq_true, List.mem_append, List.mem_filter, bne_iff_ne, ne_eq, beq_iff_eq,
    List.mem_singleton]
  constructor
  · rintro ⟨x, hx | hx, hk⟩
    · exact ⟨x, hx.1, hk⟩
    · exfalso; rw [hx] at hk; exact h hk.symm
  · rintro ⟨x, hx, hk⟩; exact ⟨x, Or.inl ⟨hx, by rw [hk]; exact h⟩, hk⟩

/-- The second loop of `CheckPriceTriggersForBook` hands to `AddOrder` the
entries whose condition is met, in the order of the list, when the entries are
bound in the map under the keys of their orders, which differ, and no order
has two zero amounts. -/
theorem checkEntries_fired (bookBase bookQuote : String) (lastPrice : Int)
    (entries : List ConditionalOrderEntry) :
    ∀ (c : ConditionalOrderStore) (s : OrderBookStore),
      (entries.map (fun e => getOrderKey (s.orderAt e.Order))).Nodup →
      (∀ e ∈ entries, c.exists (getOrderKey (s.orderAt e.Order)) = true) →
      (∀ e ∈ entries, (s.orderAt e.Order).AmtIn ≠ 0 ∨ (s.orderAt e.Order).AmtOut ≠ 0) →
      ∃ c' s', checkEntries bookBase bookQuote lastPrice entries c s =
        some (c', s', entries.filter (triggers bookBase bookQuote lastPrice)) := by
  induction entries with
  | nil => intro c s _ _ _; exact ⟨c, s, rfl⟩
  | cons e rest ih =>
    intro c s hk hex hamt
    simp only [List.map_cons, List.nodup_cons] at hk
    have hexr : ∀ x ∈ rest, c.exists (getOrderKey (s.orderAt x.Order)) = true :=
      fun x hx => hex x (List.mem_cons_of_mem _ hx)
    have hamtr : ∀ x ∈ rest, (s.orderAt x.Order).AmtIn ≠ 0 ∨ (s.orderAt x.Order).AmtOut ≠ 0 :=
      fun x hx => hamt x (List.mem_cons_of_mem _ hx)
    rw [checkEntries, List.filter_cons]
    unfold triggers
    rcases hp : priceToCheck e bookBase bookQuote lastPrice with _ | price
    · simpa using ih c s hk.2 hexr hamtr
    · dsimp only
      by_cases hst : shouldTrigger e price = true
      · rw [if_pos hst, if_pos hst]
        have hexe : c.exists (getConditionalOrderKey (s.orderAt e.Order).CreatedBy
            (s.orderAt e.Order).Nonce) = true := hex e (List.mem_cons_self _ _)
        rw [if_pos hexe]
        rcases hadd : AddOrder s e.Order with _ | ⟨s1, err⟩
        · exact absurd hadd (AddOrder_ne_none s e.Order (hamt e (List.mem_cons_self _ _)))
        · have hid := AddOrder_identity s s1 e.Order err hadd
          have hkey : ∀ q, getOrderKey (s1.orderAt q) = getOrderKey (s.orderAt q) := by
            intro q
            unfold getOrderKey
            rw [(hid q).1, (hid q).2.1]
          have hk1 : (rest.map (fun x => getOrderKey (s1.orderAt x.Order))).Nodup := by
            simp only [hkey]; exact hk.2
          have hamt1 : ∀ x ∈ rest,
              (s1.orderAt x.Order).AmtIn ≠ 0 ∨ (s1.orderAt x.Order).AmtOut ≠ 0 := by
            intro x hx
            rw [(hid x.Order).2.2.1, (hid x.Order).2.2.2]
            exact hamtr x hx
          have hne : ∀ x ∈ rest, getOrderKey (s1.orderAt x.Order) ≠
              getConditionalOrderKey (s.orderAt e.Order).CreatedBy (s.orderAt e.Order).Nonce := by
            intro x hx hc
            rw [hkey] at hc
            exact hk.1 (List.mem_map.mpr ⟨x, hx, hc⟩)
          cases err with
          | none =>
            dsimp only
            obtain ⟨c', s', hrun⟩ := ih (c.delete (getConditionalOrderKey
              (s.orderAt e.Order).CreatedBy (s.orderAt e.Order).Nonce)) s1 hk1
              (fun x hx => by
                rw [exists_delete_other _ _ _ (hne x hx), hkey]
                exact hexr x hx)
              hamt1
            rw [hrun]
            exact ⟨c', s', rfl⟩
          | some err =>
            dsimp only
            obtain ⟨c', s', hrun⟩ := ih ((c.delete (getConditionalOrderKey
              (s.orderAt e.Order).CreatedBy (s.orderAt e.Order).Nonce)).assign
              (getConditionalOrderKey (s.orderAt e.Order).CreatedBy (s.orderAt e.Order).Nonce) e)
              s1 hk1
              (fun x hx => by
                rw [exists_assign_other _ _ _ _ (hne x hx), exists_delete_other _ _ _ (hne x hx),
                  hkey]
                exact hexr x hx)
              hamt1
            rw [hrun]
            exact ⟨c', s', rfl⟩
      · rw [if_neg hst, if_neg hst]
        exact ih c s hk.2 hexr hamtr
/-- Two pairs of symbols with the same pair key are the same pair, in this
order or the other. -/
theorem GetPairKey_eq_cases {a b c d : String} (h : GetPairKey a b = GetPairKey c d) :
    (a = c ∧ b = d) ∨ (a = d ∧ b = c) := by
  unfold GetPairKey at h
  split_ifs at h <;> simp only [Prod.mk.injEq] at h
  · exact Or.inl h
  · exact Or.inr h
  · exact Or.inr ⟨h.2, h.1⟩
  · exact Or.inl ⟨h.2, h.1⟩

/-- The inverted price is the floor of `10^36 / lastPrice`. -/
theorem inverted_price_eq (lastPrice : Int) (h : 0 < lastPrice) :
    PriceFactor * PriceFactor / lastPrice = ⌊((10 : ℚ) ^ 36) / (lastPrice : ℚ)⌋ := by
  obtain ⟨d, hd⟩ : ∃ d : Nat, lastPrice = (d : Int) := ⟨lastPrice.toNat, by omega⟩
  rw [hd]
  have h36 : ((10 : ℚ) ^ 36) = ((PriceFactor * PriceFactor : Int) : ℚ) := by
    unfold PriceFactor PricePrecision
    norm_num
  rw [h36]
  exact_mod_cast (Rat.floor_intCast_div_natCast (PriceFactor * PriceFactor) d).symm

/-- For an entry that watches the pair of the book, the test of
`CheckPriceTriggersForBook` is the condition `ShouldFire`. -/
theorem triggers_iff (entry : ConditionalOrderEntry) (base quote : String) (lastPrice : Int)
    (hpos : 0 < lastPrice) :
    (GetPairKey entry.TriggerSymbolIn entry.TriggerSymbolOut = GetPairKey base quote ∧
      triggers base quote lastPrice entry = true) ↔ ShouldFire entry base quote lastPrice := by
  unfold ShouldFire
  refine and_congr_right (fun hpair => ?_)
  unfold triggers priceToCheck shouldTrigger
  by_cases h1 : entry.TriggerSymbolIn = base ∧ entry.TriggerSymbolOut = quote
  · simp only [if_pos h1]
    constructor
    · intro h
      refine ⟨lastPrice, rfl, ?_⟩
      cases hab : entry.IsTriggerAbove <;> simp_all
    · rintro ⟨p, rfl, hc⟩
      cases hab : entry.IsTriggerAbove <;> simp_all
  · have h2 : entry.TriggerSymbolIn = quote ∧ entry.TriggerSymbolOut = base := by
      rcases GetPairKey_eq_cases hpair with h | h
      · exact absurd h h1
      · exact h
    simp only [if_neg h1, if_pos h2]
    rw [← inverted_price_eq lastPrice hpos]
    constructor
    · intro h
      refine ⟨_, rfl, ?_⟩
      cases hab : entry.IsTriggerAbove <;> simp_all
    · rintro ⟨p, rfl, hc⟩
      cases hab : entry.IsTriggerAbove <;> simp_all

/-- C30. `CheckPriceTriggersForBook` with a positive `lastPrice` returns, and an
entry of the map has been deleted from it and handed to `AddOrder` exactly
when `ShouldFire` holds of it: it watches the pair of the book, and `lastPrice`
(for an entry that watches the pair in the direction given) or
`⌊10^36 / lastPrice⌋` (in the other direction) is at or above its trigger
price when `IsTriggerAbove` is set, at or below it otherwise. With a `nil` or
non-positive `lastPrice` nothing is fired and both stores are unchanged. The
map is as `AddConditionalOrder` fills it: the keys differ, each entry is bound
under the creator and nonce of its order, whose amounts are positive; `range`
may yield the bindings in any order. -/
theorem CheckPriceTriggersForBook_fires_iff
    (rangeEntries : List ((Nat × Int) × ConditionalOrderEntry) →
      List ((Nat × Int) × ConditionalOrderEntry))
    (c : ConditionalOrderStore) (s : OrderBookStore) (base quote : String) :
    (∀ lastPrice : Int, 0 < lastPrice →
      (rangeEntries c.conditionalOrders).Perm c.conditionalOrders →
      (c.conditionalOrders.map (fun ke => ke.1)).Nodup →
      (∀ ke ∈ c.conditionalOrders, ke.1 = getOrderKey (s.orderAt ke.2.Order)) →
      (∀ ke ∈ c.conditionalOrders,
        0 < (s.orderAt ke.2.Order).AmtIn ∧ 0 < (s.orderAt ke.2.Order).AmtOut) →
      ∃ c' s' fired,
        CheckPriceTriggersForBook rangeEntries c s base quote (some lastPrice)
          = some (c', s', fired) ∧
        ∀ ke ∈ c.conditionalOrders, (ke.2 ∈ fired ↔ ShouldFire ke.2 base quote lastPrice)) ∧
    CheckPriceTriggersForBook rangeEntries c s base quote none = some (c, s, []) ∧
    (∀ lastPrice : Int, lastPrice ≤ 0 →
      CheckPriceTriggersForBook rangeEntries c s base quote (some lastPrice) = some (c, s, [])) := by
  refine ⟨?_, rfl, ?_⟩
  · intro lastPrice hpos hperm hnodup hown hamt
    have hmem : ∀ ke, ke ∈ rangeEntries c.conditionalOrders ↔ ke ∈ c.conditionalOrders :=
      fun ke => hperm.mem_iff
    have hkeys : ((rangeEntries c.conditionalOrders).map
        (fun ke => getOrderKey (s.orderAt ke.2.Order))).Nodup := by
      have h1 : (rangeEntries c.conditionalOrders).map
          (fun ke => getOrderKey (s.orderAt ke.2.Order)) =
          (rangeEntries c.conditionalOrders).map (fun ke => ke.1) := by
        apply List.map_congr_left
        intro ke hke
        exact (hown ke ((hmem ke).mp hke)).symm
      rw [h1]
      exact (hperm.map _).nodup_iff.mpr hnodup
    obtain ⟨c', s', hrun⟩ := checkEntries_fired base quote lastPrice
      (((rangeEntries c.conditionalOrders).map (fun e => e.2)).filter (fun entry =>
        decide (GetPairKey entry.TriggerSymbolIn entry.TriggerSymbolOut = GetPairKey base quote)))
      c s
      (by
        refine List.Nodup.sublist ((List.filter_sublist _).map _) ?_
        rw [List.map_map]
        exact hkeys)
      (by
        intro e he
        obtain ⟨ke, hke, rfl⟩ := List.mem_map.mp (List.mem_filter.mp he).1
        unfold ConditionalOrderStore.exists
        rw [List.any_eq_true]
        exact ⟨ke, (hmem ke).mp hke, by rw [hown ke ((hmem ke).mp hke)]; simp⟩)
      (by
        intro e he
        obtain ⟨ke, hke, rfl⟩ := List.mem_map.mp (List.mem_filter.mp he).1
        exact Or.inl (ne_of_gt (hamt ke ((hmem ke).mp hke)).1))
    have hiff : ∀ ke ∈ c.conditionalOrders,
        (ke.2 ∈ (((rangeEntries c.conditionalOrders).map (fun e => e.2)).filter (fun entry =>
          decide (GetPairKey entry.TriggerSymbolIn entry.TriggerSymbolOut =
            GetPairKey base quote))).filter (triggers base quote lastPrice) ↔
          ShouldFire ke.2 base quote lastPrice) := by
      intro ke hke
      rw [← triggers_iff ke.2 base quote lastPrice hpos]
      simp only [List.mem_filter, List.mem_map, decide_eq_true_eq]
      constructor
      · rintro ⟨⟨-, hp⟩, ht⟩; exact ⟨hp, ht⟩
      · rintro ⟨hp, ht⟩; exact ⟨⟨⟨ke, (hmem ke).mpr hke, rfl⟩, hp⟩, ht⟩
    unfold CheckPriceTriggersForBook
    dsimp only
    rw [if_neg (not_le.mpr hpos)]
    split_ifs with hlen
    · refine ⟨c, s, [], rfl, ?_⟩
      intro ke hke
      rw [← hiff ke hke, List.length_eq_zero.mp hlen]
      simp
    · exact ⟨c', s', _, hrun, hiff⟩
  · intro lastPrice hle
    unfold CheckPriceTriggersForBook
    dsimp only
    rw [if_pos hle]

set_option maxRecDepth 100000 in
/-- Witness for C30: the stop-limit sell of `stopLimitStore`, which watches
`(A, B)` with the trigger price `2 * 10^18`, at the last price `2 * 10^18` of
the book `(A, B)`. It fires, since `2 * 10^18 ≤ 2 * 10^18`. -/
theorem CheckPriceTriggersForBook_fires_iff_witness :
    (∃ c' s' fired,
      CheckPriceTriggersForBook id stopLimitIndex stopLimitStore "A" "B"
          (some 2000000000000000000) = some (c', s', fired) ∧
      ∀ ke ∈ stopLimitIndex.conditionalOrders,
        (ke.2 ∈ fired ↔ ShouldFire ke.2 "A" "B" 2000000000000000000)) ∧
    (CheckPriceTriggersForBook id stopLimitIndex stopLimitStore "A" "B"
        (some 2000000000000000000)).map (fun r => (r.1, r.2.2))
      = some ({ conditionalOrders := [] }, [stopLimitEntry]) ∧
    (CheckPriceTriggersForBook id stopLimitIndex stopLimitStore "A" "B"
        (some 2000000000000000001)).map (fun r => (r.1, r.2.2))
      = some (stopLimitIndex, []) :=
  ⟨(CheckPriceTriggersForBook_fires_iff id stopLimitIndex stopLimitStore "A" "B").1
     2000000000000000000 (by decide) (List.Perm.refl _) (by decide) (by decide) (by decide),
   by decide, by decide⟩

/-! ## A cancellation while the settlement is in flight -/

set_option maxRecDepth 100000 in
/-- C23. The run `cancelPendingRun` starts from an empty book and consists of
three `AddOrder` steps, a submission by `matchBook`, a `RemoveOrder` and a
settlement confirmation. It ends with the ask level at `2 * 10^18` present in
the book and holding the second ask alone, whose remaining input is 100,
with `TotalQuantity = 0`: the cancellation and the confirmation have both
subtracted the 100 of the first ask. -/
theorem cancel_while_pending_breaks_level_total :
    (sharedLevelStore.bookAt 0).Bids = [] ∧ (sharedLevelStore.bookAt 0).Asks = [] ∧
    cancelPendingRun.map (fun s => (s.bookAt 0).Asks) = some [(2000000000000000000, 0)] ∧
    cancelPendingRun.map (fun s => s.levelAt 0) =
      some { Orders := [{ id := 1, Value := 2 }], TotalQuantity := 0 } ∧
    cancelPendingRun.map (fun s => (s.levelAt 0).Orders.map (fun e =>
      (s.orderAt e.Value).AmtIn - (s.orderAt e.Value).filled)) = some [100] := by
  refine ⟨?_, ?_, ?_, ?_, ?_⟩ <;> decide

set_option maxRecDepth 100000 in
/-- C24. In `halfFillPending` the bid is in its level with `Status = 1`.
`RemoveOrder` takes it out of the book and gives it `Status = 4`. The
confirmation of the settlement that was in flight then gives it `Status = 0`
again, whether the receipt reports success (a partial fill) or failure, and
the order is in no level of the book. -/
theorem cancelled_order_becomes_active_again :
    (halfFillPending.bookAt 0).Bids = [(2000000000000000000, 1)] ∧
    (halfFillPending.levelAt 1).Orders = [{ id := 1, Value := 1 }] ∧
    (halfFillPending.orderAt 1).Status = 1 ∧
    (bidCancelledPending.orderAt 1).Status = 4 ∧
    (bidCancelledPending.bookAt 0).Bids = [] ∧
    ((confirmMatch 1 0 halfFillTrade bidCancelledPending).1.orderAt 1).Status = 0 ∧
    ((confirmMatch 1 0 halfFillTrade bidCancelledPending).1.bookAt 0).Bids = [] ∧
    ((confirmMatch 1 0 halfFillTrade bidCancelledPending).1.bookAt 0).Asks = [] ∧
    ((confirmMatch 0 0 halfFillTrade bidCancelledPending).1.orderAt 1).Status = 0 ∧
    ((confirmMatch 0 0 halfFillTrade bidCancelledPending).1.bookAt 0).Bids = [] ∧
    ((confirmMatch 0 0 halfFillTrade bidCancelledPending).1.bookAt 0).Asks
      = [(2000000000000000000, 0)] ∧
    ((confirmMatch 0 0 halfFillTrade bidCancelledPending).1.levelAt 0).Orders
      = [{ id := 0, Value := 0 }] := by
  refine ⟨?_, ?_, ?_, ?_, ?_, ?_, ?_, ?_, ?_, ?_, ?_, ?_⟩ <;> decide

/-! ## Division by a price key of zero -/

set_option maxRecDepth 100000 in
/-- C34. `zeroPriceBook` is built by `AddOrder` from the ask `{2 * 10^18, 1}`
and the bid `{50, 50}`, all four amounts positive. The ask gets the price key
0, which `matchBook` takes as the execution price: the first quantities are
base 50 and quote 0, the bid would keep 50, a remainder within the dust
threshold, and the bid dust block divides by the execution price 0, a
run-time panic. -/
theorem matchBook_divides_by_zero_price :
    ((twoOrderStore 2000000000000000000 1 50 50).orderAt 0).AmtIn = 2000000000000000000 ∧
    ((twoOrderStore 2000000000000000000 1 50 50).orderAt 0).AmtOut = 1 ∧
    ((twoOrderStore 2000000000000000000 1 50 50).orderAt 1).AmtIn = 50 ∧
    ((twoOrderStore 2000000000000000000 1 50 50).orderAt 1).AmtOut = 50 ∧
    zeroPriceBook.map (fun s => ((s.bookAt 0).Asks, (s.bookAt 0).Bids))
      = some ([(0, 0)], [(1000000000000000000, 1)]) ∧
    provisionalBaseQty 50 50 50 2000000000000000000 = 50 ∧
    bidDust 50 2000000000000000000 0 (50 - 0) 50 0 = none ∧
    tradeQuantities 50 50 2000000000000000000 1 50 2000000000000000000 0 = .fault ∧
    zeroPriceBook.map
        (fun s => match matchBook acceptingExchange 0 1 s with
                  | some .fault => true
                  | _ => false)
      = some true := by
  refine ⟨?_, ?_, ?_, ?_, ?_, ?_, ?_, ?_, ?_⟩ <;> decide

/-! ## The last participant of a ring -/

set_option maxRecDepth 100000 in
/-- C37. On `surplusBooks` the search from the order `A -> B {10, 20}` returns
the ring of the three orders (the entry of that order is the one collected
from the book `(A, B)`), which `validateRing` accepts with the bottleneck 10,
and `executeRing` computes the fill amounts `[10, 20, 20]`. The third
order, `C -> A {20, 20}`, gives 20 and receives the 10 the first order gives,
while its own terms entitle it to `20 * 20 / 20 = 20`. -/
theorem ring_last_order_below_its_terms :
    (collectUnmatchedOrders surplusBooks 0).map Prod.snd
      = some [{ Order := 0, RemainingIn := 10, RemainingOut := 20, Book := 0, PriceLevel := 0,
                Element := { id := 0, Value := 0 } }] ∧
    (findRing (fun _ books => books) surplusBooks
        { Order := 0, RemainingIn := 10, RemainingOut := 20, Book := 0, PriceLevel := 0,
          Element := { id := 0, Value := 0 } }).map (fun r => r.2)
      = some (some (trianglePath 10 20 20)) ∧
    validateRing surplusBooks (trianglePath 10 20 20) = some true ∧
    calculateRingBottleneck surplusBooks (trianglePath 10 20 20) = some 10 ∧
    findBottleneckIdx (trianglePath 10 20 20) 10 = some 0 ∧
    ringFillAmounts surplusBooks (trianglePath 10 20 20) 10 0 = some [10, 20, 20] ∧
    ((surplusBooks.orderAt 2).AmtIn, (surplusBooks.orderAt 2).AmtOut) = (20, 20) ∧
    (10 : Int) < 20 * (surplusBooks.orderAt 2).AmtOut / (surplusBooks.orderAt 2).AmtIn := by
  refine ⟨?_, ?_, ?_, ?_, ?_, ?_, ?_, ?_⟩ <;> decide

/-! ## A ring through one book twice -/

set_option maxRecDepth 100000 in
/-- C38. In `crossBookBooks` no book is crossed, so `matchBook` submits nothing.
The search from the order `A -> B` returns the ring `crossBookRing` of the four
orders, which `validateRing` accepts; its books are `(A, B)`, `(B, C)`,
`(B, C)`, `(A, B)`, and `executeRing` asks for the lock of `(B, C)` while it
holds it. The entries collected from the book `(A, B)` are those of the bid
`B -> A` and of the ask `A -> B`; the search from the bid finds no ring. -/
theorem ring_repeats_a_book :
    ([0, 1, 2].map (fun b =>
        match matchBook acceptingExchange b 1 crossBookBooks with
        | some (.returned _ none) => true
        | _ => false)) = [true, true, true] ∧
    (collectUnmatchedOrders crossBookBooks 0).map Prod.snd
      = some [{ Order := 3, RemainingIn := 20, RemainingOut := 40, Book := 0, PriceLevel := 3,
                Element := { id := 3, Value := 3 } },
              { Order := 0, RemainingIn := 10, RemainingOut := 10, Book := 0, PriceLevel := 0,
                Element := { id := 0, Value := 0 } }] ∧
    (findRing (fun _ books => books) crossBookBooks
        { Order := 3, RemainingIn := 20, RemainingOut := 40, Book := 0, PriceLevel := 3,
          Element := { id := 3, Value := 3 } }).map (fun r => r.2)
      = some none ∧
    (findRing (fun _ books => books) crossBookBooks
        { Order := 0, RemainingIn := 10, RemainingOut := 10, Book := 0, PriceLevel := 0,
          Element := { id := 0, Value := 0 } }).map (fun r => r.2)
      = some (some crossBookRing) ∧
    validateRing crossBookBooks crossBookRing = some true ∧
    crossBookRing.Books = [0, 2, 2, 0] ∧
    ¬ crossBookRing.Books.Nodup ∧
    (match executeRing (some acceptingExchange) crossBookRing crossBookBooks with
      | some .blocked => true
      | _ => false) = true := by
  refine ⟨?_, ?_, ?_, ?_, ?_, ?_, ?_, ?_⟩ <;> decide

/-! ## Status labels -/

set_option maxRecDepth 100000 in
/-- C40. `RemoveOrder` gives the order it cancels `Status = 4`, for which
`ToStringMap` reports `PartialFill`, not `Cancelled`, and the snapshot it
writes is reported alike. The snapshot of a full fill has `Status = 3` and is
reported as `Cancelled`, that of a partial fill has `Status = 5` and is
reported as `Unknown`. An order a confirmed settlement has filled is reported
as `Completed`, a pending one as `PendingConfirmation`, an active one as
`Matching`. -/
theorem cancelled_order_labelled_partial_fill :
    ToStringMapStatus
        ((RemoveOrder partialFillBook 2 1 (some 3750000000000000000) "A" "B").orderAt 1)
      = "PartialFill" ∧
    ((RemoveOrder partialFillBook 2 1 (some 3750000000000000000) "A" "B").PastHistoryStore 2
        1).map (fun c => ToStringMapStatus c.fields) = ["PartialFill"] ∧
    ((confirmMatch 1 0 halfFillTrade halfFillPending).1.PastHistoryStore 1 1).map
        (fun c => ToStringMapStatus c.fields) = ["Cancelled"] ∧
    ((confirmMatch 1 0 halfFillTrade halfFillPending).1.PastHistoryStore 2 1).map
        (fun c => ToStringMapStatus c.fields) = ["Unknown"] ∧
    ToStringMapStatus ((confirmMatch 1 0 halfFillTrade halfFillPending).1.orderAt 0)
      = "Completed" ∧
    ToStringMapStatus (halfFillPending.orderAt 0) = "PendingConfirmation" ∧
    ToStringMapStatus (halfFillBook.orderAt 0) = "Matching" := by
  refine ⟨?_, ?_, ?_, ?_, ?_, ?_, ?_⟩ <;> decide

/-! ## The loop of `matchBook` under a contract that rejects -/

/-- The fields the matcher reads, in two stores with the same orders. -/
theorem SameOrders.fields {s s' : OrderBookStore} (h : SameOrders s s') (q : Nat) :
    (s'.orderAt q).Status = (s.orderAt q).Status ∧
    (s'.orderAt q).CreatedBy = (s.orderAt q).CreatedBy ∧
    (s'.orderAt q).AmtIn = (s.orderAt q).AmtIn ∧
    (s'.orderAt q).AmtOut = (s.orderAt q).AmtOut ∧
    (s'.orderAt q).remaining = (s.orderAt q).remaining := by
  have hq := h.1 q
  have hf : (s'.orderAt q).filled = (s.orderAt q).filled := by
    have := congrArg Order.FilledAmtIn hq
    simpa [Order.normal] using this
  have ha : (s'.orderAt q).AmtIn = (s.orderAt q).AmtIn := congrArg (fun o => o.AmtIn) hq
  exact ⟨congrArg (fun o => o.Status) hq, congrArg (fun o => o.CreatedBy) hq, ha,
    congrArg (fun o => o.AmtOut) hq, by unfold Order.remaining; rw [ha, hf]⟩

/-- The head of the loop body selects the same orders in two stores with the
same orders. -/
theorem selectOrders_sameOrders {s s' : OrderBookStore} (h : SameOrders s s') (book : Nat) :
    selectOrders book s' = selectOrders book s := by
  have hst : ∀ q, (s'.orderAt q).Status = (s.orderAt q).Status := fun q => (h.fields q).1
  have hcb : ∀ q, (s'.orderAt q).CreatedBy = (s.orderAt q).CreatedBy := fun q => (h.fields q).2.1
  unfold selectOrders hasPending firstReady
  simp only [hst, hcb, h.2.1, h.2.2]

/-- A pass that reaches the call of `ExecuteMatch` does so in every store with
the same orders. -/
theorem ReachesSubmission.of_sameOrders {book : Nat} {s s' : OrderBookStore}
    (h : ReachesSubmission book s) (hv : SameOrders s s') : ReachesSubmission book s' := by
  obtain ⟨sel, b, q, hsel, h1, h2, hq⟩ := h
  refine ⟨sel, b, q, (selectOrders_sameOrders hv book).trans hsel, ?_, ?_, ?_⟩
  · rw [(hv.fields _).2.2.2.2]; exact h1
  · rw [(hv.fields _).2.2.2.2]; exact h2
  · rw [(hv.fields _).2.2.1, (hv.fields _).2.2.2.1, (hv.fields _).2.2.1, (hv.fields _).2.2.2.1,
      (hv.fields _).2.2.2.2, (hv.fields _).2.2.2.2]
    exact hq

/-- A pass that reaches the call of `ExecuteMatch`, the contract returning an
error: the pass ends in `continue`, one call more has been made, and the store
has the same orders as before. -/
theorem matchStep_rejects {ex : ExchangeContract} (hex : ∀ n a b x, ex.ExecuteMatch n a b x = none)
    {book : Nat} {s : OrderBookStore} (h : ReachesSubmission book s) :
    ∃ s', matchStep ex book s = .again s' ∧ s'.exchangeCalls = s.exchangeCalls + 1 ∧
      SameOrders s s' := by
  obtain ⟨sel, b, q, hsel, h1, h2, hq⟩ := h
  obtain ⟨-, -, -, -, -, hbe, hae, -⟩ := selectOrders_spec hsel
  have hb0 := (firstReady_spec hbe).1
  have ha0 := (firstReady_spec hae).1
  refine ⟨setStatusPair
      { setStatusPair (initFilledPair s sel.bidElem.Value sel.askElem.Value)
          sel.bidElem.Value sel.askElem.Value 1 with exchangeCalls := s.exchangeCalls + 1 }
      sel.bidElem.Value sel.askElem.Value 0, ?_, rfl, ?_⟩
  · unfold matchStep
    simp only [hsel]
    have hf := initFilledPair_fields s sel.bidElem.Value sel.askElem.Value
    have hr := initFilledPair_remaining s sel.bidElem.Value sel.askElem.Value
    simp only [hr, (hf _).2.1, (hf _).2.2.1, if_neg h1, if_neg h2, hq, hex]
    simp
  · obtain ⟨r1, r2, r3, r4, -, -⟩ :=
      reactivated_pair s sel.bidElem.Value sel.askElem.Value (s.exchangeCalls + 1)
    refine ⟨fun x => ?_, r3, r4⟩
    by_cases hx : x ∈ [sel.bidElem.Value, sel.askElem.Value]
    · rw [r1 x hx]
      have hx0 : (s.orderAt x).Status = 0 := by
        simp only [List.mem_cons, List.mem_singleton, List.not_mem_nil, or_false] at hx
        rcases hx with hx | hx <;> rw [hx] <;> assumption
      have : ((s.orderAt x).normal).Status = 0 := hx0
      rw [← this]
    · rw [r2 x hx]

/-- The loop of `matchBook` does not end when a pass reaches the call of
`ExecuteMatch` and the contract returns an error on every call: after any
number of passes it is still running. -/
theorem matchBook_rejects_forever {ex : ExchangeContract}
    (hex : ∀ n a b x, ex.ExecuteMatch n a b x = none) (book : Nat) :
    ∀ (fuel : Nat) (s : OrderBookStore), ReachesSubmission book s →
      matchBook ex book fuel s = none := by
  intro fuel
  induction fuel with
  | zero => intro s _; rfl
  | succ n ih =>
    intro s h
    obtain ⟨s', hstep, -, hv⟩ := matchStep_rejects hex h
    rw [matchBook, hstep]
    exact ih s' (h.of_sameOrders hv)

/-- The passes of the loop under a contract that returns an error on every
call: after `n` of them the loop is at the head of a pass, `n` calls of
`ExecuteMatch` have been made, and the same orders are selected. -/
theorem matchBook_rejects_passes (ex : ExchangeContract)
    (hex : ∀ n a b x, ex.ExecuteMatch n a b x = none) (book : Nat) :
    ∀ (n : Nat) (s : OrderBookStore), ReachesSubmission book s →
      ∃ s', Continues ex book s s' ∧ s'.exchangeCalls = s.exchangeCalls + n ∧
        selectOrders book s' = selectOrders book s := by
  intro n
  induction n with
  | zero => intro s _; exact ⟨s, .here s, rfl, rfl⟩
  | succ n ih =>
    intro s h
    obtain ⟨s1, hstep, hc, hv⟩ := matchStep_rejects hex h
    obtain ⟨s', hcont, hc', hsel⟩ := ih s1 (h.of_sameOrders hv)
    refine ⟨s', .pass hstep hcont, ?_, hsel.trans (selectOrders_sameOrders hv book)⟩
    rw [hc', hc]
    omega

set_option maxRecDepth 100000 in
/-- The first pass on `partialFillBook` reaches the call of `ExecuteMatch`
with the bid at address 1 and the ask at address 0. -/
theorem partialFillBook_reaches : ReachesSubmission 0 partialFillBook :=
  ⟨{ bidPriceKey := 3750000000000000000, bidLevel := 1, askPriceKey := 3000000000000000000,
     askLevel := 0, bidElem := { id := 1, Value := 1 }, askElem := { id := 0, Value := 0 } },
   100, 150, by decide, by decide, by decide, by decide⟩

set_option maxRecDepth 100000 in
/-- C33. On `partialFillBook`, with a contract that returns an error on every
call of `ExecuteMatch`, the loop of `matchBook` is still running after any
number of passes, and for every `n` it reaches the head of a pass after `n`
calls of `ExecuteMatch`, each for the pair of the bid at address 1 and the ask
at address 0, which is selected again. -/
theorem matchBook_never_returns_when_rejected :
    (∀ fuel, matchBook rejectingExchange 0 fuel partialFillBook = none) ∧
    (∀ n, ∃ s, Continues rejectingExchange 0 partialFillBook s ∧ s.exchangeCalls = n ∧
      (selectOrders 0 s).map (fun sel => (sel.bidElem.Value, sel.askElem.Value))
        = some (1, 0)) := by
  refine ⟨fun fuel =>
    matchBook_rejects_forever (fun _ _ _ _ => rfl) 0 fuel partialFillBook partialFillBook_reaches,
    fun n => ?_⟩
  obtain ⟨s, hc, hcalls, hsel⟩ :=
    matchBook_rejects_passes rejectingExchange (fun _ _ _ _ => rfl) 0 n partialFillBook
      partialFillBook_reaches
  refine ⟨s, hc, ?_, ?_⟩
  · rw [hcalls]
    show 0 + n = n
    omega
  · rw [hsel]
    decide

/-! ## The bid's terms in the fill arithmetic -/

/-- The value `bidRemainingOut` bounds the first base quantity. -/
theorem provisionalBaseQty_le_out (bAin bAout bRem aRem : Int) :
    provisionalBaseQty bAin bAout bRem aRem ≤ bAout * bRem / bAin := by
  unfold provisionalBaseQty
  simp only
  split_ifs with h
  · exact le_of_lt h
  · exact le_refl _

/-- A base quantity within `bidRemainingOut`, converted at a price that is at
most the bid's own price, is within the quote the bid has left. -/
theorem quote_within_remaining {bAin bAout bRem ex b : Int} (hin : 0 < bAin) (hout : 0 < bAout)
    (hkey : ex * bAout ≤ bAin * PriceFactor) (hb : 0 ≤ b)
    (hle : b ≤ bAout * bRem / bAin) : b * ex / PriceFactor ≤ bRem := by
  apply Int.ediv_le_of_le_mul PriceFactor_pos
  have h1 : b * bAin ≤ bAout * bRem :=
    le_trans (Int.mul_le_mul_of_nonneg_right hle (le_of_lt hin)) (Int.ediv_mul_le _ (ne_of_gt hin))
  have h2 : b * (ex * bAout) ≤ b * (bAin * PriceFactor) := Int.mul_le_mul_of_nonneg_left hkey hb
  have h3 : (b * bAin) * PriceFactor ≤ (bAout * bRem) * PriceFactor :=
    Int.mul_le_mul_of_nonneg_right h1 (le_of_lt PriceFactor_pos)
  have h4 : (b * ex) * bAout ≤ (bRem * PriceFactor) * bAout := by
    calc (b * ex) * bAout = b * (ex * bAout) := by ring
      _ ≤ b * (bAin * PriceFactor) := h2
      _ = (b * bAin) * PriceFactor := by ring
      _ ≤ (bAout * bRem) * PriceFactor := h3
      _ = (bRem * PriceFactor) * bAout := by ring
  exact le_of_mul_le_mul_right h4 hout

/-- A quote quantity that is at most the conversion of the base quantity, at a
price that is at most the bid's own price, entitles the bid to no more than
that base quantity. -/
theorem bid_terms_of_quote_le {bAin bAout ex b q : Int} (hin : 0 < bAin) (hout : 0 < bAout)
    (hkey : ex * bAout ≤ bAin * PriceFactor) (hb : 0 ≤ b) (hq : q ≤ b * ex / PriceFactor) :
    q * bAout / bAin ≤ b := by
  apply Int.ediv_le_of_le_mul hin
  have h1 : q * PriceFactor ≤ b * ex := (Int.le_ediv_iff_mul_le PriceFactor_pos).mp hq
  have h2 : (q * bAout) * PriceFactor ≤ (b * bAin) * PriceFactor := by
    calc (q * bAout) * PriceFactor = (q * PriceFactor) * bAout := by ring
      _ ≤ (b * ex) * bAout := Int.mul_le_mul_of_nonneg_right h1 (le_of_lt hout)
      _ = b * (ex * bAout) := by ring
      _ ≤ b * (bAin * PriceFactor) := Int.mul_le_mul_of_nonneg_left hkey hb
      _ = (b * bAin) * PriceFactor := by ring
  exact le_of_mul_le_mul_right h2 PriceFactor_pos

/-- The whole quote `q` converted to base at a positive price that is at most
the bid's own price is at least what the bid's terms entitle it to. -/
theorem bid_terms_of_conversion {bAin bAout ex q : Int} (hin : 0 < bAin)
    (hkey : ex * bAout ≤ bAin * PriceFactor) (hex : 0 < ex) (hq : 0 ≤ q) :
    q * bAout / bAin ≤ q * PriceFactor / ex := by
  rw [Int.le_ediv_iff_mul_le hex]
  have h1 : (q * bAout / bAin) * bAin ≤ q * bAout := Int.ediv_mul_le _ (ne_of_gt hin)
  have h2 : ((q * bAout / bAin) * ex) * bAin ≤ (q * PriceFactor) * bAin := by
    calc ((q * bAout / bAin) * ex) * bAin = ((q * bAout / bAin) * bAin) * ex := by ring
      _ ≤ (q * bAout) * ex := Int.mul_le_mul_of_nonneg_right h1 (le_of_lt hex)
      _ = q * (ex * bAout) := by ring
      _ ≤ q * (bAin * PriceFactor) := Int.mul_le_mul_of_nonneg_left hkey hq
      _ = (q * PriceFactor) * bAin := by ring
  exact le_of_mul_le_mul_right h2 hin

/-- The block that recomputes the quantities from the bid's funds does nothing
when the first base quantity is positive and the execution price is at most
the bid's own price. -/
theorem enoughQuote_unchanged {bAin bAout bRem ex : Int} (aRem : Int) (hin : 0 < bAin)
    (hkey : ex * bAout ≤ bAin * PriceFactor) (hrem : 0 ≤ bRem)
    (hpos : 0 < provisionalBaseQty bAin bAout bRem aRem) :
    provisionalBaseQty bAin bAout bRem aRem * ex / PriceFactor ≤ bRem ∧
    enoughQuote bRem aRem ex (provisionalBaseQty bAin bAout bRem aRem)
        (provisionalBaseQty bAin bAout bRem aRem * ex / PriceFactor)
      = some (provisionalBaseQty bAin bAout bRem aRem,
              provisionalBaseQty bAin bAout bRem aRem * ex / PriceFactor) := by
  have hle := provisionalBaseQty_le_out bAin bAout bRem aRem
  have hout : 0 < bAout := by
    by_contra hc
    have h1 : bAout * bRem ≤ 0 := Int.mul_nonpos_of_nonpos_of_nonneg (not_lt.mp hc) hrem
    have h2 : bAout * bRem / bAin ≤ 0 :=
      Int.ediv_le_of_le_mul hin (by rw [Int.zero_mul]; exact h1)
    omega
  have hq := quote_within_remaining hin hout hkey (le_of_lt hpos) hle
  refine ⟨hq, ?_⟩
  unfold enoughQuote
  rw [if_neg (not_lt.mpr hq)]

/-- The bid's terms after the bid dust block. -/
theorem bidDust_bid_terms {bAin bAout bRem aRem ex after b1 q1 b2 q2 : Int}
    (h : bidDust bRem aRem ex after b1 q1 = some (b2, q2)) (hin : 0 < bAin)
    (hkey : ex * bAout ≤ bAin * PriceFactor) (hbRem : 0 < bRem)
    (hp : q1 * bAout / bAin ≤ b1) :
    0 < b2 → q2 * bAout / bAin ≤ b2 ∨ (q2 = bRem ∧ b2 = aRem ∧ aRem < bRem * PriceFactor / ex) := by
  intro hpos
  unfold bidDust at h
  dsimp only at h
  split_ifs at h with h1 h2 h3
  · simp only [Option.some.injEq, Prod.mk.injEq] at h
    obtain ⟨rfl, rfl⟩ := h
    exact Or.inr ⟨rfl, rfl, h3⟩
  · simp only [Option.some.injEq, Prod.mk.injEq] at h
    obtain ⟨rfl, rfl⟩ := h
    have hex : 0 < ex := by
      rcases lt_trichotomy ex 0 with hneg | hz | hex
      · have h5 : bRem * PriceFactor / ex ≤ 0 := by
          have h6 : 0 ≤ bRem * PriceFactor :=
            Int.mul_nonneg (le_of_lt hbRem) (le_of_lt PriceFactor_pos)
          exact Int.ediv_nonpos h6 (le_of_lt hneg)
        omega
      · exact absurd hz h2
      · exact hex
    exact Or.inl (bid_terms_of_conversion hin hkey hex (le_of_lt hbRem))
  · simp only [Option.some.injEq, Prod.mk.injEq] at h
    obtain ⟨rfl, rfl⟩ := h
    exact Or.inl hp

/-- The bid's terms after the ask dust block. -/
theorem askDust_bid_terms {bAin bAout bRem aRem ex after b2 q2 b3 q3 : Int}
    (h : askDust bRem aRem ex after b2 q2 = (b3, q3)) (hin : 0 < bAin) (hout : 0 < bAout)
    (hkey : ex * bAout ≤ bAin * PriceFactor)
    (hp : 0 < b2 →
      q2 * bAout / bAin ≤ b2 ∨ (q2 = bRem ∧ b2 = aRem ∧ aRem < bRem * PriceFactor / ex)) :
    0 < b3 → q3 * bAout / bAin ≤ b3 ∨ (q3 = bRem ∧ b3 = aRem ∧ aRem < bRem * PriceFactor / ex) := by
  intro hpos
  unfold askDust at h
  dsimp only at h
  split_ifs at h with h1 h2
  · simp only [Prod.mk.injEq] at h
    obtain ⟨rfl, rfl⟩ := h
    exact Or.inl (bid_terms_of_quote_le hin hout hkey (le_of_lt hpos) (le_of_lt h2))
  · simp only [Prod.mk.injEq] at h
    obtain ⟨rfl, rfl⟩ := h
    exact Or.inl (bid_terms_of_quote_le hin hout hkey (le_of_lt hpos) (le_refl _))
  · simp only [Prod.mk.injEq] at h
    obtain ⟨rfl, rfl⟩ := h
    exact hp hpos

/-- What the fill arithmetic guarantees the bid for a trade it lets through at
an execution price that is at most the bid's own price: the base the bid's
terms entitle it to for the quote, unless the bid dust block has raised the
quote to all the bid has left and the ask has too little left for it. -/
theorem tradeQuantities_bid_terms {bAin bAout aAin aAout bRem aRem ex b q : Int}
    (h : tradeQuantities bAin bAout aAin aAout bRem aRem ex = .trade b q) (hbRem : 0 < bRem)
    (hin : 0 < bAin) (hkey : ex * bAout ≤ bAin * PriceFactor) :
    q * bAout / bAin ≤ b ∨ (q = bRem ∧ b = aRem ∧ aRem < bRem * PriceFactor / ex) := by
  obtain ⟨hb, -, hq, -, -⟩ := tradeQuantities_spec h hbRem
  unfold tradeQuantities at h
  by_cases h1 : bAin = 0
  · simp [h1] at h
  by_cases h2 : aAin = 0
  · simp [h1, h2] at h
  by_cases h3 : provisionalBaseQty bAin bAout bRem aRem ≤ 0
  · simp [h1, h2, h3] at h
  simp only [if_neg h1, if_neg h2, if_neg h3] at h
  have h3' := lt_of_not_ge h3
  obtain ⟨hq0, he⟩ := enoughQuote_unchanged aRem hin hkey (le_of_lt hbRem) h3'
  have hout : 0 < bAout := by
    by_contra hc
    have hle := provisionalBaseQty_le_out bAin bAout bRem aRem
    have g1 : bAout * bRem ≤ 0 := Int.mul_nonpos_of_nonpos_of_nonneg (not_lt.mp hc) (le_of_lt hbRem)
    have g2 : bAout * bRem / bAin ≤ 0 :=
      Int.ediv_le_of_le_mul hin (by rw [Int.zero_mul]; exact g1)
    omega
  simp only [he] at h
  rcases hd : bidDust bRem aRem ex
      (bRem - provisionalBaseQty bAin bAout bRem aRem * ex / PriceFactor)
      (provisionalBaseQty bAin bAout bRem aRem)
      (provisionalBaseQty bAin bAout bRem aRem * ex / PriceFactor) with _ | ⟨b2, q2⟩
  · simp [hd] at h
  simp only [hd] at h
  rcases ha : askDust bRem aRem ex (aRem - provisionalBaseQty bAin bAout bRem aRem) b2 q2
    with ⟨b3, q3⟩
  simp only [ha] at h
  by_cases h4 : b3 ≤ 0 ∨ q3 ≤ 0
  · simp [h4] at h
  simp only [if_neg h4, Quantities.trade.injEq] at h
  obtain ⟨rfl, rfl⟩ := h
  have d := bidDust_bid_terms hd hin hkey hbRem
    (bid_terms_of_quote_le hin hout hkey (le_of_lt h3') (le_refl _))
  exact askDust_bid_terms ha hin hout hkey d hb

set_option maxRecDepth 100000 in
/-- C35. When the bid's price level is at most `bid.amtIn * 10^18 / bid.amtOut`
and at least the ask price, and `0 <= filledAmtIn < amtIn` for both orders, the
branch of `matchBook` that recomputes the quantities from the bid's funds is
not taken: on reaching the test, that is with a positive first base quantity
`min(askRemIn, bidRemOut)`, the first quote quantity
`floor(min(askRemIn, bidRemOut) * askPrice / 10^18)` is at most `bidRemIn` and
the block `enoughQuote` returns the two quantities as they are. For a bid with
`amtOut >= 0` the bound on the quote quantity holds for every first base
quantity. -/
theorem recompute_branch_not_taken (bid ask : Order) (bidPriceKey askPriceKey : Int)
    (hkey : bidPriceKey ≤ bid.AmtIn * PriceFactor / bid.AmtOut)
    (hcross : askPriceKey ≤ bidPriceKey)
    (hbid : 0 ≤ bid.filled ∧ bid.filled < bid.AmtIn)
    (hask : 0 ≤ ask.filled ∧ ask.filled < ask.AmtIn) :
    (0 < provisionalBaseQty bid.AmtIn bid.AmtOut bid.remaining ask.remaining →
      provisionalBaseQty bid.AmtIn bid.AmtOut bid.remaining ask.remaining * askPriceKey
          / PriceFactor ≤ bid.remaining ∧
      ¬ (provisionalBaseQty bid.AmtIn bid.AmtOut bid.remaining ask.remaining * askPriceKey
          / PriceFactor > bid.remaining) ∧
      enoughQuote bid.remaining ask.remaining askPriceKey
          (provisionalBaseQty bid.AmtIn bid.AmtOut bid.remaining ask.remaining)
          (provisionalBaseQty bid.AmtIn bid.AmtOut bid.remaining ask.remaining * askPriceKey
            / PriceFactor)
        = some (provisionalBaseQty bid.AmtIn bid.AmtOut bid.remaining ask.remaining,
                provisionalBaseQty bid.AmtIn bid.AmtOut bid.remaining ask.remaining * askPriceKey
                  / PriceFactor)) ∧
    (0 ≤ bid.AmtOut →
      provisionalBaseQty bid.AmtIn bid.AmtOut bid.remaining ask.remaining * askPriceKey
          / PriceFactor ≤ bid.remaining) := by
  have hin : 0 < bid.AmtIn := lt_of_le_of_lt hbid.1 hbid.2
  have hrem : 0 < bid.remaining := by unfold Order.remaining; omega
  have harem : 0 < ask.remaining := by unfold Order.remaining; omega
  have hle := provisionalBaseQty_le_out bid.AmtIn bid.AmtOut bid.remaining ask.remaining
  have hprod : 0 < bid.AmtOut → askPriceKey * bid.AmtOut ≤ bid.AmtIn * PriceFactor := by
    intro hout
    have h1 : bidPriceKey * bid.AmtOut ≤ bid.AmtIn * PriceFactor :=
      (Int.le_ediv_iff_mul_le hout).mp hkey
    exact le_trans (Int.mul_le_mul_of_nonneg_right hcross (le_of_lt hout)) h1
  refine ⟨fun hpos => ?_, fun hout => ?_⟩
  · have hout : 0 < bid.AmtOut := by
      by_contra hc
      have g1 : bid.AmtOut * bid.remaining ≤ 0 :=
        Int.mul_nonpos_of_nonpos_of_nonneg (not_lt.mp hc) (le_of_lt hrem)
      have g2 : bid.AmtOut * bid.remaining / bid.AmtIn ≤ 0 :=
        Int.ediv_le_of_le_mul hin (by rw [Int.zero_mul]; exact g1)
      omega
    obtain ⟨q1, q2⟩ :=
      enoughQuote_unchanged ask.remaining hin (hprod hout) (le_of_lt hrem) hpos
    exact ⟨q1, not_lt.mpr q1, q2⟩
  · rcases lt_or_eq_of_le hout with hout | hout
    · have hb : 0 ≤ provisionalBaseQty bid.AmtIn bid.AmtOut bid.remaining ask.remaining := by
        have g1 : 0 ≤ bid.AmtOut * bid.remaining / bid.AmtIn :=
          Int.ediv_nonneg (Int.mul_nonneg (le_of_lt hout) (le_of_lt hrem)) (le_of_lt hin)
        unfold provisionalBaseQty
        simp only
        split_ifs
        · exact le_of_lt harem
        · exact g1
      exact quote_within_remaining hin hout (hprod hout) hb hle
    · have hz : provisionalBaseQty bid.AmtIn bid.AmtOut bid.remaining ask.remaining = 0 := by
        unfold provisionalBaseQty
        simp only [← hout, Int.zero_mul, Int.zero_ediv]
        rw [if_neg (not_lt.mpr (le_of_lt harem))]
      rw [hz, Int.zero_mul, Int.zero_ediv]
      exact le_of_lt hrem

set_option maxRecDepth 100000 in
/-- Witness for C35: the bid `{150, 40}` at the level `3.75 * 10^18` and the ask
`{100, 300}` at the level `3 * 10^18` of `partialFillBook`. -/
theorem recompute_branch_not_taken_witness :
    (3750000000000000000 : Int)
        ≤ (partialFillBook.orderAt 1).AmtIn * PriceFactor / (partialFillBook.orderAt 1).AmtOut ∧
    (0 < provisionalBaseQty (partialFillBook.orderAt 1).AmtIn (partialFillBook.orderAt 1).AmtOut
        (partialFillBook.orderAt 1).remaining (partialFillBook.orderAt 0).remaining) ∧
    provisionalBaseQty (partialFillBook.orderAt 1).AmtIn (partialFillBook.orderAt 1).AmtOut
        (partialFillBook.orderAt 1).remaining (partialFillBook.orderAt 0).remaining
      * 3000000000000000000 / PriceFactor ≤ (partialFillBook.orderAt 1).remaining :=
  ⟨by decide, by decide,
   ((recompute_branch_not_taken (partialFillBook.orderAt 1) (partialFillBook.orderAt 0)
      3750000000000000000 3000000000000000000 (by decide) (by decide) (by decide)
      (by decide)).1 (by decide)).1⟩

set_option maxRecDepth 100000 in
/-- C36 (counterexample). With the ask `{10, 10}` and the bid `{100, 100}`, both
at the price `10^18`, the first quantities are base 10 and quote 10; the bid
would keep 90, so the bid dust block raises the quote to 100, and the base,
which would be 100, is cut to the 10 the ask has. The submitted trade has
`baseQty = 10` and `quoteQty = 100`, while the bid's terms entitle it to
`floor(100 * 100 / 100) = 100`. With the ask `{15142246654647769469,
17970624333600257450}` and the bid `{17970624333600257272,
15142246654647769319}` no dust block fires: the bid rests at the key
`1186787188417931641`, one above `floor(amtIn * 10^18 / amtOut)`, the ask has
the same key, and the trade at that price gives the bid 2 less than
`floor(quoteQty * amtOut / amtIn)`. -/
theorem bid_pays_above_limit :
    provisionalBaseQty 100 100 100 10 = 10 ∧
    bidDust 100 10 1000000000000000000 (100 - 10) 10 10 = some (10, 100) ∧
    (twoOrderMatch 10 10 100 100).map
        (fun r => (r.1.finalTradeBaseQty, r.1.finalTradeQuoteQty, r.1.finalExecutionPrice,
                   (r.2.orderAt r.1.finalBidOrder).AmtIn, (r.2.orderAt r.1.finalBidOrder).AmtOut,
                   decide (r.1.finalTradeBaseQty
                     ≥ r.1.finalTradeQuoteQty * (r.2.orderAt r.1.finalBidOrder).AmtOut
                         / (r.2.orderAt r.1.finalBidOrder).AmtIn)))
      = some (10, 100, 1000000000000000000, 100, 100, false) ∧
    (twoOrderMatch 15142246654647769469 17970624333600257450 17970624333600257272
        15142246654647769319).map
        (fun r => (r.1.finalTradeBaseQty, r.1.finalTradeQuoteQty, r.1.finalExecutionPrice,
                   r.1.finalBidPriceKey,
                   (r.2.orderAt r.1.finalBidOrder).AmtIn * PriceFactor
                     / (r.2.orderAt r.1.finalBidOrder).AmtOut,
                   decide (r.1.finalTradeBaseQty
                     ≥ r.1.finalTradeQuoteQty * (r.2.orderAt r.1.finalBidOrder).AmtOut
                         / (r.2.orderAt r.1.finalBidOrder).AmtIn)))
      = some (15142246654647769317, 17970624333600257272, 1186787188417931641,
          1186787188417931641, 1186787188417931640, false) := by
  refine ⟨?_, ?_, ?_, ?_⟩ <;> decide

/-- C36 (amended). For every trade `matchBook` submits for a bid with
`amtIn > 0` whose price level is at most `bid.amtIn * 10^18 / bid.amtOut`, the
base the bid receives is at least `floor(quoteQty * bid.amtOut / bid.amtIn)`,
except when the bid-side dust extension is cut to what the ask has left: then
`quoteQty` is the bid's whole remaining, `baseQty` is the ask's whole remaining
and `baseQty < floor(quoteQty * 10^18 / execPrice)`. -/
theorem matchBook_bid_terms_or_clamped (ex : ExchangeContract) (book fuel : Nat)
    (s s' : OrderBookStore) (t : PendingMatch)
    (h : matchBook ex book fuel s = some (.returned s' (some t)))
    (hin : 0 < (s'.orderAt t.finalBidOrder).AmtIn)
    (hkey : t.finalBidPriceKey * (s'.orderAt t.finalBidOrder).AmtOut
      ≤ (s'.orderAt t.finalBidOrder).AmtIn * PriceFactor) :
    t.finalTradeQuoteQty * (s'.orderAt t.finalBidOrder).AmtOut
        / (s'.orderAt t.finalBidOrder).AmtIn ≤ t.finalTradeBaseQty ∨
      (t.finalTradeQuoteQty = (s'.orderAt t.finalBidOrder).remaining ∧
        t.finalTradeBaseQty = (s'.orderAt t.finalAskOrder).remaining ∧
        t.finalTradeBaseQty < t.finalTradeQuoteQty * PriceFactor / t.finalExecutionPrice) := by
  obtain ⟨s0, -, hstep⟩ := matchBook_submitted fuel h
  obtain ⟨sel, txHash, hsel, hbr, har, hq, ht, hs'⟩ := matchStep_submitted hstep
  obtain ⟨-, rb, ra, ib, ob, -, -⟩ := matchStep_submitted_orders hstep
  obtain ⟨-, -, hcross, -⟩ := selectOrders_spec hsel
  have hb : t.finalBidOrder = sel.bidElem.Value := by rw [ht]
  have ha : t.finalAskOrder = sel.askElem.Value := by rw [ht]
  have hx : t.finalExecutionPrice = sel.askPriceKey := by rw [ht]
  have hk : t.finalBidPriceKey = sel.bidPriceKey := by rw [ht]
  rw [ib, ob, hk, hb] at hkey
  rw [ib, hb] at hin
  rw [ib, ob, rb, ra, hx, hb, ha]
  rcases le_or_lt (s0.orderAt sel.bidElem.Value).AmtOut 0 with hout | hout
  · obtain ⟨hb0, -, hq0, -, -⟩ := tradeQuantities_spec hq hbr
    refine Or.inl (le_trans (Int.ediv_le_of_le_mul hin ?_) (le_of_lt hb0))
    rw [Int.zero_mul]
    exact Int.mul_nonpos_of_nonneg_of_nonpos (le_of_lt hq0) hout
  have hkey' : sel.askPriceKey * (s0.orderAt sel.bidElem.Value).AmtOut
      ≤ (s0.orderAt sel.bidElem.Value).AmtIn * PriceFactor :=
    le_trans (Int.mul_le_mul_of_nonneg_right hcross (le_of_lt hout)) hkey
  rcases tradeQuantities_bid_terms hq hbr hin hkey' with h1 | ⟨e1, e2, e3⟩
  · exact Or.inl h1
  · refine Or.inr ⟨e1, e2, ?_⟩
    rw [e1, e2]
    exact e3

set_option maxRecDepth 100000 in
/-- Witness for C36 (amended): the trade of the bid dust scenario, which is cut
to what the ask has left. -/
theorem matchBook_bid_terms_or_clamped_witness :
    matchBook acceptingExchange 0 1 bidDustBook
      = some (.returned bidDustPending (some bidDustTrade)) ∧
    (bidDustTrade.finalTradeQuoteQty * (bidDustPending.orderAt bidDustTrade.finalBidOrder).AmtOut
        / (bidDustPending.orderAt bidDustTrade.finalBidOrder).AmtIn
        ≤ bidDustTrade.finalTradeBaseQty ∨
      (bidDustTrade.finalTradeQuoteQty
          = (bidDustPending.orderAt bidDustTrade.finalBidOrder).remaining ∧
        bidDustTrade.finalTradeBaseQty
          = (bidDustPending.orderAt bidDustTrade.finalAskOrder).remaining ∧
        bidDustTrade.finalTradeBaseQty
          < bidDustTrade.finalTradeQuoteQty * PriceFactor / bidDustTrade.finalExecutionPrice)) :=
  ⟨by rfl,
   matchBook_bid_terms_or_clamped acceptingExchange 0 1 bidDustBook bidDustPending bidDustTrade
     (by rfl) (by decide) (by decide)⟩

/-! ## Rings of two orders -/

/-- Two orders that mention the same two tokens mention fewer than three. -/
theorem two_orders_tokens_lt (a b c d : String)
    (h : ({a, b} : Finset String) = {c, d} ∧ ({a, b} : Finset String).card = 2) :
    [a, b, c, d].dedup.length < 3 := by
  have hsub : [a, b, c, d].toFinset = ({a, b} : Finset String) := by
    ext x
    have hc : x = c ∨ x = d ↔ x ∈ ({c, d} : Finset String) := by simp
    simp only [List.toFinset_cons, List.toFinset_nil, Finset.mem_insert, Finset.mem_singleton,
      insert_emptyc_eq]
    constructor
    · rintro (h1 | h1 | h1 | h1)
      · exact Or.inl h1
      · exact Or.inr h1
      · have : x ∈ ({a, b} : Finset String) := by rw [h.1]; simp [h1]
        simpa using this
      · have : x ∈ ({a, b} : Finset String) := by rw [h.1]; simp [h1]
        simpa using this
    · rintro (h1 | h1)
      · exact Or.inl h1
      · exact Or.inr (Or.inl h1)
  rw [← List.card_toFinset, hsub, h.2]
  decide

/-- A closed chain of two orders mentions at most two tokens. -/
theorem closed_pair_tokens_le (a b : String) : [a, b, b, a].dedup.length ≤ 2 := by
  have hsub : [a, b, b, a].toFinset = ({a, b} : Finset String) := by
    ext x
    simp only [List.toFinset_cons, List.toFinset_nil, Finset.mem_insert, Finset.mem_singleton,
      insert_emptyc_eq]
    tauto
  rw [← List.card_toFinset, hsub]
  exact Finset.card_le_two

/-- The block of `validateRing` for rings of two orders decides nothing: with
the block left out the method returns the same. -/
theorem validateRing_eq_noPairCheck (s : OrderBookStore) (ring : RingPath) :
    validateRing s ring = validateRingNoPairCheck s ring := by
  unfold validateRing validateRingNoPairCheck
  by_cases hlen : ring.Orders.length < 2
  · simp only [hlen, if_true]
  simp only [hlen, if_false]
  rcases hh : ring.Orders.head? with _ | first
  · rfl
  rcases hl : ring.Orders.getLast? with _ | last
  · rfl
  dsimp only
  by_cases hclose : (s.orderAt last).SymbolOut ≠ (s.orderAt first).SymbolIn
  · rw [if_pos hclose, if_pos hclose]
  rw [if_neg hclose, if_neg hclose]
  split_ifs with hsb huniq huniq
  · rfl
  · exfalso
    apply huniq
    split at hsb
    · rename_i o1 o2 heq
      rw [heq]
      rw [sameBook_iff] at hsb
      exact two_orders_tokens_lt _ _ _ _ hsb
    · simp at hsb
  · rfl
  · rfl

/-- A closed chain of two orders is rejected by `validateRing`. -/
theorem validateRing_pair (s : OrderBookStore) (ring : RingPath) (o1 o2 : Nat)
    (horders : ring.Orders = [o1, o2])
    (hin : (s.orderAt o2).SymbolIn = (s.orderAt o1).SymbolOut)
    (hout : (s.orderAt o2).SymbolOut = (s.orderAt o1).SymbolIn) :
    validateRing s ring = some false := by
  rw [validateRing_eq_noPairCheck]
  unfold validateRingNoPairCheck
  rw [horders]
  have hlen : ¬ ([o1, o2] : List Nat).length < 2 := by simp
  simp only [hlen, if_false, List.head?_cons, List.getLast?_cons_cons, List.getLast?_singleton,
    List.foldr_cons, List.foldr_nil, hin, hout, ne_eq, not_true_eq_false]
  have h2 := closed_pair_tokens_le (s.orderAt o1).SymbolIn (s.orderAt o1).SymbolOut
  rw [if_pos (by omega)]

/-- C39. `validateRing` returns `false` for every chained path of exactly two
orders (the second gives what the first wants and wants what the first gives),
whatever the amounts; every ring `findRing` returns has at least 3 orders; and
the block of `validateRing` for rings of two orders on the same two tokens
decides no outcome: `validateRing` returns on every path what it returns with
that block left out (`validateRingNoPairCheck`), because the count of distinct
tokens rejects every path the block rejects. -/
theorem no_ring_of_two_orders :
    (∀ (s : OrderBookStore) (ring : RingPath) (o1 o2 : Nat),
      ring.Orders = [o1, o2] →
      (s.orderAt o2).SymbolIn = (s.orderAt o1).SymbolOut →
      (s.orderAt o2).SymbolOut = (s.orderAt o1).SymbolIn →
      validateRing s ring = some false) ∧
    (∀ (rangeBooks : List Nat → List (String × Nat) → List (String × Nat))
        (s : OrderBookStore) (start : UnmatchedOrder) (s' : OrderBookStore) (ring : RingPath),
      findRing rangeBooks s start = some (s', some ring) → 3 ≤ ring.Orders.length) ∧
    (∀ (s : OrderBookStore) (ring : RingPath),
      validateRing s ring = validateRingNoPairCheck s ring) := by
  refine ⟨validateRing_pair, ?_, validateRing_eq_noPairCheck⟩
  intro rangeBooks s start s' ring h
  unfold findRing at h
  have hinv : PathInv s.view start.Order (s.orderAt start.Order).SymbolIn
      (s.orderAt start.Order).SymbolOut
      { Orders := [start.Order], Books := [start.Book], PriceLevels := [start.PriceLevel],
        Elements := [start.Element], TradeAmounts := [start.RemainingIn] }
      [(s.orderAt start.Order).CreatedBy] 1 :=
    ⟨rfl, rfl, List.nodup_singleton _, List.chain'_singleton _, ⟨rfl, rfl⟩,
      ⟨start.Order, rfl, rfl⟩, fun o ho => absurd ho (List.not_mem_nil o)⟩
  obtain ⟨-, -, hp⟩ := dfsRing_pure rangeBooks s.view s.maxRingDepth start.Order
    (s.orderAt start.Order).SymbolIn (s.maxRingDepth + 1) s (s.orderAt start.Order).SymbolOut _ _ _
    1 s' (some ring) rfl rfl hinv (le_refl 1) h
  obtain ⟨h1, -, h3, h4, ⟨last, h5, h5'⟩, h6, -⟩ := hp ring rfl
  by_contra hlt
  have hlen : ring.Orders.length = 2 := by omega
  obtain ⟨a, b, hab⟩ : ∃ a b, ring.Orders = [a, b] := by
    match hro : ring.Orders, hlen with
    | [a, b], _ => exact ⟨a, b, rfl⟩
  rw [hab] at h3 h4 h5 h6
  simp only [List.head?_cons, Option.some.injEq] at h3
  simp only [List.getLast?_cons_cons, List.getLast?_singleton, Option.some.injEq] at h5
  have hc : (s.view b).SymbolIn = (s.view a).SymbolOut := by
    simpa using h4
  rw [← h5, ← h3] at h5'
  have hle := closed_pair_tokens_le (s.view a).SymbolIn (s.view a).SymbolOut
  rw [← List.card_toFinset] at hle
  simp only [List.flatMap_cons, List.flatMap_nil, List.append_nil, List.cons_append,
    List.nil_append, hc, h5'] at h6
  omega

set_option maxRecDepth 100000 in
/-- Witness for C39: the path of the ask `A -> B` and the bid `B -> A` of
`pairBook` is rejected, and the ring the search returns on `scenarioBooks` has
three orders. -/
theorem no_ring_of_two_orders_witness :
    pairRing.Orders = [0, 1] ∧
    (pairBook.orderAt 1).SymbolIn = (pairBook.orderAt 0).SymbolOut ∧
    (pairBook.orderAt 1).SymbolOut = (pairBook.orderAt 0).SymbolIn ∧
    validateRing pairBook pairRing = some false ∧
    findRing (fun _ books => books) scenarioBooks
        { Order := 0, RemainingIn := 10, RemainingOut := 10, Book := 0, PriceLevel := 0,
          Element := { id := 0, Value := 0 } }
      = some (scenarioBooks, some (trianglePath 10 10 10)) ∧
    3 ≤ (trianglePath 10 10 10).Orders.length :=
  ⟨rfl, by decide, by decide,
   no_ring_of_two_orders.1 pairBook pairRing 0 1 rfl (by decide) (by decide),
   by rfl,
   no_ring_of_two_orders.2.1 (fun _ books => books) scenarioBooks
     { Order := 0, RemainingIn := 10, RemainingOut := 10, Book := 0, PriceLevel := 0,
       Element := { id := 0, Value := 0 } }
     scenarioBooks (trianglePath 10 10 10) (by rfl)⟩

/-! ## The map of conditional orders -/

/-- A lookup in the bindings that remain when those of another key are removed. -/
theorem find?_filter_other (l : List ((Nat × Int) × ConditionalOrderEntry)) (k k' : Nat × Int)
    (h : k' ≠ k) :
    (l.filter (fun e => e.1 != k)).find? (fun e => e.1 == k') = l.find? (fun e => e.1 == k') := by
  induction l with
  | nil => rfl
  | cons a l ih =>
    by_cases ha : a.1 = k
    · have e1 : (a.1 != k) = false := by simp [ha]
      have e2 : (a.1 == k') = false := by
        simp only [beq_eq_false_iff_ne, ne_eq]
        exact fun hc => h (hc.symm.trans ha)
      simp only [List.filter_cons, List.find?_cons, e1, e2, ih, Bool.false_eq_true, if_false]
    · have e1 : (a.1 != k) = true := by simp [ha]
      by_cases hk' : a.1 = k'
      · have e2 : (a.1 == k') = true := by simp [hk']
        simp only [List.filter_cons, List.find?_cons, e1, e2, if_true]
      · have e2 : (a.1 == k') = false := by simp [hk']
        simp only [List.filter_cons, List.find?_cons, e1, e2, ih, if_true]

/-- A lookup of the key whose bindings have been removed. -/
theorem find?_filter_same (l : List ((Nat × Int) × ConditionalOrderEntry)) (k : Nat × Int) :
    (l.filter (fun e => e.1 != k)).find? (fun e => e.1 == k) = none := by
  induction l with
  | nil => rfl
  | cons a l ih =>
    by_cases ha : a.1 = k
    · simp [List.filter_cons, ha, ih]
    · simp [List.filter_cons, ha, ih]

/-- The map read after `delete`. -/
theorem get_delete (c : ConditionalOrderStore) (k k' : Nat × Int) :
    (c.delete k).get k' = if k' = k then none else c.get k' := by
  unfold ConditionalOrderStore.get ConditionalOrderStore.delete
  split_ifs with h
  · subst h
    simp only [find?_filter_same, Option.map_none']
  · simp only [find?_filter_other _ _ _ h]

/-- The map read after an assignment. -/
theorem get_assign (c : ConditionalOrderStore) (k k' : Nat × Int) (entry : ConditionalOrderEntry) :
    (c.assign k entry).get k' = if k' = k then some entry else c.get k' := by
  unfold ConditionalOrderStore.get ConditionalOrderStore.assign
  split_ifs with h
  · subst h
    simp [List.find?_append, find?_filter_same]
  · have hk : ¬ k = k' := fun hc => h hc.symm
    simp [List.find?_append, find?_filter_other _ _ _ h, hk]

/-- The test `exists` in terms of the map read. -/
theorem exists_iff_get (c : ConditionalOrderStore) (k : Nat × Int) :
    c.exists k = (c.get k).isSome := by
  unfold ConditionalOrderStore.exists ConditionalOrderStore.get
  induction c.conditionalOrders with
  | nil => rfl
  | cons a l ih =>
    by_cases ha : a.1 = k
    · simp [ha]
    · simp [List.find?_cons, ha, ih]

/-- Deleting the binding of an entry and assigning it again gives a map that
reads the same at every key. -/
theorem get_requeued (c : ConditionalOrderStore) (k : Nat × Int) (entry : ConditionalOrderEntry)
    (h : c.get k = some entry) (k' : Nat × Int) :
    ((c.delete k).assign k entry).get k' = c.get k' := by
  rw [get_assign, get_delete]
  split_ifs with hk
  · rw [hk, h]
  · rfl

/-- What `AddConditionalOrder` has checked when it returns no error, and the
map it leaves. -/
theorem AddConditionalOrder_accepted {c : ConditionalOrderStore} {s : OrderBookStore} {p : Nat}
    {parent : Nat × Int} {ty tin tout : String} {above : Bool}
    (h : (AddConditionalOrder c s (some p) parent ty tin tout above).2 = none) :
    ∃ tp, (s.orderAt p).TriggerPrice = some tp ∧ 0 < tp ∧ ty = "STOP_LIMIT" ∧
      0 < (s.orderAt p).AmtIn ∧ 0 < (s.orderAt p).AmtOut ∧
      c.exists (getConditionalOrderKey (s.orderAt p).CreatedBy (s.orderAt p).Nonce) = false ∧
      (AddConditionalOrder c s (some p) parent ty tin tout above).1 =
        c.assign (getConditionalOrderKey (s.orderAt p).CreatedBy (s.orderAt p).Nonce)
          { Order := p, ParentOrderID := parent, ConditionalType := ty, TriggerPrice := tp,
            TriggerSymbolIn := tin, TriggerSymbolOut := tout, IsTriggerAbove := above } := by
  unfold AddConditionalOrder at h ⊢
  dsimp only at h ⊢
  by_cases h1 : (s.orderAt p).SymbolIn = "" ∨ (s.orderAt p).SymbolOut = ""
  · rw [if_pos h1] at h; simp at h
  rw [if_neg h1] at h ⊢
  by_cases h2 : (s.orderAt p).AmtIn ≤ 0
  · rw [if_pos h2] at h; simp at h
  rw [if_neg h2] at h ⊢
  by_cases h3 : (s.orderAt p).AmtOut ≤ 0
  · rw [if_pos h3] at h; simp at h
  rw [if_neg h3] at h ⊢
  rcases htp : (s.orderAt p).TriggerPrice with _ | tp
  · simp [htp] at h
  simp only [htp] at h ⊢
  by_cases h4 : tp ≤ 0
  · rw [if_pos h4] at h; simp at h
  rw [if_neg h4] at h ⊢
  by_cases h5 : ty ≠ "STOP_LIMIT"
  · rw [if_pos h5] at h; simp at h
  rw [if_neg h5] at h ⊢
  by_cases h6 : c.exists (getConditionalOrderKey (s.orderAt p).CreatedBy (s.orderAt p).Nonce) = true
  · rw [if_pos h6] at h; simp at h
  rw [if_neg h6]
  exact ⟨tp, rfl, lt_of_not_ge h4, not_not.mp h5, lt_of_not_ge h2, lt_of_not_ge h3,
    by simpa using h6, rfl⟩

/-- Clearing a `ConditionalOrder` that is `nil` already changes nothing. -/
theorem clear_child_of_none (o : Order) (h : o.ConditionalOrder = none) :
    ({ o with ConditionalOrder := none } : Order) = o := by
  cases o
  simp only at h
  subst h
  rfl

/-- The order-book store `StoreConditionalOrder` returns for a non-`nil`
order: the order has lost its `ConditionalOrder`, nothing else is changed. -/
theorem StoreConditionalOrder_store (c : ConditionalOrderStore) (s : OrderBookStore) (p : Nat)
    (parent : Nat × Int) :
    (StoreConditionalOrder c s (some p) parent).1
      = s.setOrder p { s.orderAt p with ConditionalOrder := none } := by
  have hs : (if (s.orderAt p).ConditionalOrder ≠ none then
        s.setOrder p { s.orderAt p with ConditionalOrder := none } else s)
      = s.setOrder p { s.orderAt p with ConditionalOrder := none } := by
    split_ifs with h
    · rfl
    · rw [clear_child_of_none _ (not_not.mp h)]
      simp [OrderBookStore.setOrder]
  unfold StoreConditionalOrder
  simp only [hs]
  split_ifs <;> rfl

/-- The body of `StoreConditionalOrder` for a child with a positive trigger
price. -/
theorem StoreConditionalOrder_eq (c : ConditionalOrderStore) (s : OrderBookStore) (p : Nat)
    (parent : Nat × Int) (tp : Int) (htp : (s.orderAt p).TriggerPrice = some tp)
    (hpos : ¬ tp ≤ 0) :
    StoreConditionalOrder c s (some p) parent =
      if (s.orderAt p).SymbolIn = (GetPairKey (s.orderAt p).SymbolIn (s.orderAt p).SymbolOut).1 ∧
          (s.orderAt p).SymbolOut = (GetPairKey (s.orderAt p).SymbolIn (s.orderAt p).SymbolOut).2
      then
        (s.setOrder p { s.orderAt p with ConditionalOrder := none },
          AddConditionalOrder c (s.setOrder p { s.orderAt p with ConditionalOrder := none })
            (some p) parent "STOP_LIMIT"
            (GetPairKey (s.orderAt p).SymbolIn (s.orderAt p).SymbolOut).1
            (GetPairKey (s.orderAt p).SymbolIn (s.orderAt p).SymbolOut).2 false)
      else if
          (s.orderAt p).SymbolIn = (GetPairKey (s.orderAt p).SymbolIn (s.orderAt p).SymbolOut).2 ∧
          (s.orderAt p).SymbolOut = (GetPairKey (s.orderAt p).SymbolIn (s.orderAt p).SymbolOut).1
      then
        (s.setOrder p { s.orderAt p with ConditionalOrder := none },
          AddConditionalOrder c (s.setOrder p { s.orderAt p with ConditionalOrder := none })
            (some p) parent "STOP_LIMIT"
            (GetPairKey (s.orderAt p).SymbolIn (s.orderAt p).SymbolOut).1
            (GetPairKey (s.orderAt p).SymbolIn (s.orderAt p).SymbolOut).2 true)
      else
        (s.setOrder p { s.orderAt p with ConditionalOrder := none }, c,
          some .tokensDoNotMatchAnyBook) := by
  have hs : (if (s.orderAt p).ConditionalOrder ≠ none then
        s.setOrder p { s.orderAt p with ConditionalOrder := none } else s)
      = s.setOrder p { s.orderAt p with ConditionalOrder := none } := by
    split_ifs with h
    · rfl
    · rw [clear_child_of_none _ (not_not.mp h)]
      simp [OrderBookStore.setOrder]
  have e1 : ((s.setOrder p { s.orderAt p with ConditionalOrder := none }).orderAt p).SymbolIn
      = (s.orderAt p).SymbolIn := by simp
  have e2 : ((s.setOrder p { s.orderAt p with ConditionalOrder := none }).orderAt p).SymbolOut
      = (s.orderAt p).SymbolOut := by simp
  have e3 : ((s.setOrder p { s.orderAt p with ConditionalOrder := none }).orderAt p).TriggerPrice
      = some tp := by simp [htp]
  unfold StoreConditionalOrder
  dsimp only
  rw [hs]
  simp only [e1, e2, e3, hpos, decide_False, Bool.false_eq_true, if_false]

/-- C31. For every child order that `StoreConditionalOrder` accepts, the
trigger price is positive and the map gains one binding, under the creator and
nonce of the child, which `GetConditionalOrder` returns: the entry holds the
child and the parent's id, has the type `STOP_LIMIT` and the child's trigger
price, watches the canonical pair (`TriggerSymbolIn` and `TriggerSymbolOut` are
the base and quote of `GetPairKey(child.symbolIn, child.symbolOut)`), and has
`IsTriggerAbove = false` when the child sells base for quote and
`IsTriggerAbove = true` when it sells quote for base; a child always does the
one or the other, and for a child whose two tokens are one token, which does
both, the first test decides. The stored child has no conditional child of its
own, and nothing else of the order-book store is changed. A child whose
trigger price is `nil` or `<= 0` is rejected with the error "invalid trigger
price" and the map is as before. -/
theorem StoreConditionalOrder_direction (c : ConditionalOrderStore) (s : OrderBookStore)
    (p : Nat) (parent : Nat × Int) :
    ((StoreConditionalOrder c s (some p) parent).2.2 = none →
      ∃ tp entry,
        (s.orderAt p).TriggerPrice = some tp ∧ 0 < tp ∧
        c.exists (getConditionalOrderKey (s.orderAt p).CreatedBy (s.orderAt p).Nonce) = false ∧
        (StoreConditionalOrder c s (some p) parent).2.1
          = c.assign (getConditionalOrderKey (s.orderAt p).CreatedBy (s.orderAt p).Nonce) entry ∧
        GetConditionalOrder (StoreConditionalOrder c s (some p) parent).2.1
          (s.orderAt p).CreatedBy (s.orderAt p).Nonce = some entry ∧
        entry.Order = p ∧ entry.ParentOrderID = parent ∧
        entry.ConditionalType = "STOP_LIMIT" ∧ entry.TriggerPrice = tp ∧
        entry.TriggerSymbolIn = (GetPairKey (s.orderAt p).SymbolIn (s.orderAt p).SymbolOut).1 ∧
        entry.TriggerSymbolOut = (GetPairKey (s.orderAt p).SymbolIn (s.orderAt p).SymbolOut).2 ∧
        ((s.orderAt p).SymbolIn = entry.TriggerSymbolIn ∧
            (s.orderAt p).SymbolOut = entry.TriggerSymbolOut →
          entry.IsTriggerAbove = false) ∧
        ((s.orderAt p).SymbolIn = entry.TriggerSymbolOut ∧
            (s.orderAt p).SymbolOut = entry.TriggerSymbolIn ∧
            (s.orderAt p).SymbolIn ≠ (s.orderAt p).SymbolOut →
          entry.IsTriggerAbove = true) ∧
        (((s.orderAt p).SymbolIn = entry.TriggerSymbolIn ∧
            (s.orderAt p).SymbolOut = entry.TriggerSymbolOut) ∨
          ((s.orderAt p).SymbolIn = entry.TriggerSymbolOut ∧
            (s.orderAt p).SymbolOut = entry.TriggerSymbolIn ∧ entry.IsTriggerAbove = true)) ∧
        (((StoreConditionalOrder c s (some p) parent).1.orderAt entry.Order).ConditionalOrder
          = none)) ∧
    ((StoreConditionalOrder c s (some p) parent).1
      = s.setOrder p { s.orderAt p with ConditionalOrder := none }) ∧
    ((s.orderAt p).TriggerPrice = none ∨ (∃ tp, (s.orderAt p).TriggerPrice = some tp ∧ tp ≤ 0) →
      (StoreConditionalOrder c s (some p) parent).2.2 = some .invalidTriggerPrice ∧
      (StoreConditionalOrder c s (some p) parent).2.1 = c) := by
  have hstore := StoreConditionalOrder_store c s p parent
  have hs : (if (s.orderAt p).ConditionalOrder ≠ none then
        s.setOrder p { s.orderAt p with ConditionalOrder := none } else s)
      = s.setOrder p { s.orderAt p with ConditionalOrder := none } := by
    split_ifs with h
    · rfl
    · rw [clear_child_of_none _ (not_not.mp h)]
      simp [OrderBookStore.setOrder]
  have hrejected : (s.orderAt p).TriggerPrice = none ∨
      (∃ tp, (s.orderAt p).TriggerPrice = some tp ∧ tp ≤ 0) →
      (StoreConditionalOrder c s (some p) parent).2.2 = some .invalidTriggerPrice ∧
      (StoreConditionalOrder c s (some p) parent).2.1 = c := by
    intro hrej
    unfold StoreConditionalOrder
    dsimp only
    rw [hs]
    rcases hrej with hnone | ⟨tp, htp, hle⟩
    · have e3 : ((s.setOrder p { s.orderAt p with ConditionalOrder := none }).orderAt
          p).TriggerPrice = none := by simp [hnone]
      simp only [e3, if_true]
      simp
    · have e3 : ((s.setOrder p { s.orderAt p with ConditionalOrder := none }).orderAt
          p).TriggerPrice = some tp := by simp [htp]
      simp only [e3, hle, decide_True, if_true]
      simp
  refine ⟨fun hacc => ?_, hstore, hrejected⟩
  · have hchild : ((StoreConditionalOrder c s (some p) parent).1.orderAt p).ConditionalOrder
        = none := by
      rw [hstore]; simp
    rcases htp : (s.orderAt p).TriggerPrice with _ | tp
    · rw [(hrejected (Or.inl htp)).1] at hacc
      cases hacc
    by_cases hle : tp ≤ 0
    · rw [(hrejected (Or.inr ⟨tp, htp, hle⟩)).1] at hacc
      cases hacc
    have heq := StoreConditionalOrder_eq c s p parent tp htp hle
    rw [heq] at hacc hchild ⊢
    by_cases hdir : (s.orderAt p).SymbolIn
          = (GetPairKey (s.orderAt p).SymbolIn (s.orderAt p).SymbolOut).1 ∧
        (s.orderAt p).SymbolOut = (GetPairKey (s.orderAt p).SymbolIn (s.orderAt p).SymbolOut).2
    · rw [if_pos hdir] at hacc hchild ⊢
      obtain ⟨tp', h1, h2, -, -, -, h6, h7⟩ := AddConditionalOrder_accepted hacc
      simp only [setOrder_orderAt, if_true] at h1 h6 h7
      rw [htp] at h1
      cases h1
      refine ⟨tp, _, rfl, h2, h6, h7, ?_, rfl, rfl, rfl, rfl, rfl, rfl, fun _ => rfl, ?_,
        Or.inl ⟨hdir.1, hdir.2⟩, hchild⟩
      · show GetConditionalOrder (AddConditionalOrder _ _ _ _ _ _ _ _).1 _ _ = _
        rw [h7]
        unfold GetConditionalOrder
        rw [get_assign, if_pos rfl]
      · rintro ⟨-, g2, g3⟩
        exact absurd (hdir.1.trans g2.symm) g3
    · rw [if_neg hdir] at hacc hchild ⊢
      by_cases hrev : (s.orderAt p).SymbolIn
            = (GetPairKey (s.orderAt p).SymbolIn (s.orderAt p).SymbolOut).2 ∧
          (s.orderAt p).SymbolOut = (GetPairKey (s.orderAt p).SymbolIn (s.orderAt p).SymbolOut).1
      · rw [if_pos hrev] at hacc hchild ⊢
        obtain ⟨tp', h1, h2, -, -, -, h6, h7⟩ := AddConditionalOrder_accepted hacc
        simp only [setOrder_orderAt, if_true] at h1 h6 h7
        rw [htp] at h1
        cases h1
        refine ⟨tp, _, rfl, h2, h6, h7, ?_, rfl, rfl, rfl, rfl, rfl, rfl,
          fun hc => absurd hc hdir, fun _ => rfl, Or.inr ⟨hrev.1, hrev.2, rfl⟩, hchild⟩
        show GetConditionalOrder (AddConditionalOrder _ _ _ _ _ _ _ _).1 _ _ = _
        rw [h7]
        unfold GetConditionalOrder
        rw [get_assign, if_pos rfl]
      · rw [if_neg hrev] at hacc
        cases hacc

set_option maxRecDepth 100000 in
/-- Witness for C31: the child `A -> B {50, 90}` of `stopLimitStore`, with the
trigger price `2 * 10^18`, is accepted; it sells base for quote and the entry
stored is `stopLimitEntry`, with `IsTriggerAbove = false`. -/
theorem StoreConditionalOrder_direction_witness :
    (StoreConditionalOrder { conditionalOrders := [] } stopLimitStore (some 0) (5, 6)).2.2
      = none ∧
    (StoreConditionalOrder { conditionalOrders := [] } stopLimitStore (some 0) (5, 6)).2.1
      = stopLimitIndex ∧
    ∃ tp entry,
      (stopLimitStore.orderAt 0).TriggerPrice = some tp ∧ 0 < tp ∧
      GetConditionalOrder
          (StoreConditionalOrder { conditionalOrders := [] } stopLimitStore (some 0) (5, 6)).2.1
          (stopLimitStore.orderAt 0).CreatedBy (stopLimitStore.orderAt 0).Nonce = some entry ∧
      entry.ConditionalType = "STOP_LIMIT" :=
  ⟨by decide, by decide,
   let ⟨tp, entry, h1, h2, _, _, h5, _, _, h8, _⟩ :=
     (StoreConditionalOrder_direction { conditionalOrders := [] } stopLimitStore 0 (5, 6)).1
       (by decide)
   ⟨tp, entry, h1, h2, h5, h8⟩⟩

/-! ## Firing a conditional entry -/

/-- A call of `AddOrder` that returns an error has changed no book, no price
level and no order but for an uninitialised `FilledAmtIn`. -/
theorem AddOrder_failed {s s1 : OrderBookStore} {p : Nat} {e : AddOrderError}
    (h : AddOrder s p = some (s1, some e)) :
    s1.bookAt = s.bookAt ∧ s1.levelAt = s.levelAt ∧ s1.Books = s.Books ∧
    ∀ q, (s1.orderAt q).normal = (s.orderAt q).normal := by
  unfold AddOrder at h
  dsimp only at h
  repeat' split at h
  all_goals
    first
    | (simp only [Option.some.injEq, Prod.mk.injEq] at h
       obtain ⟨rfl, -⟩ := h
       exact ⟨rfl, rfl, rfl, fun q => rfl⟩)
    | (simp only [Option.some.injEq, Prod.mk.injEq] at h
       obtain ⟨rfl, -⟩ := h
       refine ⟨?_, ?_, ?_, fun q => initFilled_normal s p q⟩ <;>
         first
         | rfl
         | simp)
    | (simp at h)

/-- After a call of `AddOrder` that returns no error the order rests in a
price level of its book. -/
theorem AddOrder_rests {s s1 : OrderBookStore} {p : Nat} (h : AddOrder s p = some (s1, none)) :
    ∃ bp key lp,
      s.lookupBook ((GetPairKey (s.orderAt p).SymbolIn (s.orderAt p).SymbolOut).1 ++ "/" ++
          (GetPairKey (s.orderAt p).SymbolIn (s.orderAt p).SymbolOut).2) = some bp ∧
      ((s1.bookAt bp).Asks.Get key = some lp ∨ (s1.bookAt bp).Bids.Get key = some lp) ∧
      ({ id := s.nextElem, Value := p } : Element) ∈ (s1.levelAt lp).Orders := by
  obtain ⟨bp, key, hbook, -, -, -, -, -, -, -, hside⟩ := AddOrder_spec s s1 p h
  have hmem : ∀ tree tree', LevelGrown s s1 p key tree tree' →
      ∃ lp, tree'.Get key = some lp ∧
        ({ id := s.nextElem, Value := p } : Element) ∈ (s1.levelAt lp).Orders := by
    rintro tree tree' ⟨lp, hget, -, -, hcase⟩
    refine ⟨lp, hget, ?_⟩
    rcases hcase with ⟨-, -, hl⟩ | ⟨-, -, hl⟩ <;> rw [hl] <;> simp
  rcases hside with ⟨-, -, hg⟩ | ⟨-, -, -, hg⟩
  · obtain ⟨lp, hget, hin⟩ := hmem _ _ hg
    exact ⟨bp, key, lp, hbook, Or.inl hget, hin⟩
  · obtain ⟨lp, hget, hin⟩ := hmem _ _ hg
    exact ⟨bp, key, lp, hbook, Or.inr hget, hin⟩

/-- The edge trigger runs the block `fireEntry` for an entry whose condition is
met, and goes on with the rest. -/
theorem checkEntries_fires (bookBase bookQuote : String) (lastPrice : Int)
    (entry : ConditionalOrderEntry) (rest : List ConditionalOrderEntry)
    (c : ConditionalOrderStore) (s : OrderBookStore)
    (h : triggers bookBase bookQuote lastPrice entry = true) :
    checkEntries bookBase bookQuote lastPrice (entry :: rest) c s
      = thenLoop entry (checkEntries bookBase bookQuote lastPrice rest) (fireEntry c s entry) := by
  unfold triggers at h
  rw [checkEntries]
  unfold fireEntry thenLoop
  rcases hp : priceToCheck entry bookBase bookQuote lastPrice with _ | price
  · simp [hp] at h
  simp only [hp] at h ⊢
  rw [if_pos h]
  split_ifs with hex
  · rcases hadd : AddOrder s entry.Order with _ | ⟨s1, _ | e⟩
    · rfl
    · try dsimp only
      rcases checkEntries bookBase bookQuote lastPrice rest _ s1 with _ | ⟨c2, s2, fired⟩ <;> rfl
    · try dsimp only
      rcases checkEntries bookBase bookQuote lastPrice rest _ s1 with _ | ⟨c2, s2, fired⟩ <;> rfl
  · try dsimp only
    rcases checkEntries bookBase bookQuote lastPrice rest c s with _ | ⟨c2, s2, fired⟩ <;> rfl

/-- The periodic scan runs the block `fireEntry` for an entry whose condition
is met, and goes on with the rest. -/
theorem scanEntries_fires (entry : ConditionalOrderEntry) (rest : List ConditionalOrderEntry)
    (c : ConditionalOrderStore) (s : OrderBookStore)
    (hty : entry.ConditionalType = "STOP_LIMIT") (h : checkStopLimitCondition s entry = true) :
    scanEntries (entry :: rest) c s = thenLoop entry (scanEntries rest) (fireEntry c s entry) := by
  rw [scanEntries]
  unfold fireEntry thenLoop
  rw [if_pos hty, if_pos h]
  dsimp only
  split_ifs with hex
  · rcases hadd : AddOrder s entry.Order with _ | ⟨s1, _ | e⟩
    · rfl
    · try dsimp only
      rcases scanEntries rest _ s1 with _ | ⟨c2, s2, fired⟩ <;> rfl
    · try dsimp only
      rcases scanEntries rest _ s1 with _ | ⟨c2, s2, fired⟩ <;> rfl
  · try dsimp only
    rcases scanEntries rest c s with _ | ⟨c2, s2, fired⟩ <;> rfl

/-- C32. Both loops, the edge trigger `CheckPriceTriggersForBook` and the
periodic scan `checkAndTriggerConditionalOrders`, run the block `fireEntry` for
an entry whose condition is met and go on with the next entry. If the key of
the entry is no longer in the map, the block changes nothing and `AddOrder` is
not called. If the map holds the entry under its key (the amounts of its order
not both zero, as for every stored entry), the entry is deleted and `AddOrder`
is called once, and either `AddOrder` returns no error, the order rests in a
price level of its book, and the map has no binding for the key and its other
bindings as before; or `AddOrder` returns an error, no book and no price level
has changed, and the map reads at every key what it read before. After an
insertion the block does nothing for that entry, whatever the books have
become, so an entry is inserted into a book at most once. -/
theorem fireEntry_outcomes :
    (∀ (bookBase bookQuote : String) (lastPrice : Int) (entry : ConditionalOrderEntry)
        (rest : List ConditionalOrderEntry) (c : ConditionalOrderStore) (s : OrderBookStore),
      triggers bookBase bookQuote lastPrice entry = true →
      checkEntries bookBase bookQuote lastPrice (entry :: rest) c s
        = thenLoop entry (checkEntries bookBase bookQuote lastPrice rest) (fireEntry c s entry)) ∧
    (∀ (entry : ConditionalOrderEntry) (rest : List ConditionalOrderEntry)
        (c : ConditionalOrderStore) (s : OrderBookStore),
      entry.ConditionalType = "STOP_LIMIT" → checkStopLimitCondition s entry = true →
      scanEntries (entry :: rest) c s
        = thenLoop entry (scanEntries rest) (fireEntry c s entry)) ∧
    (∀ (c : ConditionalOrderStore) (s : OrderBookStore) (entry : ConditionalOrderEntry),
      c.get (getConditionalOrderKey (s.orderAt entry.Order).CreatedBy
        (s.orderAt entry.Order).Nonce) = none →
      fireEntry c s entry = some (c, s, false)) ∧
    (∀ (c : ConditionalOrderStore) (s : OrderBookStore) (entry : ConditionalOrderEntry),
      c.get (getConditionalOrderKey (s.orderAt entry.Order).CreatedBy
        (s.orderAt entry.Order).Nonce) = some entry →
      (s.orderAt entry.Order).AmtIn ≠ 0 ∨ (s.orderAt entry.Order).AmtOut ≠ 0 →
      (∃ s1, AddOrder s entry.Order = some (s1, none) ∧
        fireEntry c s entry
          = some (c.delete (getConditionalOrderKey (s.orderAt entry.Order).CreatedBy
              (s.orderAt entry.Order).Nonce), s1, true) ∧
        (c.delete (getConditionalOrderKey (s.orderAt entry.Order).CreatedBy
          (s.orderAt entry.Order).Nonce)).get
            (getConditionalOrderKey (s.orderAt entry.Order).CreatedBy
              (s.orderAt entry.Order).Nonce) = none ∧
        (∀ k, k ≠ getConditionalOrderKey (s.orderAt entry.Order).CreatedBy
            (s.orderAt entry.Order).Nonce →
          (c.delete (getConditionalOrderKey (s.orderAt entry.Order).CreatedBy
            (s.orderAt entry.Order).Nonce)).get k = c.get k) ∧
        (∃ bp key lp,
          s.lookupBook
              ((GetPairKey (s.orderAt entry.Order).SymbolIn (s.orderAt entry.Order).SymbolOut).1
                ++ "/" ++
               (GetPairKey (s.orderAt entry.Order).SymbolIn (s.orderAt entry.Order).SymbolOut).2)
            = some bp ∧
          ((s1.bookAt bp).Asks.Get key = some lp ∨ (s1.bookAt bp).Bids.Get key = some lp) ∧
          ({ id := s.nextElem, Value := entry.Order } : Element) ∈ (s1.levelAt lp).Orders) ∧
        ∀ s2 : OrderBookStore,
          (s2.orderAt entry.Order).CreatedBy = (s.orderAt entry.Order).CreatedBy →
          (s2.orderAt entry.Order).Nonce = (s.orderAt entry.Order).Nonce →
          fireEntry (c.delete (getConditionalOrderKey (s.orderAt entry.Order).CreatedBy
              (s.orderAt entry.Order).Nonce)) s2 entry
            = some (c.delete (getConditionalOrderKey (s.orderAt entry.Order).CreatedBy
                (s.orderAt entry.Order).Nonce), s2, false)) ∨
      (∃ s1 e, AddOrder s entry.Order = some (s1, some e) ∧
        fireEntry c s entry
          = some ((c.delete (getConditionalOrderKey (s.orderAt entry.Order).CreatedBy
              (s.orderAt entry.Order).Nonce)).assign
                (getConditionalOrderKey (s.orderAt entry.Order).CreatedBy
                  (s.orderAt entry.Order).Nonce) entry, s1, true) ∧
        s1.bookAt = s.bookAt ∧ s1.levelAt = s.levelAt ∧ s1.Books = s.Books ∧
        ∀ k, ((c.delete (getConditionalOrderKey (s.orderAt entry.Order).CreatedBy
              (s.orderAt entry.Order).Nonce)).assign
                (getConditionalOrderKey (s.orderAt entry.Order).CreatedBy
                  (s.orderAt entry.Order).Nonce) entry).get k = c.get k)) := by
  refine ⟨checkEntries_fires, scanEntries_fires, ?_, ?_⟩
  · intro c s entry hget
    unfold fireEntry
    dsimp only
    rw [exists_iff_get, hget]
    rfl
  · intro c s entry hget hamt
    have hex : c.exists (getConditionalOrderKey (s.orderAt entry.Order).CreatedBy
        (s.orderAt entry.Order).Nonce) = true := by
      rw [exists_iff_get, hget]; rfl
    rcases hadd : AddOrder s entry.Order with _ | ⟨s1, _ | e⟩
    · exact absurd hadd (AddOrder_ne_none s entry.Order hamt)
    · refine Or.inl ⟨s1, rfl, ?_, ?_, ?_, AddOrder_rests hadd, ?_⟩
      · unfold fireEntry
        dsimp only
        rw [if_pos hex, hadd]
      · rw [get_delete, if_pos rfl]
      · intro k hk
        rw [get_delete, if_neg hk]
      · intro s2 h1 h2
        unfold fireEntry
        dsimp only
        rw [h1, h2, exists_iff_get, get_delete, if_pos rfl]
        rfl
    · refine Or.inr ⟨s1, e, rfl, ?_, (AddOrder_failed hadd).1, (AddOrder_failed hadd).2.1,
        (AddOrder_failed hadd).2.2.1, get_requeued c _ entry hget⟩
      unfold fireEntry
      dsimp only
      rw [if_pos hex, hadd]

set_option maxRecDepth 100000 in
/-- Witness for C32: the entry `stopLimitEntry` of `stopLimitIndex`, whose
order `A -> B {50, 90}` is inserted into the book `(A, B)` of `stopLimitStore`
and leaves the map empty; with the empty map the block changes nothing. -/
theorem fireEntry_outcomes_witness :
    stopLimitIndex.get (getConditionalOrderKey (stopLimitStore.orderAt 0).CreatedBy
      (stopLimitStore.orderAt 0).Nonce) = some stopLimitEntry ∧
    ((fireEntry stopLimitIndex stopLimitStore stopLimitEntry).map
        (fun r => (r.1, r.2.2, (r.2.1.bookAt 0).Asks, r.2.1.levelAt 0))
      = some ({ conditionalOrders := [] }, true, [(1800000000000000000, 0)],
          { Orders := [{ id := 0, Value := 0 }], TotalQuantity := 50 })) ∧
    ((∃ s1, AddOrder stopLimitStore stopLimitEntry.Order = some (s1, none) ∧
        fireEntry stopLimitIndex stopLimitStore stopLimitEntry
          = some (stopLimitIndex.delete (5, 7), s1, true)) ∨
      (∃ s1 e, AddOrder stopLimitStore stopLimitEntry.Order = some (s1, some e) ∧
        fireEntry stopLimitIndex stopLimitStore stopLimitEntry
          = some ((stopLimitIndex.delete (5, 7)).assign (5, 7) stopLimitEntry, s1, true))) ∧
    fireEntry { conditionalOrders := [] } stopLimitStore stopLimitEntry
      = some ({ conditionalOrders := [] }, stopLimitStore, false) :=
  ⟨by decide, by decide,
   (fireEntry_outcomes.2.2.2 stopLimitIndex stopLimitStore stopLimitEntry (by decide)
      (by decide)).imp
     (fun ⟨s1, h1, h2, _⟩ => ⟨s1, h1, h2⟩)
     (fun ⟨s1, e, h1, h2, _⟩ => ⟨s1, e, h1, h2⟩),
   fireEntry_outcomes.2.2.1 { conditionalOrders := [] } stopLimitStore stopLimitEntry
     (by decide)⟩

end Dex
